import Mathlib

/-!
# Derivative recognizer for parsing expression grammars

A shallow embedding of the derivative engine of `derivs.hpp` (expression
nodes, their match and backtrack sets, the smart constructors and the
per-character derivative) and of the recognizer loop `dlf::match` of
`visitors/interpreter.hpp`, followed by the properties proved about them.

Conventions of the embedding.

* A C++ `char` is modelled by its integer value (`Chr`); comparisons of two
  chars are comparisons of these integers, as after integral promotion.
* Generations (`utils::uint_set::value_type`) are natural numbers.
* A failed `assert`, a `std::out_of_range` and a call outside the domain of a
  set operation are all the failure of the surrounding computation: the
  functions return in a monad with `failure` (`Option` in the rule-free
  theorems).
* The memoization fields of `memo_expr` (`memo_match`, `memo_back`, and the
  table entries of NOT, MAP, ALT and SEQ nodes, which are keyed by object
  address) cache values that the node would recompute unchanged within one
  derivative step; they are not represented.  What a `rule_expr` node answers
  does depend on the table, and is supplied through `rule_ops`.
-/

namespace derivs

/-- The integer value of a C++ `char`. -/
abbrev Chr := Int

/-- Modelled from the spec: `utils/uint_set.hpp` is not among the sources.  A
`uint_set` is "a sorted set of generations with O(1) min/max and bitwise
union" that can be iterated in ascending order and applied as a renaming;
it is represented by the ascending list of its members.  So that
`gm + 1 == eg.count()` is the identity test of `map_expr::make`, the renaming
`eg(i)` is the member of rank `i`. -/
abbrev uint_set := List Nat

namespace uint_set

/-- Modelled from the spec: `empty()`. -/
def empty (s : uint_set) : Bool := s.isEmpty

/-- Modelled from the spec: `count()`, the number of members. -/
def count (s : uint_set) : Nat := s.length

/-- Modelled from the spec: `min()`, the least member; not defined on the
empty set. -/
def min (s : uint_set) : Option Nat := s.head?

/-- Modelled from the spec: `max()`, the greatest member; not defined on the
empty set. -/
def max (s : uint_set) : Option Nat := s.getLast?

/-- Modelled from the spec: `insert(k)`, written `s |= k` in the sources. -/
def ins (k : Nat) : uint_set → uint_set
  | [] => [k]
  | y :: ys => if k < y then k :: y :: ys else if k = y then y :: ys else y :: ins k ys

/-- Modelled from the spec: union, written `s | t` in the sources. -/
def union (s t : uint_set) : uint_set := t.foldl (fun acc k => ins k acc) s

/-- Modelled from the spec: lookup `m(k)` of a set used as a generation map:
the member of rank `k`; not defined when `k` is not below `count()`. -/
def app (eg : uint_set) (k : Nat) : Option Nat := eg.get? k

/-- Modelled from the spec: image of a set `m(S)` through a generation map;
not defined when some member of `S` is not a key of `m`. -/
def image (eg : uint_set) (s : uint_set) : Option uint_set :=
  s.foldr (fun k acc => (app eg k).bind (fun v => acc.map (fun r => ins v r))) (some [])

end uint_set

/-- The constant `expr::empty_set`. -/
def empty_set : uint_set := []
/-- The constant `expr::zero_set`. -/
def zero_set : uint_set := [0]
/-- The constant `expr::one_set`. -/
def one_set : uint_set := [1]
/-- The constant `expr::zero_one_set`. -/
def zero_one_set : uint_set := [0, 1]

/-- The enumeration `expr_type`. -/
inductive expr_type where
  | fail_type | inf_type | eps_type | look_type | char_type | range_type | any_type
  | str_type | rule_type | not_type | map_type | alt_type | seq_type
  deriving DecidableEq, Repr

mutual
/-- Expression nodes of `derivs.hpp`; a `rule_expr` node is named by the index
of its rule, and the fields of the composite nodes are those of the classes. -/
inductive expr where
  | fail_expr : expr
  | inf_expr : expr
  | eps_expr : expr
  | look_expr (b : Nat) : expr
  | char_expr (c : Chr) : expr
  | range_expr (b e : Chr) : expr
  | any_expr : expr
  | str_expr (s : List Chr) : expr
  | rule_expr (r : Nat) : expr
  | not_expr (e : expr) : expr
  | map_expr (e : expr) (gm : Nat) (eg : uint_set) : expr
  | alt_expr (a b : expr) (ag bg : uint_set) : expr
  | seq_expr (a b : expr) (bs : look_list) (c : expr) (cg : uint_set) (gm : Nat) : expr
/-- The list `seq_expr::look_list` of `look_node` entries `(g, eg, e, m, gl)`. -/
inductive look_list where
  | nil : look_list
  | cons (g : Nat) (eg : uint_set) (e : expr) (m : Bool) (gl : Nat) (tl : look_list) : look_list
end

open expr

/-- The virtual function `type()`. -/
def expr.type : expr → expr_type
  | fail_expr => .fail_type
  | inf_expr => .inf_type
  | eps_expr => .eps_type
  | look_expr _ => .look_type
  | char_expr _ => .char_type
  | range_expr _ _ => .range_type
  | any_expr => .any_type
  | str_expr _ => .str_type
  | rule_expr _ => .rule_type
  | not_expr _ => .not_type
  | map_expr _ _ _ => .map_type
  | alt_expr _ _ _ _ => .alt_type
  | seq_expr _ _ _ _ _ _ => .seq_type

/-- What the `rule_expr` nodes answer: `memo_expr::d`, `memo_expr::match` and
`memo_expr::back` on the node of rule `r`, which depend on the memoization
table and on the flags stored in the node. -/
structure rule_ops (m : Type → Type) where
  d : Nat → Chr → m expr
  match_ : Nat → m uint_set
  back : Nat → m uint_set

section core

variable {m : Type → Type} [Monad m] [Alternative m]

/-- The value of a set operation that is not defined everywhere. -/
def get_or_fail {α : Type} : Option α → m α
  | some a => pure a
  | none => failure

/-- An `assert(cond)`: aborts when the condition is false. -/
def assert_ (cond : Bool) : m Unit := if cond then pure () else failure

/-- The body of `seq_expr::bg()` given `bb = b->back()`: the backtrack map for
the follower `b` of a sequence whose maximum generation is `gm`. -/
def seq_bg (bb : uint_set) (gm : Nat) : m uint_set := do
  assert_ (!bb.empty)
  let bmax ← get_or_fail bb.max
  if bmax > 0 then
    assert_ (bmax == 1)
    pure (uint_set.ins gm zero_set)
  else
    pure zero_set

/-- The statement `x |= bi.gl` guarded by `bi.gl > 0`. -/
def add_gl (gl : Nat) (x : uint_set) : uint_set := if gl > 0 then uint_set.ins gl x else x

variable (R : rule_ops m)

mutual
/-- The virtual function `match()`: `match_set()` for the composite nodes.
For a SEQ node the iterator over `a->match()` and the accumulator `x`
are handed to `match_bs`, which runs the two loops over the follower list. -/
@[nospecialize] def match_ : expr → m uint_set
  | fail_expr => pure empty_set
  | inf_expr => pure empty_set
  | eps_expr => pure zero_set
  | look_expr b => pure [b]
  | char_expr _ => pure empty_set
  | range_expr _ _ => pure empty_set
  | any_expr => pure empty_set
  | str_expr _ => pure empty_set
  | rule_expr r => R.match_ r
  | not_expr _ => pure empty_set
  | map_expr e _ eg => do
      let em ← match_ e
      get_or_fail (uint_set.image eg em)
  | alt_expr a b ag bg => do
      let am ← match_ a
      let x ← get_or_fail (uint_set.image ag am)
      let bm ← match_ b
      let y ← get_or_fail (uint_set.image bg bm)
      pure (uint_set.union x y)
  | seq_expr a b bs c cg gm => do
      -- include failure backtrack matches
      let cm ← match_ c
      let x ← get_or_fail (uint_set.image cg cm)
      let am ← match_ a
      -- include follower matches if first matches
      match am with
      | 0 :: at' => do
          let bb ← back b
          let g ← seq_bg bb gm
          let bm ← match_ b
          let y ← get_or_fail (uint_set.image g bm)
          match_bs bs at' (uint_set.union x y)
      | _ => match_bs bs am x
/-- The two loops of `seq_expr::match_set` over the follower list `bit`, with
the iterator `ats` over the match set of the first element.  The first loop
runs while both are non-empty; once `ats` is exhausted the second loop takes
the remaining entries.  An entry that does not match and whose generation is
above the current one advances the iterator alone, which is the `dropWhile`. -/
@[nospecialize] def match_bs : look_list → List Nat → uint_set → m uint_set
  | look_list.nil, _, x => pure x
  | look_list.cons g eg e mb gl tl, ats, x =>
      if mb then do
        -- add follower matches to the match set
        let em ← match_ e
        let y ← get_or_fail (uint_set.image eg em)
        let x1 := add_gl gl (uint_set.union x y)
        match ats with
        | [] => match_bs tl [] x1
        | ai :: at' =>
            if g = ai then match_bs tl at' x1
            else do
              assert_ (decide (g < ai))
              match_bs tl ats x1
      else
        match ats.dropWhile (fun ai => decide (ai < g)) with
        | [] => match_bs tl [] x
        | ai :: at' =>
            if g < ai then match_bs tl (ai :: at') x
            else do
              let em ← match_ e
              let y ← get_or_fail (uint_set.image eg em)
              match_bs tl at' (add_gl gl (uint_set.union x y))
/-- The virtual function `back()`: `back_set()` for the composite nodes. -/
@[nospecialize] def back : expr → m uint_set
  | fail_expr => pure zero_set
  | inf_expr => pure zero_set
  | eps_expr => pure zero_set
  | look_expr b => pure [b]
  | char_expr _ => pure zero_set
  | range_expr _ _ => pure zero_set
  | any_expr => pure zero_set
  | str_expr _ => pure zero_set
  | rule_expr r => R.back r
  | not_expr _ => pure one_set
  | map_expr e _ eg => do
      let eb ← back e
      get_or_fail (uint_set.image eg eb)
  | alt_expr a b ag bg => do
      let ab ← back a
      let x ← get_or_fail (uint_set.image ag ab)
      let bb ← back b
      let y ← get_or_fail (uint_set.image bg bb)
      pure (uint_set.union x y)
  | seq_expr a b bs c cg gm => do
      -- include failure backtrack
      let cb ← back c
      let x ← get_or_fail (uint_set.image cg cb)
      -- include follower if first matches
      let am ← match_ a
      match am with
      | 0 :: _ => do
          let bb ← back b
          let g ← seq_bg bb gm
          let y ← get_or_fail (uint_set.image g bb)
          back_bs bs (uint_set.union x y)
      | _ => back_bs bs x
/-- The loop of `seq_expr::back_set` over the follower list. -/
@[nospecialize] def back_bs : look_list → uint_set → m uint_set
  | look_list.nil, x => pure x
  | look_list.cons _ eg e _ gl tl, x => do
      let eb ← back e
      let y ← get_or_fail (uint_set.image eg eb)
      back_bs tl (add_gl gl (uint_set.union x y))
end

/-- The function `look_expr::make`. -/
def look_expr_make (g : Nat) : expr := if g = 0 then eps_expr else look_expr g

/-- The function `str_expr::make`. -/
def str_expr_make (s : List Chr) : expr :=
  match s with
  | [] => eps_expr
  | [c] => char_expr c
  | _ => str_expr s

/-- The function `expr::default_back_map`. -/
def default_back_map (e : expr) : m uint_set := do
  let eb ← back R e
  assert_ (!eb.empty)
  let emax ← get_or_fail eb.max
  if emax > 0 then
    assert_ (emax == 1)
    pure zero_one_set
  else
    pure zero_set

/-- The function `expr::update_back_map` (the overload with `did_inc`): the
returned pair is the backtrack map for `de` and the new value of `did_inc`. -/
def update_back_map (e de : expr) (eg : uint_set) (gm : Nat) (did_inc : Bool) :
    m (uint_set × Bool) := do
  let eb ← back R e
  let deb ← back R de
  assert_ (!eb.empty && !deb.empty)
  let emax ← get_or_fail eb.max
  let demax ← get_or_fail deb.max
  if demax > emax then
    assert_ (demax == emax + 1)
    pure (uint_set.ins (gm + 1) eg, true)
  else
    pure (eg, did_inc)

/-- The function `not_expr::make`. -/
def not_expr_make (e : expr) : m expr :=
  match e with
  | fail_expr => pure (look_expr_make 1)
  | inf_expr => pure e
  | _ => do
      let em ← match_ R e
      if !em.empty then pure fail_expr else pure (not_expr e)

/-- The function `map_expr::make`. -/
def map_expr_make (e : expr) (gm : Nat) (eg : uint_set) : m expr := do
  let eb ← back R e
  let emax ← get_or_fail eb.max
  assert_ (decide (emax < eg.count))
  match e with
  | eps_expr => do
      let g ← get_or_fail (eg.app 0)
      pure (look_expr_make g)
  | look_expr _ => do
      let em ← match_ R e
      let k ← get_or_fail em.max
      let g ← get_or_fail (eg.app k)
      pure (look_expr_make g)
  | fail_expr => pure e
  | inf_expr => pure e
  | _ => if gm + 1 = eg.count then pure e else pure (map_expr e gm eg)

/-- The two-argument `alt_expr::make`, with the default generation maps. -/
def alt_expr_make (a b : expr) : m expr :=
  match a with
  | fail_expr => pure b
  | inf_expr => pure a
  | _ => do
      let am ← match_ R a
      if b.type = .fail_type || !am.empty then pure a
      else do
        let ag ← default_back_map R a
        let bg ← default_back_map R b
        pure (alt_expr a b ag bg)

/-- The four-argument `alt_expr::make`, with the given generation maps. -/
def alt_expr_make4 (a b : expr) (ag bg : uint_set) : m expr :=
  match a with
  | fail_expr => do
      let agm ← get_or_fail ag.max
      let bgm ← get_or_fail bg.max
      map_expr_make R b (Nat.max agm bgm) bg
  | inf_expr => pure a
  | _ => do
      let am ← match_ R a
      if b.type = .fail_type || !am.empty then do
        let agm ← get_or_fail ag.max
        let bgm ← get_or_fail bg.max
        map_expr_make R a (Nat.max agm bgm) ag
      else pure (alt_expr a b ag bg)

/-- The part of `seq_expr::make` after the two switches: builds the SEQ node
with its follower list. -/
def seq_expr_build (a b : expr) : m expr := do
  -- set up lookahead generations
  let ab ← back R a
  assert_ (!ab.empty)
  let abmin ← get_or_fail ab.min
  let abmax ← get_or_fail ab.max
  -- set up follower if first expression is not lookahead
  let (bn, gm0) ← (if abmin = 0 then do
      let bb ← back R b
      assert_ (!bb.empty)
      let bbmax ← get_or_fail bb.max
      if bbmax > 0 then
        assert_ (bbmax == 1)
        pure (b, 1)
      else pure (b, 0)
    else pure (fail_expr, 0) : m (expr × Nat))
  -- set up lookahead follower if first expression is lookahead
  let am ← match_ R a
  let (bs, gm) ← (if abmax > 0 then do
      assert_ (abmax == 1)
      let mflag := !am.empty && am.max == some 1
      let bm ← match_ R b
      let bg ← default_back_map R b
      if !bm.empty then pure (look_list.cons 1 bg b mflag 1 look_list.nil, 1)
      else pure (look_list.cons 1 bg b mflag 0 look_list.nil, gm0)
    else pure (look_list.nil, gm0) : m (look_list × Nat))
  -- set up match follower and return constructed expression
  pure (seq_expr a bn bs fail_expr zero_set gm)

/-- The function `seq_expr::make`. -/
def seq_expr_make (a b : expr) : m expr :=
  match b with
  | eps_expr => pure a
  | fail_expr => pure b
  | _ =>
    match a with
    | eps_expr => pure b
    | look_expr g => if g = 1 then pure b else pure fail_expr
    | fail_expr => pure a
    | inf_expr => pure a
    | _ => seq_expr_build R a b

/-- The statement `dbs.emplace_back(...)`: appends an entry to a follower
list. -/
def look_list.emplace_back : look_list → Nat → uint_set → expr → Bool → Nat → look_list
  | look_list.nil, g, eg, e, mb, gl => look_list.cons g eg e mb gl look_list.nil
  | look_list.cons g1 eg1 e1 m1 gl1 tl, g, eg, e, mb, gl =>
      look_list.cons g1 eg1 e1 m1 gl1 (look_list.emplace_back tl g eg e mb gl)

/-- The block of `seq_expr::deriv` that both loops apply to the derivative
`dbi` of a follower `e` with map `eg` and last-match generation `gl`: when
`dbi` is not FAIL, its generation map `dbig` and the generation of its last
match `dgl` are returned for the new entry; with them the new `did_inc`. -/
def keep_follower (e dbi : expr) (eg : uint_set) (gm gl : Nat) (did_inc : Bool) :
    m (Option (uint_set × Nat) × Bool) :=
  if dbi.type ≠ .fail_type then do
    -- map new lookahead generations into the space of the backtracking expression
    let (dbig, inc) ← update_back_map R e dbi eg gm did_inc
    -- update generation of last match
    let dbm ← match_ R dbi
    if !dbm.empty then pure (some (dbig, gm + 1), true)
    else pure (some (dbig, gl), inc)
  else pure (none, did_inc)

/-- The block "add new lookahead backtrack" of `seq_expr::deriv`, run after
the loops with what is left of the iterators `dabt` and `damt`. -/
def add_new_follower (b : expr) (gm : Nat) (dbs : look_list)
    (dabt damt : List Nat) (did_inc : Bool) : m (look_list × Bool) :=
  match dabt with
  | [] => pure (dbs, did_inc)
  | dai :: dabt1 => do
      -- check if match bit set
      let dbim ← (match damt with
        | mh :: mt =>
            if dai = mh then do
              assert_ mt.isEmpty
              pure true
            else pure false
        | [] => pure false : m Bool)
      let r ← (if b.type ≠ .fail_type then do
          let bb ← back R b
          let dbig ← seq_bg bb gm
          -- update generation of last match
          let bm ← match_ R b
          if !bm.empty then pure (dbs.emplace_back dai dbig b dbim (gm + 1), true)
          else pure (dbs.emplace_back dai dbig b dbim 0, did_inc)
        else pure (dbs, did_inc) : m (look_list × Bool))
      assert_ dabt1.isEmpty
      pure r

mutual
/-- The derivative `d(x)`: `deriv(x)` for the composite nodes. -/
@[nospecialize] def d : expr → Chr → m expr
  | fail_expr, _ => pure fail_expr
  | inf_expr, _ => pure inf_expr
  | eps_expr, x => if x = 0 then pure eps_expr else pure fail_expr
  | look_expr b, x => if x = 0 then pure (look_expr_make b) else pure fail_expr
  | char_expr c, x => if c = x then pure eps_expr else pure fail_expr
  | range_expr b e, x => if b ≤ x ∧ x ≤ e then pure eps_expr else pure fail_expr
  | any_expr, x => if x = 0 then pure fail_expr else pure eps_expr
  | str_expr s, x =>
      match s with
      | [] => if (0 : Chr) ≠ x then pure fail_expr else failure
      | c :: t =>
          -- check that the first character matches
          if c ≠ x then pure fail_expr
          -- otherwise return a character or string expression, as appropriate
          else match t with
            | [c1] => pure (char_expr c1)
            | _ => pure (str_expr t)
  | rule_expr r, x => R.d r x
  | not_expr e, x => do
      let de ← d e x
      not_expr_make R de
  | map_expr e gm eg, x => do
      let de ← d e x
      match de with
      | eps_expr => do
          let g ← get_or_fail (eg.app 0)
          pure (look_expr_make g)
      | look_expr _ => do
          let dm ← match_ R de
          let k ← get_or_fail dm.max
          let g ← get_or_fail (eg.app k)
          pure (look_expr_make g)
      | fail_expr => pure de
      | inf_expr => pure de
      | _ => do
          let (deg, did_inc) ← update_back_map R e de eg gm false
          pure (map_expr de (gm + did_inc.toNat) deg)
  | alt_expr a b ag bg, x => do
      let agm ← get_or_fail ag.max
      let bgm ← get_or_fail bg.max
      let gm := Nat.max agm bgm
      -- calculate derivative and map in new lookahead generations
      let da ← d a x
      match da with
      | fail_expr => do
          let db ← d b x
          let (dbg, did_inc) ← update_back_map R b db bg gm false
          map_expr_make R db (gm + did_inc.toNat) dbg
      | inf_expr => pure da
      | _ => do
          let (dag, did_inc) ← update_back_map R a da ag gm false
          let dam ← match_ R da
          if !dam.empty then map_expr_make R da (gm + did_inc.toNat) dag
          else do
            -- calculate other derivative and map in new lookahead generations
            let db ← d b x
            if db.type = .fail_type then map_expr_make R da (gm + did_inc.toNat) dag
            else do
              let (dbg, _) ← update_back_map R b db bg gm did_inc
              pure (alt_expr da db dag dbg)
  | seq_expr a b bs c cg gm, x => do
      let da ← d a x
      match da with
      | eps_expr => do
          let bb ← back R b
          let bgv ← seq_bg bb gm
          map_expr_make R b gm bgv
      | look_expr i => d_look bs x gm i
      | inf_expr => pure da
      | _ => do
          -- match backtrack comes from b if a matches, or the previous one otherwise
          let am ← match_ R a
          let (dc, dcg, did_inc) ← (match am with
            | 0 :: _ => do
                -- new match, start new backtrack
                let dc ← d b x
                let bb ← back R b
                let bgv ← seq_bg bb gm
                let (dcg, inc) ← update_back_map R b dc bgv gm false
                pure (dc, dcg, inc)
            | _ => do
                -- no new match, so continue parsing previous match backtrack
                let dc ← d c x
                let (dcg, inc) ← update_back_map R c dc cg gm false
                pure (dc, dcg, inc) : m (expr × uint_set × Bool))
          -- break out here if d(a) failed and use the calculated failure successor
          if da.type = .fail_type then map_expr_make R dc (gm + did_inc.toNat) dcg
          else do
            -- build derivatives of lookahead backtracks
            let dab ← back R da
            let dam ← match_ R da
            -- skip backtrack gen zero
            assert_ (!dab.empty)
            let dabt := (match dab with
              | 0 :: t => t
              | _ => dab)
            let (dbs, dabt1, damt1, inc1) ← d_bs bs x gm dabt dam did_inc
            -- add new lookahead backtrack
            let (dbs2, inc2) ← add_new_follower R b gm dbs dabt1 damt1 inc1
            pure (seq_expr da b dbs2 dc dcg (gm + inc2.toNat))
/-- The loop of the `look_type` case of `seq_expr::deriv`: finds the follower
of generation `i` in the sorted list and returns its mapped derivative. -/
@[nospecialize] def d_look : look_list → Chr → Nat → Nat → m expr
  | look_list.nil, _, _, _ => pure fail_expr
  | look_list.cons g eg e _ _ tl, x, gm, i =>
      if g < i then d_look tl x gm i
      else if g > i then pure fail_expr
      else do
        -- found the proper lookahead follower; return derivative
        let dbi ← d e x
        if dbi.type = .fail_type then pure dbi
        else do
          let (dbig, did_inc) ← update_back_map R e dbi eg gm false
          map_expr_make R dbi (gm + did_inc.toNat) dbig
/-- The two loops of `seq_expr::deriv` over the follower list `bit`, with the
iterators `dabt` (over the backtrack set of `da`, generation zero skipped) and
`damt` (over its match set).  The first loop runs while both `bit` and `dabt`
are non-empty; the second takes the remaining entries, which is the case of an
exhausted `dabt` here.  Returns the derived entries in order, what is left of
both iterators, and `did_inc`. -/
@[nospecialize] def d_bs : look_list → Chr → Nat → List Nat → List Nat → Bool →
    m (look_list × List Nat × List Nat × Bool)
  | look_list.nil, _, _, dabt, damt, did_inc => pure (look_list.nil, dabt, damt, did_inc)
  | look_list.cons g eg e mb gl tl, x, gm, dabt, damt, did_inc =>
      match dabt with
      | [] =>
          -- add in any remaining previous matches; skip non-matching generations
          if !mb then d_bs tl x gm [] damt did_inc
          else do
            let dbi ← d e x
            let (keep, inc) ← keep_follower R e dbi eg gm gl did_inc
            let (rest, dabt1, damt1, inc1) ← d_bs tl x gm [] damt inc
            match keep with
            | some (dbig, dgl) => pure (look_list.cons g dbig dbi true dgl rest, dabt1, damt1, inc1)
            | none => pure (rest, dabt1, damt1, inc1)
      | dh :: dt =>
          -- skip non-matching lookahead generations that are not in the backtrack set
          if !mb && decide (g < dh) then d_bs tl x gm dabt damt did_inc
          else do
            -- take derivative
            let dbi ← d e x
            -- check if match bit gets set
            let (dbim, damt0) := (match damt with
              | mh :: mt => if g = mh then (true, mt) else (mb, damt)
              | [] => (mb, []))
            -- keep the derivative so long as it does not fail
            let (keep, inc) ← keep_follower R e dbi eg gm gl did_inc
            -- increment counters
            let dabt0 ← (if g = dh then pure dt else do
                assert_ (mb && decide (g < dh))
                pure dabt : m (List Nat))
            let (rest, dabt1, damt1, inc1) ← d_bs tl x gm dabt0 damt0 inc
            match keep with
            | some (dbig, dgl) => pure (look_list.cons g dbig dbi dbim dgl rest, dabt1, damt1, inc1)
            | none => pure (rest, dabt1, damt1, inc1)
end

/-- Modelled from the spec: the loop that drives `derivs.hpp` is not among
the sources.  "Pulls characters, calls derivative": the expression left after
the derivatives by the bytes of `s`, in order. -/
def feed : expr → List Chr → m expr
  | e, [] => pure e
  | e, x :: xs => do
      let e1 ← d R e x
      feed e1 xs

/-- Modelled from the spec: the loop that drives `derivs.hpp` is not among
the sources.  The bytes of `s` are fed through `d`, then the end-of-input
sentinel 0; the answer is "matched" when "the match-generation set contains 0
at end-of-input". -/
def recognize (e : expr) (s : List Chr) : m Bool := do
  let e1 ← feed R e s
  let e2 ← d R e1 0
  let ms ← match_ R e2
  pure (decide (0 ∈ ms))

end core

/-- The answers of rule nodes in a grammar without rules: there is no such
node to ask, and every request fails. -/
def no_rules : rule_ops Option :=
  { d := fun _ _ => none, match_ := fun _ => none, back := fun _ => none }

/-! ### Simplified nodes -/

mutual
/-- The nodes that no smart constructor would simplify, in every position of
the expression: the operand of a NOT node is not FAIL, not INF and has an
empty match set (the tests of `not_expr::make`); the first branch of an ALT
node is not FAIL, not INF and has an empty match set, and its second branch
is not FAIL (the tests of `alt_expr::make`); the first element of a SEQ node
is not EPS, LOOK, FAIL or INF (the second switch of `seq_expr::make`). -/
def simplified (R : rule_ops Option) : expr → Bool
  | not_expr e =>
      decide (e.type ≠ .fail_type) && decide (e.type ≠ .inf_type) &&
      decide (match_ R e = some []) && simplified R e
  | map_expr e _ _ => simplified R e
  | alt_expr a b _ _ =>
      decide (a.type ≠ .fail_type) && decide (a.type ≠ .inf_type) &&
      decide (match_ R a = some []) && decide (b.type ≠ .fail_type) &&
      simplified R a && simplified R b
  | seq_expr a b bs c _ _ =>
      decide (a.type ≠ .eps_type) && decide (a.type ≠ .look_type) &&
      decide (a.type ≠ .fail_type) && decide (a.type ≠ .inf_type) &&
      simplified R a && simplified R b && simplified_bs R bs && simplified R c
  | _ => true
/-- The followers of a list are simplified nodes. -/
def simplified_bs (R : rule_ops Option) : look_list → Bool
  | look_list.nil => true
  | look_list.cons _ _ e _ _ tl => simplified R e && simplified_bs R tl
end

/-! ### Reference semantics of parsing expressions -/

/-- Modelled from the spec: the rule-free parsing expressions "built from the
terminals with the NOT, ALT and SEQ smart constructors", before any
simplification. -/
inductive peg where
  | fail : peg
  | eps : peg
  | chr (c : Chr) : peg
  | range (b e : Chr) : peg
  | any : peg
  | str (s : List Chr) : peg
  | not (e : peg) : peg
  | alt (a b : peg) : peg
  | seq (a b : peg) : peg

/-- Modelled from the spec: the literal `s` at the head of the input. -/
def strip_literal : List Chr → List Chr → Option (List Chr)
  | [], t => some t
  | _ :: _, [] => none
  | c :: s, x :: t => if c = x then strip_literal s t else none

/-- Modelled from the spec: reference PEG semantics.  The result is the input
left after a match, `none` when the expression does not match: ordered choice
takes its second branch only when the first does not match, negative lookahead
consumes nothing, and a sequence does not return into a choice already made. -/
def peg.run : peg → List Chr → Option (List Chr)
  | .fail, _ => none
  | .eps, t => some t
  | .chr c, t =>
      match t with
      | x :: r => if x = c then some r else none
      | [] => none
  | .range b e, t =>
      match t with
      | x :: r => if b ≤ x ∧ x ≤ e then some r else none
      | [] => none
  | .any, t =>
      match t with
      | _ :: r => some r
      | [] => none
  | .str s, t => strip_literal s t
  | .not e, t =>
      match peg.run e t with
      | some _ => none
      | none => some t
  | .alt a b, t =>
      match peg.run a t with
      | some r => some r
      | none => peg.run b t
  | .seq a b, t =>
      match peg.run a t with
      | some r => peg.run b r
      | none => none

/-- Modelled from the spec: "E as a parsing expression matches s consuming all
of it". -/
def peg.accepts (p : peg) (s : List Chr) : Bool := p.run s == some []

/-- The expression node that the smart constructors of `derivs.hpp` build for
a parsing expression. -/
def build {m : Type → Type} [Monad m] [Alternative m] (R : rule_ops m) : peg → m expr
  | .fail => pure fail_expr
  | .eps => pure eps_expr
  | .chr c => pure (char_expr c)
  | .range b e => pure (range_expr b e)
  | .any => pure any_expr
  | .str s => pure (str_expr_make s)
  | .not e => do
      let x ← build R e
      not_expr_make R x
  | .alt a b => do
      let x ← build R a
      let y ← build R b
      alt_expr_make R x y
  | .seq a b => do
      let x ← build R a
      let y ← build R b
      seq_expr_make R x y

/-- The parsing expression `(("ab" / ε) "a") / "ab"`. -/
def choice_after_tentative_match : peg :=
  .alt (.seq (.alt (.str [97, 98]) .eps) (.chr 97)) (.str [97, 98])

/-- The expressions "built from the terminals FAIL, INF, EPS, LOOK(1), CHAR,
RANGE, ANY and STR using only `not_expr::make`, the two-argument
`alt_expr::make` and `seq_expr::make`", no derivative taken: the tree of the
calls of the constructors. -/
inductive static_expr where
  | fail : static_expr
  | inf : static_expr
  | eps : static_expr
  | look_one : static_expr
  | chr (c : Chr) : static_expr
  | range (b e : Chr) : static_expr
  | any : static_expr
  | str (s : List Chr) : static_expr
  | not (e : static_expr) : static_expr
  | alt (a b : static_expr) : static_expr
  | seq (a b : static_expr) : static_expr

/-- The expression node that the calls of the constructors of `derivs.hpp`
named by a `static_expr` return. -/
def construct {m : Type → Type} [Monad m] [Alternative m] (R : rule_ops m) :
    static_expr → m expr
  | .fail => pure fail_expr
  | .inf => pure inf_expr
  | .eps => pure eps_expr
  | .look_one => pure (look_expr_make 1)
  | .chr c => pure (char_expr c)
  | .range b e => pure (range_expr b e)
  | .any => pure any_expr
  | .str s => pure (str_expr_make s)
  | .not e => do
      let x ← construct R e
      not_expr_make R x
  | .alt a b => do
      let x ← construct R a
      let y ← construct R b
      alt_expr_make R x y
  | .seq a b => do
      let x ← construct R a
      let y ← construct R b
      seq_expr_make R x y

/-- The pairs (`back()`, `match()`) of generation sets with generations 0 and
1 only: a non-empty backtrack set and a match set inside it. -/
def static_pairs : List (Option uint_set × Option uint_set) :=
  [(some [0], some []), (some [0], some [0]), (some [1], some []), (some [1], some [1]),
   (some [0, 1], some []), (some [0, 1], some [0]), (some [0, 1], some [1]),
   (some [0, 1], some [0, 1])]

/-! ### Rule nodes and the memoization table -/

/-- The mutable state that the `rule_expr` nodes reach: the body `r` of each
rule node (`none` for a null pointer), the entries of the memoization table
`memo` whose key is a rule node, and the stored match and backtrack sets of
the rule nodes (an entry is present when the flag `flags.match`, respectively
`flags.back`, is set). -/
structure rule_state where
  r : Nat → Option expr
  memo : List (Nat × expr)
  memo_match : List (Nat × uint_set)
  memo_back : List (Nat × uint_set)

/-- Computations over the state of the rule nodes; they may fail. -/
abbrev rule_m := StateT rule_state Option

/-- The statement `memo[this] = v`: inserts or overwrites. -/
def memo_assign {α : Type} (k : Nat) (v : α) (t : List (Nat × α)) : List (Nat × α) :=
  (k, v) :: t.filter (fun p => p.1 != k)

/-- The call `memo.insert(ix, std::make_pair(this, v))`: `std::unordered_map::insert`
leaves the table unchanged when the key is already present. -/
def memo_insert {α : Type} (k : Nat) (v : α) (t : List (Nat × α)) : List (Nat × α) :=
  match t.lookup k with
  | some _ => t
  | none => (k, v) :: t

/-- The functions `memo_expr::d`, `memo_expr::match` and `memo_expr::back` on
rule nodes, with `rule_expr::deriv`, `rule_expr::match_set` and
`rule_expr::back_set` inlined.  The rule bodies are entered with one unit of
fuel less; without fuel the computation fails. -/
def rule_ops_fuel : Nat → rule_ops rule_m
  | 0 => { d := fun _ _ => failure, match_ := fun _ => failure, back := fun _ => failure }
  | n + 1 =>
    { d := fun r x => do
        let st ← get
        match st.memo.lookup r with
        | some dx => pure dx
        | none => do
            -- signal infinite loop if we try to take this derivative again
            set { st with memo := memo_assign r inf_expr st.memo }
            -- calculate derivative
            let body ← get_or_fail (st.r r)
            let dx ← d (rule_ops_fuel n) body x
            modify (fun st1 => { st1 with memo := memo_insert r dx st1.memo })
            pure dx
      match_ := fun r => do
        let st ← get
        match st.memo_match.lookup r with
        | some v => pure v
        | none => do
            -- stop this from infinitely recursing
            set { st with memo_match := memo_assign r empty_set st.memo_match }
            -- calculate match set
            let body ← get_or_fail (st.r r)
            let v ← match_ (rule_ops_fuel n) body
            modify (fun st1 => { st1 with memo_match := memo_assign r v st1.memo_match })
            pure v
      back := fun r => do
        let st ← get
        match st.memo_back.lookup r with
        | some v => pure v
        | none => do
            -- stop this from infinitely recursing
            set { st with memo_back := memo_assign r zero_set st.memo_back }
            -- calculate backtrack set
            let body ← get_or_fail (st.r r)
            let v ← back (rule_ops_fuel n) body
            modify (fun st1 => { st1 with memo_back := memo_assign r v st1.memo_back })
            pure v }

/-- The grammar `R := R | "a"`: the single rule node 0, whose body is the
ALT node of a reference to the rule itself and the literal `a`, with the
default generation maps; the memoization table is empty and no match or
backtrack set is stored. -/
def left_rec_grammar : rule_state :=
  { r := fun k => if k = 0 then some (alt_expr (rule_expr 0) (char_expr 97) zero_set zero_set)
                  else none
    memo := []
    memo_match := []
    memo_back := [] }

/-- The grammar `R := "a"`: the single rule node 0, whose body is the
character `a`; the memoization table is empty and no match or backtrack set
is stored. -/
def char_rule_grammar : rule_state :=
  { r := fun k => if k = 0 then some (char_expr 97) else none
    memo := []
    memo_match := []
    memo_back := [] }

end derivs

/-! ### The recognizer loop of `visitors/interpreter.hpp` -/

namespace dlf

open derivs (Chr)

/-- The parts of `dlf.hpp` that `dlf::match` calls and whose implementation is
not among the sources, over a type `nt` of nonterminals and a type `σ` for the
head arc `e` together with its state manager `mgr`:
`nonterminal::nullable`, `matchable`, `arc::d` (which returns true for an
unrestricted match and updates the arc and the manager) and the flag
`mgr.match_reachable`. -/
structure engine (nt σ : Type) where
  nullable : nt → Bool
  matchable : nt → σ
  arc_d : σ → Chr → Bool × σ
  match_reachable : σ → Bool

/-- What a call of `dlf::match` leaves behind: the returned value, the part of
the input stream that has not been read, and the number of calls of `e.d(x)`. -/
structure outcome where
  result : Bool
  rest : List Chr
  steps : Nat
  deriving DecidableEq, Repr

/-- The `do ... while ( mgr.match_reachable && x != 0 )` loop of `dlf::match`
and the `return false` after it.  `in.get(x)` takes the next byte of the
stream, and `x` is 0 when there is none; `steps` counts the derivatives taken
so far. -/
def match_loop {nt σ : Type} (E : engine nt σ) : σ → List Chr → Nat → outcome
  | e, [], steps =>
      -- end of stream: x = 0, so the loop ends after this derivative
      let (m, _) := E.arc_d e 0
      { result := m, rest := [], steps := steps + 1 }
  | e, x :: rest, steps =>
      let (m, e1) := E.arc_d e x
      if m then { result := true, rest := rest, steps := steps + 1 }
      else if E.match_reachable e1 && x != 0 then match_loop E e1 rest (steps + 1)
      else { result := false, rest := rest, steps := steps + 1 }

/-- The function `dlf::match(loader&, std::istream&, std::string, bool)`; `nts`
is the table of nonterminals of the loader and `input` the stream. -/
def match_ {nt σ : Type} (E : engine nt σ) (nts : List (String × nt)) (input : List Chr)
    (rule : String) : outcome :=
  -- find rule
  match nts.lookup rule with
  -- fail on no such rule
  | none => { result := false, rest := input, steps := 0 }
  | some n =>
      -- check for initial success
      if E.nullable n then { result := true, rest := input, steps := 0 }
      -- establish initial expression, take derivatives
      else match_loop E (E.matchable n) input 0

/-- A sample engine for the literal `a`: the state tells whether the byte `a`
has just been taken, the derivative by the sentinel reports a match in that
state, and a nonterminal is a boolean that tells whether it is nullable. -/
def sample_engine : engine Bool Bool :=
  { nullable := fun n => n
    matchable := fun _ => false
    arc_d := fun seen x => (seen && x == 0, x == 97)
    match_reachable := fun _ => true }

/-! ### Arcs and restriction sets of `dlf.hpp` -/

/-- Modelled from the spec: `utils/flagvector.hpp` is not among the sources.
A `flags::vector` is a set of restriction indices: `of(i)` is the set that
holds `i`, `v |= w` and `v |= i` add a set or an index, `clear()` empties the
set. -/
abbrev flags_vector := Finset Nat

/-- The members of `struct arc` that the loader and `alt_node::merge` read and
write, over the type `ν` of what the successor pointer refers to: `succ`,
the restricted set of the checker `blocking`, and `cuts`. -/
structure arc (ν : Type) where
  succ : ν
  blocking : flags_vector
  cuts : flags_vector

namespace restriction_ck

/-- Modelled from the spec: `restriction_ck::join`, "Add a new set of
restrictions"; the definition is in `dlf.cpp`, which is not among the
sources. -/
def join (restricted o : flags_vector) : flags_vector := restricted ∪ o

/-- Modelled from the spec: `restriction_ck::refine`, "Intersect a new set of
restrictions"; the definition is in `dlf.cpp`, which is not among the
sources. -/
def refine (restricted o : flags_vector) : flags_vector := restricted ∩ o

end restriction_ck

/-- What `alt_node::merge<NT>` leaves behind: the arcs `ex` and `add`, the
member `out` of the nodes of type `NT` by address, and the arcs that were
handed to `alt_node::make`. -/
structure merge_result where
  ex : arc Nat
  add : arc Nat
  out : Nat → arc Nat
  alt_arcs : List (arc Nat)

/-- The function `alt_node::merge<NT>(ex, add)`.  Nodes are named by their
address and `out` gives the member `out` of a node of type `NT`, so that
`ex_out` and `add_out` are the same arc when both successors are the same
node; `alt_node::make`, whose callee is defined in `dlf.cpp`, is the parameter
`alt_make` and receives copies of the two arcs. -/
def alt_node_merge (alt_make : List (arc Nat) → Nat) (out : Nat → arc Nat) (ex add : arc Nat) :
    merge_result :=
  -- add existing blockers to successor
  let out1 := Function.update out ex.succ
    { out ex.succ with blocking := restriction_ck.join (out ex.succ).blocking ex.blocking }
  -- add new blockers to new successor
  let out2 := Function.update out1 add.succ
    { out1 add.succ with blocking := restriction_ck.join (out1 add.succ).blocking add.blocking }
  -- intersect blockers
  let ex1 : arc Nat := { ex with blocking := restriction_ck.refine ex.blocking add.blocking }
  -- add cuts to existing node
  let ex2 : arc Nat := { ex1 with cuts := ex1.cuts ∪ add.cuts }
  -- make sure they're only triggered once
  let add1 : arc Nat := { add with cuts := ∅ }
  -- join new node
  let arcs := [out2 ex.succ, out2 add.succ]
  let out3 := Function.update out2 ex.succ { out2 ex.succ with succ := alt_make arcs }
  { ex := ex2, add := add1, out := out3, alt_arcs := arcs }

/-! ### The loader of `visitors/interpreter.hpp` -/

mutual
/-- Modelled from the spec: `ast.hpp` is not among the sources.  The matchers
that the loader visits, with the members that it reads (`m.c`, `m.s`, `m.rs`
with `from` and `to`, `m.rule`, `m.m`, `m.ms`). -/
inductive matcher where
  | char_matcher (c : Chr) : matcher
  | str_matcher (s : List Chr) : matcher
  | range_matcher (rs : List (Chr × Chr)) : matcher
  | rule_matcher (rule : String) : matcher
  | any_matcher : matcher
  | empty_matcher : matcher
  | action_matcher : matcher
  | opt_matcher (m : matcher) : matcher
  | many_matcher (m : matcher) : matcher
  | some_matcher (m : matcher) : matcher
  | seq_matcher (ms : matcher_list) : matcher
  | alt_matcher (ms : matcher_list) : matcher
  | look_matcher (m : matcher) : matcher
  | not_matcher (m : matcher) : matcher
  | capt_matcher (m : matcher) : matcher
  | named_matcher (m : matcher) : matcher
  | fail_matcher : matcher
/-- The vector `ms` of the matchers of a sequence or an alternation. -/
inductive matcher_list where
  | nil : matcher_list
  | cons (m : matcher) (tl : matcher_list) : matcher_list
end

/-- The nonterminal that a `rule_node` points to: one of the table `nts`, by
its name, or the anonymous nonterminal of `make_many` with the name
`"*" + std::to_string(mi)`, by the number `mi`. -/
inductive rule_ref where
  | named (s : String) : rule_ref
  | many (mi : Nat) : rule_ref

/-- The nodes that the loader makes.  The functions `make` of the node classes
are defined in `dlf.cpp`, which is not among the sources; they are taken to
return the node with the given members (`alt_node::make` apart, which is a
parameter of the loader). -/
inductive lnode where
  | end_node : lnode
  | fail_node : lnode
  | char_node (out : arc lnode) (c : Chr) : lnode
  | str_node (out : arc lnode) (s : List Chr) : lnode
  | range_node (out : arc lnode) (b e : Chr) : lnode
  | any_node (out : arc lnode) : lnode
  | rule_node (out : arc lnode) (r : rule_ref) : lnode
  | alt_node (out : List (arc lnode)) : lnode

/-- The members of the class `loader`, without the state manager.  `nts` is
the table of the named nonterminals with their substitution; `many` lists the
anonymous nonterminals of `make_many` with the substitution that `reset` gave
them. -/
structure loader where
  nts : List (String × lnode)
  many : List (Nat × lnode)
  next : lnode
  next_cuts : flags_vector
  ri : Nat
  mi : Nat

namespace loader

/-- The function `loader::get_nonterminal`, as far as the table is concerned:
a name that is not in the table is entered with the substitution FAIL. -/
def get_nonterminal (s : String) (l : loader) : loader :=
  match l.nts.lookup s with
  | none => { l with nts := l.nts ++ [(s, lnode.fail_node)] }
  | some _ => l

/-- The function `loader::set_nonterminal`. -/
def set_nonterminal (s : String) (n : lnode) (l : loader) : loader :=
  let l1 := get_nonterminal s l
  { l1 with nts := l1.nts.map (fun p => if p.1 = s then (s, n) else p) }

/-- The function `loader::out(blocking)`: a new arc to the next node. -/
def out (l : loader) (blocking : flags_vector) : arc lnode :=
  { succ := l.next, blocking := blocking, cuts := l.next_cuts }

/-- The function `loader::set_next(n)`. -/
def set_next (n : lnode) (l : loader) : loader :=
  { l with next := n, next_cuts := ∅ }

/-- The function `loader::set_next(n, cuts)`. -/
def set_next_cuts (n : lnode) (cuts : flags_vector) (l : loader) : loader :=
  { l with next := n, next_cuts := cuts }

/-- The function `loader::make_many(mp)`; `mp->accept(this)` is the parameter
`accept`. -/
def make_many (alt_make : List (arc lnode) → lnode) (accept : loader → loader) (l : loader) :
    loader :=
  -- set rule node for new anonymous non-terminal
  let k := l.mi
  let l := { l with mi := l.mi + 1 }
  let nt := lnode.rule_node (l.out ∅) (rule_ref.many k)
  -- build anonymous rule: get a restriction index to use
  let i := l.ri
  let l := { l with ri := l.ri + 1 }
  -- make end node for rule
  let l := l.set_next lnode.end_node
  -- save arc that skips match
  let skip := l.out {i}
  -- build recursive invocation of rule, set up cut on out-edges of many-expression
  let l := l.set_next_cuts (lnode.rule_node (l.out ∅) (rule_ref.many k)) {i}
  -- save ri
  let ri_bak := l.ri
  let l := { l with ri := 0 }
  -- build many-expression
  let l := accept l
  -- restore ri
  let l := { l with ri := ri_bak }
  -- reset rule
  let l := { l with many := l.many ++ [(k, alt_make [l.out ∅, skip])] }
  -- reset next to rule reference
  l.set_next nt

mutual
/-- The functions `loader::visit`, one case for each class of matcher. -/
def visit (alt_make : List (arc lnode) → lnode) : matcher → loader → loader
  | .char_matcher c, l => l.set_next (lnode.char_node (l.out ∅) c)
  | .str_matcher s, l => l.set_next (lnode.str_node (l.out ∅) s)
  | .range_matcher rs, l =>
      l.set_next (alt_make (rs.map (fun r =>
        { succ := lnode.range_node (l.out ∅) r.1 r.2, blocking := ∅, cuts := ∅ })))
  | .rule_matcher rule, l =>
      let l1 := get_nonterminal rule l
      l1.set_next (lnode.rule_node (l.out ∅) (rule_ref.named rule))
  | .any_matcher, l => l.set_next (lnode.any_node (l.out ∅))
  -- do nothing; next remains next
  | .empty_matcher, l => l
  | .action_matcher, l => l
  | .opt_matcher m, l =>
      -- get a restriction index to use
      let i := l.ri
      let l := { l with ri := l.ri + 1 }
      -- save arc that skips the optional
      let skip := l.out {i}
      -- add restriction to cut-set
      let l := { l with next_cuts := l.next_cuts ∪ {i} }
      -- build opt-expression
      let l := visit alt_make m l
      -- make alternation of two paths
      l.set_next (alt_make [l.out ∅, skip])
  | .many_matcher m, l => make_many alt_make (visit alt_make m) l
  | .some_matcher m, l =>
      -- generate new many-rule nonterminal, sequence one copy of the rule before
      visit alt_make m (make_many alt_make (visit alt_make m) l)
  | .seq_matcher ms, l => visit_seq alt_make ms l
  | .alt_matcher ms, l =>
      -- save next value and cuts
      let alt_next := l.next
      let alt_cuts := l.next_cuts
      let (rs, l1) := visit_alt alt_make alt_next alt_cuts ms ∅ [] l
      l1.set_next (alt_make rs)
  | .look_matcher m, l =>
      -- save restriction indices
      let j := l.ri
      let i := l.ri + 1
      let l := { l with ri := l.ri + 2 }
      -- build continuing branch
      let cont := l.out {i}
      -- build cut branch
      let l := l.set_next_cuts lnode.fail_node {i}
      let cut := l.out {j}
      -- build matching branch
      let l := l.set_next_cuts lnode.fail_node {j}
      let l := visit alt_make m l
      -- set alternate paths
      { l with next := alt_make [cont, cut, l.out ∅] }
  | .not_matcher m, l =>
      -- get a restriction index to use
      let i := l.ri
      let l := { l with ri := l.ri + 1 }
      -- build continuing branch
      let cont := l.out {i}
      -- terminate blocking branch with a cut on the match index
      let l := l.set_next_cuts lnode.fail_node {i}
      -- build blocking branch
      let l := visit alt_make m l
      -- alternate continuing and blocking branches
      l.set_next (alt_make [cont, l.out ∅])
  | .capt_matcher m, l => visit alt_make m l
  | .named_matcher m, l => visit alt_make m l
  | .fail_matcher, l => l.set_next lnode.fail_node
/-- The loop of `visit(ast::seq_matcher&)`, which builds the sequence in
reverse order: the last matcher is visited first. -/
def visit_seq (alt_make : List (arc lnode) → lnode) : matcher_list → loader → loader
  | .nil, l => l
  | .cons m tl, l => visit alt_make m (visit_seq alt_make tl l)
/-- The loop of `visit(ast::alt_matcher&)` over the alternatives, with the
saved `alt_next` and `alt_cuts`, the set `blocking` and the vector `rs`. -/
def visit_alt (alt_make : List (arc lnode) → lnode) (alt_next : lnode)
    (alt_cuts : flags_vector) :
    matcher_list → flags_vector → List (arc lnode) → loader → List (arc lnode) × loader
  | .nil, _, rs, l => (rs, l)
  | .cons m tl, blocking, rs, l =>
      -- get a restriction index to use
      let i := l.ri
      let l := { l with ri := l.ri + 1 }
      -- flag cut for greedy longest match
      let l := { l with next_cuts := l.next_cuts ∪ {i} }
      -- build subexpression
      let l := visit alt_make m l
      -- add to list of arcs
      let rs := rs ++ [l.out blocking]
      -- restore next values for next iteration
      let l := l.set_next_cuts alt_next alt_cuts
      -- add index to greedy longest match blocker
      visit_alt alt_make alt_next alt_cuts tl (blocking ∪ {i}) rs l
end

/-- The body of the loop of the constructor `loader::loader` for a rule with
the name `name` and the matcher `m`. -/
def load_rule (alt_make : List (arc lnode) → lnode) (name : String) (m : matcher)
    (l : loader) : loader :=
  let l := l.set_next lnode.end_node
  let l := visit alt_make m l
  let l := set_nonterminal name l.next l
  { l with ri := 0 }

/-- The state of the loader when its constructor starts the loop over the
rules: empty tables, no cuts, `ri` and `mi` 0 (the pointer `next` is null and
is set before it is read). -/
def init : loader :=
  { nts := [], many := [], next := lnode.fail_node, next_cuts := ∅, ri := 0, mi := 0 }

/-- The constructor `loader::loader(g)`: the loop over the rules `g.rs`. -/
def load (alt_make : List (arc lnode) → lnode) (rs : List (String × matcher)) : loader :=
  rs.foldl (fun l r => load_rule alt_make r.1 r.2 l) init

end loader

end dlf

/-! ## The in-place engine of `derivs-mut.cpp` -/

namespace derivs_mut

open derivs (Chr uint_set)

/-- The type `gen_set` of `derivs-mut.cpp`: a set of generations, as in
`derivs.hpp`. -/
abbrev gen_set := uint_set

/-- Modelled from the spec: the header `derivs-mut.hpp` and the class
`gen_map` are not among the sources.  A generation map is "a monotone partial
function from generations (keys) to generations (values)"; it is represented
by the list of its pairs (key, value), in ascending order of the keys. -/
abbrev gen_map := List (Nat × Nat)

namespace gen_map

/-- Modelled from the spec: the map written `gen_map{v0, v1, ...}` in the
sources, which sends the keys 0, 1, ... to the listed values. -/
def of_values (vs : List Nat) : gen_map := vs.enum

/-- Modelled from the spec: `empty()`. -/
def empty (m : gen_map) : Bool := m.isEmpty

/-- Modelled from the spec: lookup `m(k)`; not defined when `k` is not a key. -/
def app (m : gen_map) (k : Nat) : Option Nat := m.lookup k

/-- Modelled from the spec: "max key"; not defined on the empty map. -/
def max_key (m : gen_map) : Option Nat := m.getLast?.map Prod.fst

/-- Modelled from the spec: "max value"; the map is monotone, so this is the
value of the greatest key; not defined on the empty map. -/
def max (m : gen_map) : Option Nat := m.getLast?.map Prod.snd

/-- Modelled from the spec: "`add_back(k, v)` adds key k mapped to v
preserving monotonicity": the new pair comes last. -/
def add_back (m : gen_map) (k v : Nat) : gen_map := m ++ [(k, v)]

/-- Modelled from the spec: the image `m(s)` of a set of generations: the set
of the values of its members; not defined when a member is not a key. -/
def image (m : gen_map) (s : uint_set) : Option uint_set :=
  s.foldr (fun k acc => (app m k).bind (fun v => acc.map (fun r => uint_set.ins v r))) (some [])

end gen_map

mutual
/-- The expression nodes of `derivs-mut.cpp`, with the members that the
functions of that file read.  The characters of a `str_node` are kept in
reverse order; a `rule_node` and a `shared_node` are named by the index of the
shared cell they point to, whose content (and the caches of the nodes) is
state outside the tree.  The switches on `type()` are matches on the
constructor; a `shared_node` has a type tag of its own. -/
inductive node where
  | fail_node : node
  | inf_node : node
  | eps_node : node
  | look_node (b : Nat) : node
  | char_node (c : Chr) : node
  | range_node (b e : Chr) : node
  | any_node : node
  | str_node (s : List Chr) : node
  | shared_node (shared : Nat) : node
  | rule_node (r : Nat) : node
  | not_node (s : node) : node
  | map_node (s : node) (sg : gen_map) (gm : Nat) : node
  | alt_node (a b : node) (ag bg : gen_map) (gm : Nat) : node
  | seq_node (a b : node) (bs : look_list) (c : node) (cg : gen_map) (gm : Nat) : node
/-- The list of lookahead followers `(g, s, sg, gl)` of a `seq_node`. -/
inductive look_list where
  | nil : look_list
  | cons (g : Nat) (s : node) (sg : gen_map) (gl : Nat) (tl : look_list) : look_list
end

open node

/-- What the nodes that keep a cache or point to a shared cell (`shared_node`,
`rule_node`, `not_node`, `map_node`, `alt_node`, `seq_node`) answer to
`match(i)` and `back(i)`; the answers depend on state that is declared in the
missing header. -/
structure node_ops where
  match_ : node → Nat → Option gen_set
  back : node → Nat → Option gen_set

/-- The answers of a tree without caching nodes: there is no such node to
ask, and every request fails. -/
def no_ops : node_ops := { match_ := fun _ _ => none, back := fun _ _ => none }

/-- The function `match(ind)`: the bodies of `derivs-mut.cpp` for the
terminal nodes and for `not_node`, the answer of `ops` for the others. -/
def node.match_ (ops : node_ops) (n : node) (i : Nat) : Option gen_set :=
  match n with
  | fail_node => some []
  | inf_node => some []
  | eps_node => some [0]
  | look_node b => some [b]
  | char_node _ => some []
  | range_node _ _ => some []
  | any_node => some []
  | str_node _ => some []
  | not_node _ => some []
  | _ => ops.match_ n i

/-- The function `back(ind)`: the bodies of `derivs-mut.cpp` for the terminal
nodes and for `not_node`, the answer of `ops` for the others. -/
def node.back (ops : node_ops) (n : node) (i : Nat) : Option gen_set :=
  match n with
  | fail_node => some [0]
  | inf_node => some [0]
  | eps_node => some [0]
  | look_node b => some [b]
  | char_node _ => some [0]
  | range_node _ _ => some [0]
  | any_node => some [0]
  | str_node _ => some [0]
  | not_node _ => some [1]
  | _ => ops.back n i

/-- The function `look_node::make`. -/
def look_node_make (g : Nat) : node := if g = 0 then eps_node else look_node g

/-- The function `not_node::make`. -/
def not_node_make (ops : node_ops) (s : node) (i : Nat) : Option node :=
  match s with
  | fail_node => some (look_node_make 1)
  | inf_node => some s
  | _ => do
      -- return failure on subexpression success
      let sm ← s.match_ ops i
      if !sm.empty then pure fail_node else pure (not_node s)

/-- The function `map_node::make`; `s.match()` is called without an index,
which is taken to be `i`. -/
def map_node_make (ops : node_ops) (s : node) (sg : gen_map) (gm : Nat) (i : Nat) :
    Option node := do
  -- account for unmapped generations
  if sg.empty then failure
  let sb ← s.back ops i
  let sbmax ← sb.max
  let mk ← sg.max_key
  if ¬ sbmax ≤ mk then failure
  let mv ← sg.max
  if ¬ mv ≤ gm then failure
  match s with
  | eps_node => do
      let g ← sg.app 0
      pure (look_node_make g)
  | look_node _ => do
      let sm ← s.match_ ops i
      let k ← sm.max
      let g ← sg.app k
      pure (look_node_make g)
  | fail_node => pure s
  | inf_node => pure s
  | _ => if gm = mk then pure s else pure (map_node s sg gm)

/-- The function `seq_node::make`.  The part after the two switches, which
builds the `seq_node` (and reads a variable `gm` that the function does not
declare), is the parameter `build`. -/
def seq_node_make (build : node → node → Option node) (a b : node) : Option node :=
  match b with
  -- empty second element just leaves first
  | eps_node => some a
  -- failing second element propagates
  | fail_node => some b
  | _ =>
    match a with
    -- empty first element or lookahead success just leaves follower
    | eps_node => some b
    | look_node _ => some b
    -- failure or infinite loop propagates
    | fail_node => some a
    | inf_node => some a
    | _ => build a b

/-- The function `new_back_map(e, gm, i)` with the reference parameter `gm`:
the returned pair is the map and the new value of `gm`. -/
def new_back_map (ops : node_ops) (e : node) (gm : Nat) (i : Nat) : Option (gen_map × Nat) := do
  let eb ← e.back ops i
  let ebmax ← eb.max
  if ebmax > 0 then
    if ebmax ≠ 1 then failure
    pure (gen_map.of_values [0, gm + 1], gm + 1)
  else
    pure (gen_map.of_values [0], gm)

/-- The function `update_back_map(eg, ebm, de, gm, i)` with the reference
parameter `gm`: the returned pair is the new map `eg` and the new value of
`gm`. -/
def update_back_map (ops : node_ops) (eg : gen_map) (ebm : Nat) (de : node) (gm : Nat)
    (i : Nat) : Option (gen_map × Nat) := do
  let deb ← de.back ops i
  let debm ← deb.max
  if debm > ebm then pure (eg.add_back debm (gm + 1), gm + 1) else pure (eg, gm)

/-- The function `update_back_map(eg, ebm, de, gm, did_inc, i)`: the returned
pair is the new map `eg` and the new value of `did_inc`. -/
def update_back_map_inc (ops : node_ops) (eg : gen_map) (ebm : Nat) (de : node) (gm : Nat)
    (did_inc : Bool) (i : Nat) : Option (gen_map × Bool) := do
  let deb ← de.back ops i
  let debm ← deb.max
  if debm > ebm then pure (eg.add_back debm (gm + 1), true) else pure (eg, did_inc)

/-- The functions `fail_node::d`, `inf_node::d`, `eps_node::d`, `look_node::d`,
`char_node::d`, `range_node::d`, `any_node::d` and `str_expr::d`: the node that
the expression `e` holds after the call (`remake` replaces it, no statement
leaves it as it is).  The other nodes are not terminals. -/
def terminal_d : node → Chr → Option node
  | fail_node, _ => some fail_node
  | inf_node, _ => some inf_node
  | eps_node, x => if x ≠ 0 then some fail_node else some eps_node
  | look_node b, _ => some (look_node b)
  | char_node c, x => if c = x then some eps_node else some fail_node
  | range_node b e, x => if b ≤ x ∧ x ≤ e then some eps_node else some fail_node
  | any_node, x => if x = 0 then some fail_node else some eps_node
  | str_node s, x =>
      -- the characters of s are in reverse order
      match s.getLast? with
      | none => none
      | some l =>
          if l ≠ x then some fail_node
          else if s.length = 2 then s.head?.map char_node
          else some (str_node s.dropLast)
  | _, _ => none

/-- The node of `derivs.hpp` that has the variant and the attributes of a
terminal node of `derivs-mut.cpp`, for FAIL, INF, EPS, LOOK, CHAR, RANGE and
ANY. -/
def to_expr : node → Option derivs.expr
  | fail_node => some derivs.expr.fail_expr
  | inf_node => some derivs.expr.inf_expr
  | eps_node => some derivs.expr.eps_expr
  | look_node b => some (derivs.expr.look_expr b)
  | char_node c => some (derivs.expr.char_expr c)
  | range_node b e => some (derivs.expr.range_expr b e)
  | any_node => some derivs.expr.any_expr
  | _ => none

/-- The flags `dirty` of the shared rules, by rule index. -/
abbrev dirty_flags := Nat → Bool

/-- The assignment `r.shared->dirty = v`. -/
def set_dirty (s : dirty_flags) (r : Nat) (v : Bool) : dirty_flags :=
  fun q => if q = r then v else s q

/-- The function `rule_node::d`.  The two statements `e = r.clone(i); e.d(x, i)`
are the parameter `clone_d`: the derivative of a clone of the body of rule `r`,
a computation on the flags that may reach `rule_node::d` again. -/
def rule_node_d (clone_d : Nat → Chr → Nat → dirty_flags → Option (node × dirty_flags))
    (r : Nat) (x : Chr) (i : Nat) (s : dirty_flags) : Option (node × dirty_flags) :=
  -- break left recursion by returning an inf node
  if s r then some (inf_node, s)
  else do
    -- flag derivative calculations
    let s1 := set_dirty s r true
    -- clone rule into current expression with current index; calculate derivative
    let (e, s2) ← clone_d r x i s1
    -- lower calculation flag
    pure (e, set_dirty s2 r false)

/-- The dispatch of `e.d(x, i)` on the type of the node that `e` holds, with
the flags of the rules as state: `rule_node::d` for a rule node, entered with
one unit of fuel less for the body of the rule (no fuel: no result), the
terminal functions for the terminals.  The functions of the other nodes
(`shared_node`, `not_node`, `map_node`, `alt_node`, `seq_node`), which call
`d` on their sub-expressions and do not name the flags themselves, are the
parameter `comp`, which receives the dispatch for its calls; `body r i` is
the clone `r.clone(i)` of the body of rule `r`. -/
def d_flags
    (comp : (node → Chr → Nat → dirty_flags → Option (node × dirty_flags)) →
      node → Chr → Nat → dirty_flags → Option (node × dirty_flags))
    (body : Nat → Nat → node) :
    Nat → node → Chr → Nat → dirty_flags → Option (node × dirty_flags)
  | 0, _, _, _, _ => none
  | fuel + 1, n, x, i, s =>
      match n with
      | rule_node r =>
          rule_node_d (fun r1 x1 i1 s1 => d_flags comp body fuel (body r1 i1) x1 i1 s1) r x i s
      | shared_node _ => comp (d_flags comp body fuel) n x i s
      | not_node _ => comp (d_flags comp body fuel) n x i s
      | map_node _ _ _ => comp (d_flags comp body fuel) n x i s
      | alt_node _ _ _ _ _ => comp (d_flags comp body fuel) n x i s
      | seq_node _ _ _ _ _ _ => comp (d_flags comp body fuel) n x i s
      | _ => (terminal_d n x).map (fun e => (e, s))

/-- The function `alt_node::make(a, b, ag, bg, gm, i)`.  Its two calls
`map_expr::make(b, gm, bg, i)` and `map_expr::make(a, gm, ag, i)` are the
parameter `map_make` (the file declares `map_node::make(s, sg, gm, i)`, with
the map before the maximum); `a.match()` is given the index `i`. -/
def alt_node_make (ops : node_ops) (map_make : node → Nat → gen_map → Nat → Option node)
    (a b : node) (ag bg : gen_map) (gm : Nat) (i : Nat) : Option node := do
  -- gm is actual maximum
  let agm ← ag.max
  let bgm ← bg.max
  if ¬ (gm ≥ agm ∧ gm ≥ bgm) then failure
  match a with
  -- if first alternative fails, use second
  | fail_node => map_make b gm bg i
  -- if first alternative is infinite loop, propagate
  | inf_node => pure a
  | _ =>
      -- if first alternative matches or second alternative fails, use first
      match b with
      | fail_node => map_make a gm ag i
      | _ => do
          let am ← a.match_ ops i
          if !am.empty then map_make a gm ag i else pure (alt_node a b ag bg gm)

/-- The loop of the `look_type` case of `seq_node::d` over the follower list,
for the generation `g` of the lookahead success.  `dn` is the derivative of a
sub-expression (the node it holds after `d(x, i)`); the call
`alt_node::make(bi.s, look_node::make(), bi.sg, gen_map{0, bi.gl}, gm)` is the
parameter `alt_make` (the six-parameter `alt_node::make` passes its arguments
to `map_expr::make` in another order than `map_node::make` declares).  The
result is `none` inside when the loop ends without returning. -/
def seq_node_d_look (ops : node_ops) (dn : node → Chr → Nat → Option node)
    (alt_make : node → node → gen_map → gen_map → Nat → Option node)
    (gm : Nat) (x : Chr) (i : Nat) (g : Nat) : look_list → Option (Option node)
  | look_list.nil => some none
  | look_list.cons big bis bisg bigl tl =>
      -- find node in (sorted) generation list
      if big < g then seq_node_d_look ops dn alt_make gm x i g tl
      else if big > g then some (some fail_node)
      else do
        let bib ← bis.back ops i
        let bibm ← bib.max
        let dbi ← dn bis x i
        match dbi with
        | fail_node =>
            -- straight path fails, but matched in the past: appropriate lookahead
            if bigl > 0 then pure (some (look_node bigl)) else pure (some fail_node)
        | _ => do
            let (sg1, gm1) ← update_back_map ops bisg bibm dbi gm (i + 1)
            -- if there is no failure backtrack (or this generation is it)
            -- we do not have to track it
            let dbim ← dbi.match_ ops (i + 1)
            if bigl = 0 || (!dbim.empty && dbim.min == some 0) then
              (map_node_make ops dbi sg1 gm1 i).map some
            else
              (alt_make dbi (look_node_make 1) sg1 (gen_map.of_values [0, bigl]) gm1).map some

/-- The function `seq_node::d` up to the end of its switch on the type of the
derivative of `a`; what follows the switch reads names that the function does
not declare (`da`, `dbi`, `dbs`) and is the parameter `rest`.  `dn` is the
derivative of a sub-expression; the name `bn` in the `look_type` case, which
is not declared either, is read as `b`, and `look_node::make()` as
`look_node::make(1)`; a call of `match`, `back` or `make` without index is
given the index `i`. -/
def seq_node_d (ops : node_ops) (dn : node → Chr → Nat → Option node)
    (alt_make : node → node → gen_map → gen_map → Nat → Option node)
    (rest : node → Option node)
    (a b : node) (bs : look_list) (c : node) (cg : gen_map) (gm : Nat) (x : Chr) (i : Nat) :
    Option node := do
  let ab ← a.back ops i
  let _ ← ab.max
  let da ← dn a x i
  -- handle empty or failure results from predecessor derivative
  match da with
  | eps_node => do
      -- take follower (or follower's end-of-string derivative on end-of-string)
      let b1 ← (if x = 0 then dn b 0 i else pure b)
      let (bg, gm1) ← new_back_map ops b1 gm (i + 1)
      map_node_make ops b1 bg gm1 (i + 1)
  | look_node _ => do
      -- take lookahead follower (or lookahead follower match-fail)
      let am ← da.match_ ops (i + 1)
      let g ← am.max
      match ← seq_node_d_look ops dn alt_make gm x i g bs with
      | some e => pure e
      | none =>
          -- end-of-string is only case where we can get a lookahead success
          -- for an unseen gen
          if x = 0 then do
            let b1 ← dn b 0 i
            let (bg, gm1) ← new_back_map ops b1 gm (i + 1)
            map_node_make ops b1 bg gm1 (i + 1)
          else pure fail_node
  | fail_node => do
      -- return derivative of match-fail follower
      let cb ← c.back ops i
      let cbm ← cb.max
      let dc ← dn c x i
      let (cg1, gm1) ← update_back_map ops cg cbm dc gm (i + 1)
      map_node_make ops dc cg1 gm1 i
  | inf_node => pure inf_node
  | _ => rest da

/-- Modelled from the spec: the member `cache` of a node, whose type is
declared in `derivs-mut.hpp` (not among the sources): the flags `flags.match`
and `flags.back` tell whether the sets `match` and `back` are stored. -/
structure node_cache where
  flags_match : Bool
  flags_back : Bool
  match_ : gen_set
  back : gen_set
  deriving DecidableEq, Repr

namespace node_cache

/-- Modelled from the spec: the cache of a node on which neither `match` nor
`back` has been called: no set is stored. -/
def fresh : node_cache := { flags_match := false, flags_back := false, match_ := [], back := [] }

/-- Modelled from the spec: `cache.set_match(x)` stores the match set. -/
def set_match (c : node_cache) (x : gen_set) : node_cache :=
  { c with match_ := x, flags_match := true }

/-- Modelled from the spec: `cache.set_back(x)` stores the backtrack set. -/
def set_back (c : node_cache) (x : gen_set) : node_cache :=
  { c with back := x, flags_back := true }

end node_cache

/-- The function `alt_node::match(i)`: the returned set and the cache after
the call. -/
def alt_node_match (ops : node_ops) (cache : node_cache) (a b : node) (ag bg : gen_map)
    (i : Nat) : Option (gen_set × node_cache) :=
  if !cache.flags_match then do
    let am ← a.match_ ops i
    let x ← ag.image am
    let bm ← b.match_ ops i
    let y ← bg.image bm
    let c1 := cache.set_match (uint_set.union x y)
    pure (c1.match_, c1)
  else pure (cache.match_, cache)

/-- The function `alt_node::back(i)`: the returned set and the cache after the
call. -/
def alt_node_back (ops : node_ops) (cache : node_cache) (a b : node) (ag bg : gen_map)
    (i : Nat) : Option (gen_set × node_cache) :=
  if !cache.flags_back then do
    let ab ← a.back ops i
    let x ← ag.image ab
    let bm ← b.match_ ops i
    let y ← bg.image bm
    let c1 := cache.set_back (uint_set.union x y)
    pure (c1.back, c1)
  else pure (cache.back, cache)

/-- The loop of `seq_node::back` over the follower list. -/
def seq_node_back_bs (ops : node_ops) (i : Nat) : look_list → gen_set → Option gen_set
  | look_list.nil, x => some x
  | look_list.cons _ bis bisg bigl tl, x => do
      let sb ← bis.back ops i
      let y ← bisg.image sb
      let x1 := uint_set.union x y
      seq_node_back_bs ops i tl (if bigl > 0 then uint_set.ins bigl x1 else x1)

/-- The function `seq_node::back(i)`: the returned set and the cache after the
call. -/
def seq_node_back (ops : node_ops) (cache : node_cache) (a : node) (bs : look_list)
    (c : node) (cg : gen_map) (i : Nat) : Option (gen_set × node_cache) :=
  if cache.flags_back then pure (cache.back, cache)
  else do
    -- check for gen-zero backtrack from predecessor
    let ab ← a.back ops i
    let abmin ← ab.min
    let x0 : gen_set := if abmin = 0 then [0] else []
    -- include backtrack from match-fail follower
    let cb ← c.back ops i
    let y ← cg.image cb
    -- include lookahead follower backtracks
    let x ← seq_node_back_bs ops i bs (uint_set.union x0 y)
    let c1 := cache.set_back x
    pure (c1.match_, c1)

end derivs_mut

/-! ## The command line of `main.cpp` -/

namespace egg

/-- The enumeration `egg_mode`. -/
inductive egg_mode where
  | PRINT_MODE | COMPILE_MODE | USAGE_MODE | HELP_MODE | VERSION_MODE
  deriving DecidableEq, Repr

/-- The enumeration `file_type`. -/
inductive file_type where
  | STREAM_TYPE | CPP_HEADER | CPP_SOURCE | UNKNOWN_TYPE
  deriving DecidableEq, Repr

/-- The members of the class `args`.  A stream pointer (`in`, `out`) is the
name of the file it was opened on, `none` for a null pointer; the index `i` of
the next unparsed argument is represented by the list of the arguments that
are left. -/
structure args where
  in_ : Option String
  out : Option String
  inName : String
  outName : String
  outType : file_type
  pName : String
  dbgFlag : Bool
  nameFlag : Bool
  normFlag : Bool
  memoFlag : Bool
  quietFlag : Bool
  eMode : egg_mode
  deriving DecidableEq, Repr

/-- The function `args::eq`. -/
def eq (lit arg : String) : Bool := lit == arg

/-- The function `args::match`. -/
def match_ (shrt lng arg : String) : Bool := shrt == arg || lng == arg

/-- The test on the first character in `args::id_prefix`. -/
def id_start (c : Char) : Bool :=
  (decide ('A' ≤ c) && decide (c ≤ 'Z')) || (decide ('a' ≤ c) && decide (c ≤ 'z')) || c == '_'

/-- The test on the following characters in `args::id_prefix`. -/
def id_char (c : Char) : Bool :=
  (decide ('A' ≤ c) && decide (c ≤ 'Z')) || (decide ('a' ≤ c) && decide (c ≤ 'z'))
    || (decide ('0' ≤ c) && decide (c ≤ '9')) || c == '_'

/-- The function `args::id_prefix`. -/
def id_prefix (s : String) : String :=
  match s.data with
  | [] => ""
  | c :: rest => if id_start c then String.mk (c :: rest.takeWhile id_char) else ""

/-- The characters after the last dot, as `std::string(t, t.rfind('.') + 1)`;
`none` when there is no dot. -/
def after_last_dot : List Char → Option (List Char)
  | [] => none
  | c :: rest =>
      match after_last_dot rest with
      | some e => some e
      | none => if c = '.' then some rest else none

/-- The function `args::suffix_type`. -/
def suffix_type (s : String) : file_type :=
  match after_last_dot s.data with
  | none => .UNKNOWN_TYPE
  | some e =>
      let ext := String.mk (e.map Char.toLower)
      if ext == "hpp" || ext == "hxx" || ext == "hh" || ext == "h" then .CPP_HEADER
      else if ext == "cpp" || ext == "cxx" || ext == "cc" || ext == "c" then .CPP_SOURCE
      else .UNKNOWN_TYPE

/-- The function `args::parse_mode`: the returned boolean and the new state. -/
def parse_mode (s : String) (a : args) : Bool × args :=
  if eq "print" s then (true, { a with eMode := .PRINT_MODE })
  else if eq "compile" s then (true, { a with eMode := .COMPILE_MODE })
  else if eq "help" s then (true, { a with eMode := .HELP_MODE })
  else if eq "usage" s then (true, { a with eMode := .USAGE_MODE })
  else if eq "version" s then (true, { a with eMode := .VERSION_MODE })
  else (false, a)

/-- The function `args::parse_input`. -/
def parse_input (s : String) (a : args) : args :=
  { a with
    in_ := some s
    inName := s
    pName := if !a.nameFlag && a.out.isNone then id_prefix s else a.pName }

/-- The function `args::parse_output`. -/
def parse_output (s : String) (a : args) : args :=
  { a with
    out := some s
    outName := s
    outType := suffix_type s
    pName := if !a.nameFlag then id_prefix s else a.pName }

/-- The function `args::parse_name`. -/
def parse_name (s : String) (a : args) : args :=
  { a with pName := id_prefix s, nameFlag := true }

/-- The loop "parse explicit flags" of the constructor `args::args`, over the
arguments from `argv[i]` on.  The result is the new state and what the loop
leaves: `none` when the constructor returns from inside the loop (a flag that
takes a value is the last argument), otherwise the arguments from the index
where the loop stopped. -/
def parse_flags : List String → args → args × Option (List String)
  | [], a => (a, some [])
  | arg :: rest, a =>
      if match_ "-i" "--input" arg then
        match rest with
        | [] => (a, none)
        | v :: rest1 => parse_flags rest1 (parse_input v a)
      else if match_ "-o" "--output" arg then
        match rest with
        | [] => (a, none)
        | v :: rest1 => parse_flags rest1 (parse_output v a)
      else if match_ "-c" "--command" arg then
        match rest with
        | [] => (a, none)
        | v :: rest1 => parse_flags rest1 (parse_mode v a).2
      else if match_ "-n" "--name" arg then
        match rest with
        | [] => (a, none)
        | v :: rest1 => parse_flags rest1 (parse_name v a)
      else if eq "--dbg" arg then parse_flags rest { a with dbgFlag := true }
      else if eq "--no-norm" arg then parse_flags rest { a with normFlag := false }
      else if eq "--no-memo" arg then parse_flags rest { a with memoFlag := false }
      else if match_ "-i" "--quiet" arg then parse_flags rest { a with quietFlag := true }
      else if eq "--usage" arg then parse_flags rest { a with eMode := .USAGE_MODE }
      else if eq "--help" arg then parse_flags rest { a with eMode := .HELP_MODE }
      else if eq "--version" arg then parse_flags rest { a with eMode := .VERSION_MODE }
      else (a, some (arg :: rest))

/-- The two statements "parse optional input, source, and output files" that
follow the loop in the constructor `args::args`, on what `parse_flags`
returns. -/
def parse_files : args × Option (List String) → args
  | (a2, none) => a2
  | (a2, some rest2) =>
      let (a3, rest3) := (match rest2 with
        | f :: r => if a2.in_.isNone then (parse_input f a2, r) else (a2, rest2)
        | [] => (a2, []))
      match rest3 with
      | f :: _ => if a3.out.isNone then parse_output f a3 else a3
      | [] => a3

/-- The name that the text `HELP` promises for a grammar without `-n`: "the
longest prefix of the input or output file name (output preferred) which is a
valid Egg identifier (default empty)". -/
def name_of_files (a : args) : String :=
  match a.out with
  | some o => id_prefix o
  | none =>
      match a.in_ with
      | some i => id_prefix i
      | none => ""

/-- The member initializers of the constructor `args::args`. -/
def args_init : args :=
  { in_ := none, out := none, inName := "", outName := "", outType := .STREAM_TYPE, pName := "",
    dbgFlag := false, nameFlag := false, normFlag := true, memoFlag := true, quietFlag := false,
    eMode := .COMPILE_MODE }

/-- The constructor `args::args(argc, argv)`; `argv` is the whole argument
vector, the program name included. -/
def args_of (argv : List String) : args :=
  match argv with
  | [] => args_init
  | [_] => args_init
  | _ :: arg1 :: rest =>
      -- parse optional sub-command
      let (is_mode, a1) := parse_mode arg1 args_init
      let flags := if is_mode then rest else arg1 :: rest
      -- parse explicit flags
      match parse_flags flags a1 with
      | (a2, none) => a2
      | (a2, some rest2) =>
          -- parse optional input, source, and output files
          let (a3, rest3) := (match rest2 with
            | f :: r => if a2.in_.isNone then (parse_input f a2, r) else (a2, rest2)
            | [] => (a2, []))
          match rest3 with
          | f :: _ => if a3.out.isNone then parse_output f a3 else a3
          | [] => a3

end egg

/-! ## Properties -/

namespace derivs

open expr

/-! ### Literals, ordered choice and negative lookahead over literals -/


theorem d_str_expr_make (R : rule_ops Option) (s : List Chr) (x : Chr) (hx : x ≠ 0) :
    d R (str_expr_make s) x =
      some (match s with
        | [] => fail_expr
        | c :: s1 => if c = x then str_expr_make s1 else fail_expr) := by
  match s with
  | [] => simp [str_expr_make, d, hx]
  | [c] =>
      simp only [str_expr_make, d]
      split <;> rfl
  | c :: c1 :: rest =>
      simp only [str_expr_make, d]
      by_cases h : c = x
      · simp only [h, ne_eq, not_true_eq_false, if_false, if_true]
        cases rest <;> rfl
      · simp [h]

theorem feed_fail (R : rule_ops Option) (t : List Chr) : feed R fail_expr t = some fail_expr := by
  induction t with
  | nil => rfl
  | cons x t ih => simp only [feed, d]; exact ih

theorem feed_str_expr_make (R : rule_ops Option) (t s : List Chr) (ht : ∀ c ∈ t, c ≠ 0) :
    feed R (str_expr_make s) t =
      some (if t <+: s then str_expr_make (s.drop t.length) else fail_expr) := by
  induction t generalizing s with
  | nil => simp [feed]
  | cons x t ih =>
      have hx : x ≠ 0 := ht x (List.mem_cons_self _ _)
      have ht1 : ∀ c ∈ t, c ≠ 0 := fun c hc => ht c (List.mem_cons_of_mem _ hc)
      simp only [feed]
      rw [d_str_expr_make R s x hx]
      match s with
      | [] =>
          simp only [Option.bind_eq_bind, Option.some_bind]
          rw [feed_fail]
          simp
      | c :: s1 =>
          by_cases h : c = x
          · subst h
            simp only [if_true, Option.bind_eq_bind, Option.some_bind]
            rw [ih s1 ht1]
            simp [List.cons_prefix_cons]
          · simp only [h, if_false, Option.bind_eq_bind, Option.some_bind]
            rw [feed_fail]
            have : ¬ (x :: t <+: c :: s1) := by
              intro hp
              rw [List.cons_prefix_cons] at hp
              exact h hp.1.symm
            simp [this]


theorem str_expr_make_cons_cons (c c1 : Chr) (s : List Chr) :
    str_expr_make (c :: c1 :: s) = str_expr (c :: c1 :: s) := rfl

theorem match_str_expr_make (R : rule_ops Option) (s : List Chr) :
    match_ R (str_expr_make s) = some (if s = [] then [0] else []) := by
  match s with
  | [] => rfl
  | [c] => rfl
  | c :: c1 :: rest => rfl

theorem back_str_expr_make (R : rule_ops Option) (s : List Chr) :
    back R (str_expr_make s) = some [0] := by
  match s with
  | [] => rfl
  | [c] => rfl
  | c :: c1 :: rest => rfl

theorem d_str_expr_make_zero (R : rule_ops Option) (s : List Chr) (hs : ∀ c ∈ s, c ≠ 0) :
    d R (str_expr_make s) 0 = some (if s = [] then eps_expr else fail_expr) := by
  match s with
  | [] => rfl
  | [c] =>
      have hc : c ≠ 0 := hs c (List.mem_cons_self _ _)
      simp [str_expr_make, d, hc]
  | c :: c1 :: rest =>
      have hc : c ≠ 0 := hs c (List.mem_cons_self _ _)
      simp [str_expr_make, d, hc]

theorem recognize_fail (R : rule_ops Option) (t : List Chr) :
    recognize R fail_expr t = some false := by
  simp [recognize, feed_fail, d, match_, empty_set]

theorem recognize_str_expr_make (R : rule_ops Option) (s t : List Chr)
    (hs : ∀ c ∈ s, c ≠ 0) (ht : ∀ c ∈ t, c ≠ 0) :
    recognize R (str_expr_make s) t = some (decide (t = s)) := by
  simp only [recognize, feed_str_expr_make R t s ht]
  by_cases hp : t <+: s
  · obtain ⟨r, rfl⟩ := hp
    have hr : ∀ c ∈ r, c ≠ 0 := fun c hc => hs c (List.mem_append_right _ hc)
    simp only [List.prefix_append, if_true, List.drop_left, Option.bind_eq_bind,
      Option.some_bind, d_str_expr_make_zero R r hr]
    by_cases h : r = []
    · subst h; simp [match_, zero_set]
    · simp [h, match_, empty_set]
  · have hne : t ≠ s := fun e => hp (e ▸ List.prefix_refl _)
    simp [hp, hne, d, match_, empty_set]


theorem map_expr_make_str (R : rule_ops Option) (s : List Chr) :
    map_expr_make R (str_expr_make s) 0 [0] = some (str_expr_make s) := by
  match s with
  | [] => simp [str_expr_make, map_expr_make, back, zero_set, uint_set.max, uint_set.count,
      assert_, get_or_fail, uint_set.app, look_expr_make]
  | [c] => simp [str_expr_make, map_expr_make, back, zero_set, uint_set.max, uint_set.count,
      assert_, get_or_fail]
  | c :: c1 :: rest => simp [str_expr_make, map_expr_make, back, zero_set, uint_set.max,
      uint_set.count, assert_, get_or_fail]

theorem map_expr_make_fail (R : rule_ops Option) :
    map_expr_make R fail_expr 0 [0] = some fail_expr := by
  simp [map_expr_make, back, zero_set, uint_set.max, uint_set.count, assert_, get_or_fail]

theorem update_back_map_str (R : rule_ops Option) (s s1 : List Chr) (inc : Bool) :
    update_back_map R (str_expr_make s) (str_expr_make s1) [0] 0 inc = some ([0], inc) := by
  simp [update_back_map, back_str_expr_make, assert_, get_or_fail, uint_set.empty, uint_set.max]

theorem update_back_map_str_fail (R : rule_ops Option) (s : List Chr) (inc : Bool) :
    update_back_map R (str_expr_make s) fail_expr [0] 0 inc = some ([0], inc) := by
  simp [update_back_map, back_str_expr_make, back, zero_set, assert_, get_or_fail,
    uint_set.empty, uint_set.max]

theorem d_alt_lit (R : rule_ops Option) (c1 : Chr) (s1 s2 : List Chr) (x : Chr) (hx : x ≠ 0) :
    d R (alt_expr (str_expr_make (c1 :: s1)) (str_expr_make s2) [0] [0]) x =
      some (if c1 = x then
          (if s1 = [] then eps_expr
           else match s2 with
             | c2 :: s3 => if c2 = x then alt_expr (str_expr_make s1) (str_expr_make s3) [0] [0]
                           else str_expr_make s1
             | [] => str_expr_make s1)
        else match s2 with
          | c2 :: s3 => if c2 = x then str_expr_make s3 else fail_expr
          | [] => fail_expr) := by
  simp only [d, d_str_expr_make R _ x hx, uint_set.max, List.getLast?_singleton, get_or_fail,
    Option.bind_eq_bind, Option.some_bind, Option.pure_def, Nat.max_self]
  by_cases h1 : c1 = x
  · simp only [h1, if_true, update_back_map_str, match_str_expr_make, Option.some_bind,
      Bool.toNat_false, Nat.add_zero, map_expr_make_str]
    match s2 with
    | [] =>
        simp only [update_back_map_str_fail, expr.type, if_true]
        match s1 with
        | [] => simp [str_expr_make, uint_set.empty]
        | [c] => simp [str_expr_make, uint_set.empty]
        | c :: c3 :: r => simp [str_expr_make, uint_set.empty]
    | c2 :: s3 =>
        by_cases h2 : c2 = x
        · simp only [h2, if_true, update_back_map_str, Option.some_bind]
          match s1, s3 with
          | [], _ => simp [str_expr_make, uint_set.empty]
          | [c], [] => simp [str_expr_make, uint_set.empty, expr.type]
          | [c], [c4] => simp [str_expr_make, uint_set.empty, expr.type]
          | [c], c4 :: c5 :: r2 => simp [str_expr_make, uint_set.empty, expr.type]
          | c :: c3 :: r, [] => simp [str_expr_make, uint_set.empty, expr.type]
          | c :: c3 :: r, [c4] => simp [str_expr_make, uint_set.empty, expr.type]
          | c :: c3 :: r, c4 :: c5 :: r2 => simp [str_expr_make, uint_set.empty, expr.type]
        · simp only [h2, if_false, update_back_map_str_fail, expr.type, if_true]
          match s1 with
          | [] => simp [str_expr_make, uint_set.empty]
          | [c] => simp [str_expr_make, uint_set.empty]
          | c :: c3 :: r => simp [str_expr_make, uint_set.empty]
  · simp only [h1, if_false]
    match s2 with
    | [] => simp [update_back_map_str_fail, map_expr_make_fail]
    | c2 :: s3 =>
        by_cases h2 : c2 = x
        · simp [h2, update_back_map_str, map_expr_make_str]
        · simp [h2, update_back_map_str_fail, map_expr_make_fail]


theorem recognize_cons (R : rule_ops Option) (e : expr) (x : Chr) (t : List Chr) :
    recognize R e (x :: t) = (d R e x).bind (fun e1 => recognize R e1 t) := by
  simp only [recognize, feed, Option.bind_eq_bind, Option.bind_assoc]

theorem recognize_nil (R : rule_ops Option) (e : expr) :
    recognize R e [] =
      (d R e 0).bind (fun e2 => (match_ R e2).bind (fun ms => some (decide (0 ∈ ms)))) := by
  simp only [recognize, feed, Option.bind_eq_bind, Option.pure_def, Option.some_bind]

theorem recognize_alt_lit_nil (R : rule_ops Option) (c1 : Chr) (s1 s2 : List Chr)
    (h1 : c1 ≠ 0) (h2 : ∀ c ∈ s2, c ≠ 0) :
    recognize R (alt_expr (str_expr_make (c1 :: s1)) (str_expr_make s2) [0] [0]) [] =
      some (decide (s2 = [])) := by
  have hd : d R (str_expr_make (c1 :: s1)) 0 = some fail_expr := by
    cases s1 with
    | nil => simp [str_expr_make, d, h1]
    | cons c r => simp [str_expr_make, d, h1]
  simp only [recognize, feed, d, hd, d_str_expr_make_zero R s2 h2, uint_set.max,
    List.getLast?_singleton, get_or_fail, Option.bind_eq_bind, Option.some_bind, Option.pure_def,
    Nat.max_self]
  by_cases h : s2 = []
  · subst h
    simp [update_back_map, back, str_expr_make, zero_set, assert_, get_or_fail, uint_set.empty,
      uint_set.max, map_expr_make, uint_set.count, uint_set.app, look_expr_make, match_]
  · simp [h, update_back_map_str_fail, map_expr_make_fail, match_, empty_set]

theorem recognize_alt_lit (R : rule_ops Option) (t : List Chr) (ht : ∀ c ∈ t, c ≠ 0) :
    ∀ (c1 : Chr) (s1 s2 : List Chr), (∀ c ∈ c1 :: s1, c ≠ 0) → (∀ c ∈ s2, c ≠ 0) →
    recognize R (alt_expr (str_expr_make (c1 :: s1)) (str_expr_make s2) [0] [0]) t =
      some (decide (t = c1 :: s1 ∨ (¬ (c1 :: s1) <+: t ∧ t = s2))) := by
  induction t with
  | nil =>
      intro c1 s1 s2 h1 h2
      rw [recognize_alt_lit_nil R c1 s1 s2 (h1 c1 (List.mem_cons_self _ _)) h2]
      congr 1
      simp [eq_comm]
  | cons x t ih =>
      intro c1 s1 s2 h1 h2
      have hx : x ≠ 0 := ht x (List.mem_cons_self _ _)
      have ht1 : ∀ c ∈ t, c ≠ 0 := fun c hc => ht c (List.mem_cons_of_mem _ hc)
      have hs1 : ∀ c ∈ s1, c ≠ 0 := fun c hc => h1 c (List.mem_cons_of_mem _ hc)
      rw [recognize_cons, d_alt_lit R c1 s1 s2 x hx]
      simp only [Option.some_bind]
      by_cases hc1 : c1 = x
      · simp only [hc1, if_true]
        match s1, hs1 with
        | [], _ =>
            simp only [if_true]
            have := recognize_str_expr_make R [] t (by simp) ht1
            simp only [str_expr_make] at this
            rw [this]
            congr 1
            simp [List.cons_prefix_cons]
        | c3 :: s3, hs3 =>
            simp only [List.cons_ne_nil, if_false]
            match s2, h2 with
            | [], _ =>
                rw [recognize_str_expr_make R _ t hs3 ht1]
                congr 1
                simp
            | c2 :: s4, h4 =>
                have hs4 : ∀ c ∈ s4, c ≠ 0 := fun c hc => h4 c (List.mem_cons_of_mem _ hc)
                by_cases hc2 : c2 = x
                · simp only [hc2, if_true]
                  rw [ih ht1 c3 s3 s4 hs3 hs4]
                  congr 1
                  simp [List.cons_prefix_cons]
                · simp only [hc2, if_false]
                  rw [recognize_str_expr_make R _ t hs3 ht1]
                  congr 1
                  have : ¬ x = c2 := fun e => hc2 e.symm
                  simp [this]
      · simp only [hc1, if_false]
        have hne : ¬ x = c1 := fun e => hc1 e.symm
        match s2, h2 with
        | [], _ =>
            simp only [recognize_fail]
            congr 1
            simp [hne]
        | c2 :: s4, h4 =>
            have hs4 : ∀ c ∈ s4, c ≠ 0 := fun c hc => h4 c (List.mem_cons_of_mem _ hc)
            by_cases hc2 : c2 = x
            · simp only [hc2, if_true]
              rw [recognize_str_expr_make R _ t hs4 ht1]
              congr 1
              simp [hne, List.cons_prefix_cons, hc1]
            · simp only [hc2, if_false, recognize_fail]
              congr 1
              have : ¬ x = c2 := fun e => hc2 e.symm
              simp [hne, this]

theorem alt_expr_make_lit (R : rule_ops Option) (s1 s2 : List Chr) :
    alt_expr_make R (str_expr_make s1) (str_expr_make s2) =
      some (if s1 = [] then eps_expr
            else alt_expr (str_expr_make s1) (str_expr_make s2) [0] [0]) := by
  have hty : ((str_expr_make s2).type = expr_type.fail_type) = False := by
    match s2 with
    | [] => simp [str_expr_make, expr.type]
    | [c] => simp [str_expr_make, expr.type]
    | c :: c1 :: r => simp [str_expr_make, expr.type]
  have hdb : ∀ s, default_back_map R (str_expr_make s) = some [0] := by
    intro s
    simp [default_back_map, back_str_expr_make, assert_, get_or_fail, uint_set.empty,
      uint_set.max, zero_set]
  have hb := hdb s2
  generalize str_expr_make s2 = b at hty hb ⊢
  match s1 with
  | [] => simp [str_expr_make, alt_expr_make, match_, zero_set, uint_set.empty]
  | [c] =>
      have := hdb [c]
      simp only [str_expr_make] at this
      simp [str_expr_make, alt_expr_make, match_, empty_set, uint_set.empty, hty, hb, this]
  | c :: c1 :: r =>
      have := hdb (c :: c1 :: r)
      simp only [str_expr_make] at this
      simp [str_expr_make, alt_expr_make, match_, empty_set, uint_set.empty, hty, hb, this]

theorem not_expr_make_str (R : rule_ops Option) (s : List Chr) :
    not_expr_make R (str_expr_make s) =
      some (if s = [] then fail_expr else not_expr (str_expr_make s)) := by
  match s with
  | [] => simp [str_expr_make, not_expr_make, match_, zero_set, uint_set.empty]
  | [c] => simp [str_expr_make, not_expr_make, match_, empty_set, uint_set.empty]
  | c :: c1 :: r => simp [str_expr_make, not_expr_make, match_, empty_set, uint_set.empty]

theorem d_not_lit (R : rule_ops Option) (c : Chr) (a1 : List Chr) (x : Chr) (hx : x ≠ 0) :
    d R (not_expr (str_expr_make (c :: a1))) x =
      some (if c = x then (if a1 = [] then fail_expr else not_expr (str_expr_make a1))
            else look_expr 1) := by
  simp only [d, d_str_expr_make R _ x hx, Option.bind_eq_bind, Option.some_bind]
  by_cases h : c = x
  · simp only [h, if_true, not_expr_make_str]
  · simp [h, not_expr_make, look_expr_make]

theorem d_seq_not_lit (R : rule_ops Option) (c : Chr) (a1 : List Chr) (F : look_list) (gm : Nat)
    (x : Chr) (hx : x ≠ 0) :
    d R (seq_expr (not_expr (str_expr_make (c :: a1))) fail_expr F fail_expr [0] gm) x =
      if c = x then
        (if a1 = [] then some fail_expr
         else (d_bs R F x gm [1] [] false).bind (fun r =>
           (add_new_follower R fail_expr gm r.1 r.2.1 r.2.2.1 r.2.2.2).bind (fun q =>
             some (seq_expr (not_expr (str_expr_make a1)) fail_expr q.1 fail_expr [0]
               (gm + q.2.toNat)))))
      else d_look R F x gm 1 := by
  rw [d]
  simp only [d_not_lit R c a1 x hx, Option.bind_eq_bind, Option.some_bind]
  by_cases h : c = x
  · simp only [h, if_true]
    by_cases h1 : a1 = []
    · simp [h1, match_, empty_set, d, update_back_map, back, zero_set, assert_, get_or_fail,
        uint_set.empty, uint_set.max, expr.type, map_expr_make, uint_set.count]
    · simp [h1, match_, empty_set, d, update_back_map, back, zero_set, assert_, get_or_fail,
        uint_set.empty, uint_set.max, expr.type, one_set]
  · simp [h]


theorem d_seq_not_lit_zero (R : rule_ops Option) (c : Chr) (a1 : List Chr) (F : look_list)
    (gm : Nat) (hc : c ≠ 0) :
    d R (seq_expr (not_expr (str_expr_make (c :: a1))) fail_expr F fail_expr [0] gm) 0 =
      d_look R F 0 gm 1 := by
  have hd : d R (str_expr_make (c :: a1)) 0 = some fail_expr := by
    cases a1 with
    | nil => simp [str_expr_make, d, hc]
    | cons c r => simp [str_expr_make, d, hc]
  rw [d]
  simp [d, hd, not_expr_make, look_expr_make]

theorem d_seq_dead (R : rule_ops Option) (c : Chr) (a1 : List Chr) (gm : Nat)
    (x : Chr) (hx : x ≠ 0) :
    d R (seq_expr (not_expr (str_expr_make (c :: a1))) fail_expr look_list.nil fail_expr [0] gm) x =
      some (if c = x then
          (if a1 = [] then fail_expr
           else seq_expr (not_expr (str_expr_make a1)) fail_expr look_list.nil fail_expr [0] gm)
        else fail_expr) := by
  rw [d_seq_not_lit R c a1 _ gm x hx]
  by_cases h : c = x
  · by_cases h1 : a1 = []
    · simp [h, h1]
    · simp [h, h1, d_bs, add_new_follower, expr.type, assert_]
  · simp [h, d_look]

theorem d_seq_matched (R : rule_ops Option) (c : Chr) (a1 : List Chr)
    (x : Chr) (hx : x ≠ 0) :
    d R (seq_expr (not_expr (str_expr_make (c :: a1))) fail_expr
        (look_list.cons 1 [0] eps_expr false 1 look_list.nil) fail_expr [0] 1) x =
      some (if c = x then
          (if a1 = [] then fail_expr
           else seq_expr (not_expr (str_expr_make a1)) fail_expr look_list.nil fail_expr [0] 1)
        else fail_expr) := by
  rw [d_seq_not_lit R c a1 _ 1 x hx]
  by_cases h : c = x
  · by_cases h1 : a1 = []
    · simp [h, h1]
    · simp [h, h1, d_bs, d, hx, keep_follower, add_new_follower, expr.type, assert_]
  · simp [h, d_look, d, hx, expr.type]

theorem d_seq_live (R : rule_ops Option) (c cb : Chr) (a1 b1 : List Chr)
    (x : Chr) (hx : x ≠ 0) :
    d R (seq_expr (not_expr (str_expr_make (c :: a1))) fail_expr
        (look_list.cons 1 [0] (str_expr_make (cb :: b1)) false 0 look_list.nil) fail_expr [0] 0) x =
      some (if c = x then
          (if a1 = [] then fail_expr
           else if cb = x then
             (if b1 = [] then
                seq_expr (not_expr (str_expr_make a1)) fail_expr
                  (look_list.cons 1 [0] eps_expr false 1 look_list.nil) fail_expr [0] 1
              else
                seq_expr (not_expr (str_expr_make a1)) fail_expr
                  (look_list.cons 1 [0] (str_expr_make b1) false 0 look_list.nil) fail_expr [0] 0)
           else seq_expr (not_expr (str_expr_make a1)) fail_expr look_list.nil fail_expr [0] 0)
        else (if cb = x then str_expr_make b1 else fail_expr)) := by
  rw [d_seq_not_lit R c a1 _ 0 x hx]
  have hty : ∀ s : List Chr, ((str_expr_make s).type = expr_type.fail_type) = False := by
    intro s
    match s with
    | [] => simp [str_expr_make, expr.type]
    | [c] => simp [str_expr_make, expr.type]
    | c :: c1 :: r => simp [str_expr_make, expr.type]
  by_cases h : c = x
  · by_cases h1 : a1 = []
    · simp [h, h1]
    · by_cases h2 : cb = x
      · by_cases h3 : b1 = []
        · subst h3
          have he : str_expr_make ([] : List Chr) = eps_expr := rfl
          have hu := update_back_map_str R [x] [] false
          rw [he] at hu
          simp [h, h1, h2, d_bs, d_str_expr_make R _ x hx, keep_follower, hu, he, expr.type,
            match_, zero_set, uint_set.empty, add_new_follower]
        · simp [h, h1, h2, h3, d_bs, d_str_expr_make R _ x hx, keep_follower, hty,
            update_back_map_str, match_str_expr_make, uint_set.empty, add_new_follower]
      · simp [h, h1, h2, d_bs, d_str_expr_make R _ x hx, keep_follower, expr.type,
          add_new_follower]
  · by_cases h2 : cb = x
    · simp [h, h2, d_look, d_str_expr_make R _ x hx, hty, update_back_map_str,
        map_expr_make_str]
    · simp [h, h2, d_look, d_str_expr_make R _ x hx, expr.type]


theorem recognize_seq_dead (R : rule_ops Option) (t : List Chr) (ht : ∀ c ∈ t, c ≠ 0) :
    ∀ (c : Chr) (a1 : List Chr) (gm : Nat), (∀ k ∈ c :: a1, k ≠ 0) →
    recognize R (seq_expr (not_expr (str_expr_make (c :: a1))) fail_expr look_list.nil
      fail_expr [0] gm) t = some false := by
  induction t with
  | nil =>
      intro c a1 gm ha
      have hc : c ≠ 0 := ha c (List.mem_cons_self _ _)
      rw [recognize_nil, d_seq_not_lit_zero R c a1 _ gm hc]
      simp [d_look, match_, empty_set]
  | cons x t ih =>
      intro c a1 gm ha
      have hx : x ≠ 0 := ht x (List.mem_cons_self _ _)
      have ht1 : ∀ c ∈ t, c ≠ 0 := fun c hc => ht c (List.mem_cons_of_mem _ hc)
      rw [recognize_cons, d_seq_dead R c a1 gm x hx, Option.some_bind]
      by_cases h : c = x
      · match a1, ha with
        | [], _ => simp [h, recognize_fail]
        | c2 :: a2, ha2 =>
            simp only [h, if_true, List.cons_ne_nil, if_false]
            exact ih ht1 c2 a2 gm (fun k hk => ha2 k (List.mem_cons_of_mem _ hk))
      · simp [h, recognize_fail]

theorem recognize_seq_matched (R : rule_ops Option) (t : List Chr) (ht : ∀ c ∈ t, c ≠ 0)
    (c : Chr) (a1 : List Chr) (ha : ∀ k ∈ c :: a1, k ≠ 0) :
    recognize R (seq_expr (not_expr (str_expr_make (c :: a1))) fail_expr
      (look_list.cons 1 [0] eps_expr false 1 look_list.nil) fail_expr [0] 1) t =
      some (decide (t = [])) := by
  have hc : c ≠ 0 := ha c (List.mem_cons_self _ _)
  match t, ht with
  | [], _ =>
      rw [recognize_nil, d_seq_not_lit_zero R c a1 _ 1 hc]
      simp [d_look, d, expr.type,
        update_back_map, back, zero_set, assert_, get_or_fail, uint_set.empty, uint_set.max,
        map_expr_make, uint_set.count, uint_set.app, look_expr_make, match_]
  | x :: t1, ht =>
      have hx : x ≠ 0 := ht x (List.mem_cons_self _ _)
      have ht1 : ∀ c ∈ t1, c ≠ 0 := fun c hc => ht c (List.mem_cons_of_mem _ hc)
      rw [recognize_cons, d_seq_matched R c a1 x hx, Option.some_bind]
      by_cases h : c = x
      · match a1, ha with
        | [], _ => simp [h, recognize_fail]
        | c2 :: a2, ha2 =>
            simp only [h, if_true, List.cons_ne_nil, if_false]
            rw [recognize_seq_dead R t1 ht1 c2 a2 1 (fun k hk => ha2 k (List.mem_cons_of_mem _ hk))]
            simp
      · simp [h, recognize_fail]

theorem recognize_seq_live (R : rule_ops Option) (t : List Chr) (ht : ∀ c ∈ t, c ≠ 0) :
    ∀ (c cb : Chr) (a1 b1 : List Chr), (∀ k ∈ c :: a1, k ≠ 0) → (∀ k ∈ cb :: b1, k ≠ 0) →
    recognize R (seq_expr (not_expr (str_expr_make (c :: a1))) fail_expr
      (look_list.cons 1 [0] (str_expr_make (cb :: b1)) false 0 look_list.nil) fail_expr [0] 0) t =
      some (decide (¬ (c :: a1) <+: t ∧ t = cb :: b1)) := by
  induction t with
  | nil =>
      intro c cb a1 b1 ha hb
      have hc : c ≠ 0 := ha c (List.mem_cons_self _ _)
      have hcb : cb ≠ 0 := hb cb (List.mem_cons_self _ _)
      have hd : d R (str_expr_make (cb :: b1)) 0 = some fail_expr := by
        cases b1 with
        | nil => simp [str_expr_make, d, hcb]
        | cons c r => simp [str_expr_make, d, hcb]
      rw [recognize_nil, d_seq_not_lit_zero R c a1 _ 0 hc]
      simp [d_look, hd, expr.type, match_, empty_set]
  | cons x t ih =>
      intro c cb a1 b1 ha hb
      have hx : x ≠ 0 := ht x (List.mem_cons_self _ _)
      have ht1 : ∀ c ∈ t, c ≠ 0 := fun c hc => ht c (List.mem_cons_of_mem _ hc)
      have hb1 : ∀ k ∈ b1, k ≠ 0 := fun k hk => hb k (List.mem_cons_of_mem _ hk)
      rw [recognize_cons, d_seq_live R c cb a1 b1 x hx, Option.some_bind]
      by_cases h : c = x
      · simp only [h, if_true]
        match a1, ha with
        | [], _ =>
            simp only [if_true, recognize_fail]
            congr 1
            simp [List.cons_prefix_cons]
        | c2 :: a2, ha2 =>
            have ha3 : ∀ k ∈ c2 :: a2, k ≠ 0 := fun k hk => ha2 k (List.mem_cons_of_mem _ hk)
            simp only [List.cons_ne_nil, if_false]
            by_cases h2 : cb = x
            · simp only [h2, if_true]
              match b1, hb1 with
              | [], _ =>
                  simp only [if_true]
                  rw [recognize_seq_matched R t ht1 c2 a2 ha3]
                  congr 1
                  simp only [List.cons_prefix_cons, true_and, List.cons.injEq]
                  by_cases e : t = []
                  · subst e; simp
                  · simp [e]
              | c3 :: b3, hb3 =>
                  simp only [List.cons_ne_nil, if_false]
                  rw [ih ht1 c2 c3 a2 b3 ha3 hb3]
                  congr 1
                  simp [List.cons_prefix_cons]
            · simp only [h2, if_false]
              rw [recognize_seq_dead R t ht1 c2 a2 0 ha3]
              congr 1
              have : ¬ x = cb := fun e => h2 e.symm
              simp [this]
      · simp only [h, if_false]
        have hne : ¬ x = c := fun e => h e.symm
        by_cases h2 : cb = x
        · simp only [h2, if_true]
          rw [recognize_str_expr_make R _ t hb1 ht1]
          congr 1
          simp [List.cons_prefix_cons, h]
        · simp only [h2, if_false, recognize_fail]
          congr 1
          have : ¬ x = cb := fun e => h2 e.symm
          simp [this]

theorem recognize_look_one (R : rule_ops Option) (t : List Chr) (ht : ∀ c ∈ t, c ≠ 0) :
    recognize R (look_expr 1) t = some false := by
  match t, ht with
  | [], _ => simp [recognize_nil, d, look_expr_make, match_]
  | x :: t1, ht =>
      have hx : x ≠ 0 := ht x (List.mem_cons_self _ _)
      rw [recognize_cons]
      simp [d, hx, recognize_fail]

theorem recognize_not_lit (R : rule_ops Option) (t : List Chr) (ht : ∀ c ∈ t, c ≠ 0) :
    ∀ (c : Chr) (a1 : List Chr), (∀ k ∈ c :: a1, k ≠ 0) →
    recognize R (not_expr (str_expr_make (c :: a1))) t = some false := by
  induction t with
  | nil =>
      intro c a1 ha
      have hc : c ≠ 0 := ha c (List.mem_cons_self _ _)
      have hd : d R (str_expr_make (c :: a1)) 0 = some fail_expr := by
        cases a1 with
        | nil => simp [str_expr_make, d, hc]
        | cons c r => simp [str_expr_make, d, hc]
      rw [recognize_nil]
      simp [d, hd, not_expr_make, look_expr_make, match_]
  | cons x t ih =>
      intro c a1 ha
      have hx : x ≠ 0 := ht x (List.mem_cons_self _ _)
      have ht1 : ∀ c ∈ t, c ≠ 0 := fun c hc => ht c (List.mem_cons_of_mem _ hc)
      rw [recognize_cons, d_not_lit R c a1 x hx, Option.some_bind]
      by_cases h : c = x
      · match a1, ha with
        | [], _ => simp [h, recognize_fail]
        | c2 :: a2, ha2 =>
            simp only [h, if_true, List.cons_ne_nil, if_false]
            exact ih ht1 c2 a2 (fun k hk => ha2 k (List.mem_cons_of_mem _ hk))
      · simp only [h, if_false]
        exact recognize_look_one R t ht1

theorem seq_expr_make_not_lit (R : rule_ops Option) (c cb : Chr) (a1 b1 : List Chr) :
    seq_expr_make R (not_expr (str_expr_make (c :: a1))) (str_expr_make (cb :: b1)) =
      some (seq_expr (not_expr (str_expr_make (c :: a1))) fail_expr
        (look_list.cons 1 [0] (str_expr_make (cb :: b1)) false 0 look_list.nil) fail_expr [0] 0) := by
  have hdb : default_back_map R (str_expr_make (cb :: b1)) = some [0] := by
    simp [default_back_map, back_str_expr_make, assert_, get_or_fail, uint_set.empty,
      uint_set.max, zero_set]
  have hm := match_str_expr_make R (cb :: b1)
  have hbk := back_str_expr_make R (cb :: b1)
  cases b1 with
  | nil =>
      simp only [str_expr_make] at hdb hm hbk ⊢
      simp [seq_expr_make, seq_expr_build, back, one_set, assert_, get_or_fail, uint_set.empty,
        uint_set.min, uint_set.max, match_, empty_set, hdb, zero_set]
  | cons c2 b2 =>
      simp only [str_expr_make] at hdb hm hbk ⊢
      simp [seq_expr_make, seq_expr_build, back, one_set, assert_, get_or_fail, uint_set.empty,
        uint_set.min, uint_set.max, match_, empty_set, hdb, zero_set]

theorem recognize_alt_expr_make_lit (R : rule_ops Option) (s1 s2 t : List Chr)
    (h1 : ∀ c ∈ s1, c ≠ 0) (h2 : ∀ c ∈ s2, c ≠ 0) (ht : ∀ c ∈ t, c ≠ 0) :
    (alt_expr_make R (str_expr_make s1) (str_expr_make s2)).bind (fun e => recognize R e t) =
      some (decide (t = s1 ∨ (¬ s1 <+: t ∧ t = s2))) := by
  rw [alt_expr_make_lit]
  match s1, h1 with
  | [], _ =>
      simp only [if_true, Option.some_bind]
      have := recognize_str_expr_make R [] t (by simp) ht
      simp only [str_expr_make] at this
      rw [this]
      congr 1
      simp
  | c1 :: s3, h3 =>
      simp only [List.cons_ne_nil, if_false, Option.some_bind]
      exact recognize_alt_lit R t ht c1 s3 s2 h3 h2


theorem recognize_seq_not_lit (R : rule_ops Option) (a b t : List Chr)
    (ha : ∀ c ∈ a, c ≠ 0) (hb : ∀ c ∈ b, c ≠ 0) (ht : ∀ c ∈ t, c ≠ 0) :
    ((not_expr_make R (str_expr_make a)).bind (fun n =>
      (seq_expr_make R n (str_expr_make b)).bind (fun e => recognize R e t))) =
      some (decide (b ≠ [] ∧ ¬ a <+: t ∧ t = b)) := by
  rw [not_expr_make_str]
  match a, ha, b, hb with
  | [], _, b, _ =>
      have : seq_expr_make R fail_expr (str_expr_make b) = some fail_expr := by
        match b with
        | [] => rfl
        | [c] => rfl
        | c :: c1 :: r => rfl
      simp [this, recognize_fail]
  | c :: a1, ha, [], _ =>
      simp only [List.cons_ne_nil, if_false, Option.some_bind, ne_eq, not_true_eq_false,
        false_and, decide_False]
      have : seq_expr_make R (not_expr (str_expr_make (c :: a1))) (str_expr_make []) =
          some (not_expr (str_expr_make (c :: a1))) := rfl
      rw [this, Option.some_bind]
      exact recognize_not_lit R t ht c a1 ha
  | c :: a1, ha, cb :: b1, hb =>
      simp only [List.cons_ne_nil, if_false, Option.some_bind, seq_expr_make_not_lit,
        ne_eq, not_false_eq_true, true_and]
      exact recognize_seq_live R t ht c cb a1 b1 ha hb


theorem nul_free_of_not_mem (s : List Chr) (h : (0 : Chr) ∉ s) : ∀ c ∈ s, c ≠ 0 :=
  fun _ hc e => h (e ▸ hc)

/-! ### The claims on engine A -/

/-- C1 (failing input): derivative soundness does not hold in `derivs.hpp`.
The parsing expression `(("ab" / ε) "a") / "ab"` matches the input `ab`,
consuming all of it, by its second alternative (the first fails: after `ab`
no `a` follows).  In the expression built for it by the smart constructors,
the derivative by `a` keeps the first alternative only, as the node
SEQ(CHAR b, CHAR a, [], EPS, {0}, 0) whose match set is {0}; the derivative by
`b` is then CHAR a, and after the end-of-input sentinel the match set does not
contain generation 0. -/
theorem C1_soundness_fails_at_ab (R : rule_ops Option) :
    peg.accepts choice_after_tentative_match [97, 98] = true ∧
    (build R choice_after_tentative_match).bind (fun e => d R e 97) =
      some (seq_expr (char_expr 98) (char_expr 97) look_list.nil eps_expr [0] 0) ∧
    match_ R (seq_expr (char_expr 98) (char_expr 97) look_list.nil eps_expr [0] 0) = some [0] ∧
    (build R choice_after_tentative_match).bind (fun e => feed R e [97, 98]) =
      some (char_expr 97) ∧
    (build R choice_after_tentative_match).bind (fun e => recognize R e [97, 98]) =
      some false :=
  ⟨by decide, rfl, rfl, rfl, rfl⟩

/-- C2: for NUL-free byte strings `s1`, `s2` and a NUL-free input `t`, the
recognition of `t` by `alt_expr::make(str_expr::make(s1), str_expr::make(s2))`
reports matched exactly when `t = s1`, or `s1` is not a prefix of `t` and
`t = s2`. -/
theorem C2_ordered_choice_over_literals (R : rule_ops Option) (s1 s2 t : List Chr)
    (h1 : (0 : Chr) ∉ s1) (h2 : (0 : Chr) ∉ s2) (ht : (0 : Chr) ∉ t) :
    (alt_expr_make R (str_expr_make s1) (str_expr_make s2)).bind (fun e => recognize R e t) =
      some (decide (t = s1 ∨ (¬ s1 <+: t ∧ t = s2))) :=
  recognize_alt_expr_make_lit R s1 s2 t (nul_free_of_not_mem s1 h1) (nul_free_of_not_mem s2 h2)
    (nul_free_of_not_mem t ht)

/-- Witness of C2: with `s1 = "ab"` and `s2 = "ac"` the input `ac` is matched. -/
theorem C2_ordered_choice_witness :
    (0 : Chr) ∉ [97, 98] ∧ (0 : Chr) ∉ [97, 99] ∧ (0 : Chr) ∉ [97, 99] ∧
    (alt_expr_make no_rules (str_expr_make [97, 98]) (str_expr_make [97, 99])).bind
      (fun e => recognize no_rules e [97, 99]) = some true :=
  ⟨by decide, by decide, by decide,
    (C2_ordered_choice_over_literals no_rules [97, 98] [97, 99] [97, 99]
      (by decide) (by decide) (by decide)).trans (by decide)⟩

/-- C3 (counterexample): with `a = "a"` and the empty literal `b`, the empty
input is not recognized by `seq_expr::make(not_expr::make(a), b)`, although
`a` is not a prefix of it and it equals `b`. -/
theorem C3_empty_follower_not_matched :
    ¬ ((not_expr_make no_rules (str_expr_make [97])).bind (fun n =>
        (seq_expr_make no_rules n (str_expr_make [])).bind (fun e => recognize no_rules e [])) =
      some (decide (¬ ([97] : List Chr) <+: [] ∧ ([] : List Chr) = []))) := by
  decide

/-- C3 (amended): for NUL-free byte strings `a`, `b` and a NUL-free input `t`,
the recognition of `t` by `seq_expr::make(not_expr::make(str_expr::make(a)),
str_expr::make(b))` reports matched exactly when `b` is not empty, `a` is not
a prefix of `t` and `t = b`. -/
theorem C3_negative_lookahead_over_literals (R : rule_ops Option) (a b t : List Chr)
    (ha : (0 : Chr) ∉ a) (hb : (0 : Chr) ∉ b) (ht : (0 : Chr) ∉ t) :
    ((not_expr_make R (str_expr_make a)).bind (fun n =>
      (seq_expr_make R n (str_expr_make b)).bind (fun e => recognize R e t))) =
      some (decide (b ≠ [] ∧ ¬ a <+: t ∧ t = b)) :=
  recognize_seq_not_lit R a b t (nul_free_of_not_mem a ha) (nul_free_of_not_mem b hb)
    (nul_free_of_not_mem t ht)

/-- Witness of C3 (amended): with `a = "a"` and `b = "b"` the input `b` is
matched. -/
theorem C3_negative_lookahead_witness :
    (0 : Chr) ∉ [97] ∧ (0 : Chr) ∉ [98] ∧ (0 : Chr) ∉ [98] ∧
    ((not_expr_make no_rules (str_expr_make [97])).bind (fun n =>
      (seq_expr_make no_rules n (str_expr_make [98])).bind (fun e =>
        recognize no_rules e [98]))) = some true :=
  ⟨by decide, by decide, by decide,
    (C3_negative_lookahead_over_literals no_rules [97] [98] [98]
      (by decide) (by decide) (by decide)).trans (by decide)⟩

/-- C4: for byte strings `s` and `t`, `t` NUL-free, the derivatives of
`str_expr::make(s)` by the bytes of `t`, in order, give `str_expr::make(s1)`
when `s = t ++ s1` (EPS when `t = s`, CHAR for one byte left, STR for more) and
FAIL when `t` is not a prefix of `s`. -/
theorem C4_string_literals (R : rule_ops Option) (s t : List Chr) (ht : (0 : Chr) ∉ t) :
    (∀ s1, s = t ++ s1 → feed R (str_expr_make s) t = some (str_expr_make s1)) ∧
    (¬ t <+: s → feed R (str_expr_make s) t = some fail_expr) ∧
    (t = s → feed R (str_expr_make s) t = some eps_expr) ∧
    (∀ c, s = t ++ [c] → feed R (str_expr_make s) t = some (char_expr c)) ∧
    (∀ c c1 r, s = t ++ c :: c1 :: r → feed R (str_expr_make s) t = some (str_expr (c :: c1 :: r))) := by
  have key := feed_str_expr_make R t s (nul_free_of_not_mem t ht)
  have h1 : ∀ s1, s = t ++ s1 → feed R (str_expr_make s) t = some (str_expr_make s1) := by
    intro s1 hs
    rw [key, hs]
    simp
  refine ⟨h1, ?_, ?_, ?_, ?_⟩
  · intro hp
    rw [key, if_neg hp]
  · intro e
    exact h1 [] (by simp [e])
  · intro c hs
    exact h1 [c] hs
  · intro c c1 r hs
    exact h1 (c :: c1 :: r) hs

/-- Witness of C4: with `s = "ab"`, the input `ab` ends in EPS, the input `a`
in CHAR('b'), which fails on the sentinel, and the input `abc` in FAIL. -/
theorem C4_string_literals_witness :
    (0 : Chr) ∉ [97, 98] ∧
    feed no_rules (str_expr_make [97, 98]) [97, 98] = some eps_expr ∧
    feed no_rules (str_expr_make [97, 98]) [97] = some (char_expr 98) ∧
    d no_rules (char_expr 98) 0 = some fail_expr ∧
    feed no_rules (str_expr_make [97, 98]) [97, 98, 99] = some fail_expr :=
  ⟨by decide,
    (C4_string_literals no_rules [97, 98] [97, 98] (by decide)).2.2.1 rfl,
    rfl, rfl, rfl⟩

/-- C5 (counterexample): for the grammar `R := R | "a"` the derivative of `R`
by `a` and then by the end-of-input sentinel is an expression whose match set
does not contain 0: the input `a` is not matched. -/
theorem C5_left_recursion_a_not_matched :
    ((recognize (rule_ops_fuel 2) (rule_expr 0) [97]).run left_rec_grammar).map Prod.fst =
      some false := by
  rfl

/-- C5 (amended): for the grammar `R := R | "a"`, with fuel for two nested
entries of the rule, the derivative of `R` by `a` returns INF and leaves INF
as the entry of `R` in the memoization table; the derivative of INF by the
sentinel is INF, whose match set is empty, so the input `a` is not matched;
and the derivative of `R` by the sentinel alone returns INF as well, so the
empty input is not matched. -/
theorem C5_left_recursion_yields_inf (n : Nat) :
    ((d (rule_ops_fuel (n + 2)) (rule_expr 0) 97).run left_rec_grammar).map
        (fun p => (p.1, p.2.memo)) = some (inf_expr, [(0, inf_expr)]) ∧
    ((recognize (rule_ops_fuel (n + 2)) (rule_expr 0) [97]).run left_rec_grammar).map Prod.fst =
      some false ∧
    ((d (rule_ops_fuel (n + 2)) (rule_expr 0) 0).run left_rec_grammar).map
        (fun p => (p.1, p.2.memo)) = some (inf_expr, [(0, inf_expr)]) ∧
    ((recognize (rule_ops_fuel (n + 2)) (rule_expr 0) []).run left_rec_grammar).map Prod.fst =
      some false :=
  ⟨rfl, rfl, rfl, rfl⟩

/-- C10: terminal semantics of engine A.  For every byte `x`: the derivative
of FAIL is FAIL and that of INF is INF; EPS gives EPS on 0 and FAIL otherwise;
LOOK(g), `g ≥ 1`, gives LOOK(g) on 0 and FAIL otherwise; CHAR(c) gives EPS on
`c` and FAIL otherwise; RANGE(b,e) gives EPS when `b ≤ x ≤ e` and FAIL
otherwise; ANY gives FAIL on 0 and EPS otherwise.  The match set is {0} for
EPS, {g} for LOOK(g) and empty for the others; the backtrack set is {g} for
LOOK(g) and {0} for the others. -/
theorem C10_terminal_semantics (R : rule_ops Option) (x c b e : Chr) (g : Nat) (hg : 1 ≤ g) :
    d R fail_expr x = some fail_expr ∧
    d R inf_expr x = some inf_expr ∧
    d R eps_expr x = some (if x = 0 then eps_expr else fail_expr) ∧
    d R (look_expr g) x = some (if x = 0 then look_expr g else fail_expr) ∧
    d R (char_expr c) x = some (if x = c then eps_expr else fail_expr) ∧
    d R (range_expr b e) x = some (if b ≤ x ∧ x ≤ e then eps_expr else fail_expr) ∧
    d R any_expr x = some (if x = 0 then fail_expr else eps_expr) ∧
    match_ R eps_expr = some [0] ∧ match_ R (look_expr g) = some [g] ∧
    match_ R fail_expr = some [] ∧ match_ R inf_expr = some [] ∧
    match_ R (char_expr c) = some [] ∧ match_ R (range_expr b e) = some [] ∧
    match_ R any_expr = some [] ∧
    back R (look_expr g) = some [g] ∧
    back R fail_expr = some [0] ∧ back R inf_expr = some [0] ∧ back R eps_expr = some [0] ∧
    back R (char_expr c) = some [0] ∧ back R (range_expr b e) = some [0] ∧
    back R any_expr = some [0] := by
  have hl : look_expr_make g = look_expr g := by
    unfold look_expr_make
    rw [if_neg (by omega)]
  refine ⟨rfl, rfl, ?_, ?_, ?_, ?_, ?_, rfl, rfl, rfl, rfl, rfl, rfl, rfl, rfl, rfl, rfl, rfl,
    rfl, rfl, rfl⟩
  · simp only [d]
    split <;> rfl
  · simp only [d, hl]
    split <;> rfl
  · simp only [d]
    by_cases h : c = x
    · simp [h]
    · have h2 : ¬ x = c := fun e => h e.symm
      simp [h, h2]
  · simp only [d]
    split <;> rfl
  · simp only [d]
    split <;> rfl

/-- Witness of C10: the terminals at the sentinel 0, with LOOK(1), CHAR(a)
and RANGE(a,z). -/
theorem C10_terminal_semantics_witness :
    1 ≤ 1 ∧ d no_rules (look_expr 1) 0 = some (look_expr 1) ∧
    d no_rules any_expr 0 = some fail_expr ∧ match_ no_rules (look_expr 1) = some [1] :=
  ⟨by decide,
    (C10_terminal_semantics no_rules 0 97 97 122 1 (by decide)).2.2.2.1,
    (C10_terminal_semantics no_rules 0 97 97 122 1 (by decide)).2.2.2.2.2.2.1,
    (C10_terminal_semantics no_rules 0 97 97 122 1 (by decide)).2.2.2.2.2.2.2.2.1⟩

end derivs

namespace dlf

open derivs (Chr)

/-! ### The claims on the recognizer loop -/


theorem match_loop_steps {nt σ : Type} (E : engine nt σ) (input : List Chr) (e : σ) (k : Nat) :
    (match_loop E e input k).steps ≤ k + input.length + 1 ∧
    (match_loop E e input k).steps ≤ k + (input.length - (match_loop E e input k).rest.length) + 1 ∧
    k + (input.length - (match_loop E e input k).rest.length) ≤ (match_loop E e input k).steps ∧
    (match_loop E e input k).rest.length ≤ input.length := by
  induction input generalizing e k with
  | nil => simp [match_loop]
  | cons x rest ih =>
      rcases hp : E.arc_d e x with ⟨m, e1⟩
      have h := ih e1 (k + 1)
      simp only [match_loop, hp]
      cases m
      · by_cases hr : (E.match_reachable e1 && x != 0) = true
        · simp only [hr, if_true, Bool.false_eq_true, if_false, List.length_cons]
          omega
        · simp [hr]
      · simp

theorem match_loop_nul {nt σ : Type} (E : engine nt σ) (input : List Chr) (e : σ) (k : Nat) :
    (match_loop E e input k).result =
      (match_loop E e (input.takeWhile (fun x => x != 0)) k).result := by
  induction input generalizing e k with
  | nil => rfl
  | cons x rest ih =>
      by_cases hx : x = 0
      · subst hx
        simp only [match_loop, List.takeWhile, bne_self_eq_false, Bool.and_false]
        cases (E.arc_d e 0).1 <;> simp
      · have hb : (x != 0) = true := by simpa using hx
        simp only [List.takeWhile, hb, match_loop, Bool.and_true]
        split
        · rfl
        · split
          · exact ih _ _
          · rfl


/-- C6: when the start-rule name is not a key of the nonterminal table,
`dlf::match` returns false, for every input, without reading a byte of the
stream and without taking a derivative. -/
theorem C6_unknown_start_rule {nt σ : Type} (E : engine nt σ) (nts : List (String × nt))
    (input : List Chr) (rule : String) (h : nts.lookup rule = none) :
    match_ E nts input rule = { result := false, rest := input, steps := 0 } := by
  simp only [match_, h]

/-- Witness of C6: the rule `T` is not in a table that holds only `S`. -/
theorem C6_unknown_start_rule_witness :
    [("S", false)].lookup "T" = none ∧
    match_ sample_engine [("S", false)] [97, 98] "T" =
      { result := false, rest := [97, 98], steps := 0 } :=
  ⟨by decide, C6_unknown_start_rule sample_engine [("S", false)] [97, 98] "T" (by decide)⟩

/-- C7: when the nonterminal of the start rule reports `nullable()`,
`dlf::match` returns true, for every input (empty or not), without reading a
byte of the stream and without taking a derivative. -/
theorem C7_nullable_start_rule {nt σ : Type} (E : engine nt σ) (nts : List (String × nt))
    (input : List Chr) (rule : String) (n : nt) (h : nts.lookup rule = some n)
    (hn : E.nullable n = true) :
    match_ E nts input rule = { result := true, rest := input, steps := 0 } := by
  simp only [match_, h, hn, if_true]

/-- Witness of C7: a nullable start rule `S` and the non-empty input `ab`. -/
theorem C7_nullable_start_rule_witness :
    [("S", true)].lookup "S" = some true ∧ sample_engine.nullable true = true ∧
    match_ sample_engine [("S", true)] [97, 98] "S" =
      { result := true, rest := [97, 98], steps := 0 } :=
  ⟨by decide, rfl,
    C7_nullable_start_rule sample_engine [("S", true)] [97, 98] "S" true (by decide) rfl⟩

/-- C8: for every grammar, start rule and input of `n` bytes, `dlf::match`
returns after at most `n + 1` derivative steps; every step but possibly the
last has read one byte of the stream, so the number of steps is the number of
bytes read or one more.  The loop stops at the first derivative that reports
an unrestricted match (with true), at the derivative by the sentinel or by a
NUL byte, and as soon as the match node is not reachable. -/
theorem C8_driver_termination {nt σ : Type} (E : engine nt σ) (nts : List (String × nt))
    (input : List Chr) (rule : String) :
    (match_ E nts input rule).steps ≤ input.length + 1 ∧
    (match_ E nts input rule).rest.length ≤ input.length ∧
    (match_ E nts input rule).steps ≤
      input.length - (match_ E nts input rule).rest.length + 1 ∧
    ((match_ E nts input rule).steps = 0 ∨
      input.length - (match_ E nts input rule).rest.length ≤ (match_ E nts input rule).steps) ∧
    (∀ (e : σ) (k : Nat), match_loop E e [] k =
      { result := (E.arc_d e 0).1, rest := [], steps := k + 1 }) ∧
    (∀ (e : σ) (x : Chr) (rest : List Chr) (k : Nat), (E.arc_d e x).1 = true →
      match_loop E e (x :: rest) k = { result := true, rest := rest, steps := k + 1 }) ∧
    (∀ (e : σ) (x : Chr) (rest : List Chr) (k : Nat), (E.arc_d e x).1 = false →
      (E.match_reachable (E.arc_d e x).2 = false ∨ x = 0) →
      match_loop E e (x :: rest) k = { result := false, rest := rest, steps := k + 1 }) ∧
    (∀ (e : σ) (x : Chr) (rest : List Chr) (k : Nat), (E.arc_d e x).1 = false →
      E.match_reachable (E.arc_d e x).2 = true → x ≠ 0 →
      match_loop E e (x :: rest) k = match_loop E (E.arc_d e x).2 rest (k + 1)) := by
  refine ⟨?_, ?_, ?_, ?_, ?_, ?_, ?_, ?_⟩
  case refine_5 => intro e k; rfl
  case refine_6 =>
    intro e x rest k h
    rcases hp : E.arc_d e x with ⟨m, e1⟩
    rw [hp] at h
    simp only at h
    simp [match_loop, hp, h]
  case refine_7 =>
    intro e x rest k h h2
    rcases hp : E.arc_d e x with ⟨m, e1⟩
    rw [hp] at h h2
    simp only at h h2
    rcases h2 with h2 | h2
    · simp [match_loop, hp, h, h2]
    · subst h2
      simp [match_loop, hp, h]
  case refine_8 =>
    intro e x rest k h h2 h3
    rcases hp : E.arc_d e x with ⟨m, e1⟩
    rw [hp] at h h2
    simp only at h h2
    simp [match_loop, hp, h, h2, h3]
  all_goals
    unfold match_
    cases nts.lookup rule with
    | none => simp
    | some n =>
        by_cases hn : E.nullable n = true
        · simp [hn]
        · simp only [hn, Bool.false_eq_true, if_false]
          have h := match_loop_steps E input (E.matchable n) 0
          omega

/-- C9: `dlf::match` gives the same result on two inputs that have the same
bytes before their first NUL byte (or before their end when they have none). -/
theorem C9_nul_is_end_of_input {nt σ : Type} (E : engine nt σ) (nts : List (String × nt))
    (input1 input2 : List Chr) (rule : String)
    (h : input1.takeWhile (fun x => x != 0) = input2.takeWhile (fun x => x != 0)) :
    (match_ E nts input1 rule).result = (match_ E nts input2 rule).result := by
  unfold match_
  cases nts.lookup rule with
  | none => rfl
  | some n =>
      by_cases hn : E.nullable n = true
      · simp [hn]
      · simp only [hn, Bool.false_eq_true, if_false]
        rw [match_loop_nul E input1, match_loop_nul E input2, h]

/-- Witness of C9: the inputs `a`, NUL, `b` and `a` alone have the same bytes
before their first NUL byte, and both are matched by the sample engine. -/
theorem C9_nul_is_end_of_input_witness :
    ([97, 0, 98] : List Chr).takeWhile (fun x => x != 0) =
      ([97] : List Chr).takeWhile (fun x => x != 0) ∧
    (match_ sample_engine [("S", false)] [97, 0, 98] "S").result =
      (match_ sample_engine [("S", false)] [97] "S").result ∧
    (match_ sample_engine [("S", false)] [97] "S").result = true :=
  ⟨by decide,
    C9_nul_is_end_of_input sample_engine [("S", false)] [97, 0, 98] [97] "S" (by decide),
    by decide⟩

end dlf

namespace derivs

open expr

/-! ### Smart constructors -/

theorem look_expr_make_pos (g : Nat) (hg : 0 < g) : look_expr_make g = look_expr g := by
  unfold look_expr_make
  rw [if_neg (by omega)]

/-- C11: the NOT smart constructor.  `not_expr::make` of `derivs.hpp` and
`not_node::make` of `derivs-mut.cpp` return LOOK(1) for FAIL, INF for INF,
FAIL for an operand with a non-empty match set, and the NOT node over the
operand in every other case; applying the constructor twice to FAIL gives
FAIL and twice to INF gives INF. -/
theorem C11_not_smart_constructor (R : rule_ops Option) (ops : derivs_mut.node_ops) (i : Nat) :
    not_expr_make R fail_expr = some (look_expr 1) ∧
    not_expr_make R inf_expr = some inf_expr ∧
    (∀ e em, e ≠ fail_expr → e ≠ inf_expr → match_ R e = some em → em ≠ [] →
      not_expr_make R e = some fail_expr) ∧
    (∀ e, e ≠ fail_expr → e ≠ inf_expr → match_ R e = some [] →
      not_expr_make R e = some (not_expr e)) ∧
    (not_expr_make R fail_expr).bind (not_expr_make R) = some fail_expr ∧
    (not_expr_make R inf_expr).bind (not_expr_make R) = some inf_expr ∧
    derivs_mut.not_node_make ops .fail_node i = some (.look_node 1) ∧
    derivs_mut.not_node_make ops .inf_node i = some .inf_node ∧
    (∀ s sm, s ≠ .fail_node → s ≠ .inf_node → s.match_ ops i = some sm → sm ≠ [] →
      derivs_mut.not_node_make ops s i = some .fail_node) ∧
    (∀ s, s ≠ .fail_node → s ≠ .inf_node → s.match_ ops i = some [] →
      derivs_mut.not_node_make ops s i = some (.not_node s)) ∧
    (derivs_mut.not_node_make ops .fail_node i).bind (fun n => derivs_mut.not_node_make ops n i) =
      some .fail_node ∧
    (derivs_mut.not_node_make ops .inf_node i).bind (fun n => derivs_mut.not_node_make ops n i) =
      some .inf_node := by
  refine ⟨rfl, rfl, ?_, ?_, rfl, rfl, rfl, rfl, ?_, ?_, rfl, rfl⟩
  · intro e em h1 h2 hm hne
    cases e <;> first | exact absurd rfl h1 | exact absurd rfl h2 |
      (cases em with
       | nil => exact absurd rfl hne
       | cons k t => simp [not_expr_make, hm, uint_set.empty])
  · intro e h1 h2 hm
    cases e <;> first | exact absurd rfl h1 | exact absurd rfl h2 |
      simp [not_expr_make, hm, uint_set.empty]
  · intro s sm h1 h2 hm hne
    cases s <;> first | exact absurd rfl h1 | exact absurd rfl h2 |
      (cases sm with
       | nil => exact absurd rfl hne
       | cons k t => simp [derivs_mut.not_node_make, hm, uint_set.empty])
  · intro s h1 h2 hm
    cases s <;> first | exact absurd rfl h1 | exact absurd rfl h2 |
      simp [derivs_mut.not_node_make, hm, uint_set.empty]



/-- Witness of C11: the operand CHAR(a) has an empty match set and gets a NOT
node; the operand EPS has the match set {0} and gives FAIL. -/
theorem C11_not_smart_constructor_witness :
    not_expr_make no_rules (char_expr 97) = some (not_expr (char_expr 97)) ∧
    not_expr_make no_rules eps_expr = some fail_expr :=
  ⟨(C11_not_smart_constructor no_rules derivs_mut.no_ops 0).2.2.2.1 (char_expr 97)
      (by intro h; cases h) (by intro h; cases h) rfl,
   (C11_not_smart_constructor no_rules derivs_mut.no_ops 0).2.2.1 eps_expr [0]
      (by intro h; cases h) (by intro h; cases h) rfl (by decide)⟩

/-- C12 (counterexample): with the map `{0 ↦ 0, 1 ↦ 2}` of maximum 2,
`map_expr::make` on EPS returns the EPS node, not a LOOK node of generation
`m(0) = 0`: `look_expr::make(0)` is EPS. -/
theorem C12_map_eps_is_not_a_look_node :
    ¬ (map_expr_make no_rules eps_expr 2 [0, 2] = some (look_expr 0)) ∧
    map_expr_make no_rules eps_expr 2 [0, 2] = some eps_expr := by
  refine ⟨?_, rfl⟩
  rw [show map_expr_make no_rules eps_expr 2 [0, 2] = some eps_expr from rfl]
  intro h
  cases h

theorem map_expr_make_cases (R : rule_ops Option)
    (x : expr) (gm : Nat) (eg xb : uint_set) (k : Nat)
    (hb : back R x = some xb) (hk : xb.max = some k) (hlt : k < eg.count) :
    (x = eps_expr → ∀ g, eg.app 0 = some g →
      map_expr_make R x gm eg = some (look_expr_make g) ∧
      (g = 0 → map_expr_make R x gm eg = some eps_expr) ∧
      (0 < g → map_expr_make R x gm eg = some (look_expr g))) ∧
    (∀ b, x = look_expr b → ∀ g, eg.app b = some g →
      map_expr_make R x gm eg = some (look_expr_make g) ∧
      (0 < g → map_expr_make R x gm eg = some (look_expr g))) ∧
    (x = fail_expr ∨ x = inf_expr → map_expr_make R x gm eg = some x) ∧
    (x ≠ eps_expr → (∀ b, x ≠ look_expr b) → x ≠ fail_expr → x ≠ inf_expr →
      (gm + 1 = eg.count → map_expr_make R x gm eg = some x) ∧
      (gm + 1 ≠ eg.count → map_expr_make R x gm eg = some (map_expr x gm eg))) := by
  have hk1 : xb.getLast? = some k := hk
  refine ⟨?_, ?_, ?_, ?_⟩
  · intro hx g hg
    subst hx
    have h : map_expr_make R eps_expr gm eg = some (look_expr_make g) := by
      simp [map_expr_make, hb, hk, hk1, get_or_fail, assert_, hlt, hg]
    refine ⟨h, ?_, ?_⟩
    · intro h0; rw [h, h0]; rfl
    · intro h0; rw [h, look_expr_make_pos g h0]
  · intro b hx g hg
    subst hx
    have h : map_expr_make R (look_expr b) gm eg = some (look_expr_make g) := by
      simp [map_expr_make, hb, hk, hk1, get_or_fail, assert_, hlt, hg, match_, uint_set.max]
    refine ⟨h, ?_⟩
    intro h0; rw [h, look_expr_make_pos g h0]
  · intro hx
    rcases hx with hx | hx <;> subst hx <;>
      simp [map_expr_make, hb, hk, hk1, get_or_fail, assert_, hlt]
  · intro h1 h2 h3 h4
    constructor
    · intro hid
      cases x <;>
        first
          | exact absurd rfl h1
          | exact absurd rfl (h2 _)
          | exact absurd rfl h3
          | exact absurd rfl h4
          | simp [map_expr_make, hb, hk, hk1, get_or_fail, assert_, hlt, hid]
    · intro hid
      cases x <;>
        first
          | exact absurd rfl h1
          | exact absurd rfl (h2 _)
          | exact absurd rfl h3
          | exact absurd rfl h4
          | simp [map_expr_make, hb, hk, hk1, get_or_fail, assert_, hlt, hid]



theorem map_node_make_cases (ops : derivs_mut.node_ops) (s : derivs_mut.node)
    (sg : derivs_mut.gen_map) (gm i : Nat)
    (sb : derivs_mut.gen_set) (k mk mv : Nat) (hb : s.back ops i = some sb) (hk : sb.max = some k)
    (hmk : sg.max_key = some mk) (hle : k ≤ mk) (hmv : sg.max = some mv) (hgm : mv ≤ gm) :
    (s = .eps_node → ∀ g, sg.app 0 = some g →
      derivs_mut.map_node_make ops s sg gm i = some (derivs_mut.look_node_make g)) ∧
    (∀ b, s = .look_node b → ∀ g, sg.app b = some g →
      derivs_mut.map_node_make ops s sg gm i = some (derivs_mut.look_node_make g)) ∧
    (s = .fail_node ∨ s = .inf_node → derivs_mut.map_node_make ops s sg gm i = some s) ∧
    (s ≠ .eps_node → (∀ b, s ≠ .look_node b) → s ≠ .fail_node → s ≠ .inf_node →
      (gm = mk → derivs_mut.map_node_make ops s sg gm i = some s) ∧
      (gm ≠ mk → derivs_mut.map_node_make ops s sg gm i = some (.map_node s sg gm))) := by
  have hne : derivs_mut.gen_map.empty sg = false := by
    cases sg with
    | nil => simp [derivs_mut.gen_map.max_key] at hmk
    | cons p t => rfl
  have hn1 : ¬ mk < k := by omega
  have hn2 : ¬ gm < mv := by omega
  have hk1 : sb.getLast? = some k := hk
  refine ⟨?_, ?_, ?_, ?_⟩
  · intro hx g hg
    subst hx
    simp [derivs_mut.map_node_make, hne, hb, hk, hk1, hmk, hn1, hn2, hmv, hg]
  · intro b hx g hg
    subst hx
    simp [derivs_mut.map_node_make, hne, hb, hk, hk1, hmk, hn1, hn2, hmv, hg,
      derivs_mut.node.match_, uint_set.max]
  · intro hx
    rcases hx with hx | hx <;> subst hx <;>
      simp [derivs_mut.map_node_make, hne, hb, hk, hk1, hmk, hn1, hn2, hmv]
  · intro h1 h2 h3 h4
    constructor
    · intro hid
      subst hid
      cases s <;>
        first
          | exact absurd rfl h1
          | exact absurd rfl (h2 _)
          | exact absurd rfl h3
          | exact absurd rfl h4
          | simp [derivs_mut.map_node_make, hne, hb, hk, hk1, hmk, hn1, hn2, hmv]
    · intro hid
      cases s <;>
        first
          | exact absurd rfl h1
          | exact absurd rfl (h2 _)
          | exact absurd rfl h3
          | exact absurd rfl h4
          | simp [derivs_mut.map_node_make, hne, hb, hk, hk1, hmk, hn1, hn2, hmv, hid]


/-- C12 (amended): the MAP smart constructors.  For a sub-expression `x`
whose greatest backtrack generation is a key of the map, `map_expr::make` of
`derivs.hpp` (identity test `gm + 1 = eg.count()`) and `map_node::make` of
`derivs-mut.cpp` (identity test `gm = sg.max_key()`, with the assertions of
that function as hypotheses) return `look_expr::make(m(0))` when `x` is EPS,
which is the EPS node when `m(0) = 0` and the node LOOK(m(0)) only when
`m(0) > 0`; `look_expr::make(m(g))` when `x` is LOOK(g); `x` itself when `x`
is FAIL or INF; and for every other `x`, `x` itself when the map is the
identity map and the node MAP(x, gm, m) otherwise. -/
theorem C12_map_smart_constructor (R : rule_ops Option)
    (x : expr) (gm : Nat) (eg xb : uint_set) (k : Nat)
    (hb : back R x = some xb) (hk : xb.max = some k) (hlt : k < eg.count)
    (ops : derivs_mut.node_ops) (s : derivs_mut.node) (sg : derivs_mut.gen_map) (gm1 i : Nat)
    (sb : derivs_mut.gen_set) (k1 mk mv : Nat) (hb1 : s.back ops i = some sb)
    (hk1 : sb.max = some k1) (hmk : sg.max_key = some mk) (hle : k1 ≤ mk)
    (hmv : sg.max = some mv) (hgm : mv ≤ gm1) :
    ((x = eps_expr → ∀ g, eg.app 0 = some g →
        map_expr_make R x gm eg = some (look_expr_make g) ∧
        (g = 0 → map_expr_make R x gm eg = some eps_expr) ∧
        (0 < g → map_expr_make R x gm eg = some (look_expr g))) ∧
      (∀ b, x = look_expr b → ∀ g, eg.app b = some g →
        map_expr_make R x gm eg = some (look_expr_make g) ∧
        (0 < g → map_expr_make R x gm eg = some (look_expr g))) ∧
      (x = fail_expr ∨ x = inf_expr → map_expr_make R x gm eg = some x) ∧
      (x ≠ eps_expr → (∀ b, x ≠ look_expr b) → x ≠ fail_expr → x ≠ inf_expr →
        (gm + 1 = eg.count → map_expr_make R x gm eg = some x) ∧
        (gm + 1 ≠ eg.count → map_expr_make R x gm eg = some (map_expr x gm eg)))) ∧
    ((s = .eps_node → ∀ g, sg.app 0 = some g →
        derivs_mut.map_node_make ops s sg gm1 i = some (derivs_mut.look_node_make g)) ∧
      (∀ b, s = .look_node b → ∀ g, sg.app b = some g →
        derivs_mut.map_node_make ops s sg gm1 i = some (derivs_mut.look_node_make g)) ∧
      (s = .fail_node ∨ s = .inf_node → derivs_mut.map_node_make ops s sg gm1 i = some s) ∧
      (s ≠ .eps_node → (∀ b, s ≠ .look_node b) → s ≠ .fail_node → s ≠ .inf_node →
        (gm1 = mk → derivs_mut.map_node_make ops s sg gm1 i = some s) ∧
        (gm1 ≠ mk →
          derivs_mut.map_node_make ops s sg gm1 i = some (.map_node s sg gm1)))) ∧
    derivs_mut.look_node_make 0 = .eps_node ∧
    (∀ g, 0 < g → derivs_mut.look_node_make g = .look_node g) :=
  ⟨map_expr_make_cases R x gm eg xb k hb hk hlt,
   map_node_make_cases ops s sg gm1 i sb k1 mk mv hb1 hk1 hmk hle hmv hgm,
   rfl,
   fun g hg => by
    unfold derivs_mut.look_node_make
    rw [if_neg (by omega)]⟩

/-- Witness of C12 (amended): with the map `{0 ↦ 0, 1 ↦ 2}` of maximum 2,
both constructors return the EPS node on EPS. -/
theorem C12_map_smart_constructor_witness :
    map_expr_make no_rules eps_expr 2 [0, 2] = some eps_expr ∧
    derivs_mut.map_node_make derivs_mut.no_ops .eps_node
      (derivs_mut.gen_map.of_values [0, 2]) 2 0 = some .eps_node :=
  ⟨((C12_map_smart_constructor no_rules eps_expr 2 [0, 2] [0] 0 rfl rfl (by decide)
      derivs_mut.no_ops .eps_node (derivs_mut.gen_map.of_values [0, 2]) 2 0 [0] 0 1 2
      rfl rfl rfl (by decide) rfl (by decide)).1.1 rfl 0 rfl).2.1 rfl,
   (C12_map_smart_constructor no_rules eps_expr 2 [0, 2] [0] 0 rfl rfl (by decide)
      derivs_mut.no_ops .eps_node (derivs_mut.gen_map.of_values [0, 2]) 2 0 [0] 0 1 2
      rfl rfl rfl (by decide) rfl (by decide)).2.1.1 rfl 0 rfl⟩

theorem type_eq_fail_iff (b : expr) : b.type = expr_type.fail_type ↔ b = fail_expr := by
  cases b <;> simp [expr.type]

theorem seq_expr_build_is_seq (R : rule_ops Option) (a b n : expr)
    (h : seq_expr_build R a b = some n) :
    ∃ bn bs gm, n = seq_expr a bn bs fail_expr zero_set gm := by
  simp only [seq_expr_build, Option.bind_eq_bind, Option.bind_eq_some, Option.pure_def,
    Option.some.injEq] at h
  obtain ⟨_, _, _, _, _, _, _, _, p, _, _, _, q, _, hn⟩ := h
  exact ⟨p.1, q.1, q.2, hn.symm⟩

/-- C14: the SEQ smart constructors.  `seq_expr::make` of `derivs.hpp` and
`seq_node::make` of `derivs-mut.cpp` return `a` when `b` is EPS and FAIL when
`b` is FAIL; otherwise `b` when `a` is EPS or LOOK(1), `a` when `a` is FAIL or
INF, and in the remaining cases the SEQ node is built (in `derivs.hpp` a node
SEQ(a, _, _, FAIL, {0}, _); a LOOK of another generation gives FAIL there and
`b` in `derivs-mut.cpp`).  The tests on `b` come first: SEQ(INF, FAIL) is FAIL
and SEQ(FAIL, EPS) is FAIL. -/
theorem C14_seq_smart_constructor (R : rule_ops Option)
    (build : derivs_mut.node → derivs_mut.node → Option derivs_mut.node) (a b : expr)
    (s t : derivs_mut.node) :
    seq_expr_make R a eps_expr = some a ∧
    seq_expr_make R a fail_expr = some fail_expr ∧
    (b ≠ eps_expr → b ≠ fail_expr →
      seq_expr_make R eps_expr b = some b ∧
      seq_expr_make R (look_expr 1) b = some b ∧
      (∀ g, g ≠ 1 → seq_expr_make R (look_expr g) b = some fail_expr) ∧
      seq_expr_make R fail_expr b = some fail_expr ∧
      seq_expr_make R inf_expr b = some inf_expr ∧
      (a ≠ eps_expr → (∀ g, a ≠ look_expr g) → a ≠ fail_expr → a ≠ inf_expr →
        seq_expr_make R a b = seq_expr_build R a b ∧
        ∀ n, seq_expr_make R a b = some n →
          ∃ bn bs gm, n = seq_expr a bn bs fail_expr zero_set gm)) ∧
    seq_expr_make R inf_expr fail_expr = some fail_expr ∧
    seq_expr_make R fail_expr eps_expr = some fail_expr ∧
    derivs_mut.seq_node_make build s .eps_node = some s ∧
    derivs_mut.seq_node_make build s .fail_node = some .fail_node ∧
    (t ≠ .eps_node → t ≠ .fail_node →
      derivs_mut.seq_node_make build .eps_node t = some t ∧
      (∀ g, derivs_mut.seq_node_make build (.look_node g) t = some t) ∧
      derivs_mut.seq_node_make build .fail_node t = some .fail_node ∧
      derivs_mut.seq_node_make build .inf_node t = some .inf_node ∧
      (s ≠ .eps_node → (∀ g, s ≠ .look_node g) → s ≠ .fail_node → s ≠ .inf_node →
        derivs_mut.seq_node_make build s t = build s t)) ∧
    derivs_mut.seq_node_make build .inf_node .fail_node = some .fail_node ∧
    derivs_mut.seq_node_make build .fail_node .eps_node = some .fail_node := by
  refine ⟨rfl, rfl, ?_, rfl, rfl, rfl, rfl, ?_, rfl, rfl⟩
  · intro hb1 hb2
    have hmk : ∀ a1 : expr, seq_expr_make R a1 b =
        (match a1 with
          | eps_expr => some b
          | look_expr g => if g = 1 then some b else some fail_expr
          | fail_expr => some a1
          | inf_expr => some a1
          | _ => seq_expr_build R a1 b) := by
      intro a1
      cases b <;> first | exact absurd rfl hb1 | exact absurd rfl hb2 | rfl
    refine ⟨by rw [hmk], by rw [hmk]; rfl, ?_, by rw [hmk], by rw [hmk], ?_⟩
    · intro g hg
      rw [hmk]
      simp only [hg, if_false]
    intro h1 h2 h3 h4
    have he : seq_expr_make R a b = seq_expr_build R a b := by
      rw [hmk]
      cases a <;>
        first
          | exact absurd rfl h1
          | exact absurd rfl (h2 _)
          | exact absurd rfl h3
          | exact absurd rfl h4
          | rfl
    refine ⟨he, ?_⟩
    intro n hn
    rw [he] at hn
    exact seq_expr_build_is_seq R a b n hn
  · intro hb1 hb2
    have hmk : ∀ a1 : derivs_mut.node, derivs_mut.seq_node_make build a1 t =
        (match a1 with
          | .eps_node => some t
          | .look_node _ => some t
          | .fail_node => some a1
          | .inf_node => some a1
          | _ => build a1 t) := by
      intro a1
      cases t <;> first | exact absurd rfl hb1 | exact absurd rfl hb2 | rfl
    refine ⟨by rw [hmk], fun g => by rw [hmk], by rw [hmk], by rw [hmk], ?_⟩
    intro h1 h2 h3 h4
    rw [hmk]
    cases s <;>
      first
        | exact absurd rfl h1
        | exact absurd rfl (h2 _)
        | exact absurd rfl h3
        | exact absurd rfl h4
        | rfl

/-- Witness of C14: with the follower CHAR(b), the first elements EPS and
LOOK(1) give CHAR(b) and the first element LOOK(2) gives FAIL in
`derivs.hpp`. -/
theorem C14_seq_smart_constructor_witness :
    seq_expr_make no_rules eps_expr (char_expr 98) = some (char_expr 98) ∧
    seq_expr_make no_rules (look_expr 1) (char_expr 98) = some (char_expr 98) ∧
    seq_expr_make no_rules (look_expr 2) (char_expr 98) = some fail_expr :=
  ⟨((C14_seq_smart_constructor no_rules (fun _ _ => none) (char_expr 97) (char_expr 98)
      (.char_node 97) (.char_node 98)).2.2.1 (by intro h; cases h) (by intro h; cases h)).1,
   ((C14_seq_smart_constructor no_rules (fun _ _ => none) (char_expr 97) (char_expr 98)
      (.char_node 97) (.char_node 98)).2.2.1 (by intro h; cases h) (by intro h; cases h)).2.1,
   ((C14_seq_smart_constructor no_rules (fun _ _ => none) (char_expr 97) (char_expr 98)
      (.char_node 97) (.char_node 98)).2.2.1 (by intro h; cases h)
      (by intro h; cases h)).2.2.1 2 (by decide)⟩


/-! ### Generation sets -/

namespace uint_set

theorem mem_ins (v k : Nat) (s : uint_set) : v ∈ ins k s ↔ v = k ∨ v ∈ s := by
  induction s with
  | nil => simp [ins]
  | cons y ys ih =>
      simp only [ins]
      split
      · simp
      · split
        · rename_i h1 h2
          subst h2
          simp
        · simp only [List.mem_cons, ih]
          tauto

theorem ins_ne_nil (k : Nat) (s : uint_set) : ins k s ≠ [] := by
  intro h
  have : k ∈ ins k s := (mem_ins k k s).2 (Or.inl rfl)
  rw [h] at this
  exact absurd this (List.not_mem_nil _)

theorem mem_union (v : Nat) (s t : uint_set) : v ∈ union s t ↔ v ∈ s ∨ v ∈ t := by
  unfold union
  induction t generalizing s with
  | nil => simp
  | cons k t ih =>
      simp only [List.foldl_cons, ih, mem_ins, List.mem_cons]
      tauto

theorem image_nil (eg : uint_set) : image eg [] = some [] := rfl

theorem image_cons (eg : uint_set) (k : Nat) (s : uint_set) :
    image eg (k :: s) = (app eg k).bind (fun v => (image eg s).map (fun r => ins v r)) := rfl

theorem mem_image (eg : uint_set) (s r : uint_set) (h : image eg s = some r) (v : Nat) :
    v ∈ r ↔ ∃ k, k ∈ s ∧ app eg k = some v := by
  induction s generalizing r with
  | nil =>
      rw [image_nil] at h
      cases h
      simp
  | cons k s ih =>
      rw [image_cons] at h
      simp only [Option.bind_eq_some, Option.map_eq_some'] at h
      obtain ⟨w, hw, r1, hr1, rfl⟩ := h
      rw [mem_ins, ih r1 hr1]
      constructor
      · rintro (h | ⟨k1, hk1, hv⟩)
        · exact ⟨k, List.mem_cons_self _ _, h ▸ hw⟩
        · exact ⟨k1, List.mem_cons_of_mem _ hk1, hv⟩
      · rintro ⟨k1, hk1, hv⟩
        rcases List.mem_cons.1 hk1 with h | h
        · subst h
          rw [hw] at hv
          exact Or.inl (Option.some.inj hv).symm
        · exact Or.inr ⟨k1, h, hv⟩

theorem image_subset (eg : uint_set) (s t r q : uint_set) (hs : image eg s = some r)
    (ht : image eg t = some q) (hst : s ⊆ t) : r ⊆ q := by
  intro v hv
  obtain ⟨k, hk, hkv⟩ := (mem_image eg s r hs v).1 hv
  exact (mem_image eg t q ht v).2 ⟨k, hst hk, hkv⟩

theorem image_ne_nil (eg : uint_set) (s r : uint_set) (h : image eg s = some r) (hs : s ≠ []) :
    r ≠ [] := by
  cases s with
  | nil => exact absurd rfl hs
  | cons k s =>
      rw [image_cons] at h
      simp only [Option.bind_eq_some, Option.map_eq_some'] at h
      obtain ⟨w, _, r1, _, rfl⟩ := h
      exact ins_ne_nil _ _

theorem union_ne_nil (s t : uint_set) (hs : s ≠ []) : union s t ≠ [] := by
  cases s with
  | nil => exact absurd rfl hs
  | cons k s =>
      intro h
      have : k ∈ union (k :: s) t := (mem_union k _ t).2 (Or.inl (List.mem_cons_self _ _))
      rw [h] at this
      exact absurd this (List.not_mem_nil _)

theorem ins_sorted (k : Nat) (s : uint_set) (hs : s.Sorted (· < ·)) :
    (ins k s).Sorted (· < ·) := by
  induction s with
  | nil => simp [ins]
  | cons y ys ih =>
      have hy := List.sorted_cons.1 hs
      simp only [ins]
      split
      · rename_i h
        refine List.sorted_cons.2 ⟨?_, hs⟩
        intro b hb
        rcases List.mem_cons.1 hb with hb | hb
        · exact hb ▸ h
        · exact lt_trans h (hy.1 b hb)
      · split
        · exact hs
        · rename_i h1 h2
          refine List.sorted_cons.2 ⟨?_, ih hy.2⟩
          intro b hb
          rcases (mem_ins b k ys).1 hb with hb | hb
          · subst hb; omega
          · exact hy.1 b hb

theorem union_sorted (s t : uint_set) (hs : s.Sorted (· < ·)) : (union s t).Sorted (· < ·) := by
  unfold union
  induction t generalizing s with
  | nil => simpa using hs
  | cons k t ih => exact ih (ins k s) (ins_sorted k s hs)

theorem image_sorted (eg : uint_set) (s r : uint_set) (h : image eg s = some r) :
    r.Sorted (· < ·) := by
  induction s generalizing r with
  | nil =>
      rw [image_nil] at h
      cases h
      exact List.sorted_nil
  | cons k s ih =>
      rw [image_cons] at h
      simp only [Option.bind_eq_some, Option.map_eq_some'] at h
      obtain ⟨w, _, r1, hr1, rfl⟩ := h
      exact ins_sorted _ _ (ih r1 hr1)

theorem le_max_of_sorted (s : uint_set) (hs : s.Sorted (· < ·)) (m : Nat) (hm : max s = some m)
    (v : Nat) (hv : v ∈ s) : v ≤ m := by
  unfold max at hm
  induction s generalizing v with
  | nil => exact absurd hv (List.not_mem_nil _)
  | cons y ys ih =>
      have hy := List.sorted_cons.1 hs
      cases ys with
      | nil =>
          simp at hm hv
          omega
      | cons z zs =>
          rw [List.getLast?_cons_cons] at hm
          rcases List.mem_cons.1 hv with hv | hv
          · subst hv
            have hz : z ∈ z :: zs := List.mem_cons_self _ _
            have := ih hy.2 hm z hz
            have := hy.1 z hz
            omega
          · exact ih hy.2 hm v hv

theorem max_mem (s : uint_set) (m : Nat) (hm : max s = some m) : m ∈ s :=
  List.mem_of_getLast?_eq_some hm

end uint_set


/-! ### Backtrack and match sets -/

theorem add_gl_subset (gl : Nat) (x y : uint_set) (h : x ⊆ y) : add_gl gl x ⊆ add_gl gl y := by
  unfold add_gl
  split
  · intro v hv
    rcases (uint_set.mem_ins v gl x).1 hv with hv | hv
    · exact (uint_set.mem_ins v gl y).2 (Or.inl hv)
    · exact (uint_set.mem_ins v gl y).2 (Or.inr (h hv))
  · exact h

theorem subset_add_gl (gl : Nat) (x : uint_set) : x ⊆ add_gl gl x := by
  unfold add_gl
  split
  · intro v hv
    exact (uint_set.mem_ins v gl x).2 (Or.inr hv)
  · exact fun _ h => h

theorem union_subset_union (x y x1 y1 : uint_set) (hx : x ⊆ x1) (hy : y ⊆ y1) :
    uint_set.union x y ⊆ uint_set.union x1 y1 := by
  intro v hv
  rcases (uint_set.mem_union v x y).1 hv with hv | hv
  · exact (uint_set.mem_union v x1 y1).2 (Or.inl (hx hv))
  · exact (uint_set.mem_union v x1 y1).2 (Or.inr (hy hv))

theorem subset_union_left (x y : uint_set) : x ⊆ uint_set.union x y :=
  fun v hv => (uint_set.mem_union v x y).2 (Or.inl hv)

theorem get_or_fail_eq {α : Type} (o : Option α) : (get_or_fail o : Option α) = o := by
  cases o <;> rfl

theorem back_bs_ne_nil (R : rule_ops Option) :
    ∀ (l : look_list) (x r : uint_set), back_bs R l x = some r → x ≠ [] → r ≠ []
  | look_list.nil, x, r, h, hx => by
      simp only [back_bs, Option.pure_def, Option.some.injEq] at h
      exact h ▸ hx
  | look_list.cons g eg e mb gl tl, x, r, h, hx => by
      simp only [back_bs, Option.bind_eq_bind, Option.bind_eq_some, get_or_fail_eq] at h
      obtain ⟨eb, _, y, _, h⟩ := h
      refine back_bs_ne_nil R tl _ r h ?_
      intro h0
      have h1 := subset_add_gl gl (uint_set.union x y)
      have h2 := uint_set.union_ne_nil x y hx
      rw [h0] at h1
      exact h2 (List.eq_nil_of_subset_nil h1)

theorem back_ne_nil (R : rule_ops Option) (HR : ∀ r s, R.back r = some s → s ≠ []) :
    ∀ (e : expr) (s : uint_set), back R e = some s → s ≠ []
  | fail_expr, s, h => by cases h; simp [zero_set]
  | inf_expr, s, h => by cases h; simp [zero_set]
  | eps_expr, s, h => by cases h; simp [zero_set]
  | look_expr b, s, h => by cases h; simp
  | char_expr _, s, h => by cases h; simp [zero_set]
  | range_expr _ _, s, h => by cases h; simp [zero_set]
  | any_expr, s, h => by cases h; simp [zero_set]
  | str_expr _, s, h => by cases h; simp [zero_set]
  | rule_expr r, s, h => HR r s h
  | not_expr _, s, h => by cases h; simp [one_set]
  | map_expr e gm eg, s, h => by
      simp only [back, Option.bind_eq_bind, Option.bind_eq_some, get_or_fail_eq] at h
      obtain ⟨eb, heb, h⟩ := h
      exact uint_set.image_ne_nil eg eb s h (back_ne_nil R HR e eb heb)
  | alt_expr a b ag bg, s, h => by
      simp only [back, Option.bind_eq_bind, Option.bind_eq_some, get_or_fail_eq,
        Option.pure_def, Option.some.injEq] at h
      obtain ⟨ab, hab, x, hx, bb, hbb, y, hy, rfl⟩ := h
      exact uint_set.union_ne_nil x y (uint_set.image_ne_nil ag ab x hx (back_ne_nil R HR a ab hab))
  | seq_expr a b bs c cg gm, s, h => by
      simp only [back, Option.bind_eq_bind, Option.bind_eq_some, get_or_fail_eq] at h
      obtain ⟨cb, hcb, x, hx, am, ham, h⟩ := h
      have hxne : x ≠ [] := uint_set.image_ne_nil cg cb x hx (back_ne_nil R HR c cb hcb)
      split at h
      · simp only [Option.bind_eq_bind, Option.bind_eq_some, get_or_fail_eq] at h
        obtain ⟨bb, _, g, _, y, _, h⟩ := h
        exact back_bs_ne_nil R bs _ s h (uint_set.union_ne_nil x y hxne)
      · exact back_bs_ne_nil R bs _ s h hxne


theorem back_bs_sorted (R : rule_ops Option) :
    ∀ (l : look_list) (x r : uint_set), back_bs R l x = some r → x.Sorted (· < ·) →
      r.Sorted (· < ·)
  | look_list.nil, x, r, h, hx => by
      simp only [back_bs, Option.pure_def, Option.some.injEq] at h
      exact h ▸ hx
  | look_list.cons g eg e mb gl tl, x, r, h, hx => by
      simp only [back_bs, Option.bind_eq_bind, Option.bind_eq_some, get_or_fail_eq] at h
      obtain ⟨eb, _, y, _, h⟩ := h
      refine back_bs_sorted R tl _ r h ?_
      unfold add_gl
      split
      · exact uint_set.ins_sorted _ _ (uint_set.union_sorted x y hx)
      · exact uint_set.union_sorted x y hx

theorem back_sorted (R : rule_ops Option) (HR : ∀ r s, R.back r = some s → s.Sorted (· < ·)) :
    ∀ (e : expr) (s : uint_set), back R e = some s → s.Sorted (· < ·)
  | fail_expr, s, h => by cases h; simp [zero_set]
  | inf_expr, s, h => by cases h; simp [zero_set]
  | eps_expr, s, h => by cases h; simp [zero_set]
  | look_expr b, s, h => by cases h; simp
  | char_expr _, s, h => by cases h; simp [zero_set]
  | range_expr _ _, s, h => by cases h; simp [zero_set]
  | any_expr, s, h => by cases h; simp [zero_set]
  | str_expr _, s, h => by cases h; simp [zero_set]
  | rule_expr r, s, h => HR r s h
  | not_expr _, s, h => by cases h; simp [one_set]
  | map_expr e gm eg, s, h => by
      simp only [back, Option.bind_eq_bind, Option.bind_eq_some, get_or_fail_eq] at h
      obtain ⟨eb, heb, h⟩ := h
      exact uint_set.image_sorted eg eb s h
  | alt_expr a b ag bg, s, h => by
      simp only [back, Option.bind_eq_bind, Option.bind_eq_some, get_or_fail_eq,
        Option.pure_def, Option.some.injEq] at h
      obtain ⟨ab, hab, x, hx, bb, hbb, y, hy, rfl⟩ := h
      exact uint_set.union_sorted x y (uint_set.image_sorted ag ab x hx)
  | seq_expr a b bs c cg gm, s, h => by
      simp only [back, Option.bind_eq_bind, Option.bind_eq_some, get_or_fail_eq] at h
      obtain ⟨cb, hcb, x, hx, am, ham, h⟩ := h
      have hxs := uint_set.image_sorted cg cb x hx
      split at h
      · simp only [Option.bind_eq_bind, Option.bind_eq_some, get_or_fail_eq] at h
        obtain ⟨bb, _, g, _, y, _, h⟩ := h
        exact back_bs_sorted R bs _ s h (uint_set.union_sorted x y hxs)
      · exact back_bs_sorted R bs _ s h hxs

mutual
theorem match_subset_back (R : rule_ops Option)
    (HR : ∀ r ms bs, R.match_ r = some ms → R.back r = some bs → ms ⊆ bs) :
    ∀ (e : expr) (ms bs : uint_set), match_ R e = some ms → back R e = some bs → ms ⊆ bs
  | fail_expr, ms, bs, hm, hb => by cases hm; simp [empty_set]
  | inf_expr, ms, bs, hm, hb => by cases hm; simp [empty_set]
  | eps_expr, ms, bs, hm, hb => by cases hm; cases hb; simp
  | look_expr b, ms, bs, hm, hb => by cases hm; cases hb; simp
  | char_expr _, ms, bs, hm, hb => by cases hm; simp [empty_set]
  | range_expr _ _, ms, bs, hm, hb => by cases hm; simp [empty_set]
  | any_expr, ms, bs, hm, hb => by cases hm; simp [empty_set]
  | str_expr _, ms, bs, hm, hb => by cases hm; simp [empty_set]
  | rule_expr r, ms, bs, hm, hb => HR r ms bs hm hb
  | not_expr _, ms, bs, hm, hb => by cases hm; simp [empty_set]
  | map_expr e gm eg, ms, bs, hm, hb => by
      simp only [match_, back, Option.bind_eq_bind, Option.bind_eq_some, get_or_fail_eq]
        at hm hb
      obtain ⟨em, hem, hm⟩ := hm
      obtain ⟨eb, heb, hb⟩ := hb
      exact uint_set.image_subset eg em eb ms bs hm hb (match_subset_back R HR e em eb hem heb)
  | alt_expr a b ag bg, ms, bs, hm, hb => by
      simp only [match_, back, Option.bind_eq_bind, Option.bind_eq_some, get_or_fail_eq,
        Option.pure_def, Option.some.injEq] at hm hb
      obtain ⟨am, ham, x, hx, bm, hbm, y, hy, rfl⟩ := hm
      obtain ⟨ab, hab, x1, hx1, bb, hbb, y1, hy1, rfl⟩ := hb
      exact union_subset_union x y x1 y1
        (uint_set.image_subset ag am ab x x1 hx hx1 (match_subset_back R HR a am ab ham hab))
        (uint_set.image_subset bg bm bb y y1 hy hy1 (match_subset_back R HR b bm bb hbm hbb))
  | seq_expr a b l c cg gm, ms, bs, hm, hb => by
      simp only [match_, back, Option.bind_eq_bind, Option.bind_eq_some, get_or_fail_eq]
        at hm hb
      obtain ⟨cm, hcm, x, hx, am, ham, hm⟩ := hm
      obtain ⟨cb, hcb, x1, hx1, am1, ham1, hb⟩ := hb
      have hxx : x ⊆ x1 :=
        uint_set.image_subset cg cm cb x x1 hx hx1 (match_subset_back R HR c cm cb hcm hcb)
      have heq : am1 = am := Option.some.inj (ham1.symm.trans ham)
      subst heq
      split at hm
      · simp only [Option.bind_eq_bind, Option.bind_eq_some, get_or_fail_eq] at hm hb
        obtain ⟨bb, hbb, g, hg, bm, hbm, y, hy, hm⟩ := hm
        obtain ⟨bb1, hbb1, g1, hg1, y1, hy1, hb⟩ := hb
        have h1 : bb1 = bb := Option.some.inj (hbb1.symm.trans hbb)
        subst h1
        have h2 : g1 = g := Option.some.inj (hg1.symm.trans hg)
        subst h2
        exact match_bs_subset_back_bs R HR l _ _ _ ms bs hm hb
          (union_subset_union x y x1 y1 hxx
            (uint_set.image_subset g1 bm bb1 y y1 hy hy1
              (match_subset_back R HR b bm bb1 hbm hbb)))
      · rename_i hne
        split at hb
        · rename_i t
          exact absurd rfl (hne t)
        · exact match_bs_subset_back_bs R HR l _ _ _ ms bs hm hb hxx
theorem match_bs_subset_back_bs (R : rule_ops Option)
    (HR : ∀ r ms bs, R.match_ r = some ms → R.back r = some bs → ms ⊆ bs) :
    ∀ (l : look_list) (ats : List Nat) (x x1 ms bs : uint_set),
      match_bs R l ats x = some ms → back_bs R l x1 = some bs → x ⊆ x1 → ms ⊆ bs
  | look_list.nil, ats, x, x1, ms, bs, hm, hb, hx => by
      simp only [match_bs, back_bs, Option.pure_def, Option.some.injEq] at hm hb
      subst hm; subst hb; exact hx
  | look_list.cons g eg e mb gl tl, ats, x, x1, ms, bs, hm, hb, hx => by
      simp only [back_bs, Option.bind_eq_bind, Option.bind_eq_some, get_or_fail_eq] at hb
      obtain ⟨eb, heb, y1, hy1, hb⟩ := hb
      have hskip : x ⊆ add_gl gl (uint_set.union x1 y1) :=
        fun v hv => subset_add_gl gl _ (subset_union_left x1 y1 (hx hv))
      have hadd : ∀ em y, match_ R e = some em → uint_set.image eg em = some y →
          add_gl gl (uint_set.union x y) ⊆ add_gl gl (uint_set.union x1 y1) := by
        intro em y hem hy
        exact add_gl_subset gl _ _ (union_subset_union x y x1 y1 hx
          (uint_set.image_subset eg em eb y y1 hy hy1 (match_subset_back R HR e em eb hem heb)))
      unfold match_bs at hm
      split at hm
      · simp only [Option.bind_eq_bind, Option.bind_eq_some, get_or_fail_eq] at hm
        obtain ⟨em, hem, y, hy, hm⟩ := hm
        split at hm
        · exact match_bs_subset_back_bs R HR tl _ _ _ ms bs hm hb (hadd em y hem hy)
        · split at hm
          · exact match_bs_subset_back_bs R HR tl _ _ _ ms bs hm hb (hadd em y hem hy)
          · simp only [Option.bind_eq_bind, Option.bind_eq_some] at hm
            obtain ⟨_, _, hm⟩ := hm
            exact match_bs_subset_back_bs R HR tl _ _ _ ms bs hm hb (hadd em y hem hy)
      · split at hm
        · exact match_bs_subset_back_bs R HR tl _ _ _ ms bs hm hb hskip
        · split at hm
          · exact match_bs_subset_back_bs R HR tl _ _ _ ms bs hm hb hskip
          · simp only [Option.bind_eq_bind, Option.bind_eq_some, get_or_fail_eq] at hm
            obtain ⟨em, hem, y, hy, hm⟩ := hm
            exact match_bs_subset_back_bs R HR tl _ _ _ ms bs hm hb (hadd em y hem hy)
end


theorem back_bs_superset (R : rule_ops Option) :
    ∀ (l : look_list) (x r : uint_set), back_bs R l x = some r → x ⊆ r
  | look_list.nil, x, r, h => by
      simp only [back_bs, Option.pure_def, Option.some.injEq] at h
      exact h ▸ (fun _ hv => hv)
  | look_list.cons g eg e mb gl tl, x, r, h => by
      simp only [back_bs, Option.bind_eq_bind, Option.bind_eq_some, get_or_fail_eq] at h
      obtain ⟨eb, _, y, _, h⟩ := h
      intro v hv
      exact back_bs_superset R tl _ r h (subset_add_gl gl _ (subset_union_left x y hv))

theorem zero_mem_image (eg s r : uint_set) (h : uint_set.image eg s = some r) (h0 : 0 ∈ s)
    (hg : eg.app 0 = some 0) : 0 ∈ r :=
  (uint_set.mem_image eg s r h 0).2 ⟨0, h0, hg⟩

theorem zero_mem_back_map (R : rule_ops Option) (e : expr) (gm : Nat) (eg eb s : uint_set)
    (he : back R e = some eb) (h0 : 0 ∈ eb) (hg : eg.app 0 = some 0)
    (h : back R (map_expr e gm eg) = some s) : 0 ∈ s := by
  simp only [back, Option.bind_eq_bind, Option.bind_eq_some, get_or_fail_eq] at h
  obtain ⟨eb1, heb1, h⟩ := h
  have : eb1 = eb := Option.some.inj (heb1.symm.trans he)
  subst this
  exact zero_mem_image eg eb1 s h h0 hg

theorem zero_mem_back_alt_left (R : rule_ops Option) (a b : expr) (ag bg ab s : uint_set)
    (he : back R a = some ab) (h0 : 0 ∈ ab) (hg : ag.app 0 = some 0)
    (h : back R (alt_expr a b ag bg) = some s) : 0 ∈ s := by
  simp only [back, Option.bind_eq_bind, Option.bind_eq_some, get_or_fail_eq,
    Option.pure_def, Option.some.injEq] at h
  obtain ⟨ab1, hab1, x, hx, bb, hbb, y, hy, rfl⟩ := h
  have : ab1 = ab := Option.some.inj (hab1.symm.trans he)
  subst this
  exact (uint_set.mem_union 0 x y).2 (Or.inl (zero_mem_image ag ab1 x hx h0 hg))

theorem zero_mem_back_alt_right (R : rule_ops Option) (a b : expr) (ag bg bb s : uint_set)
    (he : back R b = some bb) (h0 : 0 ∈ bb) (hg : bg.app 0 = some 0)
    (h : back R (alt_expr a b ag bg) = some s) : 0 ∈ s := by
  simp only [back, Option.bind_eq_bind, Option.bind_eq_some, get_or_fail_eq,
    Option.pure_def, Option.some.injEq] at h
  obtain ⟨ab, hab, x, hx, bb1, hbb1, y, hy, rfl⟩ := h
  have : bb1 = bb := Option.some.inj (hbb1.symm.trans he)
  subst this
  exact (uint_set.mem_union 0 x y).2 (Or.inr (zero_mem_image bg bb1 y hy h0 hg))

theorem zero_mem_back_seq (R : rule_ops Option) (a b c : expr) (bs : look_list)
    (cg : uint_set) (gm : Nat) (cb s : uint_set)
    (he : back R c = some cb) (h0 : 0 ∈ cb) (hg : cg.app 0 = some 0)
    (h : back R (seq_expr a b bs c cg gm) = some s) : 0 ∈ s := by
  simp only [back, Option.bind_eq_bind, Option.bind_eq_some, get_or_fail_eq] at h
  obtain ⟨cb1, hcb1, x, hx, am, ham, h⟩ := h
  have : cb1 = cb := Option.some.inj (hcb1.symm.trans he)
  subst this
  have hx0 : 0 ∈ x := zero_mem_image cg cb1 x hx h0 hg
  split at h
  · simp only [Option.bind_eq_bind, Option.bind_eq_some, get_or_fail_eq] at h
    obtain ⟨bb, _, g, _, y, _, h⟩ := h
    exact back_bs_superset R bs _ s h (subset_union_left x y hx0)
  · exact back_bs_superset R bs _ s h hx0

/-! ### The claims on the backtrack and match sets -/

/-- C15 (counterexample): the derivatives of `!"a" / ("a" !"a")` by `a` and by
the end-of-input sentinel lead to the node LOOK(2), whose backtrack set is
{2}, neither {0} nor {1}. -/
theorem C15_look_two_is_reachable :
    (build no_rules (.alt (.not (.chr 97)) (.seq (.chr 97) (.not (.chr 97))))).bind
        (fun e => feed no_rules e [97, 0]) = some (look_expr 2) ∧
    back no_rules (look_expr 2) = some [2] := by
  constructor
  · rfl
  · rfl

/-- C15 (amended): non-emptiness of `back`.  For every expression `e` (the
rule nodes answering non-empty sets), the set that `back()` returns is not
empty; FAIL, INF, EPS, CHAR, RANGE, ANY and STR have the backtrack set {0},
and LOOK(g) has the backtrack set {g}, which is {1} for the LOOK(1) that
`look_expr::make()` and `not_expr::make` build. -/
theorem C15_back_non_empty (R : rule_ops Option) (HR : ∀ r s, R.back r = some s → s ≠ [])
    (e : expr) (s : uint_set) (h : back R e = some s) :
    s ≠ [] ∧
    back R fail_expr = some [0] ∧ back R inf_expr = some [0] ∧ back R eps_expr = some [0] ∧
    (∀ c, back R (char_expr c) = some [0]) ∧ (∀ lo hi, back R (range_expr lo hi) = some [0]) ∧
    back R any_expr = some [0] ∧ (∀ t, back R (str_expr t) = some [0]) ∧
    (∀ g, back R (look_expr g) = some [g]) :=
  ⟨back_ne_nil R HR e s h, rfl, rfl, rfl, fun _ => rfl, fun _ _ => rfl, rfl, fun _ => rfl,
   fun _ => rfl⟩

/-- Witness of C15 (amended): the node ALT(NOT(CHAR a), CHAR b, {0, 1}, {0})
has the backtrack set {0, 1}. -/
theorem C15_back_non_empty_witness :
    back no_rules (alt_expr (not_expr (char_expr 97)) (char_expr 98) [0, 1] [0]) =
      some [0, 1] ∧ ([0, 1] : uint_set) ≠ [] :=
  ⟨rfl, (C15_back_non_empty no_rules (by intro r s h; cases h)
      (alt_expr (not_expr (char_expr 97)) (char_expr 98) [0, 1] [0]) [0, 1] rfl).1⟩

/-- C16 (counterexample): `not_expr::make` on CHAR(a) builds the node
NOT(CHAR a), whose backtrack set is {1} and does not contain 0; the node that
`alt_expr::make` builds from two such nodes has the backtrack set {1} too. -/
theorem C16_not_node_back_lacks_zero :
    not_expr_make no_rules (char_expr 97) = some (not_expr (char_expr 97)) ∧
    back no_rules (not_expr (char_expr 97)) = some [1] ∧ ¬ (0 ∈ ([1] : uint_set)) ∧
    alt_expr_make no_rules (not_expr (char_expr 97)) (not_expr (char_expr 98)) =
      some (alt_expr (not_expr (char_expr 97)) (not_expr (char_expr 98)) [0, 1] [0, 1]) ∧
    back no_rules (alt_expr (not_expr (char_expr 97)) (not_expr (char_expr 98)) [0, 1] [0, 1]) =
      some [1] := by
  refine ⟨rfl, rfl, by decide, rfl, rfl⟩

/-- C16 (amended): generation 0 in the backtrack set.  FAIL, INF, EPS, CHAR,
RANGE, ANY and STR have the backtrack set {0}; LOOK(g) has exactly {g}; a NOT
node has exactly {1}, without 0; a RULE node has the set of its rule.  The
backtrack set of MAP(e, gm, eg) contains 0 when that of `e` does and
`eg(0) = 0`; that of ALT(a, b, ag, bg) when that of `a` does and `ag(0) = 0`,
or that of `b` does and `bg(0) = 0`; that of SEQ(a, b, bs, c, cg, gm) when
that of `c` does and `cg(0) = 0`, as in every SEQ node that `seq_expr::make`
builds. -/
theorem C16_back_generation_zero (R : rule_ops Option) (e a b c : expr) (bs : look_list)
    (gm : Nat) (eg ag bg cg : uint_set) :
    (back R fail_expr = some [0] ∧ back R inf_expr = some [0] ∧ back R eps_expr = some [0] ∧
      (∀ ch, back R (char_expr ch) = some [0]) ∧
      (∀ lo hi, back R (range_expr lo hi) = some [0]) ∧
      back R any_expr = some [0] ∧ (∀ t, back R (str_expr t) = some [0])) ∧
    (∀ g, back R (look_expr g) = some [g]) ∧
    (back R (not_expr e) = some [1] ∧ ¬ (0 ∈ ([1] : uint_set))) ∧
    (∀ r, back R (rule_expr r) = R.back r) ∧
    (∀ eb s, back R e = some eb → 0 ∈ eb → eg.app 0 = some 0 →
      back R (map_expr e gm eg) = some s → 0 ∈ s) ∧
    (∀ ab s, back R a = some ab → 0 ∈ ab → ag.app 0 = some 0 →
      back R (alt_expr a b ag bg) = some s → 0 ∈ s) ∧
    (∀ bb s, back R b = some bb → 0 ∈ bb → bg.app 0 = some 0 →
      back R (alt_expr a b ag bg) = some s → 0 ∈ s) ∧
    (∀ cb s, back R c = some cb → 0 ∈ cb → cg.app 0 = some 0 →
      back R (seq_expr a b bs c cg gm) = some s → 0 ∈ s) ∧
    (∀ n s, seq_expr_build R a b = some n → back R n = some s → 0 ∈ s) := by
  refine ⟨⟨rfl, rfl, rfl, fun _ => rfl, fun _ _ => rfl, rfl, fun _ => rfl⟩, fun _ => rfl,
    ⟨rfl, by decide⟩, fun _ => rfl, ?_, ?_, ?_, ?_, ?_⟩
  · intro eb s he h0 hg h
    exact zero_mem_back_map R e gm eg eb s he h0 hg h
  · intro ab s he h0 hg h
    exact zero_mem_back_alt_left R a b ag bg ab s he h0 hg h
  · intro bb s he h0 hg h
    exact zero_mem_back_alt_right R a b ag bg bb s he h0 hg h
  · intro cb s he h0 hg h
    exact zero_mem_back_seq R a b c bs cg gm cb s he h0 hg h
  · intro n s hn h
    obtain ⟨bn, bs1, gm1, hn1⟩ := seq_expr_build_is_seq R a b n hn
    subst hn1
    exact zero_mem_back_seq R a bn fail_expr bs1 zero_set gm1 [0] s rfl
      (List.mem_singleton.2 rfl) rfl h

/-- Witness of C16 (amended): the node ALT(NOT(CHAR a), CHAR b, {0, 1}, {0})
has the backtrack set {0, 1}, with the 0 of its second branch. -/
theorem C16_back_generation_zero_witness : 0 ∈ ([0, 1] : uint_set) :=
  (C16_back_generation_zero no_rules (char_expr 97) (not_expr (char_expr 97)) (char_expr 98)
    fail_expr look_list.nil 0 [0] [0, 1] [0] [0]).2.2.2.2.2.2.1 [0] [0, 1] rfl
    (List.mem_singleton.2 rfl) rfl rfl

/-- C17: match domination.  For every expression `e` (the rule nodes
answering a match set inside their backtrack set, and ascending backtrack
sets), the set that `match()` returns is a subset of the set that `back()`
returns; when the match set is not empty, both have a maximum and
`match().max() ≤ back().max()`. -/
theorem C17_match_domination (R : rule_ops Option)
    (HR1 : ∀ r ms bs, R.match_ r = some ms → R.back r = some bs → ms ⊆ bs)
    (HR2 : ∀ r s, R.back r = some s → s.Sorted (· < ·))
    (e : expr) (ms bs : uint_set) (hm : match_ R e = some ms) (hb : back R e = some bs) :
    ms ⊆ bs ∧ ∀ m, ms.max = some m → ∃ b, bs.max = some b ∧ m ≤ b := by
  have hsub : ms ⊆ bs := match_subset_back R HR1 e ms bs hm hb
  refine ⟨hsub, ?_⟩
  intro m hmax
  have hmem : m ∈ bs := hsub (uint_set.max_mem ms m hmax)
  cases hl : bs.max with
  | none =>
      have hnil : bs = [] := List.getLast?_eq_none_iff.1 hl
      rw [hnil] at hmem
      cases hmem
  | some b =>
      exact ⟨b, rfl, uint_set.le_max_of_sorted bs (back_sorted R HR2 e bs hb) b hl m hmem⟩

/-- Witness of C17: the node SEQ(CHAR b, CHAR a, [], EPS, {0}, 0), with the
match-fail follower EPS, has the match set {0} and the backtrack set {0}. -/
theorem C17_match_domination_witness :
    ([0] : uint_set) ⊆ [0] ∧
    ∀ m, uint_set.max [0] = some m → ∃ b, uint_set.max [0] = some b ∧ m ≤ b :=
  C17_match_domination no_rules (by intro r ms bs h; cases h) (by intro r s h; cases h)
    (seq_expr (char_expr 98) (char_expr 97) look_list.nil eps_expr [0] 0) [0] [0] rfl rfl


/-! ### Results of the smart constructors, simplified nodes -/

theorem look_expr_make_ne_not (g : Nat) (o : expr) : look_expr_make g ≠ not_expr o := by
  unfold look_expr_make
  split <;> intro h <;> cases h

theorem not_expr_make_not (R : rule_ops Option) (e o : expr)
    (h : not_expr_make R e = some (not_expr o)) :
    o = e ∧ e ≠ fail_expr ∧ e ≠ inf_expr ∧ match_ R e = some [] := by
  have key : ∀ e1 : expr, (do
      let em ← match_ R e1
      if !em.empty then pure fail_expr else pure (not_expr e1) : Option expr) =
        some (not_expr o) → o = e1 ∧ match_ R e1 = some [] := by
    intro e1 h1
    simp only [Option.bind_eq_bind, Option.bind_eq_some] at h1
    obtain ⟨em, hem, h1⟩ := h1
    cases em with
    | nil =>
        simp [uint_set.empty] at h1
        exact ⟨h1.symm, hem⟩
    | cons k t => simp [uint_set.empty] at h1
  cases e <;>
    first
      | (exfalso; exact look_expr_make_ne_not 1 o (Option.some.inj h))
      | (exfalso; cases h; done)
      | (obtain ⟨h1, h2⟩ := key _ h
         exact ⟨h1, (fun hc => (by cases hc)), (fun hc => (by cases hc)), h2⟩)

theorem not_expr_make_of (R : rule_ops Option) (e : expr) (h1 : e ≠ fail_expr)
    (h2 : e ≠ inf_expr) (hm : match_ R e = some []) :
    not_expr_make R e = some (not_expr e) := by
  cases e <;> first | exact absurd rfl h1 | exact absurd rfl h2 |
    simp [not_expr_make, hm, uint_set.empty]


theorem look_expr_make_cases (g : Nat) :
    look_expr_make g = eps_expr ∨ look_expr_make g = look_expr g := by
  unfold look_expr_make
  split
  · exact Or.inl rfl
  · exact Or.inr rfl

theorem map_expr_make_result (R : rule_ops Option) (e : expr) (gm : Nat) (eg : uint_set)
    (n : expr) (h : map_expr_make R e gm eg = some n) :
    n = e ∨ n = map_expr e gm eg ∨ n = eps_expr ∨ ∃ g, n = look_expr g := by
  simp only [map_expr_make, Option.bind_eq_bind, Option.bind_eq_some, get_or_fail_eq] at h
  obtain ⟨eb, heb, k, hk, u, hu, h⟩ := h
  have hlook : ∀ g, look_expr_make g = n →
      n = e ∨ n = map_expr e gm eg ∨ n = eps_expr ∨ ∃ g, n = look_expr g := by
    intro g hg
    rcases look_expr_make_cases g with h1 | h1
    · exact Or.inr (Or.inr (Or.inl (hg.symm.trans h1)))
    · exact Or.inr (Or.inr (Or.inr ⟨g, hg.symm.trans h1⟩))
  split at h
  · simp only [Option.bind_eq_bind, Option.bind_eq_some, get_or_fail_eq, Option.pure_def,
      Option.some.injEq] at h
    obtain ⟨g, _, h⟩ := h
    exact hlook g h
  · simp only [Option.bind_eq_bind, Option.bind_eq_some, get_or_fail_eq, Option.pure_def,
      Option.some.injEq] at h
    obtain ⟨_, _, _, _, g, _, h⟩ := h
    exact hlook g h
  · exact Or.inl (Option.some.inj h).symm
  · exact Or.inl (Option.some.inj h).symm
  · split at h
    · exact Or.inl (Option.some.inj h).symm
    · exact Or.inr (Or.inl (Option.some.inj h).symm)

theorem alt_expr_make4_of (R : rule_ops Option) (a b : expr) (ag bg : uint_set)
    (h1 : a ≠ fail_expr) (h2 : a ≠ inf_expr) (hm : match_ R a = some []) (hb : b ≠ fail_expr) :
    alt_expr_make4 R a b ag bg = some (alt_expr a b ag bg) := by
  have hcond : (decide (b.type = expr_type.fail_type) || !uint_set.empty []) = false := by
    have : ¬ b.type = expr_type.fail_type := fun e => hb ((type_eq_fail_iff b).1 e)
    simp [this, uint_set.empty]
  cases a <;>
    first
      | exact absurd rfl h1
      | exact absurd rfl h2
      | (simp only [alt_expr_make4, hm, Option.bind_eq_bind, Option.some_bind, hcond]; try rfl)

theorem alt_cond_false (b : expr) (am : uint_set)
    (h : (decide (b.type = expr_type.fail_type) || !am.empty) = false) :
    b ≠ fail_expr ∧ am = [] := by
  simp only [Bool.or_eq_false_iff, decide_eq_false_iff_not, Bool.not_eq_false'] at h ⊢
  refine ⟨fun hb => h.1 ((type_eq_fail_iff b).2 hb), ?_⟩
  cases am with
  | nil => rfl
  | cons k t => simp [uint_set.empty] at h

theorem alt_expr_make_result (R : rule_ops Option) (a b n : expr)
    (h : alt_expr_make R a b = some n) :
    n = a ∨ n = b ∨ (∃ ag bg, n = alt_expr a b ag bg ∧ a ≠ fail_expr ∧ a ≠ inf_expr ∧
      match_ R a = some [] ∧ b ≠ fail_expr) := by
  have key : ∀ a1 : expr, a1 ≠ fail_expr → a1 ≠ inf_expr → (do
      let am ← match_ R a1
      if (decide (b.type = expr_type.fail_type) || !am.empty) = true then pure a1
      else do
        let ag ← default_back_map R a1
        let bg ← default_back_map R b
        pure (alt_expr a1 b ag bg) : Option expr) = some n →
      n = a1 ∨ n = b ∨ (∃ ag bg, n = alt_expr a1 b ag bg ∧ a1 ≠ fail_expr ∧ a1 ≠ inf_expr ∧
        match_ R a1 = some [] ∧ b ≠ fail_expr) := by
    intro a1 hf hi h1
    simp only [Option.bind_eq_bind, Option.bind_eq_some] at h1
    obtain ⟨am, ham, h1⟩ := h1
    split at h1
    · exact Or.inl (Option.some.inj h1).symm
    · rename_i hc
      obtain ⟨hb, hnil⟩ := alt_cond_false b am (by simpa using hc)
      subst hnil
      simp only [Option.bind_eq_bind, Option.bind_eq_some, Option.pure_def,
        Option.some.injEq] at h1
      obtain ⟨ag, _, bg, _, h1⟩ := h1
      exact Or.inr (Or.inr ⟨ag, bg, h1.symm, hf, hi, ham, hb⟩)
  cases a <;>
    first
      | exact Or.inr (Or.inl (Option.some.inj h).symm)
      | exact Or.inl (Option.some.inj h).symm
      | exact key _ (fun hc => (by cases hc)) (fun hc => (by cases hc)) h

theorem alt_expr_make4_result (R : rule_ops Option) (a b n : expr) (ag bg : uint_set)
    (h : alt_expr_make4 R a b ag bg = some n) :
    n = a ∨ n = b ∨ n = eps_expr ∨ (∃ g, n = look_expr g) ∨
    (∃ gm, n = map_expr a gm ag) ∨ (∃ gm, n = map_expr b gm bg) ∨
    (n = alt_expr a b ag bg ∧ a ≠ fail_expr ∧ a ≠ inf_expr ∧
      match_ R a = some [] ∧ b ≠ fail_expr) := by
  have hmap : ∀ (e : expr) (eg : uint_set), (do
      let agm ← get_or_fail ag.max
      let bgm ← get_or_fail bg.max
      map_expr_make R e (Nat.max agm bgm) eg : Option expr) = some n →
      n = e ∨ n = eps_expr ∨ (∃ g, n = look_expr g) ∨ ∃ gm, n = map_expr e gm eg := by
    intro e eg h1
    simp only [Option.bind_eq_bind, Option.bind_eq_some, get_or_fail_eq] at h1
    obtain ⟨agm, _, bgm, _, h1⟩ := h1
    rcases map_expr_make_result R e _ eg n h1 with h2 | h2 | h2 | h2
    · exact Or.inl h2
    · exact Or.inr (Or.inr (Or.inr ⟨_, h2⟩))
    · exact Or.inr (Or.inl h2)
    · exact Or.inr (Or.inr (Or.inl h2))
  have key : ∀ a1 : expr, a1 ≠ fail_expr → a1 ≠ inf_expr → (do
      let am ← match_ R a1
      if (decide (b.type = expr_type.fail_type) || !am.empty) = true then do
        let agm ← get_or_fail ag.max
        let bgm ← get_or_fail bg.max
        map_expr_make R a1 (Nat.max agm bgm) ag
      else pure (alt_expr a1 b ag bg) : Option expr) = some n →
      n = a1 ∨ n = b ∨ n = eps_expr ∨ (∃ g, n = look_expr g) ∨
      (∃ gm, n = map_expr a1 gm ag) ∨ (∃ gm, n = map_expr b gm bg) ∨
      (n = alt_expr a1 b ag bg ∧ a1 ≠ fail_expr ∧ a1 ≠ inf_expr ∧
        match_ R a1 = some [] ∧ b ≠ fail_expr) := by
    intro a1 hf hi h1
    simp only [Option.bind_eq_bind, Option.bind_eq_some] at h1
    obtain ⟨am, ham, h1⟩ := h1
    split at h1
    · rcases hmap a1 ag h1 with h2 | h2 | h2 | h2
      · exact Or.inl h2
      · exact Or.inr (Or.inr (Or.inl h2))
      · exact Or.inr (Or.inr (Or.inr (Or.inl h2)))
      · exact Or.inr (Or.inr (Or.inr (Or.inr (Or.inl h2))))
    · rename_i hc
      obtain ⟨hb, hnil⟩ := alt_cond_false b am (by simpa using hc)
      subst hnil
      exact Or.inr (Or.inr (Or.inr (Or.inr (Or.inr (Or.inr
        ⟨(Option.some.inj h1).symm, hf, hi, ham, hb⟩)))))
  have hfail : ∀ a1 : expr, (do
      let agm ← get_or_fail ag.max
      let bgm ← get_or_fail bg.max
      map_expr_make R b (Nat.max agm bgm) bg : Option expr) = some n →
      n = a1 ∨ n = b ∨ n = eps_expr ∨ (∃ g, n = look_expr g) ∨
      (∃ gm, n = map_expr a1 gm ag) ∨ (∃ gm, n = map_expr b gm bg) ∨
      (n = alt_expr a1 b ag bg ∧ a1 ≠ fail_expr ∧ a1 ≠ inf_expr ∧
        match_ R a1 = some [] ∧ b ≠ fail_expr) := by
    intro a1 h1
    rcases hmap b bg h1 with h2 | h2 | h2 | h2
    · exact Or.inr (Or.inl h2)
    · exact Or.inr (Or.inr (Or.inl h2))
    · exact Or.inr (Or.inr (Or.inr (Or.inl h2)))
    · exact Or.inr (Or.inr (Or.inr (Or.inr (Or.inr (Or.inl h2)))))
  cases a <;>
    first
      | exact hfail _ h
      | exact Or.inl (Option.some.inj h).symm
      | exact key _ (fun hc => (by cases hc)) (fun hc => (by cases hc)) h


theorem seq_expr_build_result (R : rule_ops Option) (a b n : expr)
    (h : seq_expr_build R a b = some n) :
    ∃ ab bs gm, back R a = some ab ∧
      ((ab.min = some 0 ∧ n = seq_expr a b bs fail_expr zero_set gm) ∨
       (ab.min ≠ some 0 ∧ n = seq_expr a fail_expr bs fail_expr zero_set gm)) := by
  simp only [seq_expr_build, Option.bind_eq_bind, Option.bind_eq_some, Option.pure_def,
    Option.some.injEq, get_or_fail_eq] at h
  obtain ⟨ab, hab, _, _, abmin, hmin, abmax, _, p, hp, am, _, q, _, hn⟩ := h
  refine ⟨ab, q.1, q.2, hab, ?_⟩
  split at hp
  · rename_i h0
    subst h0
    left
    refine ⟨hmin, ?_⟩
    simp only [Option.bind_eq_bind, Option.bind_eq_some, Option.pure_def,
      Option.some.injEq, get_or_fail_eq] at hp
    obtain ⟨bb, _, _, _, bbmax, _, hp⟩ := hp
    split at hp
    · simp only [Option.bind_eq_bind, Option.bind_eq_some, Option.pure_def,
        Option.some.injEq] at hp
      obtain ⟨_, _, hp⟩ := hp
      rw [← hn, ← hp]
    · simp only [Option.some.injEq] at hp
      rw [← hn, ← hp]
  · rename_i h0
    right
    refine ⟨?_, ?_⟩
    · rw [hmin]
      intro hc
      exact h0 (Option.some.inj hc)
    · simp only [Option.some.injEq] at hp
      rw [← hn, ← hp]

theorem seq_expr_make_result (R : rule_ops Option) (a b n : expr) :
    seq_expr_make R a b = some n →
    n = a ∨ n = b ∨ n = fail_expr ∨
      (a ≠ eps_expr ∧ (∀ g, a ≠ look_expr g) ∧ a ≠ fail_expr ∧ a ≠ inf_expr ∧
        seq_expr_build R a b = some n) := by
  have key : ∀ b1 : expr, (match a with
      | eps_expr => pure b1
      | look_expr g => if g = 1 then pure b1 else pure fail_expr
      | fail_expr => pure a
      | inf_expr => pure a
      | _ => seq_expr_build R a b1 : Option expr) = some n →
      n = a ∨ n = b1 ∨ n = fail_expr ∨
        (a ≠ eps_expr ∧ (∀ g, a ≠ look_expr g) ∧ a ≠ fail_expr ∧ a ≠ inf_expr ∧
          seq_expr_build R a b1 = some n) := by
    intro b1 h1
    split at h1
    · exact Or.inr (Or.inl (Option.some.inj h1).symm)
    · split at h1
      · exact Or.inr (Or.inl (Option.some.inj h1).symm)
      · exact Or.inr (Or.inr (Or.inl (Option.some.inj h1).symm))
    · exact Or.inl (Option.some.inj h1).symm
    · exact Or.inl (Option.some.inj h1).symm
    · rename_i n1 n2 n3 n4
      exact Or.inr (Or.inr (Or.inr ⟨fun hc => n1 hc, fun g hc => n2 g hc, fun hc => n3 hc,
        fun hc => n4 hc, h1⟩))
  intro h
  cases b <;>
    first
      | exact Or.inl (Option.some.inj h).symm
      | exact Or.inr (Or.inl (Option.some.inj h).symm)
      | exact key _ h

theorem simplified_look_expr_make (R : rule_ops Option) (g : Nat) :
    simplified R (look_expr_make g) = true := by
  rcases look_expr_make_cases g with h | h <;> rw [h] <;> rfl

theorem map_expr_make_simplified (R : rule_ops Option) (e : expr) (gm : Nat) (eg : uint_set)
    (n : expr) (he : simplified R e = true) (h : map_expr_make R e gm eg = some n) :
    simplified R n = true := by
  rcases map_expr_make_result R e gm eg n h with h1 | h1 | h1 | ⟨g, h1⟩
  · rw [h1]; exact he
  · rw [h1]; simpa [simplified] using he
  · rw [h1]; rfl
  · rw [h1]; rfl

theorem simplified_not (R : rule_ops Option) (e : expr) :
    simplified R (not_expr e) = true ↔
      e ≠ fail_expr ∧ e ≠ inf_expr ∧ match_ R e = some [] ∧ simplified R e = true := by
  have h1 : e.type = expr_type.fail_type ↔ e = fail_expr := by cases e <;> simp [expr.type]
  have h2 : e.type = expr_type.inf_type ↔ e = inf_expr := by cases e <;> simp [expr.type]
  simp only [simplified, Bool.and_eq_true, decide_eq_true_eq, ne_eq, h1, h2, and_assoc]

theorem simplified_alt (R : rule_ops Option) (a b : expr) (ag bg : uint_set) :
    simplified R (alt_expr a b ag bg) = true ↔
      a ≠ fail_expr ∧ a ≠ inf_expr ∧ match_ R a = some [] ∧ b ≠ fail_expr ∧
      simplified R a = true ∧ simplified R b = true := by
  have h1 : ∀ e : expr, e.type = expr_type.fail_type ↔ e = fail_expr := by
    intro e; cases e <;> simp [expr.type]
  have h2 : a.type = expr_type.inf_type ↔ a = inf_expr := by cases a <;> simp [expr.type]
  simp only [simplified, Bool.and_eq_true, decide_eq_true_eq, ne_eq, h1, h2, and_assoc]

theorem simplified_seq (R : rule_ops Option) (a b c : expr) (bs : look_list) (cg : uint_set)
    (gm : Nat) :
    simplified R (seq_expr a b bs c cg gm) = true ↔
      a ≠ eps_expr ∧ (∀ g, a ≠ look_expr g) ∧ a ≠ fail_expr ∧ a ≠ inf_expr ∧
      simplified R a = true ∧ simplified R b = true ∧ simplified_bs R bs = true ∧
      simplified R c = true := by
  have h1 : a.type = expr_type.fail_type ↔ a = fail_expr := by cases a <;> simp [expr.type]
  have h2 : a.type = expr_type.inf_type ↔ a = inf_expr := by cases a <;> simp [expr.type]
  have h3 : a.type = expr_type.eps_type ↔ a = eps_expr := by cases a <;> simp [expr.type]
  have h4 : a.type = expr_type.look_type ↔ ∃ g, a = look_expr g := by
    cases a <;> simp [expr.type]
  simp only [simplified, Bool.and_eq_true, decide_eq_true_eq, ne_eq, h1, h2, h3, h4, and_assoc,
    not_exists]

theorem simplified_bs_cons (R : rule_ops Option) (g : Nat) (eg : uint_set) (e : expr)
    (mb : Bool) (gl : Nat) (tl : look_list) :
    simplified_bs R (look_list.cons g eg e mb gl tl) = true ↔
      simplified R e = true ∧ simplified_bs R tl = true := by
  simp only [simplified_bs, Bool.and_eq_true]

theorem not_expr_make_simplified (R : rule_ops Option) (e n : expr)
    (he : simplified R e = true) (h : not_expr_make R e = some n) :
    simplified R n = true := by
  have key : ∀ e1 : expr, e1 ≠ fail_expr → e1 ≠ inf_expr → simplified R e1 = true → (do
      let em ← match_ R e1
      if !em.empty then pure fail_expr else pure (not_expr e1) : Option expr) =
        some n → simplified R n = true := by
    intro e1 hf hi hs h1
    simp only [Option.bind_eq_bind, Option.bind_eq_some] at h1
    obtain ⟨em, hem, h1⟩ := h1
    cases em with
    | nil =>
        simp [uint_set.empty] at h1
        rw [← h1]
        exact (simplified_not R e1).2 ⟨hf, hi, hem, hs⟩
    | cons k t =>
        simp [uint_set.empty] at h1
        rw [← h1]; rfl
  cases e <;>
    first
      | (cases h; rfl)
      | exact key _ (fun hc => (by cases hc)) (fun hc => (by cases hc)) he h

theorem alt_expr_make_simplified (R : rule_ops Option) (a b n : expr)
    (ha : simplified R a = true) (hb : simplified R b = true)
    (h : alt_expr_make R a b = some n) : simplified R n = true := by
  rcases alt_expr_make_result R a b n h with h1 | h1 | ⟨ag, bg, h1, h2, h3, h4, h5⟩
  · rw [h1]; exact ha
  · rw [h1]; exact hb
  · rw [h1]; exact (simplified_alt R a b ag bg).2 ⟨h2, h3, h4, h5, ha, hb⟩

theorem alt_expr_make4_simplified (R : rule_ops Option) (a b n : expr) (ag bg : uint_set)
    (ha : simplified R a = true) (hb : simplified R b = true)
    (h : alt_expr_make4 R a b ag bg = some n) : simplified R n = true := by
  rcases alt_expr_make4_result R a b n ag bg h with
    h1 | h1 | h1 | ⟨g, h1⟩ | ⟨g, h1⟩ | ⟨g, h1⟩ | ⟨h1, h2, h3, h4, h5⟩
  · rw [h1]; exact ha
  · rw [h1]; exact hb
  · rw [h1]; rfl
  · rw [h1]; rfl
  · rw [h1]; simpa [simplified] using ha
  · rw [h1]; simpa [simplified] using hb
  · rw [h1]; exact (simplified_alt R a b ag bg).2 ⟨h2, h3, h4, h5, ha, hb⟩


theorem seq_expr_build_simplified (R : rule_ops Option) (a b n : expr)
    (h1 : a ≠ eps_expr) (h2 : ∀ g, a ≠ look_expr g) (h3 : a ≠ fail_expr) (h4 : a ≠ inf_expr)
    (ha : simplified R a = true) (hb : simplified R b = true)
    (h : seq_expr_build R a b = some n) : simplified R n = true := by
  simp only [seq_expr_build, Option.bind_eq_bind, Option.bind_eq_some, Option.pure_def,
    Option.some.injEq, get_or_fail_eq] at h
  obtain ⟨ab, hab, _, _, abmin, hmin, abmax, _, p, hp, am, _, q, hq, hn⟩ := h
  have hp1 : simplified R p.1 = true := by
    split at hp
    · simp only [Option.bind_eq_bind, Option.bind_eq_some, Option.pure_def,
        Option.some.injEq, get_or_fail_eq] at hp
      obtain ⟨bb, _, _, _, bbmax, _, hp⟩ := hp
      split at hp
      · simp only [Option.bind_eq_bind, Option.bind_eq_some, Option.pure_def,
          Option.some.injEq] at hp
        obtain ⟨_, _, hp⟩ := hp
        rw [← hp]; exact hb
      · simp only [Option.some.injEq] at hp
        rw [← hp]; exact hb
    · simp only [Option.some.injEq] at hp
      rw [← hp]; rfl
  have hq1 : simplified_bs R q.1 = true := by
    split at hq
    · simp only [Option.bind_eq_bind, Option.bind_eq_some, Option.pure_def,
        Option.some.injEq, get_or_fail_eq] at hq
      obtain ⟨_, _, bm, _, bg, _, hq⟩ := hq
      split at hq
      · simp only [Option.some.injEq] at hq
        rw [← hq]
        exact (simplified_bs_cons R _ _ _ _ _ _).2 ⟨hb, rfl⟩
      · simp only [Option.some.injEq] at hq
        rw [← hq]
        exact (simplified_bs_cons R _ _ _ _ _ _).2 ⟨hb, rfl⟩
    · simp only [Option.some.injEq] at hq
      rw [← hq]; rfl
  rw [← hn]
  exact (simplified_seq R a p.1 fail_expr q.1 zero_set q.2).2
    ⟨h1, h2, h3, h4, ha, hp1, hq1, rfl⟩

theorem seq_expr_make_simplified (R : rule_ops Option) (a b n : expr)
    (ha : simplified R a = true) (hb : simplified R b = true)
    (h : seq_expr_make R a b = some n) : simplified R n = true := by
  rcases seq_expr_make_result R a b n h with h1 | h1 | h1 | ⟨h1, h2, h3, h4, h5⟩
  · rw [h1]; exact ha
  · rw [h1]; exact hb
  · rw [h1]; rfl
  · exact seq_expr_build_simplified R a b n h1 h2 h3 h4 ha hb h5

theorem emplace_back_simplified (R : rule_ops Option) (g : Nat) (eg : uint_set)
    (e : expr) (mb : Bool) (gl : Nat) (he : simplified R e = true) :
    ∀ l : look_list, simplified_bs R l = true →
      simplified_bs R (l.emplace_back g eg e mb gl) = true
  | look_list.nil, _ => (simplified_bs_cons R _ _ _ _ _ _).2 ⟨he, rfl⟩
  | look_list.cons g1 eg1 e1 m1 gl1 tl, hl => by
      obtain ⟨h1, h2⟩ := (simplified_bs_cons R _ _ _ _ _ _).1 hl
      exact (simplified_bs_cons R _ _ _ _ _ _).2
        ⟨h1, emplace_back_simplified R g eg e mb gl he tl h2⟩

theorem add_new_follower_simplified (R : rule_ops Option) (b : expr) (gm : Nat)
    (dbs : look_list) (dabt damt : List Nat) (did_inc : Bool) (r : look_list × Bool)
    (hb : simplified R b = true) (hl : simplified_bs R dbs = true)
    (h : add_new_follower R b gm dbs dabt damt did_inc = some r) :
    simplified_bs R r.1 = true := by
  unfold add_new_follower at h
  split at h
  · rw [← Option.some.inj h]; exact hl
  · simp only [Option.bind_eq_bind, Option.bind_eq_some, Option.pure_def,
      Option.some.injEq] at h
    obtain ⟨dbim, _, r1, hr1, _, _, h⟩ := h
    rw [← h]
    split at hr1
    · simp only [Option.bind_eq_bind, Option.bind_eq_some, Option.pure_def,
        Option.some.injEq] at hr1
      obtain ⟨bb, _, dbig, _, bm, _, hr1⟩ := hr1
      split at hr1
      · rw [← Option.some.inj hr1]
        exact emplace_back_simplified R _ _ b _ _ hb dbs hl
      · rw [← Option.some.inj hr1]
        exact emplace_back_simplified R _ _ b _ _ hb dbs hl
    · rw [← Option.some.inj hr1]; exact hl


theorem simplified_map (R : rule_ops Option) (e : expr) (gm : Nat) (eg : uint_set) :
    simplified R (map_expr e gm eg) = simplified R e := by
  simp only [simplified]

mutual
theorem d_simplified (R : rule_ops Option)
    (HR : ∀ r x e, R.d r x = some e → simplified R e = true) :
    ∀ (e : expr) (x : Chr) (r : expr), simplified R e = true → d R e x = some r →
      simplified R r = true
  | fail_expr, x, r, _, h => by
      simp only [d, Option.pure_def, Option.some.injEq] at h
      rw [← h]; rfl
  | inf_expr, x, r, _, h => by
      simp only [d, Option.pure_def, Option.some.injEq] at h
      rw [← h]; rfl
  | eps_expr, x, r, _, h => by
      simp only [d] at h
      split at h <;> (rw [← Option.some.inj h]; rfl)
  | look_expr b, x, r, _, h => by
      simp only [d] at h
      split at h
      · rw [← Option.some.inj h]; exact simplified_look_expr_make R b
      · rw [← Option.some.inj h]; rfl
  | char_expr c, x, r, _, h => by
      simp only [d] at h
      split at h <;> (rw [← Option.some.inj h]; rfl)
  | range_expr b e, x, r, _, h => by
      simp only [d] at h
      split at h <;> (rw [← Option.some.inj h]; rfl)
  | any_expr, x, r, _, h => by
      simp only [d] at h
      split at h <;> (rw [← Option.some.inj h]; rfl)
  | str_expr s, x, r, _, h => by
      simp only [d] at h
      split at h
      · split at h
        · rw [← Option.some.inj h]; rfl
        · cases h
      · split at h
        · rw [← Option.some.inj h]; rfl
        · split at h <;> (rw [← Option.some.inj h]; rfl)
  | rule_expr q, x, r, _, h => HR q x r h
  | not_expr e, x, r, hs, h => by
      simp only [d, Option.bind_eq_bind, Option.bind_eq_some] at h
      obtain ⟨de, hde, h⟩ := h
      exact not_expr_make_simplified R de r
        (d_simplified R HR e x de ((simplified_not R e).1 hs).2.2.2 hde) h
  | map_expr e gm eg, x, r, hs, h => by
      simp only [d, Option.bind_eq_bind, Option.bind_eq_some] at h
      obtain ⟨de, hde, h⟩ := h
      have hd : simplified R de = true :=
        d_simplified R HR e x de ((simplified_map R e gm eg).symm.trans hs) hde
      split at h
      · simp only [Option.bind_eq_bind, Option.bind_eq_some, Option.pure_def,
          Option.some.injEq] at h
        obtain ⟨g, _, h⟩ := h
        rw [← h]; exact simplified_look_expr_make R g
      · simp only [Option.bind_eq_bind, Option.bind_eq_some, Option.pure_def,
          Option.some.injEq] at h
        obtain ⟨_, _, _, _, g, _, h⟩ := h
        rw [← h]; exact simplified_look_expr_make R g
      · rw [← Option.some.inj h]; rfl
      · rw [← Option.some.inj h]; rfl
      · simp only [Option.bind_eq_bind, Option.bind_eq_some, Option.pure_def,
          Option.some.injEq] at h
        obtain ⟨p, _, h⟩ := h
        rw [← h, simplified_map]
        exact hd
  | alt_expr a b ag bg, x, r, hs, h => by
      obtain ⟨_, _, _, _, hsa, hsb⟩ := (simplified_alt R a b ag bg).1 hs
      simp only [d, Option.bind_eq_bind, Option.bind_eq_some, get_or_fail_eq] at h
      obtain ⟨agm, _, bgm, _, da, hda, h⟩ := h
      have hd : simplified R da = true := d_simplified R HR a x da hsa hda
      split at h
      · simp only [Option.bind_eq_bind, Option.bind_eq_some] at h
        obtain ⟨db, hdb, p, _, h⟩ := h
        exact map_expr_make_simplified R db _ _ r (d_simplified R HR b x db hsb hdb) h
      · rw [← Option.some.inj h]; rfl
      · rename_i hnf hni
        simp only [Option.bind_eq_bind, Option.bind_eq_some] at h
        obtain ⟨p, _, dam, hdam, h⟩ := h
        split at h
        · exact map_expr_make_simplified R da _ _ r hd h
        · rename_i hne
          simp only [Option.bind_eq_bind, Option.bind_eq_some] at h
          obtain ⟨db, hdb, h⟩ := h
          split at h
          · exact map_expr_make_simplified R da _ _ r hd h
          · rename_i hbt
            simp only [Option.bind_eq_bind, Option.bind_eq_some, Option.pure_def,
              Option.some.injEq] at h
            obtain ⟨q, _, h⟩ := h
            rw [← h]
            have hdam0 : dam = [] := by
              cases dam with
              | nil => rfl
              | cons k t => simp [uint_set.empty] at hne
            subst hdam0
            exact (simplified_alt R da db _ _).2
              ⟨fun hc => hnf hc, fun hc => hni hc, hdam,
               fun hc => hbt ((type_eq_fail_iff db).2 hc), hd,
               d_simplified R HR b x db hsb hdb⟩
  | seq_expr a b bs c cg gm, x, r, hs, h => by
      obtain ⟨_, _, _, _, hsa, hsb, hsl, hsc⟩ := (simplified_seq R a b c bs cg gm).1 hs
      simp only [d, Option.bind_eq_bind, Option.bind_eq_some] at h
      obtain ⟨da, hda, h⟩ := h
      have hd : simplified R da = true := d_simplified R HR a x da hsa hda
      split at h
      · simp only [Option.bind_eq_bind, Option.bind_eq_some] at h
        obtain ⟨bb, _, bgv, _, h⟩ := h
        exact map_expr_make_simplified R b _ _ r hsb h
      · exact d_look_simplified R HR bs x gm _ r hsl h
      · rw [← Option.some.inj h]; rfl
      · rename_i hne hnl hni
        simp only [Option.bind_eq_bind, Option.bind_eq_some] at h
        obtain ⟨am, _, p, hp, h⟩ := h
        have hdc : simplified R p.1 = true := by
          split at hp
          · simp only [Option.bind_eq_bind, Option.bind_eq_some, Option.pure_def,
              Option.some.injEq] at hp
            obtain ⟨dc, hdc, _, _, _, _, _, _, hp⟩ := hp
            rw [← hp]
            exact d_simplified R HR b x dc hsb hdc
          · simp only [Option.bind_eq_bind, Option.bind_eq_some, Option.pure_def,
              Option.some.injEq] at hp
            obtain ⟨dc, hdc, _, _, hp⟩ := hp
            rw [← hp]
            exact d_simplified R HR c x dc hsc hdc
        split at h
        · exact map_expr_make_simplified R p.1 _ _ r hdc h
        · rename_i hnf
          simp only [Option.bind_eq_bind, Option.bind_eq_some, Option.pure_def,
            Option.some.injEq] at h
          obtain ⟨dab, _, dam, _, _, _, q, hq, q2, hq2, h⟩ := h
          rw [← h]
          have hq1 : simplified_bs R q.1 = true := d_bs_simplified R HR bs x gm _ _ _ q hsl hq
          exact (simplified_seq R da b p.1 q2.1 _ _).2
            ⟨fun hc => hne hc, fun g hc => hnl g hc,
             fun hc => hnf ((type_eq_fail_iff da).2 hc), fun hc => hni hc, hd, hsb,
             add_new_follower_simplified R b gm q.1 _ _ _ q2 hsb hq1 hq2, hdc⟩
theorem d_look_simplified (R : rule_ops Option)
    (HR : ∀ r x e, R.d r x = some e → simplified R e = true) :
    ∀ (l : look_list) (x : Chr) (gm i : Nat) (r : expr), simplified_bs R l = true →
      d_look R l x gm i = some r → simplified R r = true
  | look_list.nil, x, gm, i, r, _, h => by
      simp only [d_look, Option.pure_def, Option.some.injEq] at h
      rw [← h]; rfl
  | look_list.cons g eg e mb gl tl, x, gm, i, r, hs, h => by
      obtain ⟨hse, hst⟩ := (simplified_bs_cons R _ _ _ _ _ _).1 hs
      simp only [d_look] at h
      split at h
      · exact d_look_simplified R HR tl x gm i r hst h
      · split at h
        · rw [← Option.some.inj h]; rfl
        · simp only [Option.bind_eq_bind, Option.bind_eq_some] at h
          obtain ⟨dbi, hdbi, h⟩ := h
          have hd : simplified R dbi = true := d_simplified R HR e x dbi hse hdbi
          split at h
          · rw [← Option.some.inj h]; exact hd
          · simp only [Option.bind_eq_bind, Option.bind_eq_some] at h
            obtain ⟨p, _, h⟩ := h
            exact map_expr_make_simplified R dbi _ _ r hd h
theorem d_bs_simplified (R : rule_ops Option)
    (HR : ∀ r x e, R.d r x = some e → simplified R e = true) :
    ∀ (l : look_list) (x : Chr) (gm : Nat) (dabt damt : List Nat) (inc : Bool)
      (res : look_list × List Nat × List Nat × Bool), simplified_bs R l = true →
      d_bs R l x gm dabt damt inc = some res → simplified_bs R res.1 = true
  | look_list.nil, x, gm, dabt, damt, inc, res, _, h => by
      simp only [d_bs, Option.pure_def, Option.some.injEq] at h
      rw [← h]; rfl
  | look_list.cons g eg e mb gl tl, x, gm, dabt, damt, inc, res, hs, h => by
      obtain ⟨hse, hst⟩ := (simplified_bs_cons R _ _ _ _ _ _).1 hs
      simp only [d_bs] at h
      split at h
      · split at h
        · exact d_bs_simplified R HR tl x gm _ _ _ res hst h
        · simp only [Option.bind_eq_bind, Option.bind_eq_some] at h
          obtain ⟨dbi, hdbi, p, hp, q, hq, h⟩ := h
          have hd : simplified R dbi = true := d_simplified R HR e x dbi hse hdbi
          have hq1 : simplified_bs R q.1 = true :=
            d_bs_simplified R HR tl x gm _ _ _ q hst hq
          split at h
          · rw [← Option.some.inj h]
            exact (simplified_bs_cons R _ _ _ _ _ _).2 ⟨hd, hq1⟩
          · rw [← Option.some.inj h]
            exact hq1
      · split at h
        · exact d_bs_simplified R HR tl x gm _ _ _ res hst h
        · simp only [Option.bind_eq_bind, Option.bind_eq_some] at h
          obtain ⟨dbi, hdbi, p, hp, dabt0, _, q, hq, h⟩ := h
          have hd : simplified R dbi = true := d_simplified R HR e x dbi hse hdbi
          have hq1 : simplified_bs R q.1 = true :=
            d_bs_simplified R HR tl x gm _ _ _ q hst hq
          split at h
          · rw [← Option.some.inj h]
            exact (simplified_bs_cons R _ _ _ _ _ _).2 ⟨hd, hq1⟩
          · rw [← Option.some.inj h]
            exact hq1
end


theorem feed_simplified (R : rule_ops Option)
    (HR : ∀ r x e, R.d r x = some e → simplified R e = true) :
    ∀ (s : List Chr) (e r : expr), simplified R e = true → feed R e s = some r →
      simplified R r = true
  | [], e, r, hs, h => by
      simp only [feed, Option.pure_def, Option.some.injEq] at h
      rw [← h]; exact hs
  | x :: xs, e, r, hs, h => by
      simp only [feed, Option.bind_eq_bind, Option.bind_eq_some] at h
      obtain ⟨e1, he1, h⟩ := h
      exact feed_simplified R HR xs e1 r (d_simplified R HR e x e1 hs he1) h

theorem str_expr_make_simplified (R : rule_ops Option) (s : List Chr) :
    simplified R (str_expr_make s) = true := by
  unfold str_expr_make
  split <;> rfl

theorem build_simplified (R : rule_ops Option) :
    ∀ (p : peg) (e : expr), build R p = some e → simplified R e = true
  | .fail, e, h => by cases h; rfl
  | .eps, e, h => by cases h; rfl
  | .chr c, e, h => by cases h; rfl
  | .range b c, e, h => by cases h; rfl
  | .any, e, h => by cases h; rfl
  | .str s, e, h => by cases h; exact str_expr_make_simplified R s
  | .not p, e, h => by
      simp only [build, Option.bind_eq_bind, Option.bind_eq_some] at h
      obtain ⟨x, hx, h⟩ := h
      exact not_expr_make_simplified R x e (build_simplified R p x hx) h
  | .alt p q, e, h => by
      simp only [build, Option.bind_eq_bind, Option.bind_eq_some] at h
      obtain ⟨x, hx, y, hy, h⟩ := h
      exact alt_expr_make_simplified R x y e (build_simplified R p x hx)
        (build_simplified R q y hy) h
  | .seq p q, e, h => by
      simp only [build, Option.bind_eq_bind, Option.bind_eq_some] at h
      obtain ⟨x, hx, y, hy, h⟩ := h
      exact seq_expr_make_simplified R x y e (build_simplified R p x hx)
        (build_simplified R q y hy) h

/-! ### The claims on simplification -/

/-- C18 (counterexample): `seq_expr::make` on NOT(CHAR a) and CHAR(b) builds a
SEQ node that stores FAIL as its gen-zero follower (CHAR(b) is kept in the
follower list); `seq_expr::make` on the stored first element and the stored
follower returns FAIL, not that node. -/
theorem C18_seq_make_not_idempotent :
    (not_expr_make no_rules (char_expr 97)).bind
        (fun a => seq_expr_make no_rules a (char_expr 98)) =
      some (seq_expr (not_expr (char_expr 97)) fail_expr
        (look_list.cons 1 [0] (char_expr 98) false 0 look_list.nil) fail_expr [0] 0) ∧
    seq_expr_make no_rules (not_expr (char_expr 97)) fail_expr = some fail_expr ∧
    seq_expr_make no_rules (not_expr (char_expr 97)) fail_expr ≠
      some (seq_expr (not_expr (char_expr 97)) fail_expr
        (look_list.cons 1 [0] (char_expr 98) false 0 look_list.nil) fail_expr [0] 0) := by
  refine ⟨rfl, rfl, ?_⟩
  intro h
  cases h

/-- C18 (amended): idempotence of simplification for the nodes that a smart
constructor builds.  A NOT node returned by `not_expr::make`, a MAP node
newly built by `map_expr::make` and an ALT node newly built by either
`alt_expr::make` (newly built: not one of the arguments) are returned again
by `not_expr::make`, `map_expr::make` and the four-argument `alt_expr::make`
on the fields stored in the node; so is every NOT or ALT node that is
simplified.  A SEQ node newly built by `seq_expr::make(a, b)` stores `a`; it
stores `b`, and `seq_expr::make` on the stored pair returns the node again,
when the least backtrack generation of `a` is 0; otherwise it stores FAIL as
follower and `seq_expr::make` on the stored pair returns FAIL. -/
theorem C18_idempotence_of_new_nodes (R : rule_ops Option) (e a b n : expr) (gm : Nat)
    (eg ag bg : uint_set) :
    (∀ o, not_expr_make R e = some n → n = not_expr o → not_expr_make R o = some n) ∧
    (∀ e1 gm1 eg1, map_expr_make R e gm eg = some n → n ≠ e → n = map_expr e1 gm1 eg1 →
      map_expr_make R e1 gm1 eg1 = some n) ∧
    (∀ a1 b1 ag1 bg1, alt_expr_make R a b = some n → n ≠ a → n ≠ b →
      n = alt_expr a1 b1 ag1 bg1 → alt_expr_make4 R a1 b1 ag1 bg1 = some n) ∧
    (∀ a1 b1 ag1 bg1, alt_expr_make4 R a b ag bg = some n → n ≠ a → n ≠ b →
      n = alt_expr a1 b1 ag1 bg1 → alt_expr_make4 R a1 b1 ag1 bg1 = some n) ∧
    (∀ a1 b1 bs c cg gm1, seq_expr_make R a b = some n → n ≠ a → n ≠ b →
      n = seq_expr a1 b1 bs c cg gm1 →
      ∃ ab, back R a = some ab ∧ a1 = a ∧
        (ab.min = some 0 → b1 = b ∧ seq_expr_make R a1 b1 = some n) ∧
        (ab.min ≠ some 0 → b1 = fail_expr ∧ seq_expr_make R a1 b1 = some fail_expr)) ∧
    (simplified R n = true →
      (∀ o, n = not_expr o → not_expr_make R o = some n) ∧
      (∀ a1 b1 ag1 bg1, n = alt_expr a1 b1 ag1 bg1 →
        alt_expr_make4 R a1 b1 ag1 bg1 = some n)) := by
  refine ⟨?_, ?_, ?_, ?_, ?_, ?_⟩
  · intro o h hn
    subst hn
    obtain ⟨h1, h2, h3, h4⟩ := not_expr_make_not R e o h
    subst h1
    exact h
  · intro e1 gm1 eg1 h hne hn
    rcases map_expr_make_result R e gm eg n h with h1 | h1 | h1 | ⟨g, h1⟩
    · exact absurd h1 hne
    · rw [hn] at h1
      cases h1
      exact h
    · rw [hn] at h1; cases h1
    · rw [hn] at h1; cases h1
  · intro a1 b1 ag1 bg1 h hna hnb hn
    rcases alt_expr_make_result R a b n h with h1 | h1 | ⟨ag2, bg2, h1, h2, h3, h4, h5⟩
    · exact absurd h1 hna
    · exact absurd h1 hnb
    · rw [hn] at h1
      cases h1
      rw [hn]
      exact alt_expr_make4_of R a b _ _ h2 h3 h4 h5
  · intro a1 b1 ag1 bg1 h hna hnb hn
    rcases alt_expr_make4_result R a b n ag bg h with
      h1 | h1 | h1 | ⟨g, h1⟩ | ⟨g, h1⟩ | ⟨g, h1⟩ | ⟨h1, h2, h3, h4, h5⟩
    · exact absurd h1 hna
    · exact absurd h1 hnb
    · rw [hn] at h1; cases h1
    · rw [hn] at h1; cases h1
    · rw [hn] at h1; cases h1
    · rw [hn] at h1; cases h1
    · rw [hn] at h1
      cases h1
      rw [hn]
      exact alt_expr_make4_of R a b ag bg h2 h3 h4 h5
  · intro a1 b1 bs c cg gm1 h hna hnb hn
    rcases seq_expr_make_result R a b n h with h1 | h1 | h1 | h1
    · exact absurd h1 hna
    · exact absurd h1 hnb
    · rw [hn] at h1; cases h1
    · obtain ⟨ab, bs2, gm2, hab, hcase⟩ := seq_expr_build_result R a b n h1.2.2.2.2
      refine ⟨ab, hab, ?_⟩
      rcases hcase with ⟨hmin, hs⟩ | ⟨hmin, hs⟩
      · rw [hn] at hs
        cases hs
        refine ⟨rfl, ?_, ?_⟩
        · intro _
          exact ⟨rfl, hn ▸ h⟩
        · intro hc
          exact absurd hmin hc
      · rw [hn] at hs
        cases hs
        refine ⟨rfl, ?_, ?_⟩
        · intro hc
          exact absurd hc hmin
        · intro _
          exact ⟨rfl, rfl⟩
  · intro hs
    constructor
    · intro o hn
      subst hn
      obtain ⟨h1, h2, h3, _⟩ := (simplified_not R o).1 hs
      exact not_expr_make_of R o h1 h2 h3
    · intro a1 b1 ag1 bg1 hn
      subst hn
      obtain ⟨h1, h2, h3, h4, _⟩ := (simplified_alt R a1 b1 ag1 bg1).1 hs
      exact alt_expr_make4_of R a1 b1 ag1 bg1 h1 h2 h3 h4

/-- Witness of C18 (amended): the node NOT(CHAR a) that `not_expr::make`
builds from CHAR(a) is returned again on its stored operand, and the node
that `seq_expr::make` builds from CHAR(a) and CHAR(b) stores both. -/
theorem C18_idempotence_of_new_nodes_witness :
    not_expr_make no_rules (char_expr 97) = some (not_expr (char_expr 97)) ∧
    ∃ ab, back no_rules (char_expr 97) = some ab ∧ char_expr 97 = char_expr 97 ∧
      (ab.min = some 0 → char_expr 98 = char_expr 98 ∧
        seq_expr_make no_rules (char_expr 97) (char_expr 98) =
          some (seq_expr (char_expr 97) (char_expr 98) look_list.nil fail_expr [0] 0)) ∧
      (ab.min ≠ some 0 → char_expr 98 = fail_expr ∧
        seq_expr_make no_rules (char_expr 97) (char_expr 98) = some fail_expr) :=
  ⟨(C18_idempotence_of_new_nodes no_rules (char_expr 97) (char_expr 97) (char_expr 98)
      (not_expr (char_expr 97)) 0 [0] [0] [0]).1 (char_expr 97) rfl rfl,
   (C18_idempotence_of_new_nodes no_rules (char_expr 97) (char_expr 97) (char_expr 98)
      (seq_expr (char_expr 97) (char_expr 98) look_list.nil fail_expr [0] 0) 0 [0] [0]
      [0]).2.2.2.2.1 (char_expr 97) (char_expr 98) look_list.nil fail_expr [0] 0 rfl
      (by intro h; cases h) (by intro h; cases h) rfl⟩

/-- C19: derivatives return simplified nodes.  When the expression `e` is
simplified (and the rule nodes answer simplified nodes), every node that
`d(x)` returns is simplified in every position; in particular a returned NOT
node has an operand that is not FAIL, not INF and has an empty match set, a
returned ALT node has a first branch that is not FAIL, not INF and has an
empty match set and a second branch that is not FAIL, and a returned SEQ node
has a first element that is not EPS, LOOK, FAIL or INF.  Every expression
built from the terminals by the smart constructors and then derived by any
sequence of characters is simplified. -/
theorem C19_derivatives_return_simplified_nodes (R : rule_ops Option)
    (HR : ∀ q x e, R.d q x = some e → simplified R e = true)
    (e : expr) (x : Chr) (r : expr) (hs : simplified R e = true) (hd : d R e x = some r) :
    simplified R r = true ∧
    (∀ o, r = not_expr o → o ≠ fail_expr ∧ o ≠ inf_expr ∧ match_ R o = some []) ∧
    (∀ a b ag bg, r = alt_expr a b ag bg →
      a ≠ fail_expr ∧ a ≠ inf_expr ∧ match_ R a = some [] ∧ b ≠ fail_expr) ∧
    (∀ a b bs c cg gm, r = seq_expr a b bs c cg gm →
      a ≠ eps_expr ∧ (∀ g, a ≠ look_expr g) ∧ a ≠ fail_expr ∧ a ≠ inf_expr) ∧
    (∀ (p : peg) (s : List Chr) (e1 : expr),
      (build R p).bind (fun e0 => feed R e0 s) = some e1 → simplified R e1 = true) := by
  have hr : simplified R r = true := d_simplified R HR e x r hs hd
  refine ⟨hr, ?_, ?_, ?_, ?_⟩
  · intro o ho
    rw [ho] at hr
    obtain ⟨h1, h2, h3, _⟩ := (simplified_not R o).1 hr
    exact ⟨h1, h2, h3⟩
  · intro a b ag bg ho
    rw [ho] at hr
    obtain ⟨h1, h2, h3, h4, _⟩ := (simplified_alt R a b ag bg).1 hr
    exact ⟨h1, h2, h3, h4⟩
  · intro a b bs c cg gm ho
    rw [ho] at hr
    obtain ⟨h1, h2, h3, h4, _⟩ := (simplified_seq R a b c bs cg gm).1 hr
    exact ⟨h1, h2, h3, h4⟩
  · intro p s e1 h
    simp only [Option.bind_eq_some] at h
    obtain ⟨e0, he0, h⟩ := h
    exact feed_simplified R HR s e0 e1 (build_simplified R p e0 he0) h

/-- Witness of C19: the derivative of ALT(STR ab, STR ac, {0}, {0}) by `a` is
the simplified node ALT(CHAR b, CHAR c, {0}, {0}). -/
theorem C19_derivatives_return_simplified_nodes_witness :
    d no_rules (alt_expr (str_expr [97, 98]) (str_expr [97, 99]) [0] [0]) 97 =
      some (alt_expr (char_expr 98) (char_expr 99) [0] [0]) ∧
    simplified no_rules (alt_expr (char_expr 98) (char_expr 99) [0] [0]) = true :=
  ⟨rfl, (C19_derivatives_return_simplified_nodes no_rules (by intro q x e h; cases h)
      (alt_expr (str_expr [97, 98]) (str_expr [97, 99]) [0] [0]) 97
      (alt_expr (char_expr 98) (char_expr 99) [0] [0]) rfl rfl).1⟩

end derivs

namespace egg

/-! ### The claim on the command line -/

theorem parse_flags_short_q (rest : List String) (a : args) :
    parse_flags ("-q" :: rest) a = (a, some ("-q" :: rest)) := by
  cases rest <;> simp [parse_flags, match_, eq]

theorem parse_flags_long_quiet (rest : List String) (a : args) :
    parse_flags ("--quiet" :: rest) a = parse_flags rest { a with quietFlag := true } := by
  cases rest <;> simp [parse_flags, match_, eq]

/-- C20 (failing input): the short form `-q` is not accepted.  With the
arguments `-q grammar.egg` the quiet flag stays unset, `-q` is taken as the
input file and `grammar.egg` as the output file, while `grammar.egg` alone is
the input file with no output file; the loop over the flags stops at `-q`,
whatever follows.  The long form `--quiet` sets the flag and the parsing
continues. -/
theorem C20_short_quiet_flag_is_not_accepted :
    (args_of ["egg", "-q", "grammar.egg"]).quietFlag = false ∧
    (args_of ["egg", "-q", "grammar.egg"]).in_ = some "-q" ∧
    (args_of ["egg", "-q", "grammar.egg"]).out = some "grammar.egg" ∧
    (args_of ["egg", "grammar.egg"]).in_ = some "grammar.egg" ∧
    (args_of ["egg", "grammar.egg"]).out = none ∧
    (args_of ["egg", "--quiet", "grammar.egg"]).quietFlag = true ∧
    (args_of ["egg", "--quiet", "grammar.egg"]).in_ = some "grammar.egg" ∧
    (args_of ["egg", "--quiet", "grammar.egg"]).out = none ∧
    (∀ rest a, parse_flags ("-q" :: rest) a = (a, some ("-q" :: rest))) ∧
    (∀ rest a, parse_flags ("--quiet" :: rest) a =
      parse_flags rest { a with quietFlag := true }) := by
  refine ⟨by decide, by decide, by decide, by decide, by decide, by decide, by decide, by decide,
    parse_flags_short_q, parse_flags_long_quiet⟩

end egg
/-! ### The claim on the grammar name of the command line -/

namespace egg

theorem args_of_eq (prog arg1 : String) (rest : List String) :
    args_of (prog :: arg1 :: rest) =
      parse_files (parse_flags (if (parse_mode arg1 args_init).1 then rest else arg1 :: rest)
        (parse_mode arg1 args_init).2) := by
  simp only [args_of, parse_files]

theorem parse_mode_keeps (s : String) (a : args) :
    (parse_mode s a).2.nameFlag = a.nameFlag ∧ (parse_mode s a).2.pName = a.pName ∧
    (parse_mode s a).2.in_ = a.in_ ∧ (parse_mode s a).2.out = a.out := by
  unfold parse_mode
  repeat' split
  all_goals exact ⟨rfl, rfl, rfl, rfl⟩

theorem name_inv_input (s : String) (a : args) (hf : a.nameFlag = false)
    (hn : a.pName = name_of_files a) :
    (parse_input s a).nameFlag = false ∧ (parse_input s a).pName = name_of_files (parse_input s a) := by
  refine ⟨hf, ?_⟩
  cases ho : a.out with
  | none => simp [parse_input, name_of_files, hf, ho]
  | some o =>
      simp [parse_input, name_of_files, hf, ho]
      rw [hn]
      simp [name_of_files, ho]

theorem name_inv_output (s : String) (a : args) (hf : a.nameFlag = false) :
    (parse_output s a).nameFlag = false ∧
    (parse_output s a).pName = name_of_files (parse_output s a) := by
  refine ⟨hf, ?_⟩
  simp [parse_output, name_of_files, hf]

theorem name_fixed_input (s : String) (a : args) (hf : a.nameFlag = true) :
    (parse_input s a).nameFlag = true ∧ (parse_input s a).pName = a.pName := by
  simp [parse_input, hf]

theorem name_fixed_output (s : String) (a : args) (hf : a.nameFlag = true) :
    (parse_output s a).nameFlag = true ∧ (parse_output s a).pName = a.pName := by
  simp [parse_output, hf]


theorem parse_flags_cases (arg : String) (rest : List String) (a : args) :
    (match_ "-i" "--input" arg = true ∧
      ((rest = [] ∧ parse_flags (arg :: rest) a = (a, none)) ∨
       ∃ v r1, rest = v :: r1 ∧ parse_flags (arg :: rest) a = parse_flags r1 (parse_input v a))) ∨
    (match_ "-o" "--output" arg = true ∧
      ((rest = [] ∧ parse_flags (arg :: rest) a = (a, none)) ∨
       ∃ v r1, rest = v :: r1 ∧ parse_flags (arg :: rest) a = parse_flags r1 (parse_output v a))) ∨
    (match_ "-c" "--command" arg = true ∧
      ((rest = [] ∧ parse_flags (arg :: rest) a = (a, none)) ∨
       ∃ v r1, rest = v :: r1 ∧
         parse_flags (arg :: rest) a = parse_flags r1 (parse_mode v a).2)) ∨
    (match_ "-n" "--name" arg = true ∧
      ((rest = [] ∧ parse_flags (arg :: rest) a = (a, none)) ∨
       ∃ v r1, rest = v :: r1 ∧ parse_flags (arg :: rest) a = parse_flags r1 (parse_name v a))) ∨
    (∃ a1 : args, a1.in_ = a.in_ ∧ a1.out = a.out ∧ a1.pName = a.pName ∧
      a1.nameFlag = a.nameFlag ∧ parse_flags (arg :: rest) a = parse_flags rest a1) ∨
    parse_flags (arg :: rest) a = (a, some (arg :: rest)) := by
  by_cases h1 : match_ "-i" "--input" arg = true
  · left
    refine ⟨h1, ?_⟩
    cases rest with
    | nil => left; simp [parse_flags, h1]
    | cons v r1 => right; exact ⟨v, r1, rfl, by simp [parse_flags, h1]⟩
  right
  by_cases h2 : match_ "-o" "--output" arg = true
  · left
    refine ⟨h2, ?_⟩
    cases rest with
    | nil => left; simp [parse_flags, h1, h2]
    | cons v r1 => right; exact ⟨v, r1, rfl, by simp [parse_flags, h1, h2]⟩
  right
  by_cases h3 : match_ "-c" "--command" arg = true
  · left
    refine ⟨h3, ?_⟩
    cases rest with
    | nil => left; simp [parse_flags, h1, h2, h3]
    | cons v r1 => right; exact ⟨v, r1, rfl, by simp [parse_flags, h1, h2, h3]⟩
  right
  by_cases h4 : match_ "-n" "--name" arg = true
  · left
    refine ⟨h4, ?_⟩
    cases rest with
    | nil => left; simp [parse_flags, h1, h2, h3, h4]
    | cons v r1 => right; exact ⟨v, r1, rfl, by simp [parse_flags, h1, h2, h3, h4]⟩
  right
  have hunf : parse_flags (arg :: rest) a =
      (if eq "--dbg" arg then parse_flags rest { a with dbgFlag := true }
      else if eq "--no-norm" arg then parse_flags rest { a with normFlag := false }
      else if eq "--no-memo" arg then parse_flags rest { a with memoFlag := false }
      else if match_ "-i" "--quiet" arg then parse_flags rest { a with quietFlag := true }
      else if eq "--usage" arg then parse_flags rest { a with eMode := .USAGE_MODE }
      else if eq "--help" arg then parse_flags rest { a with eMode := .HELP_MODE }
      else if eq "--version" arg then parse_flags rest { a with eMode := .VERSION_MODE }
      else (a, some (arg :: rest))) := by
    cases rest <;> simp [parse_flags, h1, h2, h3, h4]
  rw [hunf]
  by_cases c1 : eq "--dbg" arg = true
  · left; exact ⟨{ a with dbgFlag := true }, rfl, rfl, rfl, rfl, by rw [if_pos c1]⟩
  rw [if_neg c1]
  by_cases c2 : eq "--no-norm" arg = true
  · left; exact ⟨{ a with normFlag := false }, rfl, rfl, rfl, rfl, by rw [if_pos c2]⟩
  rw [if_neg c2]
  by_cases c3 : eq "--no-memo" arg = true
  · left; exact ⟨{ a with memoFlag := false }, rfl, rfl, rfl, rfl, by rw [if_pos c3]⟩
  rw [if_neg c3]
  by_cases c4 : match_ "-i" "--quiet" arg = true
  · left; exact ⟨{ a with quietFlag := true }, rfl, rfl, rfl, rfl, by rw [if_pos c4]⟩
  rw [if_neg c4]
  by_cases c5 : eq "--usage" arg = true
  · left; exact ⟨{ a with eMode := .USAGE_MODE }, rfl, rfl, rfl, rfl, by rw [if_pos c5]⟩
  rw [if_neg c5]
  by_cases c6 : eq "--help" arg = true
  · left; exact ⟨{ a with eMode := .HELP_MODE }, rfl, rfl, rfl, rfl, by rw [if_pos c6]⟩
  rw [if_neg c6]
  by_cases c7 : eq "--version" arg = true
  · left; exact ⟨{ a with eMode := .VERSION_MODE }, rfl, rfl, rfl, rfl, by rw [if_pos c7]⟩
  rw [if_neg c7]
  right; rfl


theorem parse_flags_name_inv : ∀ (n : Nat) (fl : List String) (a : args), fl.length ≤ n →
    a.nameFlag = false → a.pName = name_of_files a →
    (∀ s ∈ fl, s ≠ "-n" ∧ s ≠ "--name") →
    (parse_flags fl a).1.nameFlag = false ∧
    (parse_flags fl a).1.pName = name_of_files (parse_flags fl a).1 := by
  intro n
  induction n with
  | zero =>
      intro fl a hl hf hn _
      cases fl with
      | nil => exact ⟨hf, hn⟩
      | cons x t => simp at hl
  | succ n ih =>
      intro fl a hl hf hn hno
      cases fl with
      | nil => exact ⟨hf, hn⟩
      | cons arg rest =>
          have hrest : ∀ s ∈ rest, s ≠ "-n" ∧ s ≠ "--name" :=
            fun s hs => hno s (List.mem_cons_of_mem _ hs)
          have harg := hno arg (List.mem_cons_self _ _)
          have hlen : rest.length ≤ n := by simpa using hl
          have hnn : ¬ match_ "-n" "--name" arg = true := by
            simp only [match_, Bool.or_eq_true, beq_iff_eq, not_or]
            exact ⟨fun h => harg.1 h.symm, fun h => harg.2 h.symm⟩
          have hsub : ∀ v r1, rest = v :: r1 →
              r1.length ≤ n ∧ ∀ s ∈ r1, s ≠ "-n" ∧ s ≠ "--name" := by
            intro v r1 hv
            subst hv
            refine ⟨?_, fun s hs => hrest s (List.mem_cons_of_mem _ hs)⟩
            simp at hlen; omega
          rcases parse_flags_cases arg rest a with
            ⟨_, h | ⟨v, r1, hv, h⟩⟩ | ⟨_, h | ⟨v, r1, hv, h⟩⟩ | ⟨_, h | ⟨v, r1, hv, h⟩⟩ |
            ⟨h4, _⟩ | ⟨a1, e1, e2, e3, e4, h⟩ | h
          · rw [h.2]; exact ⟨hf, hn⟩
          · rw [h]
            exact ih r1 _ (hsub v r1 hv).1 (name_inv_input v a hf hn).1
              (name_inv_input v a hf hn).2 (hsub v r1 hv).2
          · rw [h.2]; exact ⟨hf, hn⟩
          · rw [h]
            exact ih r1 _ (hsub v r1 hv).1 (name_inv_output v a hf).1
              (name_inv_output v a hf).2 (hsub v r1 hv).2
          · rw [h.2]; exact ⟨hf, hn⟩
          · rw [h]
            have hk := parse_mode_keeps v a
            refine ih r1 _ (hsub v r1 hv).1 (hk.1.trans hf) ?_ (hsub v r1 hv).2
            rw [hk.2.1, hn]
            simp [name_of_files, hk.2.2.1, hk.2.2.2]
          · exact absurd h4 hnn
          · rw [h]
            refine ih rest a1 hlen (e4.trans hf) ?_ hrest
            rw [e3, hn]
            simp [name_of_files, e1, e2]
          · rw [h]; exact ⟨hf, hn⟩

theorem parse_flags_name_fixed : ∀ (n : Nat) (fl : List String) (a : args), fl.length ≤ n →
    a.nameFlag = true → (∀ s ∈ fl, s ≠ "-n" ∧ s ≠ "--name") →
    (parse_flags fl a).1.nameFlag = true ∧ (parse_flags fl a).1.pName = a.pName := by
  intro n
  induction n with
  | zero =>
      intro fl a hl hf _
      cases fl with
      | nil => exact ⟨hf, rfl⟩
      | cons x t => simp at hl
  | succ n ih =>
      intro fl a hl hf hno
      cases fl with
      | nil => exact ⟨hf, rfl⟩
      | cons arg rest =>
          have hrest : ∀ s ∈ rest, s ≠ "-n" ∧ s ≠ "--name" :=
            fun s hs => hno s (List.mem_cons_of_mem _ hs)
          have harg := hno arg (List.mem_cons_self _ _)
          have hlen : rest.length ≤ n := by simpa using hl
          have hnn : ¬ match_ "-n" "--name" arg = true := by
            simp only [match_, Bool.or_eq_true, beq_iff_eq, not_or]
            exact ⟨fun h => harg.1 h.symm, fun h => harg.2 h.symm⟩
          have hsub : ∀ v r1, rest = v :: r1 →
              r1.length ≤ n ∧ ∀ s ∈ r1, s ≠ "-n" ∧ s ≠ "--name" := by
            intro v r1 hv
            subst hv
            refine ⟨?_, fun s hs => hrest s (List.mem_cons_of_mem _ hs)⟩
            simp at hlen; omega
          rcases parse_flags_cases arg rest a with
            ⟨_, h | ⟨v, r1, hv, h⟩⟩ | ⟨_, h | ⟨v, r1, hv, h⟩⟩ | ⟨_, h | ⟨v, r1, hv, h⟩⟩ |
            ⟨h4, _⟩ | ⟨a1, e1, e2, e3, e4, h⟩ | h
          · rw [h.2]; exact ⟨hf, rfl⟩
          · rw [h]
            have hi := name_fixed_input v a hf
            have := ih r1 _ (hsub v r1 hv).1 hi.1 (hsub v r1 hv).2
            exact ⟨this.1, this.2.trans hi.2⟩
          · rw [h.2]; exact ⟨hf, rfl⟩
          · rw [h]
            have hi := name_fixed_output v a hf
            have := ih r1 _ (hsub v r1 hv).1 hi.1 (hsub v r1 hv).2
            exact ⟨this.1, this.2.trans hi.2⟩
          · rw [h.2]; exact ⟨hf, rfl⟩
          · rw [h]
            have hk := parse_mode_keeps v a
            have := ih r1 _ (hsub v r1 hv).1 (hk.1.trans hf) (hsub v r1 hv).2
            exact ⟨this.1, this.2.trans hk.2.1⟩
          · exact absurd h4 hnn
          · rw [h]
            have := ih rest a1 hlen (e4.trans hf) hrest
            exact ⟨this.1, this.2.trans e3⟩
          · rw [h]; exact ⟨hf, rfl⟩

theorem parse_files_name_inv (p : args × Option (List String)) (hf : p.1.nameFlag = false)
    (hn : p.1.pName = name_of_files p.1) :
    (parse_files p).nameFlag = false ∧ (parse_files p).pName = name_of_files (parse_files p) := by
  obtain ⟨a, o⟩ := p
  cases o with
  | none => exact ⟨hf, hn⟩
  | some rest =>
      cases rest with
      | nil => exact ⟨hf, hn⟩
      | cons f r =>
          cases hi : a.in_ with
          | none =>
              have h1 := name_inv_input f a hf hn
              cases r with
              | nil => simpa [parse_files, hi] using h1
              | cons g r1 =>
                  cases ho : a.out with
                  | none =>
                      have h2 := name_inv_output g (parse_input f a) h1.1
                      simpa [parse_files, hi, ho, parse_input] using h2
                  | some o1 =>
                      simpa [parse_files, hi, ho, parse_input] using h1
          | some i1 =>
              cases ho : a.out with
              | none =>
                  have h2 := name_inv_output f a hf
                  simpa [parse_files, hi, ho] using h2
              | some o1 =>
                  simpa [parse_files, hi, ho] using And.intro hf hn

theorem parse_files_name_fixed (p : args × Option (List String)) (hf : p.1.nameFlag = true) :
    (parse_files p).nameFlag = true ∧ (parse_files p).pName = p.1.pName := by
  obtain ⟨a, o⟩ := p
  cases o with
  | none => exact ⟨hf, rfl⟩
  | some rest =>
      have hf1 : a.nameFlag = true := hf
      cases rest with
      | nil => exact ⟨hf, rfl⟩
      | cons f r =>
          cases hi : a.in_ <;> cases ho : a.out <;> cases r <;>
            simp [parse_files, hi, ho, parse_input, parse_output, hf1]


theorem parse_flags_unfold (arg : String) (rest : List String) (a : args) :
    parse_flags (arg :: rest) a =
      (if match_ "-i" "--input" arg then
        match rest with
        | [] => (a, none)
        | v :: rest1 => parse_flags rest1 (parse_input v a)
      else if match_ "-o" "--output" arg then
        match rest with
        | [] => (a, none)
        | v :: rest1 => parse_flags rest1 (parse_output v a)
      else if match_ "-c" "--command" arg then
        match rest with
        | [] => (a, none)
        | v :: rest1 => parse_flags rest1 (parse_mode v a).2
      else if match_ "-n" "--name" arg then
        match rest with
        | [] => (a, none)
        | v :: rest1 => parse_flags rest1 (parse_name v a)
      else if eq "--dbg" arg then parse_flags rest { a with dbgFlag := true }
      else if eq "--no-norm" arg then parse_flags rest { a with normFlag := false }
      else if eq "--no-memo" arg then parse_flags rest { a with memoFlag := false }
      else if match_ "-i" "--quiet" arg then parse_flags rest { a with quietFlag := true }
      else if eq "--usage" arg then parse_flags rest { a with eMode := .USAGE_MODE }
      else if eq "--help" arg then parse_flags rest { a with eMode := .HELP_MODE }
      else if eq "--version" arg then parse_flags rest { a with eMode := .VERSION_MODE }
      else (a, some (arg :: rest))) := by
  cases rest <;> rfl

theorem parse_flags_append : ∀ (n : Nat) (pre rest : List String) (a a1 : args),
    pre.length ≤ n → parse_flags pre a = (a1, some []) →
    parse_flags (pre ++ rest) a = parse_flags rest a1 := by
  intro n
  induction n with
  | zero =>
      intro pre rest a a1 hl h
      cases pre with
      | nil =>
          simp only [parse_flags, Prod.mk.injEq] at h
          rw [List.nil_append, h.1]
      | cons x t => simp at hl
  | succ n ih =>
      intro pre rest a a1 hl h
      cases pre with
      | nil =>
          simp only [parse_flags, Prod.mk.injEq] at h
          rw [List.nil_append, h.1]
      | cons arg pr =>
          have hlen : pr.length ≤ n := by simpa using hl
          rw [parse_flags_unfold] at h
          rw [List.cons_append, parse_flags_unfold]
          by_cases h1 : match_ "-i" "--input" arg = true
          · rw [if_pos h1] at h ⊢
            cases pr with
            | nil => cases h
            | cons v r1 =>
                have hl1 : r1.length ≤ n := by simp at hlen; omega
                exact ih r1 rest _ a1 hl1 h
          rw [if_neg h1] at h ⊢
          by_cases h2 : match_ "-o" "--output" arg = true
          · rw [if_pos h2] at h ⊢
            cases pr with
            | nil => cases h
            | cons v r1 =>
                have hl1 : r1.length ≤ n := by simp at hlen; omega
                exact ih r1 rest _ a1 hl1 h
          rw [if_neg h2] at h ⊢
          by_cases h3 : match_ "-c" "--command" arg = true
          · rw [if_pos h3] at h ⊢
            cases pr with
            | nil => cases h
            | cons v r1 =>
                have hl1 : r1.length ≤ n := by simp at hlen; omega
                exact ih r1 rest _ a1 hl1 h
          rw [if_neg h3] at h ⊢
          by_cases h4 : match_ "-n" "--name" arg = true
          · rw [if_pos h4] at h ⊢
            cases pr with
            | nil => cases h
            | cons v r1 =>
                have hl1 : r1.length ≤ n := by simp at hlen; omega
                exact ih r1 rest _ a1 hl1 h
          rw [if_neg h4] at h ⊢
          by_cases h5 : eq "--dbg" arg = true
          · rw [if_pos h5] at h ⊢
            exact ih pr rest _ a1 hlen h
          rw [if_neg h5] at h ⊢
          by_cases h6 : eq "--no-norm" arg = true
          · rw [if_pos h6] at h ⊢
            exact ih pr rest _ a1 hlen h
          rw [if_neg h6] at h ⊢
          by_cases h7 : eq "--no-memo" arg = true
          · rw [if_pos h7] at h ⊢
            exact ih pr rest _ a1 hlen h
          rw [if_neg h7] at h ⊢
          by_cases h8 : match_ "-i" "--quiet" arg = true
          · rw [if_pos h8] at h ⊢
            exact ih pr rest _ a1 hlen h
          rw [if_neg h8] at h ⊢
          by_cases h9 : eq "--usage" arg = true
          · rw [if_pos h9] at h ⊢
            exact ih pr rest _ a1 hlen h
          rw [if_neg h9] at h ⊢
          by_cases h10 : eq "--help" arg = true
          · rw [if_pos h10] at h ⊢
            exact ih pr rest _ a1 hlen h
          rw [if_neg h10] at h ⊢
          by_cases h11 : eq "--version" arg = true
          · rw [if_pos h11] at h ⊢
            exact ih pr rest _ a1 hlen h
          rw [if_neg h11] at h ⊢
          cases h


theorem id_prefix_data (s : String) :
    (s.data = [] → id_prefix s = "") ∧
    (∀ c t, s.data = c :: t → id_start c = false → id_prefix s = "") ∧
    (∀ c t, s.data = c :: t → id_start c = true →
      ( id_prefix s).data = c :: t.takeWhile id_char) := by
  refine ⟨?_, ?_, ?_⟩
  · intro h
    simp [ id_prefix, h]
  · intro c t h hc
    simp [ id_prefix, h, hc]
  · intro c t h hc
    simp [ id_prefix, h, hc]

theorem match_of_ne (shrt lng arg : String) (h : arg ≠ shrt ∧ arg ≠ lng) :
    ¬ match_ shrt lng arg = true := by
  simp only [match_, Bool.or_eq_true, beq_iff_eq, not_or]
  exact ⟨fun e => h.1 e.symm, fun e => h.2 e.symm⟩

theorem parse_flags_frame {β : Type} (π : args → β)
    (hmode : ∀ v a, π (parse_mode v a).2 = π a)
    (hoth : ∀ a a1 : args, a1.in_ = a.in_ → a1.out = a.out → a1.pName = a.pName →
      a1.nameFlag = a.nameFlag → π a1 = π a) :
    ∀ (n : Nat) (fl : List String) (a : args), fl.length ≤ n →
      ((∀ v b, π (parse_input v b) = π b) ∨ ∀ s ∈ fl, s ≠ "-i" ∧ s ≠ "--input") →
      ((∀ v b, π (parse_output v b) = π b) ∨ ∀ s ∈ fl, s ≠ "-o" ∧ s ≠ "--output") →
      ((∀ v b, π (parse_name v b) = π b) ∨ ∀ s ∈ fl, s ≠ "-n" ∧ s ≠ "--name") →
      π (parse_flags fl a).1 = π a := by
  intro n
  induction n with
  | zero =>
      intro fl a hl _ _ _
      cases fl with
      | nil => rfl
      | cons x t => simp at hl
  | succ n ih =>
      intro fl a hl hI hO hN
      cases fl with
      | nil => rfl
      | cons arg rest =>
          have hlen : rest.length ≤ n := by simpa using hl
          have tl1 : ∀ (k1 k2 : String),
              (∀ s ∈ arg :: rest, s ≠ k1 ∧ s ≠ k2) → ∀ s ∈ rest, s ≠ k1 ∧ s ≠ k2 :=
            fun k1 k2 h s hs => h s (List.mem_cons_of_mem _ hs)
          have tl2 : ∀ (k1 k2 v : String) (r1 : List String), rest = v :: r1 →
              (∀ s ∈ arg :: rest, s ≠ k1 ∧ s ≠ k2) → ∀ s ∈ r1, s ≠ k1 ∧ s ≠ k2 := by
            intro k1 k2 v r1 hv h s hs
            subst hv
            exact h s (List.mem_cons_of_mem _ (List.mem_cons_of_mem _ hs))
          have hl2 : ∀ v r1, rest = v :: r1 → r1.length ≤ n := by
            intro v r1 hv
            subst hv
            simp at hlen; omega
          rcases parse_flags_cases arg rest a with
            ⟨m, h | ⟨v, r1, hv, h⟩⟩ | ⟨m, h | ⟨v, r1, hv, h⟩⟩ | ⟨m, h | ⟨v, r1, hv, h⟩⟩ |
            ⟨m, h | ⟨v, r1, hv, h⟩⟩ | ⟨a1, e1, e2, e3, e4, h⟩ | h
          · rw [h.2]
          · rw [h]
            rcases hI with hI | hI
            · rw [ih r1 _ (hl2 v r1 hv) (Or.inl hI) (hO.imp id (tl2 _ _ v r1 hv))
                (hN.imp id (tl2 _ _ v r1 hv))]
              exact hI v a
            · exact absurd m (match_of_ne _ _ _ (hI arg (List.mem_cons_self _ _)))
          · rw [h.2]
          · rw [h]
            rcases hO with hO | hO
            · rw [ih r1 _ (hl2 v r1 hv) (hI.imp id (tl2 _ _ v r1 hv)) (Or.inl hO)
                (hN.imp id (tl2 _ _ v r1 hv))]
              exact hO v a
            · exact absurd m (match_of_ne _ _ _ (hO arg (List.mem_cons_self _ _)))
          · rw [h.2]
          · rw [h]
            rw [ih r1 _ (hl2 v r1 hv) (hI.imp id (tl2 _ _ v r1 hv)) (hO.imp id (tl2 _ _ v r1 hv))
                (hN.imp id (tl2 _ _ v r1 hv))]
            exact hmode v a
          · rw [h.2]
          · rw [h]
            rcases hN with hN | hN
            · rw [ih r1 _ (hl2 v r1 hv) (hI.imp id (tl2 _ _ v r1 hv))
                (hO.imp id (tl2 _ _ v r1 hv)) (Or.inl hN)]
              exact hN v a
            · exact absurd m (match_of_ne _ _ _ (hN arg (List.mem_cons_self _ _)))
          · rw [h]
            rw [ih rest a1 hlen (hI.imp id (tl1 _ _)) (hO.imp id (tl1 _ _)) (hN.imp id (tl1 _ _))]
            exact hoth a a1 e1 e2 e3 e4
          · rw [h]

theorem parse_flags_keeps_name_flag (fl : List String) (a : args)
    (h : ∀ s ∈ fl, s ≠ "-n" ∧ s ≠ "--name") : (parse_flags fl a).1.nameFlag = a.nameFlag :=
  parse_flags_frame (fun a => a.nameFlag) (fun v a => (parse_mode_keeps v a).1)
    (fun _ _ _ _ _ e4 => e4) fl.length fl a (le_refl _) (Or.inl (fun _ _ => rfl))
    (Or.inl (fun _ _ => rfl)) (Or.inr h)

theorem parse_flags_keeps_out (fl : List String) (a : args)
    (h : ∀ s ∈ fl, s ≠ "-o" ∧ s ≠ "--output") : (parse_flags fl a).1.out = a.out :=
  parse_flags_frame (fun a => a.out) (fun v a => (parse_mode_keeps v a).2.2.2)
    (fun _ _ _ e2 _ _ => e2) fl.length fl a (le_refl _) (Or.inl (fun _ _ => rfl))
    (Or.inr h) (Or.inl (fun _ _ => rfl))

theorem parse_flags_keeps_in (fl : List String) (a : args)
    (h : ∀ s ∈ fl, s ≠ "-i" ∧ s ≠ "--input") : (parse_flags fl a).1.in_ = a.in_ :=
  parse_flags_frame (fun a => a.in_) (fun v a => (parse_mode_keeps v a).2.2.1)
    (fun _ _ e1 _ _ _ => e1) fl.length fl a (le_refl _) (Or.inr h)
    (Or.inl (fun _ _ => rfl)) (Or.inl (fun _ _ => rfl))

theorem parse_files_out_kept (p : args × Option (List String)) (o : String)
    (h : p.1.out = some o) : (parse_files p).out = some o := by
  obtain ⟨a, r⟩ := p
  have h1 : a.out = some o := h
  cases r with
  | none => exact h
  | some rest =>
      cases rest with
      | nil => exact h
      | cons f r1 =>
          cases hi : a.in_ <;> cases r1 <;> simp [parse_files, hi, h1, parse_input]

theorem parse_flags_step_output (nm o : String) (post : List String) (a : args)
    (hnm : nm = "-o" ∨ nm = "--output") :
    parse_flags (nm :: o :: post) a = parse_flags post (parse_output o a) := by
  rw [parse_flags_unfold]
  rcases hnm with h | h <;> subst h <;> rfl

theorem parse_flags_step_input (nm f : String) (post : List String) (a : args)
    (hnm : nm = "-i" ∨ nm = "--input") :
    parse_flags (nm :: f :: post) a = parse_flags post (parse_input f a) := by
  rw [parse_flags_unfold]
  rcases hnm with h | h <;> subst h <;> rfl

theorem name_of_output_flag (pre post : List String) (nm o : String) (a a1 : args)
    (hnm : nm = "-o" ∨ nm = "--output") (hf : a.nameFlag = false)
    (hpre : parse_flags pre a = (a1, some []))
    (hpn : ∀ s ∈ pre, s ≠ "-n" ∧ s ≠ "--name")
    (hpost : ∀ s ∈ post, s ≠ "-o" ∧ s ≠ "--output" ∧ s ≠ "-n" ∧ s ≠ "--name") :
    (parse_files (parse_flags (pre ++ nm :: o :: post) a)).pName = id_prefix o ∧
    (parse_files (parse_flags (pre ++ nm :: o :: post) a)).out = some o := by
  rw [parse_flags_append _ pre (nm :: o :: post) a a1 (le_refl _) hpre,
    parse_flags_step_output nm o post a1 hnm]
  have hf1 : a1.nameFlag = false := by
    have := parse_flags_keeps_name_flag pre a hpn
    rw [hpre] at this
    exact this.trans hf
  have hb := name_inv_output o a1 hf1
  have h1 := parse_flags_name_inv _ post (parse_output o a1) (le_refl _) hb.1 hb.2
    (fun s hs => ⟨(hpost s hs).2.2.1, (hpost s hs).2.2.2⟩)
  have hout : (parse_flags post (parse_output o a1)).1.out = some o :=
    parse_flags_keeps_out post (parse_output o a1) (fun s hs => ⟨(hpost s hs).1, (hpost s hs).2.1⟩)
  have h2 := parse_files_name_inv _ h1.1 h1.2
  have hfo := parse_files_out_kept _ o hout
  refine ⟨?_, hfo⟩
  rw [h2.2]
  simp [name_of_files, hfo]

theorem name_of_input_flag (pre post : List String) (nm f : String) (a a1 : args)
    (hnm : nm = "-i" ∨ nm = "--input") (hf : a.nameFlag = false) (ho : a.out = none)
    (hpre : parse_flags pre a = (a1, some []))
    (hpn : ∀ s ∈ pre, s ≠ "-o" ∧ s ≠ "--output" ∧ s ≠ "-n" ∧ s ≠ "--name")
    (hpost : ∀ s ∈ post, s ≠ "-i" ∧ s ≠ "--input" ∧ s ≠ "-o" ∧ s ≠ "--output" ∧
      s ≠ "-n" ∧ s ≠ "--name") :
    (((parse_flags (pre ++ nm :: f :: post) a).2 = none ∨
        (parse_flags (pre ++ nm :: f :: post) a).2 = some []) →
      (parse_files (parse_flags (pre ++ nm :: f :: post) a)).pName = id_prefix f ∧
      (parse_files (parse_flags (pre ++ nm :: f :: post) a)).in_ = some f ∧
      (parse_files (parse_flags (pre ++ nm :: f :: post) a)).out = none) ∧
    (∀ g rest, (parse_flags (pre ++ nm :: f :: post) a).2 = some (g :: rest) →
      (parse_files (parse_flags (pre ++ nm :: f :: post) a)).pName = id_prefix g ∧
      (parse_files (parse_flags (pre ++ nm :: f :: post) a)).in_ = some f ∧
      (parse_files (parse_flags (pre ++ nm :: f :: post) a)).out = some g) := by
  rw [parse_flags_append _ pre (nm :: f :: post) a a1 (le_refl _) hpre,
    parse_flags_step_input nm f post a1 hnm]
  have hf1 : a1.nameFlag = false := by
    have := parse_flags_keeps_name_flag pre a (fun s hs => ⟨(hpn s hs).2.2.1, (hpn s hs).2.2.2⟩)
    rw [hpre] at this
    exact this.trans hf
  have ho1 : a1.out = none := by
    have := parse_flags_keeps_out pre a (fun s hs => ⟨(hpn s hs).1, (hpn s hs).2.1⟩)
    rw [hpre] at this
    exact this.trans ho
  have hbn : (parse_input f a1).pName = id_prefix f := by simp [parse_input, hf1, ho1]
  have h1 : (parse_flags post (parse_input f a1)).1.nameFlag = false :=
    (parse_flags_keeps_name_flag post _ (fun s hs => (hpost s hs).2.2.2.2)).trans hf1
  have h2 : (parse_flags post (parse_input f a1)).1.out = none :=
    (parse_flags_keeps_out post _ (fun s hs => ⟨(hpost s hs).2.2.1, (hpost s hs).2.2.2.1⟩)).trans ho1
  have h3 : (parse_flags post (parse_input f a1)).1.in_ = some f :=
    parse_flags_keeps_in post _ (fun s hs => ⟨(hpost s hs).1, (hpost s hs).2.1⟩)
  have h4 : (parse_flags post (parse_input f a1)).1.pName = id_prefix f := by
    have := (parse_flags_name_inv _ post (parse_input f a1) (le_refl _) hf1
      (by rw [hbn]; simp [name_of_files, parse_input, ho1])
      (fun s hs => (hpost s hs).2.2.2.2)).2
    rw [this]
    simp [name_of_files, h2, h3]
  generalize parse_flags post (parse_input f a1) = p at h1 h2 h3 h4
  obtain ⟨a2, r⟩ := p
  simp only at h1 h2 h3 h4
  refine ⟨?_, ?_⟩
  · intro hr
    rcases hr with hr | hr <;> simp only at hr <;> subst hr <;> exact ⟨h4, h3, h2⟩
  · intro g rest hr
    simp only at hr
    subst hr
    simp [parse_files, h3, h2, parse_output, h1]

theorem name_of_positional_files (fl : List String) (a : args)
    (hf : a.nameFlag = false) (hi : a.in_ = none) (ho : a.out = none)
    (hfl : ∀ s ∈ fl, s ≠ "-i" ∧ s ≠ "--input" ∧ s ≠ "-o" ∧ s ≠ "--output" ∧
      s ≠ "-n" ∧ s ≠ "--name") :
    (∀ f, (parse_flags fl a).2 = some [f] →
      (parse_files (parse_flags fl a)).pName = id_prefix f ∧
      (parse_files (parse_flags fl a)).in_ = some f ∧
      (parse_files (parse_flags fl a)).out = none) ∧
    (∀ f g rest, (parse_flags fl a).2 = some (f :: g :: rest) →
      (parse_files (parse_flags fl a)).pName = id_prefix g ∧
      (parse_files (parse_flags fl a)).in_ = some f ∧
      (parse_files (parse_flags fl a)).out = some g) := by
  have h1 : (parse_flags fl a).1.nameFlag = false :=
    (parse_flags_keeps_name_flag fl _ (fun s hs => (hfl s hs).2.2.2.2)).trans hf
  have h2 : (parse_flags fl a).1.out = none :=
    (parse_flags_keeps_out fl _ (fun s hs => ⟨(hfl s hs).2.2.1, (hfl s hs).2.2.2.1⟩)).trans ho
  have h3 : (parse_flags fl a).1.in_ = none :=
    (parse_flags_keeps_in fl _ (fun s hs => ⟨(hfl s hs).1, (hfl s hs).2.1⟩)).trans hi
  generalize parse_flags fl a = p at h1 h2 h3
  obtain ⟨a2, r⟩ := p
  simp only at h1 h2 h3
  refine ⟨?_, ?_⟩
  · intro f hr
    simp only at hr
    subst hr
    simp [parse_files, h3, h2, parse_input, h1]
  · intro f g rest hr
    simp only at hr
    subst hr
    simp [parse_files, h3, h2, parse_input, parse_output, h1]

theorem parse_flags_suffix : ∀ (n : Nat) (fl : List String) (a : args) (rest : List String),
    fl.length ≤ n → (parse_flags fl a).2 = some rest → ∃ p, fl = p ++ rest := by
  intro n
  induction n with
  | zero =>
      intro fl a rest hl h
      cases fl with
      | nil =>
          simp only [parse_flags, Option.some.injEq] at h
          exact ⟨[], by rw [← h]; rfl⟩
      | cons x t => simp at hl
  | succ n ih =>
      intro fl a rest hl h
      cases fl with
      | nil =>
          simp only [parse_flags, Option.some.injEq] at h
          exact ⟨[], by rw [← h]; rfl⟩
      | cons arg tl =>
          have hlen : tl.length ≤ n := by simpa using hl
          have step2 : ∀ v r1 b, tl = v :: r1 → parse_flags (arg :: tl) a = parse_flags r1 b →
              ∃ p, arg :: tl = p ++ rest := by
            intro v r1 b hv hb
            subst hv
            rw [hb] at h
            obtain ⟨p, hp⟩ := ih r1 b rest (by simp at hlen; omega) h
            exact ⟨arg :: v :: p, by rw [hp]; rfl⟩
          rcases parse_flags_cases arg tl a with
            ⟨_, h1 | ⟨v, r1, hv, h1⟩⟩ | ⟨_, h1 | ⟨v, r1, hv, h1⟩⟩ | ⟨_, h1 | ⟨v, r1, hv, h1⟩⟩ |
            ⟨_, h1 | ⟨v, r1, hv, h1⟩⟩ | ⟨a1, _, _, _, _, h1⟩ | h1
          · rw [h1.2] at h; cases h
          · exact step2 v r1 _ hv h1
          · rw [h1.2] at h; cases h
          · exact step2 v r1 _ hv h1
          · rw [h1.2] at h; cases h
          · exact step2 v r1 _ hv h1
          · rw [h1.2] at h; cases h
          · exact step2 v r1 _ hv h1
          · rw [h1] at h
            obtain ⟨p, hp⟩ := ih tl a1 rest hlen h
            exact ⟨arg :: p, by rw [hp]; rfl⟩
          · rw [h1] at h
            simp only [Option.some.injEq] at h
            exact ⟨[], by rw [← h]; rfl⟩

/-- C21: the grammar name of the command line.  Without an argument `-n` or
`--name` the name flag stays unset and the name is the identifier at the start
of the output file argument, or of the input file argument when no output file
is given, in whatever order the files are specified (`name_of_files`); after
`-n v` or `--name v`, in whatever position, the name is the identifier at the
start of `v` and neither file argument changes it.  The identifier at the
start of a string (`id_prefix`) is empty when the string is empty or does not
begin with a letter or an underscore, and otherwise the first character
followed by the longest run of letters, digits and underscores.  The files are
those of the argument vector: the flag loop starts with no file and no name
flag; the argument `o` of the last `-o o` or `--output o` is the output file
and gives the name, whatever stands before and after it; the argument `f` of
the last `-i f` or `--input f` is the input file and gives the name when no
output flag is given and the loop consumes all arguments, and when the loop
stops at an argument g, that argument is the output file and gives the name;
without file flags the argument at which the loop stops is the input file and
gives the name when it is the last one, and otherwise the argument after it is
the output file and gives the name.  What the loop leaves is the end of the
arguments it is given. -/
theorem C21_grammar_name :
    (∀ argv : List String, (∀ s ∈ argv, s ≠ "-n" ∧ s ≠ "--name") →
      (args_of argv).nameFlag = false ∧
      (args_of argv).pName = name_of_files (args_of argv)) ∧
    (∀ (pre post : List String) (v : String) (a a1 : args),
      parse_flags pre a = (a1, some []) → (∀ s ∈ post, s ≠ "-n" ∧ s ≠ "--name") →
      (parse_files (parse_flags (pre ++ "-n" :: v :: post) a)).pName = id_prefix v ∧
      (parse_files (parse_flags (pre ++ "--name" :: v :: post) a)).pName = id_prefix v) ∧
    (∀ (prog arg1 : String) (rest : List String),
      args_of (prog :: arg1 :: rest) =
        parse_files (parse_flags (if (parse_mode arg1 args_init).1 then rest else arg1 :: rest)
          (parse_mode arg1 args_init).2)) ∧
    (∀ s : String,
      (s.data = [] → id_prefix s = "") ∧
      (∀ c t, s.data = c :: t → id_start c = false → id_prefix s = "") ∧
      (∀ c t, s.data = c :: t → id_start c = true →
        ( id_prefix s).data = c :: t.takeWhile id_char)) ∧
    (∀ arg1 : String, (parse_mode arg1 args_init).2.nameFlag = false ∧
      (parse_mode arg1 args_init).2.in_ = none ∧ (parse_mode arg1 args_init).2.out = none) ∧
    (∀ (pre post : List String) (nm o : String) (a a1 : args),
      (nm = "-o" ∨ nm = "--output") → a.nameFlag = false →
      parse_flags pre a = (a1, some []) → (∀ s ∈ pre, s ≠ "-n" ∧ s ≠ "--name") →
      (∀ s ∈ post, s ≠ "-o" ∧ s ≠ "--output" ∧ s ≠ "-n" ∧ s ≠ "--name") →
      (parse_files (parse_flags (pre ++ nm :: o :: post) a)).pName = id_prefix o ∧
      (parse_files (parse_flags (pre ++ nm :: o :: post) a)).out = some o) ∧
    (∀ (pre post : List String) (nm f : String) (a a1 : args),
      (nm = "-i" ∨ nm = "--input") → a.nameFlag = false → a.out = none →
      parse_flags pre a = (a1, some []) →
      (∀ s ∈ pre, s ≠ "-o" ∧ s ≠ "--output" ∧ s ≠ "-n" ∧ s ≠ "--name") →
      (∀ s ∈ post, s ≠ "-i" ∧ s ≠ "--input" ∧ s ≠ "-o" ∧ s ≠ "--output" ∧
        s ≠ "-n" ∧ s ≠ "--name") →
      (((parse_flags (pre ++ nm :: f :: post) a).2 = none ∨
          (parse_flags (pre ++ nm :: f :: post) a).2 = some []) →
        (parse_files (parse_flags (pre ++ nm :: f :: post) a)).pName = id_prefix f ∧
        (parse_files (parse_flags (pre ++ nm :: f :: post) a)).in_ = some f ∧
        (parse_files (parse_flags (pre ++ nm :: f :: post) a)).out = none) ∧
      (∀ g rest, (parse_flags (pre ++ nm :: f :: post) a).2 = some (g :: rest) →
        (parse_files (parse_flags (pre ++ nm :: f :: post) a)).pName = id_prefix g ∧
        (parse_files (parse_flags (pre ++ nm :: f :: post) a)).in_ = some f ∧
        (parse_files (parse_flags (pre ++ nm :: f :: post) a)).out = some g)) ∧
    (∀ (fl : List String) (a : args),
      a.nameFlag = false → a.in_ = none → a.out = none →
      (∀ s ∈ fl, s ≠ "-i" ∧ s ≠ "--input" ∧ s ≠ "-o" ∧ s ≠ "--output" ∧
        s ≠ "-n" ∧ s ≠ "--name") →
      (∀ f, (parse_flags fl a).2 = some [f] →
        (parse_files (parse_flags fl a)).pName = id_prefix f ∧
        (parse_files (parse_flags fl a)).in_ = some f ∧
        (parse_files (parse_flags fl a)).out = none) ∧
      (∀ f g rest, (parse_flags fl a).2 = some (f :: g :: rest) →
        (parse_files (parse_flags fl a)).pName = id_prefix g ∧
        (parse_files (parse_flags fl a)).in_ = some f ∧
        (parse_files (parse_flags fl a)).out = some g)) ∧
    (∀ (fl : List String) (a : args) (rest : List String),
      (parse_flags fl a).2 = some rest → ∃ p, fl = p ++ rest) := by
  refine ⟨?_, ?_, args_of_eq, id_prefix_data, ?_, name_of_output_flag, name_of_input_flag,
    name_of_positional_files, fun fl a rest h => parse_flags_suffix _ fl a rest (le_refl _) h⟩
  · intro argv hno
    cases argv with
    | nil => exact ⟨rfl, rfl⟩
    | cons prog t =>
        cases t with
        | nil => exact ⟨rfl, rfl⟩
        | cons arg1 rest =>
            rw [args_of_eq]
            have hk := parse_mode_keeps arg1 args_init
            have hfl : ∀ s ∈ (if (parse_mode arg1 args_init).1 then rest else arg1 :: rest),
                s ≠ "-n" ∧ s ≠ "--name" := by
              intro s hs
              split at hs
              · exact hno s (List.mem_cons_of_mem _ (List.mem_cons_of_mem _ hs))
              · exact hno s (List.mem_cons_of_mem _ hs)
            have h1 := parse_flags_name_inv _ _ (parse_mode arg1 args_init).2 (le_refl _)
              (hk.1.trans rfl)
              (by rw [hk.2.1]; simp [name_of_files, hk.2.2.1, hk.2.2.2]; rfl) hfl
            exact parse_files_name_inv _ h1.1 h1.2
  · intro pre post v a a1 hpre hno
    have key : ∀ nm : String, match_ "-n" "--name" nm = true →
        (parse_files (parse_flags (pre ++ nm :: v :: post) a)).pName = id_prefix v := by
      intro nm hnm
      rw [parse_flags_append _ pre (nm :: v :: post) a a1 (le_refl _) hpre]
      have hstep : parse_flags (nm :: v :: post) a1 = parse_flags post (parse_name v a1) := by
        rw [parse_flags_unfold]
        have e1 : match_ "-i" "--input" nm = false := by
          simp only [match_, Bool.or_eq_true, beq_iff_eq] at hnm
          rcases hnm with h | h <;> subst h <;> decide
        have e2 : match_ "-o" "--output" nm = false := by
          simp only [match_, Bool.or_eq_true, beq_iff_eq] at hnm
          rcases hnm with h | h <;> subst h <;> decide
        have e3 : match_ "-c" "--command" nm = false := by
          simp only [match_, Bool.or_eq_true, beq_iff_eq] at hnm
          rcases hnm with h | h <;> subst h <;> decide
        rw [e1, e2, e3, hnm]
        rfl
      rw [hstep]
      have h1 := parse_flags_name_fixed _ post (parse_name v a1) (le_refl _) rfl hno
      have h2 := parse_files_name_fixed _ h1.1
      rw [h2.2, h1.2]
      rfl
    exact ⟨key "-n" (by decide), key "--name" (by decide)⟩
  · intro arg1
    have hk := parse_mode_keeps arg1 args_init
    exact ⟨hk.1, hk.2.2.1, hk.2.2.2⟩

/-- Witness of C21: with `-i in.egg -o out.cpp`, in either order, the name is
`out`; with `-n name` before or between the file arguments the name is
`name`; with the input file alone, as `-i in.egg` or as `in.egg`, the name is
`in`; with `in.egg out.cpp` and with `-i in.egg out.cpp` it is `out`. -/
theorem C21_grammar_name_witness :
    ((args_of ["egg", "-i", "in.egg", "-o", "out.cpp"]).nameFlag = false ∧
      (args_of ["egg", "-i", "in.egg", "-o", "out.cpp"]).pName =
        name_of_files (args_of ["egg", "-i", "in.egg", "-o", "out.cpp"])) ∧
    name_of_files (args_of ["egg", "-i", "in.egg", "-o", "out.cpp"]) = "out" ∧
    (args_of ["egg", "-o", "out.cpp", "-i", "in.egg"]).pName = "out" ∧
    (args_of ["egg", "-o", "out.cpp", "-n", "name", "-i", "in.egg"]).pName = "name" ∧
    (args_of ["egg", "-n", "name", "-o", "out.cpp", "-i", "in.egg"]).pName = "name" ∧
    ((parse_files (parse_flags (["-i", "in.egg"] ++ "-o" :: "out.cpp" :: ["--dbg"])
        args_init)).pName = id_prefix "out.cpp" ∧
      (parse_files (parse_flags (["-i", "in.egg"] ++ "-o" :: "out.cpp" :: ["--dbg"])
        args_init)).out = some "out.cpp") ∧
    ((parse_files (parse_flags ([] ++ "-i" :: "in.egg" :: []) args_init)).pName =
        id_prefix "in.egg" ∧
      (parse_files (parse_flags ([] ++ "-i" :: "in.egg" :: []) args_init)).in_ = some "in.egg" ∧
      (parse_files (parse_flags ([] ++ "-i" :: "in.egg" :: []) args_init)).out = none) ∧
    ((parse_files (parse_flags ([] ++ "-i" :: "in.egg" :: ["out.cpp"]) args_init)).pName =
        id_prefix "out.cpp" ∧
      (parse_files (parse_flags ([] ++ "-i" :: "in.egg" :: ["out.cpp"]) args_init)).in_ =
        some "in.egg" ∧
      (parse_files (parse_flags ([] ++ "-i" :: "in.egg" :: ["out.cpp"]) args_init)).out =
        some "out.cpp") ∧
    ((parse_files (parse_flags ["in.egg"] args_init)).pName = id_prefix "in.egg" ∧
      (parse_files (parse_flags ["in.egg"] args_init)).in_ = some "in.egg" ∧
      (parse_files (parse_flags ["in.egg"] args_init)).out = none) ∧
    ((parse_files (parse_flags ["in.egg", "out.cpp"] args_init)).pName = id_prefix "out.cpp" ∧
      (parse_files (parse_flags ["in.egg", "out.cpp"] args_init)).in_ = some "in.egg" ∧
      (parse_files (parse_flags ["in.egg", "out.cpp"] args_init)).out = some "out.cpp") ∧
    id_prefix "in.egg" = "in" ∧ id_prefix "out.cpp" = "out" ∧
    (args_of ["egg", "in.egg"]).pName = "in" ∧
    (args_of ["egg", "-i", "in.egg"]).pName = "in" ∧
    (args_of ["egg", "compile", "in.egg", "out.cpp"]).pName = "out" ∧
    (args_of ["egg", "-i", "in.egg", "out.cpp"]).pName = "out" :=
  ⟨C21_grammar_name.1 ["egg", "-i", "in.egg", "-o", "out.cpp"] (by decide), by decide, by decide,
   by decide, by decide,
   C21_grammar_name.2.2.2.2.2.1 ["-i", "in.egg"] ["--dbg"] "-o" "out.cpp" args_init
     (parse_flags ["-i", "in.egg"] args_init).1 (Or.inl rfl) rfl rfl (by decide) (by decide),
   (C21_grammar_name.2.2.2.2.2.2.1 [] [] "-i" "in.egg" args_init args_init (Or.inl rfl) rfl rfl rfl
     (by decide) (by decide)).1 (Or.inr rfl),
   (C21_grammar_name.2.2.2.2.2.2.1 [] ["out.cpp"] "-i" "in.egg" args_init args_init (Or.inl rfl) rfl rfl rfl
     (by decide) (by decide)).2 "out.cpp" [] rfl,
   (C21_grammar_name.2.2.2.2.2.2.2.1 ["in.egg"] args_init rfl rfl rfl (by decide)).1 "in.egg" rfl,
   (C21_grammar_name.2.2.2.2.2.2.2.1 ["in.egg", "out.cpp"] args_init rfl rfl rfl (by decide)).2
     "in.egg" "out.cpp" [] rfl,
   by decide, by decide, by decide, by decide, by decide, by decide⟩

end egg

namespace derivs

open expr

/-! ### Derivatives of the compound nodes -/

theorem update_back_map_cases (R : rule_ops Option) (e de : expr) (eg : uint_set) (gm : Nat)
    (did_inc : Bool) (eb deb : uint_set) (emax demax : Nat)
    (hb : back R e = some eb) (hdb : back R de = some deb)
    (he : eb.max = some emax) (hde : deb.max = some demax) :
    (demax > emax → demax = emax + 1 →
      update_back_map R e de eg gm did_inc = some (uint_set.ins (gm + 1) eg, true)) ∧
    (demax > emax → demax ≠ emax + 1 → update_back_map R e de eg gm did_inc = none) ∧
    (demax ≤ emax → update_back_map R e de eg gm did_inc = some (eg, did_inc)) := by
  have he1 : eb.getLast? = some emax := he
  have hde1 : deb.getLast? = some demax := hde
  have hne : eb.empty = false ∧ deb.empty = false := by
    cases eb with
    | nil => cases he
    | cons a t =>
        cases deb with
        | nil => cases hde
        | cons b u => exact ⟨rfl, rfl⟩
  refine ⟨?_, ?_, ?_⟩
  · intro h1 h2
    simp [update_back_map, hb, hdb, he, hde, he1, hde1, hne, get_or_fail_eq, assert_, h1, h2]
  · intro h1 h2
    simp [update_back_map, hb, hdb, he, hde, he1, hde1, hne, get_or_fail_eq, assert_, h1, h2]
  · intro h1
    have h2 : ¬ emax < demax := by omega
    simp [update_back_map, hb, hdb, he, hde, he1, hde1, hne, get_or_fail_eq, assert_, h2]

theorem update_back_map_inv (R : rule_ops Option) (e de : expr) (eg : uint_set) (gm : Nat)
    (did_inc : Bool) (p : uint_set × Bool)
    (h : update_back_map R e de eg gm did_inc = some p) :
    ∃ eb deb emax demax, back R e = some eb ∧ back R de = some deb ∧
      eb.max = some emax ∧ deb.max = some demax ∧
      ((demax > emax ∧ p = (uint_set.ins (gm + 1) eg, true)) ∨
       (demax ≤ emax ∧ p = (eg, did_inc))) := by
  simp only [update_back_map, Option.bind_eq_bind, Option.bind_eq_some, get_or_fail_eq] at h
  obtain ⟨eb, hb, deb, hdb, _, _, emax, he, demax, hde, h⟩ := h
  refine ⟨eb, deb, emax, demax, hb, hdb, he, hde, ?_⟩
  split at h
  · rename_i hgt
    simp only [Option.bind_eq_bind, Option.bind_eq_some, Option.pure_def,
      Option.some.injEq] at h
    obtain ⟨_, _, h⟩ := h
    exact Or.inl ⟨hgt, h.symm⟩
  · rename_i hgt
    simp only [Option.pure_def, Option.some.injEq] at h
    exact Or.inr ⟨by omega, h.symm⟩


theorem uint_set.max_ins_succ (s : uint_set) (g : Nat) (h : ∀ v ∈ s, v ≤ g) :
    (uint_set.ins (g + 1) s).max = some (g + 1) := by
  induction s with
  | nil => rfl
  | cons y ys ih =>
      have hy : y ≤ g := h y (List.mem_cons_self _ _)
      have hys : ∀ v ∈ ys, v ≤ g := fun v hv => h v (List.mem_cons_of_mem _ hv)
      have h1 : ¬ g + 1 < y := by omega
      have h2 : ¬ g + 1 = y := by omega
      have ih1 := ih hys
      unfold uint_set.max at ih1 ⊢
      simp only [uint_set.ins, h1, h2, if_false]
      cases hq : uint_set.ins (g + 1) ys with
      | nil => exact absurd hq (uint_set.ins_ne_nil _ _)
      | cons z zs =>
          rw [hq] at ih1
          rw [List.getLast?_cons_cons]
          exact ih1

theorem d_alt_expr (R : rule_ops Option) (a b : expr) (ag bg : uint_set) (x : Chr)
    (agm bgm : Nat) (da : expr) (hag : ag.max = some agm) (hbg : bg.max = some bgm) :
    d R a x = some da →
    d R (alt_expr a b ag bg) x =
      (match da with
      | fail_expr => do
          let db ← d R b x
          let (dbg, did_inc) ← update_back_map R b db bg (Nat.max agm bgm) false
          map_expr_make R db (Nat.max agm bgm + did_inc.toNat) dbg
      | inf_expr => pure da
      | _ => do
          let (dag, did_inc) ← update_back_map R a da ag (Nat.max agm bgm) false
          let dam ← match_ R da
          if !dam.empty then map_expr_make R da (Nat.max agm bgm + did_inc.toNat) dag
          else do
            let db ← d R b x
            if db.type = .fail_type then
              map_expr_make R da (Nat.max agm bgm + did_inc.toNat) dag
            else do
              let (dbg, _) ← update_back_map R b db bg (Nat.max agm bgm) did_inc
              pure (alt_expr da db dag dbg)) := by
  intro hda
  have hag1 : ag.getLast? = some agm := hag
  have hbg1 : bg.getLast? = some bgm := hbg
  simp only [d, hag, hbg, hag1, hbg1, hda, get_or_fail_eq, Option.bind_eq_bind,
    Option.some_bind]
  try rfl


theorem update_back_map_max (R : rule_ops Option) (e de : expr) (eg : uint_set) (gm : Nat)
    (did_inc : Bool) (p : uint_set × Bool) (m : Nat)
    (h : update_back_map R e de eg gm did_inc = some p)
    (hs : eg.Sorted (· < ·)) (hm : eg.max = some m) (hle : m ≤ gm) :
    (p = (uint_set.ins (gm + 1) eg, true) ∧ p.1.max = some (gm + 1)) ∨
    (p = (eg, did_inc) ∧ p.1.max = some m) := by
  obtain ⟨eb, deb, emax, demax, _, _, _, _, hc⟩ := update_back_map_inv R e de eg gm did_inc p h
  rcases hc with ⟨_, hp⟩ | ⟨_, hp⟩
  · left
    refine ⟨hp, ?_⟩
    rw [hp]
    exact uint_set.max_ins_succ eg gm
      (fun v hv => le_trans (uint_set.le_max_of_sorted eg hs m hm v hv) hle)
  · right
    exact ⟨hp, by rw [hp]; exact hm⟩

/-- C22: the derivative of ALT(a, b, ag, bg) in `derivs.hpp`, with
gm = max(ag.max, bg.max) and da = a.d(x).  If da is FAIL the result is
`map_expr::make(b.d(x), gm', bg')`; if da is INF the result is INF; otherwise,
if `da.match()` is not empty, or if `b.d(x)` is FAIL, the result is
`map_expr::make(da, gm', ag')`; otherwise it is ALT(da, b.d(x), ag', bg').
The maps ag' and bg' come from `update_back_map`, which adds gm + 1 exactly
when the backtrack maximum of the derivative is greater than that of the
branch, and gm' is gm + 1 when a retained branch did so and gm otherwise (for
the ALT node, the maximum of the new maps is that gm'). -/
theorem C22_alt_derivative (R : rule_ops Option) (a b : expr) (ag bg : uint_set) (x : Chr)
    (agm bgm : Nat) (da : expr) (hag : ag.max = some agm) (hbg : bg.max = some bgm)
    (hda : d R a x = some da) :
    (da = fail_expr → ∀ db dbg inc, d R b x = some db →
      update_back_map R b db bg (Nat.max agm bgm) false = some (dbg, inc) →
      d R (alt_expr a b ag bg) x = map_expr_make R db (Nat.max agm bgm + inc.toNat) dbg) ∧
    (da = inf_expr → d R (alt_expr a b ag bg) x = some inf_expr) ∧
    (da ≠ fail_expr → da ≠ inf_expr → ∀ dag inc dam,
      update_back_map R a da ag (Nat.max agm bgm) false = some (dag, inc) →
      match_ R da = some dam →
      (dam ≠ [] →
        d R (alt_expr a b ag bg) x = map_expr_make R da (Nat.max agm bgm + inc.toNat) dag) ∧
      (dam = [] → d R b x = some fail_expr →
        d R (alt_expr a b ag bg) x = map_expr_make R da (Nat.max agm bgm + inc.toNat) dag) ∧
      (dam = [] → ∀ db dbg inc2, d R b x = some db → db ≠ fail_expr →
        update_back_map R b db bg (Nat.max agm bgm) inc = some (dbg, inc2) →
        d R (alt_expr a b ag bg) x = some (alt_expr da db dag dbg) ∧
        (ag.Sorted (· < ·) → bg.Sorted (· < ·) →
          ∃ m1 m2, dag.max = some m1 ∧ dbg.max = some m2 ∧
            Nat.max m1 m2 = Nat.max agm bgm + inc2.toNat))) ∧
    (∀ e de eg inc0 p, update_back_map R e de eg (Nat.max agm bgm) inc0 = some p →
      ∃ eb deb emax demax, back R e = some eb ∧ back R de = some deb ∧
        eb.max = some emax ∧ deb.max = some demax ∧
        ((demax > emax ∧ p = (uint_set.ins (Nat.max agm bgm + 1) eg, true)) ∨
         (demax ≤ emax ∧ p = (eg, inc0)))) := by
  have hd := d_alt_expr R a b ag bg x agm bgm da hag hbg hda
  refine ⟨?_, ?_, ?_, ?_⟩
  · intro h db dbg inc hdb hu
    subst h
    rw [hd]
    simp only [Option.bind_eq_bind, hdb, hu, Option.some_bind]
  · intro h
    subst h
    rw [hd]
    rfl
  · intro h1 h2 dag inc dam hu hm
    have hd1 : d R (alt_expr a b ag bg) x =
        (if !dam.empty then map_expr_make R da (Nat.max agm bgm + inc.toNat) dag
          else do
            let db ← d R b x
            if db.type = .fail_type then
              map_expr_make R da (Nat.max agm bgm + inc.toNat) dag
            else do
              let (dbg, _) ← update_back_map R b db bg (Nat.max agm bgm) inc
              pure (alt_expr da db dag dbg)) := by
      rw [hd]
      cases da <;>
        first
          | exact absurd rfl h1
          | exact absurd rfl h2
          | simp only [Option.bind_eq_bind, hu, hm, Option.some_bind]
    refine ⟨?_, ?_, ?_⟩
    · intro hne
      rw [hd1]
      cases dam with
      | nil => exact absurd rfl hne
      | cons k t => simp [uint_set.empty]
    · intro he hdb
      subst he
      rw [hd1]
      simp [uint_set.empty, hdb, expr.type]
    · intro he db dbg inc2 hdb hnf hu2
      subst he
      refine ⟨?_, ?_⟩
      · rw [hd1]
        have hty : ¬ db.type = expr_type.fail_type := by
          intro hc
          apply hnf
          cases db <;> first | rfl | (simp [expr.type] at hc)
        simp [uint_set.empty, hdb, hty, hu2]
      · intro hsa hsb
        have hle1 : agm ≤ Nat.max agm bgm := Nat.le_max_left _ _
        have hle2 : bgm ≤ Nat.max agm bgm := Nat.le_max_right _ _
        rcases update_back_map_max R a da ag _ false (dag, inc) agm hu hsa hag hle1 with
          ⟨hp, hmx⟩ | ⟨hp, hmx⟩ <;>
        rcases update_back_map_max R b db bg _ inc (dbg, inc2) bgm hu2 hsb hbg hle2 with
          ⟨hq, hmy⟩ | ⟨hq, hmy⟩
        all_goals
          simp only [Prod.mk.injEq] at hp hq
          obtain ⟨_, hi⟩ := hp
          obtain ⟨_, hi2⟩ := hq
          subst hi; subst hi2
          refine ⟨_, _, hmx, hmy, ?_⟩
          simp [Bool.toNat]
          try omega
  · intro e de eg inc0 p h
    exact update_back_map_inv R e de eg _ inc0 p h


/-- Witness of C22: the derivative of ALT(CHAR a, CHAR b, {0}, {0}) by `a`; the
derivative EPS of the first branch has a match, so the result is
`map_expr::make(EPS, 0, {0})`, which is EPS. -/
theorem C22_alt_derivative_witness :
    d no_rules (alt_expr (char_expr 97) (char_expr 98) [0] [0]) 97 =
      map_expr_make no_rules eps_expr (Nat.max 0 0 + false.toNat) [0] ∧
    map_expr_make no_rules eps_expr (Nat.max 0 0 + false.toNat) [0] = some eps_expr :=
  ⟨((C22_alt_derivative no_rules (char_expr 97) (char_expr 98) [0] [0] 97 0 0 eps_expr rfl rfl
      rfl).2.2.1 (fun h => (by cases h)) (fun h => (by cases h)) [0] false [0] rfl rfl).1
      (fun h => (by cases h)), rfl⟩

/-- C23 (failing input): the node
MAP(SEQ(CHAR b, LOOK(1), [], FAIL, {0}, 1), 1, {0}) is what the expression
`!"a" / ("ab" !fail)` has become after the byte `a`.  The derivative of its
operand by `b` is LOOK(1), whose backtrack maximum 1 is greater than the
maximum 0 of the operand, so `update_back_map` gives the map {0, 2} and
`map_expr::make` of the derivative under that map is LOOK(2).
`map_expr::deriv` switches on the derivative before the map is updated and
reads `eg(1)` in the map {0}, which has no such generation: the derivative of
the MAP node is not defined and the input `ab`, which the expression accepts,
is not recognized. -/
theorem C23_map_derivative_reads_unmapped_generation :
    (build no_rules (.alt (.not (.chr 97)) (.seq (.str [97, 98]) (.not .fail)))).bind
        (fun e => feed no_rules e [97]) =
      some (map_expr (seq_expr (char_expr 98) (look_expr 1) look_list.nil fail_expr [0] 1) 1 [0]) ∧
    d no_rules (seq_expr (char_expr 98) (look_expr 1) look_list.nil fail_expr [0] 1) 98 =
      some (look_expr 1) ∧
    update_back_map no_rules
        (seq_expr (char_expr 98) (look_expr 1) look_list.nil fail_expr [0] 1) (look_expr 1)
        [0] 1 false = some ([0, 2], true) ∧
    map_expr_make no_rules (look_expr 1) 2 [0, 2] = some (look_expr 2) ∧
    uint_set.app [0] 1 = none ∧
    d no_rules
        (map_expr (seq_expr (char_expr 98) (look_expr 1) look_list.nil fail_expr [0] 1) 1 [0])
        98 = none ∧
    peg.accepts (.alt (.not (.chr 97)) (.seq (.str [97, 98]) (.not .fail))) [97, 98] = true ∧
    (build no_rules (.alt (.not (.chr 97)) (.seq (.str [97, 98]) (.not .fail)))).bind
        (fun e => recognize no_rules e [97, 98]) = none := by
  refine ⟨rfl, rfl, rfl, rfl, rfl, rfl, rfl, rfl⟩

theorem d_map_expr (R : rule_ops Option) (e : expr) (gm : Nat) (eg : uint_set) (x : Chr)
    (de : expr) :
    d R e x = some de →
    d R (map_expr e gm eg) x =
      (match de with
      | eps_expr => do
          let g ← get_or_fail (eg.app 0)
          pure (look_expr_make g)
      | look_expr _ => do
          let dm ← match_ R de
          let k ← get_or_fail dm.max
          let g ← get_or_fail (eg.app k)
          pure (look_expr_make g)
      | fail_expr => pure de
      | inf_expr => pure de
      | _ => do
          let (deg, did_inc) ← update_back_map R e de eg gm false
          pure (map_expr de (gm + did_inc.toNat) deg)) := by
  intro hde
  simp only [d, hde, Option.bind_eq_bind, Option.some_bind]
  try rfl


theorem d_map_expr_eq_make (R : rule_ops Option) (e : expr) (gm : Nat) (eg : uint_set) (x : Chr)
    (de : expr) (p : uint_set × Bool) (hde : d R e x = some de)
    (hu : update_back_map R e de eg gm false = some p)
    (hgrow : p = (eg, false) ∨ ∀ k, de ≠ look_expr k)
    (hkeys : ∀ deb demax, back R de = some deb → deb.max = some demax → demax < p.1.count)
    (hid : gm + p.2.toNat + 1 ≠ p.1.count) :
    d R (map_expr e gm eg) x = map_expr_make R de (gm + p.2.toNat) p.1 := by
  rw [d_map_expr R e gm eg x de hde]
  obtain ⟨eb, deb, emax, demax, hb, hdb, he, hdm, hc⟩ :=
    update_back_map_inv R e de eg gm false p hu
  have hk := hkeys deb demax hdb hdm
  have hdm1 : deb.getLast? = some demax := hdm
  have hsmall : demax = 0 → p = (eg, false) := by
    intro h0
    rcases hc with ⟨h1, _⟩ | ⟨_, h2⟩
    · omega
    · exact h2
  cases de with
  | eps_expr =>
      have h0 : demax = 0 := by
        simp only [back, Option.pure_def, Option.some.injEq] at hdb
        subst hdb
        cases hdm
        rfl
      have hp := hsmall h0
      subst h0
      rw [hp] at hk ⊢
      simp [map_expr_make, back, zero_set, uint_set.max, get_or_fail_eq, assert_, hk]
  | look_expr k =>
      have hp : p = (eg, false) := by
        rcases hgrow with h | h
        · exact h
        · exact absurd rfl (h k)
      have hkk : demax = k := by
        simp only [back, Option.pure_def, Option.some.injEq] at hdb
        subst hdb
        cases hdm
        rfl
      subst hkk
      rw [hp] at hk ⊢
      simp [map_expr_make, back, match_, uint_set.max, get_or_fail_eq, assert_, hk]
  | fail_expr =>
      have h0 : demax = 0 := by
        simp only [back, Option.pure_def, Option.some.injEq] at hdb
        subst hdb
        cases hdm
        rfl
      subst h0
      simp [map_expr_make, back, zero_set, uint_set.max, get_or_fail_eq, assert_, hk]
  | inf_expr =>
      have h0 : demax = 0 := by
        simp only [back, Option.pure_def, Option.some.injEq] at hdb
        subst hdb
        cases hdm
        rfl
      subst h0
      simp [map_expr_make, back, zero_set, uint_set.max, get_or_fail_eq, assert_, hk]
  | _ =>
      simp only [hu, Option.bind_eq_bind, Option.some_bind, map_expr_make, hdb, hdm, hdm1,
        get_or_fail_eq, assert_, hk, decide_True, if_true, Option.pure_def, hid, if_false]


theorem d_seq_expr (R : rule_ops Option) (a b : expr) (bs : look_list) (c : expr)
    (cg : uint_set) (gm : Nat) (x : Chr) (da : expr) :
    d R a x = some da →
    d R (seq_expr a b bs c cg gm) x =
      (match da with
      | eps_expr => do
          let bb ← back R b
          let bgv ← seq_bg bb gm
          map_expr_make R b gm bgv
      | look_expr i => d_look R bs x gm i
      | inf_expr => pure da
      | _ => do
          let am ← match_ R a
          let (dc, dcg, did_inc) ← (match am with
            | 0 :: _ => do
                let dc ← d R b x
                let bb ← back R b
                let bgv ← seq_bg bb gm
                let (dcg, inc) ← update_back_map R b dc bgv gm false
                pure (dc, dcg, inc)
            | _ => do
                let dc ← d R c x
                let (dcg, inc) ← update_back_map R c dc cg gm false
                pure (dc, dcg, inc) : Option (expr × uint_set × Bool))
          if da.type = .fail_type then map_expr_make R dc (gm + did_inc.toNat) dcg
          else do
            let dab ← back R da
            let dam ← match_ R da
            assert_ (!dab.empty)
            let dabt := (match dab with
              | 0 :: t => t
              | _ => dab)
            let (dbs, dabt1, damt1, inc1) ← d_bs R bs x gm dabt dam did_inc
            let (dbs2, inc2) ← add_new_follower R b gm dbs dabt1 damt1 inc1
            pure (seq_expr da b dbs2 dc dcg (gm + inc2.toNat))) := by
  intro hda
  simp only [d, hda, Option.bind_eq_bind, Option.some_bind]
  try rfl

theorem d_seq_expr_fail (R : rule_ops Option) (a b : expr) (bs : look_list) (c : expr)
    (cg : uint_set) (gm : Nat) (x : Chr) (am : uint_set)
    (hda : d R a x = some fail_expr) (ham : match_ R a = some am) :
    (am.min ≠ some 0 → ∀ dc p, d R c x = some dc →
      update_back_map R c dc cg gm false = some p →
      d R (seq_expr a b bs c cg gm) x = map_expr_make R dc (gm + p.2.toNat) p.1) ∧
    (am.min = some 0 → ∀ bb bgv dc p, back R b = some bb → seq_bg bb gm = some bgv →
      d R b x = some dc → update_back_map R b dc bgv gm false = some p →
      d R (seq_expr a b bs c cg gm) x = map_expr_make R dc (gm + p.2.toNat) p.1) := by
  have hd := d_seq_expr R a b bs c cg gm x fail_expr hda
  simp only [ham, Option.bind_eq_bind, Option.some_bind, expr.type, if_true] at hd
  constructor
  · intro hmin dc p hdc hu
    rw [hd]
    cases am with
    | nil => simp only [hdc, hu, Option.bind_eq_bind, Option.some_bind, Option.pure_def]
    | cons k t =>
        cases k with
        | zero => exact absurd rfl hmin
        | succ k => simp only [hdc, hu, Option.bind_eq_bind, Option.some_bind, Option.pure_def]
  · intro hmin bb bgv dc p hbb hbg hdc hu
    rw [hd]
    cases am with
    | nil => cases hmin
    | cons k t =>
        cases k with
        | zero =>
            simp only [hdc, hu, hbb, hbg, Option.bind_eq_bind, Option.some_bind,
              Option.pure_def]
        | succ k =>
            simp [uint_set.min] at hmin


theorem d_seq_expr_eps (R : rule_ops Option) (a b : expr) (bs : look_list) (c : expr)
    (cg : uint_set) (gm : Nat) (x : Chr) (hda : d R a x = some eps_expr) :
    d R (seq_expr a b bs c cg gm) x =
      (back R b).bind (fun bb =>
        (seq_bg bb gm : Option uint_set).bind (fun bgv => map_expr_make R b gm bgv)) :=
  d_seq_expr R a b bs c cg gm x eps_expr hda

theorem d_seq_expr_look (R : rule_ops Option) (a b : expr) (bs : look_list) (c : expr)
    (cg : uint_set) (gm : Nat) (x : Chr) (g : Nat) (hda : d R a x = some (look_expr g)) :
    d R (seq_expr a b bs c cg gm) x = d_look R bs x gm g :=
  d_seq_expr R a b bs c cg gm x (look_expr g) hda

theorem d_look_cases (R : rule_ops Option) (g : Nat) (eg : uint_set) (e : expr) (mb : Bool)
    (gl : Nat) (tl : look_list) (x : Chr) (gm i : Nat) :
    d_look R look_list.nil x gm i = some fail_expr ∧
    (g < i → d_look R (look_list.cons g eg e mb gl tl) x gm i = d_look R tl x gm i) ∧
    (i < g → d_look R (look_list.cons g eg e mb gl tl) x gm i = some fail_expr) ∧
    (g = i → d R e x = some fail_expr →
      d_look R (look_list.cons g eg e mb gl tl) x gm i = some fail_expr) ∧
    (g = i → ∀ dbi p, d R e x = some dbi → dbi ≠ fail_expr →
      update_back_map R e dbi eg gm false = some p →
      d_look R (look_list.cons g eg e mb gl tl) x gm i =
        map_expr_make R dbi (gm + p.2.toNat) p.1) := by
  refine ⟨rfl, ?_, ?_, ?_, ?_⟩
  · intro h
    simp only [d_look, h, if_true]
  · intro h
    have h1 : ¬ g < i := by omega
    simp only [d_look, h1, if_false, gt_iff_lt, h, if_true]
    rfl
  · intro h hd
    subst h
    simp [d_look, hd, expr.type]
  · intro h dbi p hd hnf hu
    subst h
    have hty : ¬ dbi.type = expr_type.fail_type := by
      intro hc
      apply hnf
      cases dbi <;> first | rfl | (simp [expr.type] at hc)
    simp [d_look, hd, hty, hu]


/-! ### Memoization of the rule nodes -/

theorem memo_insert_present {α : Type} (k : Nat) (v w : α) (t : List (Nat × α))
    (h : t.lookup k = some w) : memo_insert k v t = t := by
  simp [memo_insert, h]

theorem lookup_memo_assign {α : Type} (k : Nat) (v : α) (t : List (Nat × α)) :
    (memo_assign k v t).lookup k = some v := by
  simp [memo_assign, List.lookup]

theorem run_get_or_fail {α : Type} (o : Option α) (st : rule_state) :
    (get_or_fail o : rule_m α).run st = o.map (fun a => (a, st)) := by
  cases o <;> rfl

theorem rule_d_first_call (n : Nat) (r : Nat) (x : Chr) (st st2 : rule_state) (body dx : expr)
    (hm : st.memo.lookup r = none) (hr : st.r r = some body)
    (hrun : (d (rule_ops_fuel n) body x).run { st with memo := memo_assign r inf_expr st.memo } =
      some (dx, st2)) :
    ((rule_ops_fuel (n + 1)).d r x).run st =
      some (dx, { st2 with memo := memo_insert r dx st2.memo }) := by
  simp only [rule_ops_fuel, StateT.run_bind, StateT.run_get, Option.bind_eq_bind,
    Option.some_bind, hm, Option.pure_def, StateT.run_set, run_get_or_fail, hr, Option.map_some',
    hrun, StateT.run_modify, StateT.run_pure]

theorem rule_d_memo_hit (n : Nat) (r : Nat) (x : Chr) (st : rule_state) (dx : expr)
    (hm : st.memo.lookup r = some dx) :
    ((rule_ops_fuel (n + 1)).d r x).run st = some (dx, st) := by
  simp only [rule_ops_fuel, StateT.run_bind, StateT.run_get, Option.bind_eq_bind,
    Option.some_bind, hm, Option.pure_def, StateT.run_pure]

/-- C28 (failing input): the memo entry of a rule after its derivative.  On a
table without entry for the rule `r`, `rule_expr::deriv` writes the placeholder
INF under `r` and takes the derivative `dx` of the body; when that computation
leaves the entry of `r` as it is, `memo_expr::d` returns `dx` but its
`memo.insert` does not replace the entry that is there, so the table still
holds INF for `r` and a second call on that table returns INF, not `dx`. -/
theorem C28_rule_memo_keeps_placeholder (n : Nat) (r : Nat) (x : Chr) (st st2 : rule_state)
    (body dx : expr) (hm : st.memo.lookup r = none) (hr : st.r r = some body)
    (hrun : (d (rule_ops_fuel n) body x).run { st with memo := memo_assign r inf_expr st.memo } =
      some (dx, st2))
    (hkeep : st2.memo.lookup r = some inf_expr) :
    ((rule_ops_fuel (n + 1)).d r x).run st = some (dx, st2) ∧
    st2.memo.lookup r = some inf_expr ∧
    ((rule_ops_fuel (n + 1)).d r x).run st2 = some (inf_expr, st2) := by
  refine ⟨?_, hkeep, rule_d_memo_hit n r x st2 inf_expr hkeep⟩
  rw [rule_d_first_call n r x st st2 body dx hm hr hrun, memo_insert_present r dx inf_expr _ hkeep]


/-- Witness of C28: the rule R := "a" and the byte `a`, on the empty table.
The first call returns EPS and leaves the table with INF under R; the second
call returns INF. -/
theorem C28_rule_memo_keeps_placeholder_witness :
    ((rule_ops_fuel 2).d 0 97).run char_rule_grammar =
      some (eps_expr, { char_rule_grammar with memo := [(0, inf_expr)] }) ∧
    ({ char_rule_grammar with memo := [(0, inf_expr)] } : rule_state).memo.lookup 0 =
      some inf_expr ∧
    ((rule_ops_fuel 2).d 0 97).run { char_rule_grammar with memo := [(0, inf_expr)] } =
      some (inf_expr, { char_rule_grammar with memo := [(0, inf_expr)] }) :=
  C28_rule_memo_keeps_placeholder 1 0 97 char_rule_grammar
    { char_rule_grammar with memo := [(0, inf_expr)] } (char_expr 97) eps_expr rfl rfl rfl rfl

/-- The rule R := "a" used twice in one expression: in the derivative of
`(R "b") / (R "c")` by `a` the second alternative has become INF, since its
call of `R.d` finds the placeholder. -/
theorem rule_memo_second_use_is_inf :
    ((do
      let d1 ← (rule_ops_fuel 2).d 0 97
      let st ← get
      let d2 ← (rule_ops_fuel 2).d 0 97
      pure (d1, st.memo, d2) : rule_m (expr × List (Nat × expr) × expr)).run
        char_rule_grammar).map Prod.fst = some (eps_expr, [(0, inf_expr)], inf_expr) ∧
    ((do
      let s1 ← seq_expr_make (rule_ops_fuel 2) (rule_expr 0) (char_expr 98)
      let s2 ← seq_expr_make (rule_ops_fuel 2) (rule_expr 0) (char_expr 99)
      let e ← alt_expr_make (rule_ops_fuel 2) s1 s2
      let de ← d (rule_ops_fuel 2) e 97
      pure (e, de) : rule_m (expr × expr)).run char_rule_grammar).map Prod.fst =
      some (alt_expr (seq_expr (rule_expr 0) (char_expr 98) look_list.nil fail_expr [0] 0)
              (seq_expr (rule_expr 0) (char_expr 99) look_list.nil fail_expr [0] 0) [0] [0],
            alt_expr (char_expr 98) inf_expr [0] [0]) :=
  ⟨rfl, rfl⟩

end derivs

/-! ### The in-place derivatives of `derivs-mut.cpp` -/

namespace derivs_mut

open derivs (Chr uint_set)
open node

theorem update_back_map_inc_cases (ops : node_ops) (eg : gen_map) (ebm : Nat) (de : node)
    (gm : Nat) (did_inc : Bool) (i : Nat) (deb : gen_set) (debm : Nat)
    (hdb : de.back ops i = some deb) (hde : deb.max = some debm) :
    (debm > ebm →
      update_back_map_inc ops eg ebm de gm did_inc i = some (eg.add_back debm (gm + 1), true) ∧
      update_back_map ops eg ebm de gm i = some (eg.add_back debm (gm + 1), gm + 1)) ∧
    (debm ≤ ebm →
      update_back_map_inc ops eg ebm de gm did_inc i = some (eg, did_inc) ∧
      update_back_map ops eg ebm de gm i = some (eg, gm)) := by
  have hde1 : deb.getLast? = some debm := hde
  constructor
  · intro h
    simp [update_back_map_inc, update_back_map, hdb, hde, hde1, h]
  · intro h
    have h2 : ¬ ebm < debm := by omega
    simp [update_back_map_inc, update_back_map, hdb, hde, hde1, h2]


theorem seq_node_d_fail (ops : node_ops) (dn : node → Chr → Nat → Option node)
    (alt_make : node → node → gen_map → gen_map → Nat → Option node)
    (rest : node → Option node) (a b : node) (bs : look_list) (c : node) (cg : gen_map)
    (gm : Nat) (x : Chr) (i : Nat) (ab cb : gen_set) (abm cbm : Nat) (dc : node)
    (p : gen_map × Nat)
    (hab : a.back ops i = some ab) (habm : ab.max = some abm)
    (hda : dn a x i = some fail_node)
    (hcb : c.back ops i = some cb) (hcbm : cb.max = some cbm)
    (hdc : dn c x i = some dc) (hu : update_back_map ops cg cbm dc gm (i + 1) = some p) :
    seq_node_d ops dn alt_make rest a b bs c cg gm x i = map_node_make ops dc p.1 p.2 i := by
  have h1 : ab.getLast? = some abm := habm
  have h2 : cb.getLast? = some cbm := hcbm
  simp only [seq_node_d, hab, habm, h1, hda, hcb, hcbm, h2, hdc, hu, Option.bind_eq_bind,
    Option.some_bind]

theorem seq_node_d_eps (ops : node_ops) (dn : node → Chr → Nat → Option node)
    (alt_make : node → node → gen_map → gen_map → Nat → Option node)
    (rest : node → Option node) (a b : node) (bs : look_list) (c : node) (cg : gen_map)
    (gm : Nat) (x : Chr) (i : Nat) (ab : gen_set) (abm : Nat)
    (hab : a.back ops i = some ab) (habm : ab.max = some abm)
    (hda : dn a x i = some eps_node) :
    seq_node_d ops dn alt_make rest a b bs c cg gm x i =
      ((if x = 0 then dn b 0 i else some b).bind (fun b1 =>
        (new_back_map ops b1 gm (i + 1)).bind (fun q => map_node_make ops b1 q.1 q.2 (i + 1)))) := by
  have h1 : ab.getLast? = some abm := habm
  simp only [seq_node_d, hab, habm, h1, hda, Option.bind_eq_bind, Option.some_bind,
    Option.pure_def]

theorem seq_node_d_look_eq (ops : node_ops) (dn : node → Chr → Nat → Option node)
    (alt_make : node → node → gen_map → gen_map → Nat → Option node)
    (rest : node → Option node) (a b : node) (bs : look_list) (c : node) (cg : gen_map)
    (gm : Nat) (x : Chr) (i : Nat) (ab : gen_set) (abm g : Nat)
    (hab : a.back ops i = some ab) (habm : ab.max = some abm)
    (hda : dn a x i = some (look_node g)) :
    seq_node_d ops dn alt_make rest a b bs c cg gm x i =
      (seq_node_d_look ops dn alt_make gm x i g bs).bind (fun r =>
        match r with
        | some e => some e
        | none =>
            if x = 0 then
              (dn b 0 i).bind (fun b1 => (new_back_map ops b1 gm (i + 1)).bind (fun q =>
                map_node_make ops b1 q.1 q.2 (i + 1)))
            else some fail_node) := by
  have h1 : ab.getLast? = some abm := habm
  simp only [seq_node_d, hab, habm, h1, hda, Option.bind_eq_bind, Option.some_bind,
    Option.pure_def, node.match_, uint_set.max, List.getLast?_singleton]
  try rfl

theorem seq_node_d_look_skip (ops : node_ops) (dn : node → Chr → Nat → Option node)
    (alt_make : node → node → gen_map → gen_map → Nat → Option node)
    (gm : Nat) (x : Chr) (i g h : Nat) (bis : node) (bisg : gen_map) (bigl : Nat)
    (tl : look_list) :
    (h < g → seq_node_d_look ops dn alt_make gm x i g (look_list.cons h bis bisg bigl tl) =
      seq_node_d_look ops dn alt_make gm x i g tl) ∧
    (g < h → seq_node_d_look ops dn alt_make gm x i g (look_list.cons h bis bisg bigl tl) =
      some (some fail_node)) := by
  constructor
  · intro hlt
    simp only [seq_node_d_look, hlt, if_true]
  · intro hlt
    have h1 : ¬ h < g := by omega
    simp only [seq_node_d_look, h1, if_false, gt_iff_lt, hlt, if_true]

theorem seq_node_d_look_cases (ops : node_ops) (dn : node → Chr → Nat → Option node)
    (alt_make : node → node → gen_map → gen_map → Nat → Option node)
    (gm : Nat) (x : Chr) (i g : Nat) (bis : node) (bisg : gen_map) (bigl : Nat)
    (tl : look_list) (bib : gen_set) (bibm : Nat)
    (hb : bis.back ops i = some bib) (hbm : bib.max = some bibm) :
    seq_node_d_look ops dn alt_make gm x i g look_list.nil = some none ∧
    (dn bis x i = some fail_node →
      seq_node_d_look ops dn alt_make gm x i g (look_list.cons g bis bisg bigl tl) =
        some (some (if bigl > 0 then look_node bigl else fail_node))) ∧
    (∀ dbi p dbim, dn bis x i = some dbi → dbi ≠ fail_node →
      update_back_map ops bisg bibm dbi gm (i + 1) = some p →
      dbi.match_ ops (i + 1) = some dbim →
      ((bigl = 0 ∨ dbim.min = some 0) →
        seq_node_d_look ops dn alt_make gm x i g (look_list.cons g bis bisg bigl tl) =
          (map_node_make ops dbi p.1 p.2 i).map some) ∧
      (bigl ≠ 0 → dbim.min ≠ some 0 →
        seq_node_d_look ops dn alt_make gm x i g (look_list.cons g bis bisg bigl tl) =
          (alt_make dbi (look_node_make 1) p.1 (gen_map.of_values [0, bigl]) p.2).map some)) := by
  have hbm1 : bib.getLast? = some bibm := hbm
  refine ⟨rfl, ?_, ?_⟩
  · intro hd
    simp only [seq_node_d_look, lt_irrefl, if_false, gt_iff_lt, hb, hbm, hbm1, hd,
      Option.bind_eq_bind, Option.some_bind, Option.pure_def]
    split <;> rfl
  · intro dbi p dbim hd hnf hu hm
    have hunf : seq_node_d_look ops dn alt_make gm x i g (look_list.cons g bis bisg bigl tl) =
        (if bigl = 0 || (!dbim.empty && dbim.min == some 0) then
          (map_node_make ops dbi p.1 p.2 i).map some
        else
          (alt_make dbi (look_node_make 1) p.1 (gen_map.of_values [0, bigl]) p.2).map some) := by
      simp only [seq_node_d_look, lt_irrefl, if_false, gt_iff_lt, hb, hbm, hbm1, hd,
        Option.bind_eq_bind, Option.some_bind]
      cases dbi <;>
        first
          | exact absurd rfl hnf
          | simp only [hu, hm, Option.bind_eq_bind, Option.some_bind]
    constructor
    · intro hc
      rw [hunf]
      rcases hc with hc | hc
      · simp [hc]
      · have : (!dbim.empty && dbim.min == some 0) = true := by
          cases dbim with
          | nil => cases hc
          | cons k t => simp [uint_set.empty, hc]
        simp [this]
    · intro h1 h2
      rw [hunf]
      have : (bigl = 0 || (!dbim.empty && dbim.min == some 0)) = false := by
        simp [h1, h2]
      simp only [Bool.or_eq_true, decide_eq_true_eq, Bool.and_eq_true, Bool.not_eq_true',
        beq_iff_eq] at this ⊢
      simp [h1, h2]


theorem set_dirty_restore (s : dirty_flags) (r : Nat) (h : s r = false) :
    set_dirty (set_dirty s r true) r false = s := by
  funext q
  unfold set_dirty
  by_cases hq : q = r
  · simp [hq, h]
  · simp [hq]

theorem rule_node_d_frame
    (clone_d : Nat → Chr → Nat → dirty_flags → Option (node × dirty_flags))
    (hc : ∀ r x i s e s1, clone_d r x i s = some (e, s1) → s1 = s)
    (r : Nat) (x : Chr) (i : Nat) (s : dirty_flags) (e : node) (s1 : dirty_flags)
    (h : rule_node_d clone_d r x i s = some (e, s1)) : s1 = s := by
  unfold rule_node_d at h
  split at h
  · cases h; rfl
  · rename_i hs
    simp only [Option.bind_eq_bind, Option.bind_eq_some, Option.pure_def, Option.some.injEq,
      Prod.mk.injEq] at h
    obtain ⟨p, hp, _, h2⟩ := h
    have := hc r x i _ p.1 p.2 hp
    rw [← h2, this]
    exact set_dirty_restore s r (by simpa using hs)

theorem d_flags_frame
    (comp : (node → Chr → Nat → dirty_flags → Option (node × dirty_flags)) →
      node → Chr → Nat → dirty_flags → Option (node × dirty_flags))
    (body : Nat → Nat → node)
    (hcomp : ∀ D : node → Chr → Nat → dirty_flags → Option (node × dirty_flags),
      (∀ n x i s e s1, D n x i s = some (e, s1) → s1 = s) →
      ∀ n x i s e s1, comp D n x i s = some (e, s1) → s1 = s) :
    ∀ (fuel : Nat) (n : node) (x : Chr) (i : Nat) (s : dirty_flags) (e : node)
      (s1 : dirty_flags), d_flags comp body fuel n x i s = some (e, s1) → s1 = s := by
  intro fuel
  induction fuel with
  | zero =>
      intro n x i s e s1 h
      cases h
  | succ fuel ih =>
      intro n x i s e s1 h
      have hterm : ∀ o : Option node, o.map (fun e => (e, s)) = some (e, s1) → s1 = s := by
        intro o ho
        cases o with
        | none => cases ho
        | some v =>
            simp only [Option.map_some', Option.some.injEq, Prod.mk.injEq] at ho
            exact ho.2.symm
      cases n with
      | rule_node r =>
          simp only [d_flags] at h
          exact rule_node_d_frame _ (fun r1 x1 i1 s2 e2 s3 h2 => ih _ _ _ _ _ _ h2) r x i s e s1 h
      | shared_node k => exact hcomp _ ih _ x i s e s1 h
      | not_node k => exact hcomp _ ih _ x i s e s1 h
      | map_node a b c => exact hcomp _ ih _ x i s e s1 h
      | alt_node a b c d1 e1 => exact hcomp _ ih _ x i s e s1 h
      | seq_node a b c d1 e1 f => exact hcomp _ ih _ x i s e s1 h
      | fail_node =>
          simp only [d_flags] at h
          exact hterm _ h
      | inf_node =>
          simp only [d_flags] at h
          exact hterm _ h
      | eps_node =>
          simp only [d_flags] at h
          exact hterm _ h
      | look_node g =>
          simp only [d_flags] at h
          exact hterm _ h
      | char_node c =>
          simp only [d_flags] at h
          exact hterm _ h
      | range_node b c =>
          simp only [d_flags] at h
          exact hterm _ h
      | any_node =>
          simp only [d_flags] at h
          exact hterm _ h
      | str_node t =>
          simp only [d_flags] at h
          exact hterm _ h


/-- C29: the dirty flag of `rule_node::d` in `derivs-mut.cpp`.  On a rule
whose flag is set the node becomes INF, the rule body is not visited (the
result does not depend on `clone_d`) and the flags stay as they are.  On a
rule whose flag is clear the derivative of the clone of the body is taken with
the flag raised, and the flag is clear when the call returns.  No other
function of the file writes the flag, which is the hypothesis on the
derivatives `comp` of the compound nodes: they change the flags only through
the derivatives of their sub-expressions.  Hence every derivative that returns
leaves the flags as they were, and flags that are all clear before a
derivative step are all clear after it. -/
theorem C29_dirty_flag
    (comp : (node → Chr → Nat → dirty_flags → Option (node × dirty_flags)) →
      node → Chr → Nat → dirty_flags → Option (node × dirty_flags))
    (body : Nat → Nat → node)
    (hcomp : ∀ D : node → Chr → Nat → dirty_flags → Option (node × dirty_flags),
      (∀ n x i s e s1, D n x i s = some (e, s1) → s1 = s) →
      ∀ n x i s e s1, comp D n x i s = some (e, s1) → s1 = s) :
    (∀ clone_d r x i s, s r = true → rule_node_d clone_d r x i s = some (inf_node, s)) ∧
    (∀ clone_d r x i s, s r = false →
      rule_node_d clone_d r x i s =
        (clone_d r x i (set_dirty s r true)).map (fun p => (p.1, set_dirty p.2 r false)) ∧
      set_dirty s r true r = true ∧
      ∀ e s1, rule_node_d clone_d r x i s = some (e, s1) → s1 r = false) ∧
    (∀ fuel r x i s, d_flags comp body (fuel + 1) (rule_node r) x i s =
      rule_node_d (fun r1 x1 i1 s1 => d_flags comp body fuel (body r1 i1) x1 i1 s1) r x i s) ∧
    (∀ fuel n x i s e s1, d_flags comp body fuel n x i s = some (e, s1) → s1 = s) ∧
    (∀ fuel n x i s e s1, (∀ r, s r = false) → d_flags comp body fuel n x i s = some (e, s1) →
      ∀ r, s1 r = false) := by
  have hframe := d_flags_frame comp body hcomp
  refine ⟨?_, ?_, ?_, hframe, ?_⟩
  · intro clone_d r x i s hs
    simp only [rule_node_d, hs, if_true]
  · intro clone_d r x i s hs
    have hu : rule_node_d clone_d r x i s =
        (clone_d r x i (set_dirty s r true)).map (fun p => (p.1, set_dirty p.2 r false)) := by
      simp only [rule_node_d, hs, Bool.false_eq_true, if_false]
      cases clone_d r x i (set_dirty s r true) <;> rfl
    refine ⟨hu, ?_, ?_⟩
    · simp [set_dirty]
    · intro e s1 h
      rw [hu] at h
      cases hq : clone_d r x i (set_dirty s r true) with
      | none =>
          rw [hq] at h
          cases h
      | some p =>
          rw [hq] at h
          simp only [Option.map_some', Option.some.injEq, Prod.mk.injEq] at h
          rw [← h.2]
          simp [set_dirty]
  · intro fuel r x i s
    simp only [d_flags]
  · intro fuel n x i s e s1 hs h r
    rw [hframe fuel n x i s e s1 h]
    exact hs r

/-- Witness of C29: a derivative `comp` that hands a `not_node` to the
derivative of its operand, and the left recursive rule whose body is the rule
itself.  The derivative of the rule node by `a`, with all flags clear, is INF
and leaves the flag of the rule clear. -/
theorem C29_dirty_flag_witness :
    (d_flags
        (fun D n x i s =>
          match n with
          | not_node e => D e x i s
          | _ => none)
        (fun r _ => rule_node r) 2 (rule_node 0) 97 0 (fun _ => false)).map
      (fun p => (p.1, p.2 0)) = some (inf_node, false) ∧
    ∀ e s1,
      d_flags
          (fun D n x i s =>
            match n with
            | not_node e => D e x i s
            | _ => none)
          (fun r _ => rule_node r) 2 (rule_node 0) 97 0 (fun _ => false) = some (e, s1) →
        s1 = fun _ => false :=
  ⟨rfl,
   (C29_dirty_flag
      (fun D n x i s =>
        match n with
        | not_node e => D e x i s
        | _ => none)
      (fun r _ => rule_node r)
      (fun D hD n x i s e s1 h => (by
        cases n <;> first | exact hD _ _ _ _ _ _ h | cases h))).2.2.2.1
    2 (rule_node 0) 97 0 (fun _ => false)⟩

end derivs_mut

/-! ### The claims on the derivative of a sequence, the backtrack maps and the terminals -/

namespace derivs

open expr

/-- C24 (counterexample): the node of `("a" / ε) "b"` and the byte `b`.  The
derivative of the first element is FAIL; the match-fail follower c is FAIL, so
its derivative mapped through cg is FAIL; `seq_expr::deriv` returns EPS, the
derivative of the follower b, since the first element matches the empty
string. -/
theorem C24_counterexample_first_element_matches :
    build no_rules (.seq (.alt (.chr 97) .eps) (.chr 98)) =
      some (seq_expr (alt_expr (char_expr 97) eps_expr [0] [0]) (char_expr 98)
        look_list.nil fail_expr [0] 0) ∧
    d no_rules (alt_expr (char_expr 97) eps_expr [0] [0]) 98 = some fail_expr ∧
    (d no_rules fail_expr 98).bind (fun dc =>
      (update_back_map no_rules fail_expr dc [0] 0 false).bind (fun p =>
        map_expr_make no_rules dc (0 + p.2.toNat) p.1)) = some fail_expr ∧
    d no_rules (seq_expr (alt_expr (char_expr 97) eps_expr [0] [0]) (char_expr 98)
      look_list.nil fail_expr [0] 0) 98 = some eps_expr ∧
    d no_rules (seq_expr (alt_expr (char_expr 97) eps_expr [0] [0]) (char_expr 98)
        look_list.nil fail_expr [0] 0) 98 ≠
      (d no_rules fail_expr 98).bind (fun dc =>
        (update_back_map no_rules fail_expr dc [0] 0 false).bind (fun p =>
          map_expr_make no_rules dc (0 + p.2.toNat) p.1)) := by
  refine ⟨rfl, rfl, rfl, rfl, ?_⟩
  intro h
  have h1 : (some eps_expr : Option expr) = some fail_expr := h
  cases h1

/-- C24 (amended): the derivative of a sequence whose first element a has the
derivative FAIL.  In `seq_expr::deriv` of `derivs.hpp` the result is the
derivative of the match-fail follower c mapped through cg (extended by
`update_back_map`) when `a.match()` is empty or has a minimum greater than 0,
and the derivative of the follower b mapped through `bg()` (extended likewise)
when `a.match()` contains 0.  In `seq_node::d` of `derivs-mut.cpp` the result
is the derivative of c mapped through cg (extended by `update_back_map`). -/
theorem C24_seq_first_element_fails (R : rule_ops Option) (a b : expr) (bs : look_list) (c : expr)
    (cg : uint_set) (gm : Nat) (x : Chr) (am : uint_set)
    (hda : d R a x = some fail_expr) (ham : match_ R a = some am) :
    (am.min ≠ some 0 → ∀ dc p, d R c x = some dc →
      update_back_map R c dc cg gm false = some p →
      d R (seq_expr a b bs c cg gm) x = map_expr_make R dc (gm + p.2.toNat) p.1) ∧
    (am.min = some 0 → ∀ bb bgv dc p, back R b = some bb → seq_bg bb gm = some bgv →
      d R b x = some dc → update_back_map R b dc bgv gm false = some p →
      d R (seq_expr a b bs c cg gm) x = map_expr_make R dc (gm + p.2.toNat) p.1) ∧
    (∀ (ops : derivs_mut.node_ops) (dn : derivs_mut.node → Chr → Nat → Option derivs_mut.node)
      (alt_make : derivs_mut.node → derivs_mut.node → derivs_mut.gen_map →
        derivs_mut.gen_map → Nat → Option derivs_mut.node)
      (rest : derivs_mut.node → Option derivs_mut.node) (na nb : derivs_mut.node)
      (nbs : derivs_mut.look_list) (nc : derivs_mut.node) (ncg : derivs_mut.gen_map)
      (ngm i : Nat) (ab cb : derivs_mut.gen_set) (abm cbm : Nat) (dc : derivs_mut.node)
      (p : derivs_mut.gen_map × Nat),
      na.back ops i = some ab → ab.max = some abm → dn na x i = some .fail_node →
      nc.back ops i = some cb → cb.max = some cbm → dn nc x i = some dc →
      derivs_mut.update_back_map ops ncg cbm dc ngm (i + 1) = some p →
      derivs_mut.seq_node_d ops dn alt_make rest na nb nbs nc ncg ngm x i =
        derivs_mut.map_node_make ops dc p.1 p.2 i) := by
  obtain ⟨h1, h2⟩ := d_seq_expr_fail R a b bs c cg gm x am hda ham
  refine ⟨h1, h2, ?_⟩
  intro ops dn alt_make rest na nb nbs nc ncg ngm i ab cb abm cbm dc p hab habm hdna hcb hcbm
    hdc hu
  exact derivs_mut.seq_node_d_fail ops dn alt_make rest na nb nbs nc ncg ngm x i ab cb abm cbm
    dc p hab habm hdna hcb hcbm hdc hu

/-- Witness of C24: the node of `("a" / ε) "b"` and the byte `b` for
`derivs.hpp` (the first element matches the empty string, the result is the
derivative EPS of the follower), and the node SEQ(CHAR a, CHAR b, [], FAIL,
{0}, 0) for `derivs-mut.cpp` (the result is the derivative FAIL of c). -/
theorem C24_seq_first_element_fails_witness :
    d no_rules (seq_expr (alt_expr (char_expr 97) eps_expr [0] [0]) (char_expr 98)
        look_list.nil fail_expr [0] 0) 98 =
      map_expr_make no_rules eps_expr (0 + false.toNat) [0] ∧
    derivs_mut.seq_node_d derivs_mut.no_ops (fun n y _ => derivs_mut.terminal_d n y)
        (fun _ _ _ _ _ => none) (fun _ => none) (.char_node 97) (.char_node 98) .nil .fail_node
        (derivs_mut.gen_map.of_values [0]) 0 98 0 =
      derivs_mut.map_node_make derivs_mut.no_ops .fail_node (derivs_mut.gen_map.of_values [0])
        0 0 :=
  ⟨(C24_seq_first_element_fails no_rules (alt_expr (char_expr 97) eps_expr [0] [0]) (char_expr 98)
      look_list.nil fail_expr [0] 0 98 [0] rfl rfl).2.1 rfl [0] [0] eps_expr ([0], false)
      rfl rfl rfl rfl,
   (C24_seq_first_element_fails no_rules (alt_expr (char_expr 97) eps_expr [0] [0]) (char_expr 98)
      look_list.nil fail_expr [0] 0 98 [0] rfl rfl).2.2 derivs_mut.no_ops
      (fun n y _ => derivs_mut.terminal_d n y) (fun _ _ _ _ _ => none) (fun _ => none)
      (.char_node 97) (.char_node 98) .nil .fail_node (derivs_mut.gen_map.of_values [0]) 0 0
      [0] [0] 0 0 .fail_node (derivs_mut.gen_map.of_values [0], 0) rfl rfl rfl rfl rfl rfl rfl⟩

/-- The function `seq_node::d` of `derivs-mut.cpp` on a lookahead
success of generation 1, with the follower entry (1, "cd", {0}, gl = 1), which
stands for a follower such as `"bcd" / ε` after the byte `b`, and the byte
`c`.  The derivative of the follower is CHAR d, which is not FAIL and has no
match, and gl is not 0: the result is the node
ALT(CHAR d, LOOK(1), {0}, {0, 1}, 1) built by `alt_node::make`, which keeps the
earlier match as second alternative, and not the MAP of the derivative of the
follower. -/
theorem seq_node_d_keeps_earlier_match_as_alternative :
    derivs_mut.terminal_d (.str_node [100, 99]) 99 = some (.char_node 100) ∧
    derivs_mut.seq_node_d_look derivs_mut.no_ops (fun n y _ => derivs_mut.terminal_d n y)
        (fun na nb ag bg gm => derivs_mut.alt_node_make derivs_mut.no_ops
          (fun s gm1 sg i => derivs_mut.map_node_make derivs_mut.no_ops s sg gm1 i)
          na nb ag bg gm 0)
        1 99 0 1
        (.cons 1 (.str_node [100, 99]) (derivs_mut.gen_map.of_values [0]) 1 .nil) =
      some (some (.alt_node (.char_node 100) (.look_node 1) [(0, 0)] [(0, 0), (1, 1)] 1)) ∧
    derivs_mut.map_node_make derivs_mut.no_ops (.char_node 100)
        (derivs_mut.gen_map.of_values [0]) 1 0 =
      some (.map_node (.char_node 100) [(0, 0)] 1) :=
  ⟨rfl, rfl, rfl⟩

/-- The derivative of a sequence whose first element has the
derivative LOOK(g).  In `seq_expr::deriv` of `derivs.hpp` the follower list is
searched for the generation g: an entry of a smaller generation is skipped, a
list without entry for g gives FAIL (for every byte, the sentinel included),
and an entry for g whose follower has a derivative other than FAIL gives
`map_expr::make` of that derivative under the map of the entry, extended by
`update_back_map`.  In `seq_node::d` of `derivs-mut.cpp` the list is searched
in the same way; an entry for g whose follower has the derivative FAIL gives
LOOK(gl) if gl > 0 and FAIL if gl = 0; a derivative other than FAIL gives the
MAP of that derivative when gl = 0 or the derivative matches at generation 0,
and otherwise `alt_node::make` of the derivative and a lookahead node mapped to
gl; a greater generation in the list gives FAIL, and when the list ends
without entry the result is FAIL for a byte other than the sentinel and the
MAP of the derivative of b by the sentinel otherwise. -/
theorem seq_lookahead_success_cases (R : rule_ops Option) (a b : expr) (bs : look_list)
    (c : expr) (cg : uint_set) (gm : Nat) (x : Chr) (g : Nat)
    (ops : derivs_mut.node_ops) (dn : derivs_mut.node → Chr → Nat → Option derivs_mut.node)
    (alt_make : derivs_mut.node → derivs_mut.node → derivs_mut.gen_map →
      derivs_mut.gen_map → Nat → Option derivs_mut.node)
    (rest : derivs_mut.node → Option derivs_mut.node) (na nb : derivs_mut.node)
    (nbs : derivs_mut.look_list) (nc : derivs_mut.node) (ncg : derivs_mut.gen_map)
    (ngm i : Nat) (ab : derivs_mut.gen_set) (abm : Nat)
    (hda : d R a x = some (look_expr g))
    (hab : na.back ops i = some ab) (habm : ab.max = some abm)
    (hdna : dn na x i = some (.look_node g)) :
    d R (seq_expr a b bs c cg gm) x = d_look R bs x gm g ∧
    d_look R look_list.nil x gm g = some fail_expr ∧
    (∀ h eg e mb gl tl, h < g →
      d_look R (look_list.cons h eg e mb gl tl) x gm g = d_look R tl x gm g) ∧
    (∀ h eg e mb gl tl, g < h →
      d_look R (look_list.cons h eg e mb gl tl) x gm g = some fail_expr) ∧
    (∀ eg e mb gl tl dbi p, d R e x = some dbi → dbi ≠ fail_expr →
      update_back_map R e dbi eg gm false = some p →
      d_look R (look_list.cons g eg e mb gl tl) x gm g =
        map_expr_make R dbi (gm + p.2.toNat) p.1) ∧
    derivs_mut.seq_node_d ops dn alt_make rest na nb nbs nc ncg ngm x i =
      (derivs_mut.seq_node_d_look ops dn alt_make ngm x i g nbs).bind (fun r =>
        match r with
        | some e => some e
        | none =>
            if x = 0 then
              (dn nb 0 i).bind (fun b1 =>
                (derivs_mut.new_back_map ops b1 ngm (i + 1)).bind (fun q =>
                  derivs_mut.map_node_make ops b1 q.1 q.2 (i + 1)))
            else some .fail_node) ∧
    derivs_mut.seq_node_d_look ops dn alt_make ngm x i g .nil = some none ∧
    (∀ h s sg gl tl, h < g →
      derivs_mut.seq_node_d_look ops dn alt_make ngm x i g (.cons h s sg gl tl) =
        derivs_mut.seq_node_d_look ops dn alt_make ngm x i g tl) ∧
    (∀ h s sg gl tl, g < h →
      derivs_mut.seq_node_d_look ops dn alt_make ngm x i g (.cons h s sg gl tl) =
        some (some .fail_node)) ∧
    (∀ (s : derivs_mut.node) sg gl tl sb sbm, s.back ops i = some sb → sb.max = some sbm →
      (dn s x i = some .fail_node →
        derivs_mut.seq_node_d_look ops dn alt_make ngm x i g (.cons g s sg gl tl) =
          some (some (if gl > 0 then .look_node gl else .fail_node))) ∧
      (∀ dbi p dbim, dn s x i = some dbi → dbi ≠ .fail_node →
        derivs_mut.update_back_map ops sg sbm dbi ngm (i + 1) = some p →
        dbi.match_ ops (i + 1) = some dbim →
        ((gl = 0 ∨ dbim.min = some 0) →
          derivs_mut.seq_node_d_look ops dn alt_make ngm x i g (.cons g s sg gl tl) =
            (derivs_mut.map_node_make ops dbi p.1 p.2 i).map some) ∧
        (gl ≠ 0 → dbim.min ≠ some 0 →
          derivs_mut.seq_node_d_look ops dn alt_make ngm x i g (.cons g s sg gl tl) =
            (alt_make dbi (derivs_mut.look_node_make 1) p.1
              (derivs_mut.gen_map.of_values [0, gl]) p.2).map some))) := by
  refine ⟨d_seq_expr_look R a b bs c cg gm x g hda, rfl, ?_, ?_, ?_,
    derivs_mut.seq_node_d_look_eq ops dn alt_make rest na nb nbs nc ncg ngm x i ab abm g hab
      habm hdna, rfl, ?_, ?_, ?_⟩
  · intro h eg e mb gl tl hlt
    exact (d_look_cases R h eg e mb gl tl x gm g).2.1 hlt
  · intro h eg e mb gl tl hlt
    exact (d_look_cases R h eg e mb gl tl x gm g).2.2.1 hlt
  · intro eg e mb gl tl dbi p hd hnf hu
    exact (d_look_cases R g eg e mb gl tl x gm g).2.2.2.2 rfl dbi p hd hnf hu
  · intro h s sg gl tl hlt
    exact (derivs_mut.seq_node_d_look_skip ops dn alt_make ngm x i g h s sg gl tl).1 hlt
  · intro h s sg gl tl hlt
    exact (derivs_mut.seq_node_d_look_skip ops dn alt_make ngm x i g h s sg gl tl).2 hlt
  · intro s sg gl tl sb sbm hsb hsbm
    exact (derivs_mut.seq_node_d_look_cases ops dn alt_make ngm x i g s sg gl tl sb sbm hsb
      hsbm).2

/-- An instance of the cases: the node of `!"a" "b"` in `derivs.hpp` and the byte `b`
(the lookahead succeeds and the result is the derivative of the follower), and
for `derivs-mut.cpp` a sequence whose first element has the derivative
LOOK(1), with the follower entry (1, "cd", {0}, gl = 1) and the byte `c`. -/
theorem seq_lookahead_success_cases_example :
    d no_rules (seq_expr (not_expr (char_expr 97)) (char_expr 98)
        (look_list.cons 1 [0] (char_expr 98) false 0 look_list.nil) fail_expr [0] 0) 98 =
      d_look no_rules (look_list.cons 1 [0] (char_expr 98) false 0 look_list.nil) 98 0 1 ∧
    d_look no_rules (look_list.cons 1 [0] (char_expr 98) false 0 look_list.nil) 98 0 1 =
      map_expr_make no_rules eps_expr (0 + false.toNat) [0] ∧
    derivs_mut.seq_node_d_look derivs_mut.no_ops (fun n y _ => derivs_mut.terminal_d n y)
        (fun na nb ag bg gm => derivs_mut.alt_node_make derivs_mut.no_ops
          (fun s gm1 sg i => derivs_mut.map_node_make derivs_mut.no_ops s sg gm1 i)
          na nb ag bg gm 0)
        1 99 0 1
        (.cons 1 (.str_node [100, 99]) (derivs_mut.gen_map.of_values [0]) 1 .nil) =
      (derivs_mut.alt_node_make derivs_mut.no_ops
        (fun s gm1 sg i => derivs_mut.map_node_make derivs_mut.no_ops s sg gm1 i)
        (.char_node 100) (derivs_mut.look_node_make 1) (derivs_mut.gen_map.of_values [0])
        (derivs_mut.gen_map.of_values [0, 1]) 1 0).map some :=
  ⟨(seq_lookahead_success_cases no_rules (not_expr (char_expr 97)) (char_expr 98)
      (look_list.cons 1 [0] (char_expr 98) false 0 look_list.nil) fail_expr [0] 0 98 1
      derivs_mut.no_ops (fun n y _ => derivs_mut.terminal_d n y)
      (fun na nb ag bg gm => derivs_mut.alt_node_make derivs_mut.no_ops
        (fun s gm1 sg i => derivs_mut.map_node_make derivs_mut.no_ops s sg gm1 i)
        na nb ag bg gm 0)
      (fun _ => none) (.look_node 1) (.char_node 98) .nil .fail_node
      (derivs_mut.gen_map.of_values [0]) 1 0 [1] 1 rfl rfl rfl rfl).1,
   (seq_lookahead_success_cases no_rules (not_expr (char_expr 97)) (char_expr 98)
      (look_list.cons 1 [0] (char_expr 98) false 0 look_list.nil) fail_expr [0] 0 98 1
      derivs_mut.no_ops (fun n y _ => derivs_mut.terminal_d n y)
      (fun na nb ag bg gm => derivs_mut.alt_node_make derivs_mut.no_ops
        (fun s gm1 sg i => derivs_mut.map_node_make derivs_mut.no_ops s sg gm1 i)
        na nb ag bg gm 0)
      (fun _ => none) (.look_node 1) (.char_node 98) .nil .fail_node
      (derivs_mut.gen_map.of_values [0]) 1 0 [1] 1 rfl rfl rfl rfl).2.2.2.2.1
      [0] (char_expr 98) false 0 look_list.nil eps_expr ([0], false) rfl
      (fun h => (by cases h)) rfl,
   ((seq_lookahead_success_cases no_rules (not_expr (char_expr 97)) (char_expr 98)
      (look_list.cons 1 [0] (char_expr 98) false 0 look_list.nil) fail_expr [0] 0 99 1
      derivs_mut.no_ops (fun n y _ => derivs_mut.terminal_d n y)
      (fun na nb ag bg gm => derivs_mut.alt_node_make derivs_mut.no_ops
        (fun s gm1 sg i => derivs_mut.map_node_make derivs_mut.no_ops s sg gm1 i)
        na nb ag bg gm 0)
      (fun _ => none) (.look_node 1) (.char_node 98) .nil .fail_node
      (derivs_mut.gen_map.of_values [0]) 1 0 [1] 1 rfl rfl rfl rfl).2.2.2.2.2.2.2.2.2
      (.str_node [100, 99]) (derivs_mut.gen_map.of_values [0]) 1 .nil [0] 0 rfl rfl).2
      (.char_node 100) (derivs_mut.gen_map.of_values [0], 1) [] rfl
      (fun h => (by cases h)) rfl rfl |>.2 (by decide) (by decide)⟩

/-- C25 (failing input): the expression `(!"a" ("b" / ε)) "c"` and the input
`c`.  The inner sequence is SEQ(NOT(CHAR a), FAIL, [<1, {0}, ALT(CHAR b, EPS),
false, gl = 1>], FAIL, {0}, 1): the follower matches the empty string, which
the entry records as last-match generation gl = 1.  By the byte `c` the first
element has the derivative LOOK(1), the list has the entry for generation 1,
and the follower has the derivative FAIL: `seq_expr::deriv` returns FAIL,
where LOOK(gl) = LOOK(1) is due, and the input `c`, which the expression
accepts as a parsing expression, is not recognized.  In general
`seq_expr::deriv` returns FAIL whenever the follower of the entry has the
derivative FAIL, whatever gl, while `seq_node::d` of `derivs-mut.cpp` returns
LOOK(gl) when gl > 0 and FAIL when gl = 0. -/
theorem C25_follower_failure_drops_earlier_match :
    build no_rules (.seq (.not (.chr 97)) (.alt (.chr 98) .eps)) =
      some (seq_expr (not_expr (char_expr 97)) fail_expr
        (look_list.cons 1 [0] (alt_expr (char_expr 98) eps_expr [0] [0]) false 1 look_list.nil)
        fail_expr [0] 1) ∧
    d no_rules (not_expr (char_expr 97)) 99 = some (look_expr 1) ∧
    d no_rules (alt_expr (char_expr 98) eps_expr [0] [0]) 99 = some fail_expr ∧
    d no_rules (seq_expr (not_expr (char_expr 97)) fail_expr
        (look_list.cons 1 [0] (alt_expr (char_expr 98) eps_expr [0] [0]) false 1 look_list.nil)
        fail_expr [0] 1) 99 = some fail_expr ∧
    (build no_rules (.seq (.seq (.not (.chr 97)) (.alt (.chr 98) .eps)) (.chr 99))).bind
        (fun e => recognize no_rules e [99]) = some false ∧
    peg.accepts (.seq (.seq (.not (.chr 97)) (.alt (.chr 98) .eps)) (.chr 99)) [99] = true ∧
    (∀ (R : rule_ops Option) (a b : expr) (c : expr) (cg : uint_set) (g : Nat) (eg : uint_set)
      (e : expr) (mb : Bool) (gl : Nat) (tl : look_list) (x : Chr) (gm : Nat),
      d R a x = some (look_expr g) → d R e x = some fail_expr →
      d R (seq_expr a b (look_list.cons g eg e mb gl tl) c cg gm) x = some fail_expr) ∧
    (∀ (ops : derivs_mut.node_ops) (dn : derivs_mut.node → Chr → Nat → Option derivs_mut.node)
      (alt_make : derivs_mut.node → derivs_mut.node → derivs_mut.gen_map →
        derivs_mut.gen_map → Nat → Option derivs_mut.node)
      (gm : Nat) (x : Chr) (i g : Nat) (s : derivs_mut.node) (sg : derivs_mut.gen_map)
      (gl : Nat) (tl : derivs_mut.look_list) (sb : derivs_mut.gen_set) (sbm : Nat),
      s.back ops i = some sb → sb.max = some sbm → dn s x i = some .fail_node →
      derivs_mut.seq_node_d_look ops dn alt_make gm x i g (.cons g s sg gl tl) =
        some (some (if gl > 0 then .look_node gl else .fail_node))) := by
  refine ⟨rfl, rfl, rfl, rfl, rfl, rfl, ?_, ?_⟩
  · intro R a b c cg g eg e mb gl tl x gm hda hde
    rw [d_seq_expr_look R a b _ c cg gm x g hda]
    exact (d_look_cases R g eg e mb gl tl x gm g).2.2.2.1 rfl hde
  · intro ops dn alt_make gm x i g s sg gl tl sb sbm hsb hsbm hd
    exact (derivs_mut.seq_node_d_look_cases ops dn alt_make gm x i g s sg gl tl sb sbm hsb
      hsbm).2.1 hd

/-- C26 (failing input): the expression `("a" / ε) (!"a" ("b" / ε))` on the
empty input.  The derivative of the first element by the end-of-input sentinel
is EPS, and `seq_expr::deriv` of `derivs.hpp` returns the follower as it is,
without taking its derivative by the sentinel: the result has an empty match
set and the empty input, which the expression accepts, is not recognized (the
derivative of the follower by the sentinel is EPS, which matches).  In
general `seq_expr::deriv` returns `map_expr::make(b, gm, bg())` for every byte
x, while `seq_node::d` of `derivs-mut.cpp` maps the derivative of b by the
sentinel when x is the sentinel, and b otherwise. -/
theorem C26_follower_not_derived_at_end_of_input :
    build no_rules (.seq (.alt (.chr 97) .eps) (.seq (.not (.chr 97)) (.alt (.chr 98) .eps))) =
      some (seq_expr (alt_expr (char_expr 97) eps_expr [0] [0])
        (seq_expr (not_expr (char_expr 97)) fail_expr
          (look_list.cons 1 [0] (alt_expr (char_expr 98) eps_expr [0] [0]) false 1
            look_list.nil) fail_expr [0] 1)
        look_list.nil fail_expr [0] 1) ∧
    d no_rules (alt_expr (char_expr 97) eps_expr [0] [0]) 0 = some eps_expr ∧
    d no_rules (seq_expr (alt_expr (char_expr 97) eps_expr [0] [0])
        (seq_expr (not_expr (char_expr 97)) fail_expr
          (look_list.cons 1 [0] (alt_expr (char_expr 98) eps_expr [0] [0]) false 1
            look_list.nil) fail_expr [0] 1)
        look_list.nil fail_expr [0] 1) 0 =
      some (seq_expr (not_expr (char_expr 97)) fail_expr
        (look_list.cons 1 [0] (alt_expr (char_expr 98) eps_expr [0] [0]) false 1
          look_list.nil) fail_expr [0] 1) ∧
    match_ no_rules (seq_expr (not_expr (char_expr 97)) fail_expr
        (look_list.cons 1 [0] (alt_expr (char_expr 98) eps_expr [0] [0]) false 1
          look_list.nil) fail_expr [0] 1) = some [] ∧
    d no_rules (seq_expr (not_expr (char_expr 97)) fail_expr
        (look_list.cons 1 [0] (alt_expr (char_expr 98) eps_expr [0] [0]) false 1
          look_list.nil) fail_expr [0] 1) 0 = some eps_expr ∧
    (build no_rules
        (.seq (.alt (.chr 97) .eps) (.seq (.not (.chr 97)) (.alt (.chr 98) .eps)))).bind
      (fun e => recognize no_rules e []) = some false ∧
    peg.accepts (.seq (.alt (.chr 97) .eps) (.seq (.not (.chr 97)) (.alt (.chr 98) .eps))) [] =
      true ∧
    (∀ (R : rule_ops Option) (a b : expr) (bs : look_list) (c : expr) (cg : uint_set)
      (gm : Nat) (x : Chr), d R a x = some eps_expr →
      d R (seq_expr a b bs c cg gm) x =
        (back R b).bind (fun bb =>
          (seq_bg bb gm : Option uint_set).bind (fun bgv => map_expr_make R b gm bgv))) ∧
    (∀ (ops : derivs_mut.node_ops) (dn : derivs_mut.node → Chr → Nat → Option derivs_mut.node)
      (alt_make : derivs_mut.node → derivs_mut.node → derivs_mut.gen_map →
        derivs_mut.gen_map → Nat → Option derivs_mut.node)
      (rest : derivs_mut.node → Option derivs_mut.node) (na nb : derivs_mut.node)
      (nbs : derivs_mut.look_list) (nc : derivs_mut.node) (ncg : derivs_mut.gen_map)
      (ngm : Nat) (x : Chr) (i : Nat) (ab : derivs_mut.gen_set) (abm : Nat),
      na.back ops i = some ab → ab.max = some abm → dn na x i = some .eps_node →
      derivs_mut.seq_node_d ops dn alt_make rest na nb nbs nc ncg ngm x i =
        ((if x = 0 then dn nb 0 i else some nb).bind (fun b1 =>
          (derivs_mut.new_back_map ops b1 ngm (i + 1)).bind (fun q =>
            derivs_mut.map_node_make ops b1 q.1 q.2 (i + 1))))) :=
  ⟨rfl, rfl, rfl, rfl, rfl, rfl, rfl, d_seq_expr_eps,
   fun ops dn alt_make rest na nb nbs nc ncg ngm x i ab abm hab habm hd =>
     derivs_mut.seq_node_d_eps ops dn alt_make rest na nb nbs nc ncg ngm x i ab abm hab habm hd⟩

/-- C27: `update_back_map`.  In `derivs.hpp`, for an expression e with
backtrack maximum emax and its derivative de with backtrack maximum demax, the
returned map is eg with the generation gm + 1 added and `did_inc` is set when
demax > emax (the assertion of the function wants demax = emax + 1 then), and
the returned map is eg and `did_inc` keeps the value it had when
demax ≤ emax; whenever the function returns, its result is one of the two.  In
`derivs-mut.cpp`, with the backtrack maximum ebm of e as argument, the map
gets the new pair (debm, gm + 1) and the signal is given (`did_inc` set, or gm
incremented by the overload that takes gm by reference) exactly when
debm > ebm, and the map and the signal stay as they are otherwise. -/
theorem C27_update_back_map (R : rule_ops Option) (e de : expr) (eg : uint_set) (gm : Nat)
    (did_inc : Bool) (eb deb : uint_set) (emax demax : Nat)
    (ops : derivs_mut.node_ops) (neg : derivs_mut.gen_map) (ebm : Nat) (nde : derivs_mut.node)
    (ngm : Nat) (ninc : Bool) (i : Nat) (ndeb : derivs_mut.gen_set) (debm : Nat)
    (hb : back R e = some eb) (hdb : back R de = some deb)
    (he : eb.max = some emax) (hde : deb.max = some demax)
    (hndb : nde.back ops i = some ndeb) (hnde : ndeb.max = some debm) :
    (demax > emax → demax = emax + 1 →
      update_back_map R e de eg gm did_inc = some (uint_set.ins (gm + 1) eg, true)) ∧
    (demax ≤ emax → update_back_map R e de eg gm did_inc = some (eg, did_inc)) ∧
    (∀ p, update_back_map R e de eg gm did_inc = some p →
      (demax > emax ∧ p = (uint_set.ins (gm + 1) eg, true)) ∨
      (demax ≤ emax ∧ p = (eg, did_inc))) ∧
    (debm > ebm →
      derivs_mut.update_back_map_inc ops neg ebm nde ngm ninc i =
        some (neg.add_back debm (ngm + 1), true) ∧
      derivs_mut.update_back_map ops neg ebm nde ngm i =
        some (neg.add_back debm (ngm + 1), ngm + 1)) ∧
    (debm ≤ ebm →
      derivs_mut.update_back_map_inc ops neg ebm nde ngm ninc i = some (neg, ninc) ∧
      derivs_mut.update_back_map ops neg ebm nde ngm i = some (neg, ngm)) := by
  obtain ⟨h1, h2, h3⟩ := update_back_map_cases R e de eg gm did_inc eb deb emax demax hb hdb he hde
  obtain ⟨h4, h5⟩ :=
    derivs_mut.update_back_map_inc_cases ops neg ebm nde ngm ninc i ndeb debm hndb hnde
  refine ⟨h1, h3, ?_, h4, h5⟩
  intro p hp
  by_cases hgt : demax > emax
  · by_cases heq : demax = emax + 1
    · rw [h1 hgt heq] at hp
      exact Or.inl ⟨hgt, (Option.some.inj hp).symm⟩
    · rw [h2 hgt heq] at hp
      cases hp
  · have hle : demax ≤ emax := by omega
    rw [h3 hle] at hp
    exact Or.inr ⟨hle, (Option.some.inj hp).symm⟩

/-- Witness of C27: the expression NOT(CHAR a), whose backtrack maximum is 1,
as derivative of CHAR a, whose backtrack maximum is 0: the map {0} becomes
{0, 1} with gm = 0 and the signal is given; for `derivs-mut.cpp` the node
LOOK(1) against the maximum 0. -/
theorem C27_update_back_map_witness :
    update_back_map no_rules (char_expr 97) (not_expr (char_expr 97)) [0] 0 false =
      some (uint_set.ins (0 + 1) [0], true) ∧
    derivs_mut.update_back_map_inc derivs_mut.no_ops (derivs_mut.gen_map.of_values [0]) 0
        (.look_node 1) 0 false 0 =
      some ((derivs_mut.gen_map.of_values [0]).add_back 1 (0 + 1), true) ∧
    derivs_mut.update_back_map derivs_mut.no_ops (derivs_mut.gen_map.of_values [0]) 0
        (.look_node 1) 0 0 =
      some ((derivs_mut.gen_map.of_values [0]).add_back 1 (0 + 1), 0 + 1) :=
  ⟨(C27_update_back_map no_rules (char_expr 97) (not_expr (char_expr 97)) [0] 0 false [0] [1]
      0 1 derivs_mut.no_ops (derivs_mut.gen_map.of_values [0]) 0 (.look_node 1) 0 false 0 [1] 1
      rfl rfl rfl rfl rfl rfl).1 (by decide) rfl,
   ((C27_update_back_map no_rules (char_expr 97) (not_expr (char_expr 97)) [0] 0 false [0] [1]
      0 1 derivs_mut.no_ops (derivs_mut.gen_map.of_values [0]) 0 (.look_node 1) 0 false 0 [1] 1
      rfl rfl rfl rfl rfl rfl).2.2.2.1 (by decide)).1,
   ((C27_update_back_map no_rules (char_expr 97) (not_expr (char_expr 97)) [0] 0 false [0] [1]
      0 1 derivs_mut.no_ops (derivs_mut.gen_map.of_values [0]) 0 (.look_node 1) 0 false 0 [1] 1
      rfl rfl rfl rfl rfl rfl).2.2.2.1 (by decide)).2⟩

/-- C30 (counterexample): the node LOOK(1) and the byte `a`.  `look_node::d`
of `derivs-mut.cpp` leaves the node as it is, while the derivative of
`derivs.hpp` is FAIL. -/
theorem C30_counterexample_lookahead_node_kept :
    derivs_mut.to_expr (.look_node 1) = some (look_expr 1) ∧
    derivs_mut.terminal_d (.look_node 1) 97 = some (.look_node 1) ∧
    d no_rules (look_expr 1) 97 = some fail_expr ∧
    (derivs_mut.terminal_d (.look_node 1) 97).bind derivs_mut.to_expr ≠
      d no_rules (look_expr 1) 97 := by
  refine ⟨rfl, rfl, rfl, ?_⟩
  intro h
  have h1 : (some (look_expr 1) : Option expr) = some fail_expr := h
  cases h1

/-- C30 (amended): the terminals of the two implementations.  For FAIL, INF,
EPS, CHAR(c), RANGE(b, e) and ANY and every byte x, and for LOOK(g) with g > 0
and the end-of-input sentinel, the derivative of `derivs-mut.cpp` rewrites the
node to the variant, with the attributes, that the derivative of `derivs.hpp`
returns.  For LOOK(g) and a byte other than the sentinel, `derivs.hpp` returns
FAIL and `derivs-mut.cpp` leaves the node LOOK(g) as it is. -/
theorem C30_terminals_agree (R : rule_ops Option) (x : Chr) :
    (∀ n e, derivs_mut.to_expr n = some e → (∀ g, n = .look_node g → x = 0 ∧ 0 < g) →
      (derivs_mut.terminal_d n x).bind derivs_mut.to_expr = d R e x) ∧
    (∀ g, derivs_mut.terminal_d (.look_node g) x = some (.look_node g)) ∧
    (∀ g, d R (look_expr g) x = some (if x = 0 then look_expr_make g else fail_expr)) ∧
    (∀ g, x ≠ 0 → d R (look_expr g) x = some fail_expr) := by
  have hlook : ∀ g,
      d R (look_expr g) x = some (if x = 0 then look_expr_make g else fail_expr) := by
    intro g
    simp only [d]
    split <;> rfl
  refine ⟨?_, fun g => rfl, hlook, ?_⟩
  · intro n e hn hx
    cases n with
    | fail_node =>
        cases hn
        rfl
    | inf_node =>
        cases hn
        rfl
    | eps_node =>
        cases hn
        simp only [derivs_mut.terminal_d, d]
        by_cases h : x = 0
        · simp [h, derivs_mut.to_expr]
        · simp [h, derivs_mut.to_expr]
    | look_node g =>
        cases hn
        obtain ⟨h0, hg⟩ := hx g rfl
        rw [hlook g, if_pos h0, look_expr_make_pos g hg]
        rfl
    | char_node c =>
        cases hn
        simp only [derivs_mut.terminal_d, d]
        by_cases h : c = x
        · simp [h, derivs_mut.to_expr]
        · simp [h, derivs_mut.to_expr]
    | range_node b e1 =>
        cases hn
        simp only [derivs_mut.terminal_d, d]
        by_cases h : b ≤ x ∧ x ≤ e1
        · simp [h, derivs_mut.to_expr]
        · rw [if_neg h, if_neg h]
          rfl
    | any_node =>
        cases hn
        simp only [derivs_mut.terminal_d, d]
        by_cases h : x = 0
        · simp [h, derivs_mut.to_expr]
        · simp [h, derivs_mut.to_expr]
    | str_node t => cases hn
    | shared_node k => cases hn
    | rule_node k => cases hn
    | not_node k => cases hn
    | map_node a b c => cases hn
    | alt_node a b c d1 e1 => cases hn
    | seq_node a b c d1 e1 f => cases hn
  · intro g hx
    rw [hlook g, if_neg hx]

/-- Witness of C30: CHAR a and the byte `a` (both derivatives are EPS), and
LOOK(1) and the byte `a` in `derivs.hpp` (FAIL). -/
theorem C30_terminals_agree_witness :
    (derivs_mut.terminal_d (.char_node 97) 97).bind derivs_mut.to_expr =
      d no_rules (char_expr 97) 97 ∧
    d no_rules (look_expr 1) 97 = some fail_expr :=
  ⟨(C30_terminals_agree no_rules 97).1 (.char_node 97) (char_expr 97) rfl
      (fun g h => (by cases h)),
   (C30_terminals_agree no_rules 97).2.2.2 1 (by decide)⟩

end derivs
/-! ### The claims on the generations of engine A -/

namespace derivs

open expr

theorem static_pairs_iff (x y : Option uint_set) :
    (x, y) ∈ static_pairs ↔
      (x = some [0] ∧ y = some []) ∨ (x = some [0] ∧ y = some [0]) ∨
      (x = some [1] ∧ y = some []) ∨ (x = some [1] ∧ y = some [1]) ∨
      (x = some [0, 1] ∧ y = some []) ∨ (x = some [0, 1] ∧ y = some [0]) ∨
      (x = some [0, 1] ∧ y = some [1]) ∨ (x = some [0, 1] ∧ y = some [0, 1]) := by
  simp [static_pairs]

theorem static_pairs_match_defined (x y : Option uint_set) (h : (x, y) ∈ static_pairs) :
    ∃ am, y = some am := by
  cases y with
  | some am => exact ⟨am, rfl⟩
  | none => simp [static_pairs] at h

theorem not_expr_make_shape (R : rule_ops Option) (a : expr) (am : uint_set)
    (hm : match_ R a = some am) :
    not_expr_make R a = some (look_expr 1) ∨ (a = inf_expr ∧ not_expr_make R a = some a) ∨
    not_expr_make R a = some fail_expr ∨ not_expr_make R a = some (not_expr a) := by
  cases am with
  | nil =>
      cases a <;>
        first
          | (left; rfl)
          | (right; left; exact ⟨rfl, rfl⟩)
          | (right; right; right; simp [not_expr_make, hm, uint_set.empty])
  | cons k t =>
      cases a <;>
        first
          | (left; rfl)
          | (right; left; exact ⟨rfl, rfl⟩)
          | (right; right; left; simp [not_expr_make, hm, uint_set.empty])

theorem alt_expr_make_shape (R : rule_ops Option) (a b : expr) (am : uint_set)
    (hm : match_ R a = some am) :
    alt_expr_make R a b = some a ∨ alt_expr_make R a b = some b ∨
    (am = [] ∧ alt_expr_make R a b =
      (default_back_map R a).bind (fun ag =>
        (default_back_map R b).bind (fun bg => some (alt_expr a b ag bg)))) := by
  by_cases hb : b.type = .fail_type
  · cases a <;>
      first
        | (right; left; rfl)
        | (left; rfl)
        | (left; simp [alt_expr_make, hm, hb])
  · cases am with
    | nil =>
        cases a <;>
          first
            | (right; left; rfl)
            | (left; rfl)
            | (right; right; refine ⟨rfl, ?_⟩
               simp [alt_expr_make, hm, hb, uint_set.empty]
               try rfl)
    | cons k t =>
        cases a <;>
          first
            | (right; left; rfl)
            | (left; rfl)
            | (left; simp [alt_expr_make, hm, hb, uint_set.empty])

theorem seq_expr_make_shape (R : rule_ops Option) (a b : expr) :
    seq_expr_make R a b = some a ∨ seq_expr_make R a b = some b ∨
    seq_expr_make R a b = some fail_expr ∨ seq_expr_make R a b = seq_expr_build R a b := by
  cases b <;> cases a <;>
    first
      | (left; rfl)
      | (right; left; rfl)
      | (right; right; right; rfl)
      | (simp only [seq_expr_make]
         split
         · right; left; rfl
         · right; right; left; rfl)


theorem static_seq_build_b0 (R : rule_ops Option) (a b : expr)
    (ha1 : back R a = some [0]) (ha2 : match_ R a = some [])
    (hb : (back R b, match_ R b) ∈ static_pairs) :
    ∃ n, seq_expr_build R a b = some n ∧ (back R n, match_ R n) ∈ static_pairs := by
  rw [static_pairs_iff] at hb
  rcases hb with ⟨hb1, hb2⟩ | ⟨hb1, hb2⟩ | ⟨hb1, hb2⟩ | ⟨hb1, hb2⟩ | ⟨hb1, hb2⟩ | ⟨hb1, hb2⟩ |
    ⟨hb1, hb2⟩ | ⟨hb1, hb2⟩ <;>
  · simp only [seq_expr_build, ha1, ha2, hb1, hb2, default_back_map, Option.bind_eq_bind,
      Option.some_bind]
    refine ⟨_, rfl, ?_⟩
    simp only [back, match_, back_bs, match_bs, ha1, ha2, hb1, hb2, Option.bind_eq_bind,
      Option.some_bind, Option.pure_def]
    decide

theorem static_seq_build_b0_m0 (R : rule_ops Option) (a b : expr)
    (ha1 : back R a = some [0]) (ha2 : match_ R a = some [0])
    (hb : (back R b, match_ R b) ∈ static_pairs) :
    ∃ n, seq_expr_build R a b = some n ∧ (back R n, match_ R n) ∈ static_pairs := by
  rw [static_pairs_iff] at hb
  rcases hb with ⟨hb1, hb2⟩ | ⟨hb1, hb2⟩ | ⟨hb1, hb2⟩ | ⟨hb1, hb2⟩ | ⟨hb1, hb2⟩ | ⟨hb1, hb2⟩ |
    ⟨hb1, hb2⟩ | ⟨hb1, hb2⟩ <;>
  · simp only [seq_expr_build, ha1, ha2, hb1, hb2, default_back_map, Option.bind_eq_bind,
      Option.some_bind]
    refine ⟨_, rfl, ?_⟩
    simp only [back, match_, back_bs, match_bs, ha1, ha2, hb1, hb2, Option.bind_eq_bind,
      Option.some_bind, Option.pure_def]
    decide

theorem static_seq_build_b1 (R : rule_ops Option) (a b : expr)
    (ha1 : back R a = some [1]) (ha2 : match_ R a = some [])
    (hb : (back R b, match_ R b) ∈ static_pairs) :
    ∃ n, seq_expr_build R a b = some n ∧ (back R n, match_ R n) ∈ static_pairs := by
  rw [static_pairs_iff] at hb
  rcases hb with ⟨hb1, hb2⟩ | ⟨hb1, hb2⟩ | ⟨hb1, hb2⟩ | ⟨hb1, hb2⟩ | ⟨hb1, hb2⟩ | ⟨hb1, hb2⟩ |
    ⟨hb1, hb2⟩ | ⟨hb1, hb2⟩ <;>
  · simp only [seq_expr_build, ha1, ha2, hb1, hb2, default_back_map, Option.bind_eq_bind,
      Option.some_bind]
    refine ⟨_, rfl, ?_⟩
    simp only [back, match_, back_bs, match_bs, ha1, ha2, hb1, hb2, Option.bind_eq_bind,
      Option.some_bind, Option.pure_def]
    decide

theorem static_seq_build_b1_m1 (R : rule_ops Option) (a b : expr)
    (ha1 : back R a = some [1]) (ha2 : match_ R a = some [1])
    (hb : (back R b, match_ R b) ∈ static_pairs) :
    ∃ n, seq_expr_build R a b = some n ∧ (back R n, match_ R n) ∈ static_pairs := by
  rw [static_pairs_iff] at hb
  rcases hb with ⟨hb1, hb2⟩ | ⟨hb1, hb2⟩ | ⟨hb1, hb2⟩ | ⟨hb1, hb2⟩ | ⟨hb1, hb2⟩ | ⟨hb1, hb2⟩ |
    ⟨hb1, hb2⟩ | ⟨hb1, hb2⟩ <;>
  · simp only [seq_expr_build, ha1, ha2, hb1, hb2, default_back_map, Option.bind_eq_bind,
      Option.some_bind]
    refine ⟨_, rfl, ?_⟩
    simp only [back, match_, back_bs, match_bs, ha1, ha2, hb1, hb2, Option.bind_eq_bind,
      Option.some_bind, Option.pure_def]
    decide

theorem static_seq_build_b01 (R : rule_ops Option) (a b : expr)
    (ha1 : back R a = some [0, 1]) (ha2 : match_ R a = some [])
    (hb : (back R b, match_ R b) ∈ static_pairs) :
    ∃ n, seq_expr_build R a b = some n ∧ (back R n, match_ R n) ∈ static_pairs := by
  rw [static_pairs_iff] at hb
  rcases hb with ⟨hb1, hb2⟩ | ⟨hb1, hb2⟩ | ⟨hb1, hb2⟩ | ⟨hb1, hb2⟩ | ⟨hb1, hb2⟩ | ⟨hb1, hb2⟩ |
    ⟨hb1, hb2⟩ | ⟨hb1, hb2⟩ <;>
  · simp only [seq_expr_build, ha1, ha2, hb1, hb2, default_back_map, Option.bind_eq_bind,
      Option.some_bind]
    refine ⟨_, rfl, ?_⟩
    simp only [back, match_, back_bs, match_bs, ha1, ha2, hb1, hb2, Option.bind_eq_bind,
      Option.some_bind, Option.pure_def]
    decide

theorem static_seq_build_b01_m0 (R : rule_ops Option) (a b : expr)
    (ha1 : back R a = some [0, 1]) (ha2 : match_ R a = some [0])
    (hb : (back R b, match_ R b) ∈ static_pairs) :
    ∃ n, seq_expr_build R a b = some n ∧ (back R n, match_ R n) ∈ static_pairs := by
  rw [static_pairs_iff] at hb
  rcases hb with ⟨hb1, hb2⟩ | ⟨hb1, hb2⟩ | ⟨hb1, hb2⟩ | ⟨hb1, hb2⟩ | ⟨hb1, hb2⟩ | ⟨hb1, hb2⟩ |
    ⟨hb1, hb2⟩ | ⟨hb1, hb2⟩ <;>
  · simp only [seq_expr_build, ha1, ha2, hb1, hb2, default_back_map, Option.bind_eq_bind,
      Option.some_bind]
    refine ⟨_, rfl, ?_⟩
    simp only [back, match_, back_bs, match_bs, ha1, ha2, hb1, hb2, Option.bind_eq_bind,
      Option.some_bind, Option.pure_def]
    decide

theorem static_seq_build_b01_m1 (R : rule_ops Option) (a b : expr)
    (ha1 : back R a = some [0, 1]) (ha2 : match_ R a = some [1])
    (hb : (back R b, match_ R b) ∈ static_pairs) :
    ∃ n, seq_expr_build R a b = some n ∧ (back R n, match_ R n) ∈ static_pairs := by
  rw [static_pairs_iff] at hb
  rcases hb with ⟨hb1, hb2⟩ | ⟨hb1, hb2⟩ | ⟨hb1, hb2⟩ | ⟨hb1, hb2⟩ | ⟨hb1, hb2⟩ | ⟨hb1, hb2⟩ |
    ⟨hb1, hb2⟩ | ⟨hb1, hb2⟩ <;>
  · simp only [seq_expr_build, ha1, ha2, hb1, hb2, default_back_map, Option.bind_eq_bind,
      Option.some_bind]
    refine ⟨_, rfl, ?_⟩
    simp only [back, match_, back_bs, match_bs, ha1, ha2, hb1, hb2, Option.bind_eq_bind,
      Option.some_bind, Option.pure_def]
    decide

theorem static_seq_build_b01_m01 (R : rule_ops Option) (a b : expr)
    (ha1 : back R a = some [0, 1]) (ha2 : match_ R a = some [0, 1])
    (hb : (back R b, match_ R b) ∈ static_pairs) :
    ∃ n, seq_expr_build R a b = some n ∧ (back R n, match_ R n) ∈ static_pairs := by
  rw [static_pairs_iff] at hb
  rcases hb with ⟨hb1, hb2⟩ | ⟨hb1, hb2⟩ | ⟨hb1, hb2⟩ | ⟨hb1, hb2⟩ | ⟨hb1, hb2⟩ | ⟨hb1, hb2⟩ |
    ⟨hb1, hb2⟩ | ⟨hb1, hb2⟩ <;>
  · simp only [seq_expr_build, ha1, ha2, hb1, hb2, default_back_map, Option.bind_eq_bind,
      Option.some_bind]
    refine ⟨_, rfl, ?_⟩
    simp only [back, match_, back_bs, match_bs, ha1, ha2, hb1, hb2, Option.bind_eq_bind,
      Option.some_bind, Option.pure_def]
    decide

theorem static_seq_build (R : rule_ops Option) (a b : expr)
    (ha : (back R a, match_ R a) ∈ static_pairs) (hb : (back R b, match_ R b) ∈ static_pairs) :
    ∃ n, seq_expr_build R a b = some n ∧ (back R n, match_ R n) ∈ static_pairs := by
  rw [static_pairs_iff] at ha
  rcases ha with ⟨ha1, ha2⟩ | ⟨ha1, ha2⟩ | ⟨ha1, ha2⟩ | ⟨ha1, ha2⟩ | ⟨ha1, ha2⟩ | ⟨ha1, ha2⟩ |
    ⟨ha1, ha2⟩ | ⟨ha1, ha2⟩
  · exact static_seq_build_b0 R a b ha1 ha2 hb
  · exact static_seq_build_b0_m0 R a b ha1 ha2 hb
  · exact static_seq_build_b1 R a b ha1 ha2 hb
  · exact static_seq_build_b1_m1 R a b ha1 ha2 hb
  · exact static_seq_build_b01 R a b ha1 ha2 hb
  · exact static_seq_build_b01_m0 R a b ha1 ha2 hb
  · exact static_seq_build_b01_m1 R a b ha1 ha2 hb
  · exact static_seq_build_b01_m01 R a b ha1 ha2 hb

theorem static_alt_node (R : rule_ops Option) (a b : expr)
    (ha : (back R a, match_ R a) ∈ static_pairs) (hb : (back R b, match_ R b) ∈ static_pairs)
    (hm : match_ R a = some []) :
    ∃ n, (default_back_map R a).bind (fun ag =>
        (default_back_map R b).bind (fun bg => some (alt_expr a b ag bg))) = some n ∧
      (back R n, match_ R n) ∈ static_pairs := by
  rw [static_pairs_iff] at ha hb
  rcases ha with ⟨ha1, ha2⟩ | ⟨ha1, ha2⟩ | ⟨ha1, ha2⟩ | ⟨ha1, ha2⟩ | ⟨ha1, ha2⟩ | ⟨ha1, ha2⟩ |
    ⟨ha1, ha2⟩ | ⟨ha1, ha2⟩ <;>
  first
    | (rw [hm] at ha2; cases ha2; done)
    | (rcases hb with ⟨hb1, hb2⟩ | ⟨hb1, hb2⟩ | ⟨hb1, hb2⟩ | ⟨hb1, hb2⟩ | ⟨hb1, hb2⟩ |
        ⟨hb1, hb2⟩ | ⟨hb1, hb2⟩ | ⟨hb1, hb2⟩ <;>
       · simp only [ha1, ha2, hb1, hb2, default_back_map, Option.bind_eq_bind, Option.some_bind]
         refine ⟨_, rfl, ?_⟩
         simp only [back, match_, ha1, ha2, hb1, hb2, Option.bind_eq_bind, Option.some_bind,
           Option.pure_def]
         decide)

theorem static_terminal (R : rule_ops Option) :
    (back R fail_expr, match_ R fail_expr) ∈ static_pairs ∧
    (back R inf_expr, match_ R inf_expr) ∈ static_pairs ∧
    (back R eps_expr, match_ R eps_expr) ∈ static_pairs ∧
    (back R (look_expr 1), match_ R (look_expr 1)) ∈ static_pairs ∧
    (∀ c, (back R (char_expr c), match_ R (char_expr c)) ∈ static_pairs) ∧
    (∀ b e, (back R (range_expr b e), match_ R (range_expr b e)) ∈ static_pairs) ∧
    (back R any_expr, match_ R any_expr) ∈ static_pairs ∧
    (∀ s, (back R (str_expr s), match_ R (str_expr s)) ∈ static_pairs) ∧
    (∀ e, (back R (not_expr e), match_ R (not_expr e)) ∈ static_pairs) := by
  refine ⟨?_, ?_, ?_, ?_, ?_, ?_, ?_, ?_, ?_⟩ <;> intros <;>
    simp only [back, match_, Option.pure_def, zero_set, one_set, empty_set] <;> decide

theorem static_not (R : rule_ops Option) (a : expr)
    (ha : (back R a, match_ R a) ∈ static_pairs) :
    ∃ n, not_expr_make R a = some n ∧ (back R n, match_ R n) ∈ static_pairs := by
  obtain ⟨am, hm⟩ := static_pairs_match_defined _ _ ha
  obtain ⟨t1, _, _, t4, _, _, _, _, t9⟩ := static_terminal R
  rcases not_expr_make_shape R a am hm with h | ⟨_, h⟩ | h | h
  · exact ⟨_, h, t4⟩
  · exact ⟨_, h, ha⟩
  · exact ⟨_, h, t1⟩
  · exact ⟨_, h, t9 a⟩

theorem static_alt (R : rule_ops Option) (a b : expr)
    (ha : (back R a, match_ R a) ∈ static_pairs) (hb : (back R b, match_ R b) ∈ static_pairs) :
    ∃ n, alt_expr_make R a b = some n ∧ (back R n, match_ R n) ∈ static_pairs := by
  obtain ⟨am, hm⟩ := static_pairs_match_defined _ _ ha
  rcases alt_expr_make_shape R a b am hm with h | h | ⟨hnil, h⟩
  · exact ⟨_, h, ha⟩
  · exact ⟨_, h, hb⟩
  · subst hnil
    rw [h]
    exact static_alt_node R a b ha hb hm

theorem static_seq (R : rule_ops Option) (a b : expr)
    (ha : (back R a, match_ R a) ∈ static_pairs) (hb : (back R b, match_ R b) ∈ static_pairs) :
    ∃ n, seq_expr_make R a b = some n ∧ (back R n, match_ R n) ∈ static_pairs := by
  rcases seq_expr_make_shape R a b with h | h | h | h
  · exact ⟨_, h, ha⟩
  · exact ⟨_, h, hb⟩
  · exact ⟨_, h, (static_terminal R).1⟩
  · rw [h]
    exact static_seq_build R a b ha hb

theorem static_str (R : rule_ops Option) (s : List Chr) :
    (back R (str_expr_make s), match_ R (str_expr_make s)) ∈ static_pairs := by
  obtain ⟨_, _, t3, _, t5, _, _, t8, _⟩ := static_terminal R
  unfold str_expr_make
  split
  · exact t3
  · exact t5 _
  · exact t8 _

theorem construct_static (R : rule_ops Option) :
    ∀ t : static_expr, ∃ n, construct R t = some n ∧ (back R n, match_ R n) ∈ static_pairs
  | .fail => ⟨_, rfl, (static_terminal R).1⟩
  | .inf => ⟨_, rfl, (static_terminal R).2.1⟩
  | .eps => ⟨_, rfl, (static_terminal R).2.2.1⟩
  | .look_one => ⟨look_expr 1, rfl, (static_terminal R).2.2.2.1⟩
  | .chr c => ⟨_, rfl, (static_terminal R).2.2.2.2.1 c⟩
  | .range b e => ⟨_, rfl, (static_terminal R).2.2.2.2.2.1 b e⟩
  | .any => ⟨_, rfl, (static_terminal R).2.2.2.2.2.2.1⟩
  | .str s => ⟨_, rfl, static_str R s⟩
  | .not e => by
      obtain ⟨x, hx, hp⟩ := construct_static R e
      obtain ⟨n, hn, hq⟩ := static_not R x hp
      exact ⟨n, by simp only [construct, hx, Option.bind_eq_bind, Option.some_bind, hn], hq⟩
  | .alt a b => by
      obtain ⟨x, hx, hp⟩ := construct_static R a
      obtain ⟨y, hy, hp2⟩ := construct_static R b
      obtain ⟨n, hn, hq⟩ := static_alt R x y hp hp2
      exact ⟨n, by simp only [construct, hx, hy, Option.bind_eq_bind, Option.some_bind, hn], hq⟩
  | .seq a b => by
      obtain ⟨x, hx, hp⟩ := construct_static R a
      obtain ⟨y, hy, hp2⟩ := construct_static R b
      obtain ⟨n, hn, hq⟩ := static_seq R x y hp hp2
      exact ⟨n, by simp only [construct, hx, hy, Option.bind_eq_bind, Option.some_bind, hn], hq⟩

theorem static_pairs_asserts (R : rule_ops Option) (e : expr)
    (h : (back R e, match_ R e) ∈ static_pairs) :
    ∃ bs ms bmax, back R e = some bs ∧ match_ R e = some ms ∧ bs.max = some bmax ∧ bmax ≤ 1 ∧
      ms ⊆ bs ∧
      (default_back_map R e = some zero_set ∨ default_back_map R e = some zero_one_set) ∧
      ∀ gm, (seq_bg bs gm : Option uint_set) = some zero_set ∨
        (seq_bg bs gm : Option uint_set) = some (uint_set.ins gm zero_set) := by
  rw [static_pairs_iff] at h
  rcases h with ⟨h1, h2⟩ | ⟨h1, h2⟩ | ⟨h1, h2⟩ | ⟨h1, h2⟩ | ⟨h1, h2⟩ | ⟨h1, h2⟩ | ⟨h1, h2⟩ |
    ⟨h1, h2⟩ <;>
  · refine ⟨_, _, _, h1, h2, rfl, by decide, by decide, ?_, ?_⟩
    · simp only [default_back_map, h1, Option.bind_eq_bind, Option.some_bind]
      first
        | (left; rfl)
        | (right; rfl)
    · intro gm
      first
        | (left; rfl)
        | (right; rfl)


/-- C31: the static lookahead depth in `derivs.hpp`.  Every tree of calls of
`not_expr::make`, of the two-argument `alt_expr::make` and of `seq_expr::make`
over the terminals FAIL, INF, EPS, LOOK(1), CHAR, RANGE, ANY and STR returns
an expression (no assertion of the constructors fails); the backtrack set of
that expression is not empty and its maximum is at most 1, its match set is
defined and lies inside the backtrack set; `default_back_map` returns for it
({0} or {0, 1}), and so does `bg()` of a sequence that has it as follower,
whatever the maximum `gm`. -/
theorem C31_static_lookahead_depth (R : rule_ops Option) (t : static_expr) :
    ∃ e bs ms bmax, construct R t = some e ∧ back R e = some bs ∧ match_ R e = some ms ∧
      bs.max = some bmax ∧ bmax ≤ 1 ∧ ms ⊆ bs ∧
      (default_back_map R e = some zero_set ∨ default_back_map R e = some zero_one_set) ∧
      ∀ gm, (seq_bg bs gm : Option uint_set) = some zero_set ∨
        (seq_bg bs gm : Option uint_set) = some (uint_set.ins gm zero_set) := by
  obtain ⟨e, he, hp⟩ := construct_static R t
  obtain ⟨bs, ms, bmax, h1, h2, h3, h4, h5, h6, h7⟩ := static_pairs_asserts R e hp
  exact ⟨e, bs, ms, bmax, he, h1, h2, h3, h4, h5, h6, h7⟩

/-- C32 (failing input): the expression `(("a" !"a") !fail) / "b"` and the
byte `a`.  The first branch E = SEQ(SEQ(CHAR a, NOT(CHAR a), [], FAIL, {0}, 1),
LOOK(1), [], FAIL, {0}, 1) is built by the constructors and has the backtrack
set {0}; its derivative by `a` is SEQ(NOT(CHAR a), LOOK(1),
[<1, {0, 1}, LOOK(1), false, 2>], FAIL, {0}, 2), whose backtrack set is
{0, 1, 2}: the maximum has grown from 0 to 2.  `alt_expr::deriv` hands E and
this derivative to `update_back_map`, whose assertion "gen only grows by 1"
fails: the derivative of the alternation is not defined. -/
theorem C32_generation_grows_by_two :
    build no_rules (.alt (.seq (.seq (.chr 97) (.not (.chr 97))) (.not .fail)) (.chr 98)) =
      some (alt_expr
        (seq_expr (seq_expr (char_expr 97) (not_expr (char_expr 97)) look_list.nil fail_expr
          [0] 1) (look_expr 1) look_list.nil fail_expr [0] 1)
        (char_expr 98) [0] [0]) ∧
    back no_rules
      (seq_expr (seq_expr (char_expr 97) (not_expr (char_expr 97)) look_list.nil fail_expr
        [0] 1) (look_expr 1) look_list.nil fail_expr [0] 1) = some [0] ∧
    d no_rules
      (seq_expr (seq_expr (char_expr 97) (not_expr (char_expr 97)) look_list.nil fail_expr
        [0] 1) (look_expr 1) look_list.nil fail_expr [0] 1) 97 =
      some (seq_expr (not_expr (char_expr 97)) (look_expr 1)
        (look_list.cons 1 [0, 1] (look_expr 1) false 2 look_list.nil) fail_expr [0] 2) ∧
    back no_rules
      (seq_expr (not_expr (char_expr 97)) (look_expr 1)
        (look_list.cons 1 [0, 1] (look_expr 1) false 2 look_list.nil) fail_expr [0] 2) =
      some [0, 1, 2] ∧
    update_back_map no_rules
      (seq_expr (seq_expr (char_expr 97) (not_expr (char_expr 97)) look_list.nil fail_expr
        [0] 1) (look_expr 1) look_list.nil fail_expr [0] 1)
      (seq_expr (not_expr (char_expr 97)) (look_expr 1)
        (look_list.cons 1 [0, 1] (look_expr 1) false 2 look_list.nil) fail_expr [0] 2)
      [0] 0 false = none ∧
    d no_rules
      (alt_expr
        (seq_expr (seq_expr (char_expr 97) (not_expr (char_expr 97)) look_list.nil fail_expr
          [0] 1) (look_expr 1) look_list.nil fail_expr [0] 1)
        (char_expr 98) [0] [0]) 97 = none :=
  ⟨rfl, rfl, rfl, rfl, rfl, rfl⟩

/-- C33 (failing input): `seq_expr::make` for `!"z" !"x"`.  The node is
SEQ(NOT(CHAR z), FAIL, [<1, {0, 1}, NOT(CHAR x), false, 0>], FAIL, {0}, 0): its
maximum `gm` is 0, the map of its follower entry holds the generation 1, and
its backtrack set is {0, 1}, with the maximum 1. -/
theorem C33_seq_make_maximum_is_too_small :
    build no_rules (.seq (.not (.chr 122)) (.not (.chr 120))) =
      some (seq_expr (not_expr (char_expr 122)) fail_expr
        (look_list.cons 1 [0, 1] (not_expr (char_expr 120)) false 0 look_list.nil)
        fail_expr [0] 0) ∧
    seq_expr_make no_rules (not_expr (char_expr 122)) (not_expr (char_expr 120)) =
      some (seq_expr (not_expr (char_expr 122)) fail_expr
        (look_list.cons 1 [0, 1] (not_expr (char_expr 120)) false 0 look_list.nil)
        fail_expr [0] 0) ∧
    back no_rules
      (seq_expr (not_expr (char_expr 122)) fail_expr
        (look_list.cons 1 [0, 1] (not_expr (char_expr 120)) false 0 look_list.nil)
        fail_expr [0] 0) = some [0, 1] ∧
    uint_set.max [0, 1] = some 1 ∧ ¬ (1 ≤ 0) :=
  ⟨rfl, rfl, rfl, rfl, by decide⟩

theorem add_gl_sorted (gl : Nat) (x : uint_set) (hx : x.Sorted (· < ·)) :
    (add_gl gl x).Sorted (· < ·) := by
  unfold add_gl
  split
  · exact uint_set.ins_sorted _ _ hx
  · exact hx

theorem match_bs_sorted (R : rule_ops Option) :
    ∀ (l : look_list) (ats : List Nat) (x r : uint_set), match_bs R l ats x = some r →
      x.Sorted (· < ·) → r.Sorted (· < ·)
  | look_list.nil, ats, x, r, h, hx => by
      simp only [match_bs, Option.pure_def, Option.some.injEq] at h
      exact h ▸ hx
  | look_list.cons g eg e mb gl tl, ats, x, r, h, hx => by
      have hadd : ∀ y, (add_gl gl (uint_set.union x y)).Sorted (· < ·) :=
        fun y => add_gl_sorted gl _ (uint_set.union_sorted x y hx)
      unfold match_bs at h
      split at h
      · simp only [Option.bind_eq_bind, Option.bind_eq_some, get_or_fail_eq] at h
        obtain ⟨em, _, y, _, h⟩ := h
        split at h
        · exact match_bs_sorted R tl _ _ r h (hadd y)
        · split at h
          · exact match_bs_sorted R tl _ _ r h (hadd y)
          · simp only [Option.bind_eq_bind, Option.bind_eq_some] at h
            obtain ⟨_, _, h⟩ := h
            exact match_bs_sorted R tl _ _ r h (hadd y)
      · split at h
        · exact match_bs_sorted R tl _ _ r h hx
        · split at h
          · exact match_bs_sorted R tl _ _ r h hx
          · simp only [Option.bind_eq_bind, Option.bind_eq_some, get_or_fail_eq] at h
            obtain ⟨em, _, y, _, h⟩ := h
            exact match_bs_sorted R tl _ _ r h (hadd y)

theorem match_sorted (R : rule_ops Option)
    (HR : ∀ r s, R.match_ r = some s → s.Sorted (· < ·)) :
    ∀ (e : expr) (s : uint_set), match_ R e = some s → s.Sorted (· < ·)
  | fail_expr, s, h => by cases h; simp [empty_set]
  | inf_expr, s, h => by cases h; simp [empty_set]
  | eps_expr, s, h => by cases h; simp [zero_set]
  | look_expr b, s, h => by cases h; simp
  | char_expr _, s, h => by cases h; simp [empty_set]
  | range_expr _ _, s, h => by cases h; simp [empty_set]
  | any_expr, s, h => by cases h; simp [empty_set]
  | str_expr _, s, h => by cases h; simp [empty_set]
  | rule_expr r, s, h => HR r s h
  | not_expr _, s, h => by cases h; simp [empty_set]
  | map_expr e gm eg, s, h => by
      simp only [match_, Option.bind_eq_bind, Option.bind_eq_some, get_or_fail_eq] at h
      obtain ⟨em, _, h⟩ := h
      exact uint_set.image_sorted eg em s h
  | alt_expr a b ag bg, s, h => by
      simp only [match_, Option.bind_eq_bind, Option.bind_eq_some, get_or_fail_eq,
        Option.pure_def, Option.some.injEq] at h
      obtain ⟨am, _, x, hx, bm, _, y, _, rfl⟩ := h
      exact uint_set.union_sorted x y (uint_set.image_sorted ag am x hx)
  | seq_expr a b bs c cg gm, s, h => by
      simp only [match_, Option.bind_eq_bind, Option.bind_eq_some, get_or_fail_eq] at h
      obtain ⟨cm, _, x, hx, am, _, h⟩ := h
      have hxs := uint_set.image_sorted cg cm x hx
      split at h
      · simp only [Option.bind_eq_bind, Option.bind_eq_some, get_or_fail_eq] at h
        obtain ⟨bb, _, g, _, bm, _, y, _, h⟩ := h
        exact match_bs_sorted R bs _ _ s h (uint_set.union_sorted x y hxs)
      · exact match_bs_sorted R bs _ _ s h hxs

theorem uint_set.sorted_ge : ∀ (l : uint_set) (a : Nat), l.Sorted (· < ·) → (∀ v ∈ l, a ≤ v) →
    ∀ i v, l.get? i = some v → a + i ≤ v
  | [], a, _, _, i, v, h => by simp at h
  | y :: ys, a, hs, hall, 0, v, h => by
      simp only [List.get?_cons_zero, Option.some.injEq] at h
      subst h
      exact hall y (List.mem_cons_self _ _)
  | y :: ys, a, hs, hall, i + 1, v, h => by
      simp only [List.get?_cons_succ] at h
      have hs1 := List.sorted_cons.1 hs
      have := uint_set.sorted_ge ys (y + 1) hs1.2 (fun w hw => hs1.1 w hw) i v h
      have hy := hall y (List.mem_cons_self _ _)
      omega

theorem uint_set.sorted_le : ∀ (l : uint_set), l.Sorted (· < ·) →
    ∀ i v m, l.get? i = some v → l.getLast? = some m → v + (l.length - 1 - i) ≤ m
  | [], _, i, v, m, h, _ => by simp at h
  | [y], _, 0, v, m, h, hm => by
      simp only [List.get?_cons_zero, Option.some.injEq] at h
      simp only [List.getLast?_singleton, Option.some.injEq] at hm
      subst h; subst hm
      simp
  | [y], _, i + 1, v, m, h, hm => by simp at h
  | y :: z :: zs, hs, 0, v, m, h, hm => by
      simp only [List.get?_cons_zero, Option.some.injEq] at h
      subst h
      rw [List.getLast?_cons_cons] at hm
      have hs1 := List.sorted_cons.1 hs
      have := uint_set.sorted_le (z :: zs) hs1.2 0 z m rfl hm
      have hlt := hs1.1 z (List.mem_cons_self _ _)
      simp only [List.length_cons] at this ⊢
      omega
  | y :: z :: zs, hs, i + 1, v, m, h, hm => by
      simp only [List.get?_cons_succ] at h
      rw [List.getLast?_cons_cons] at hm
      have hs1 := List.sorted_cons.1 hs
      have := uint_set.sorted_le (z :: zs) hs1.2 i v m h hm
      simp only [List.length_cons] at this ⊢
      omega

theorem uint_set.app_identity (eg : uint_set) (gm m : Nat) (hs : eg.Sorted (· < ·))
    (hmax : eg.max = some m) (hle : m ≤ gm) (hc : gm + 1 = eg.count) (k : Nat)
    (hk : k < eg.count) : eg.app k = some k := by
  unfold uint_set.app
  unfold uint_set.count at hc hk
  obtain ⟨v, hv⟩ : ∃ v, eg.get? k = some v := by
    cases h : eg.get? k with
    | none =>
        rw [List.get?_eq_none] at h
        omega
    | some v => exact ⟨v, rfl⟩
  have h1 := uint_set.sorted_ge eg 0 hs (fun _ _ => Nat.zero_le _) k v hv
  have h2 := uint_set.sorted_le eg hs k v m hv hmax
  rw [hv]
  congr 1
  omega

theorem uint_set.ins_lt_head (k : Nat) (s : uint_set) (h : ∀ v ∈ s, k < v) :
    uint_set.ins k s = k :: s := by
  cases s with
  | nil => rfl
  | cons y ys =>
      have := h y (List.mem_cons_self _ _)
      simp [uint_set.ins, this]

theorem uint_set.image_identity (eg : uint_set) :
    ∀ s : uint_set, s.Sorted (· < ·) → (∀ k ∈ s, eg.app k = some k) →
      uint_set.image eg s = some s
  | [], _, _ => rfl
  | k :: t, hs, hall => by
      have hs1 := List.sorted_cons.1 hs
      rw [uint_set.image_cons, hall k (List.mem_cons_self _ _),
        uint_set.image_identity eg t hs1.2 (fun j hj => hall j (List.mem_cons_of_mem _ hj))]
      simp only [Option.some_bind, Option.map_some', Option.some.injEq]
      exact uint_set.ins_lt_head k t hs1.1

theorem uint_set.image_defined (eg : uint_set) :
    ∀ s : uint_set, (∀ k ∈ s, k < eg.count) → ∃ r, uint_set.image eg s = some r
  | [], _ => ⟨[], rfl⟩
  | k :: t, hall => by
      obtain ⟨r, hr⟩ := uint_set.image_defined eg t (fun j hj => hall j (List.mem_cons_of_mem _ hj))
      have hk := hall k (List.mem_cons_self _ _)
      obtain ⟨v, hv⟩ : ∃ v, eg.app k = some v := by
        unfold uint_set.app
        cases h : eg.get? k with
        | none =>
            rw [List.get?_eq_none] at h
            unfold uint_set.count at hk
            omega
        | some v => exact ⟨v, rfl⟩
      exact ⟨uint_set.ins v r, by rw [uint_set.image_cons, hv, hr]; rfl⟩

theorem uint_set.app_zero (eg : uint_set) (hs : eg.Sorted (· < ·)) (h0 : 0 ∈ eg) :
    eg.app 0 = some 0 := by
  cases eg with
  | nil => cases h0
  | cons y ys =>
      have hs1 := List.sorted_cons.1 hs
      rcases List.mem_cons.1 h0 with h | h
      · subst h; rfl
      · have := hs1.1 0 h
        omega


/-- C34: the MAP smart constructor of `derivs.hpp` is transparent to the
generation sets.  For an expression x whose backtrack and match sets are
defined, a maximum gm and a generation map eg (a sorted set) such that 0 is in
eg, eg.max() ≤ gm and back(x).max() < eg.count(), `map_expr::make(x, gm, eg)`
returns an expression whose match set is the image eg(match(x)) and whose
backtrack set is the image eg(back(x)), in each case of the constructor.  The
rule nodes answer with sorted sets, the match set inside the backtrack set. -/
theorem C34_map_make_is_transparent (R : rule_ops Option)
    (HR1 : ∀ r ms bs, R.match_ r = some ms → R.back r = some bs → ms ⊆ bs)
    (HR2 : ∀ r s, R.back r = some s → s.Sorted (· < ·))
    (HR3 : ∀ r s, R.match_ r = some s → s.Sorted (· < ·))
    (x : expr) (gm : Nat) (eg xb xm : uint_set) (bmax m : Nat)
    (hb : back R x = some xb) (hm : match_ R x = some xm)
    (hbm : xb.max = some bmax) (hlt : bmax < eg.count)
    (hs : eg.Sorted (· < ·)) (h0 : 0 ∈ eg) (hmax : eg.max = some m) (hle : m ≤ gm) :
    ∃ e r q, map_expr_make R x gm eg = some e ∧
      uint_set.image eg xm = some r ∧ uint_set.image eg xb = some q ∧
      match_ R e = some r ∧ back R e = some q := by
  have hxbs := back_sorted R HR2 x xb hb
  have hxms := match_sorted R HR3 x xm hm
  have hsub := match_subset_back R HR1 x xm xb hm hb
  have hbk : ∀ k ∈ xb, k < eg.count := fun k hk =>
    lt_of_le_of_lt (uint_set.le_max_of_sorted xb hxbs bmax hbm k hk) hlt
  have hmk : ∀ k ∈ xm, k < eg.count := fun k hk => hbk k (hsub hk)
  obtain ⟨q, hq⟩ := uint_set.image_defined eg xb hbk
  obtain ⟨r, hr⟩ := uint_set.image_defined eg xm hmk
  have hz := uint_set.app_zero eg hs h0
  obtain ⟨c1, c2, c3, c4⟩ := map_expr_make_cases R x gm eg xb bmax hb hbm hlt
  by_cases he : x = eps_expr
  · subst he
    cases hb; cases hm
    refine ⟨eps_expr, _, _, (c1 rfl 0 hz).2.1 rfl, ?_, ?_, rfl, rfl⟩
    · simp [uint_set.image_cons, hz, zero_set, uint_set.image_nil, uint_set.ins]
    · simp [uint_set.image_cons, hz, zero_set, uint_set.image_nil, uint_set.ins]
  by_cases hl : ∃ b, x = look_expr b
  · obtain ⟨b, hl⟩ := hl
    subst hl
    cases hb; cases hm
    cases hbm
    obtain ⟨g, hg⟩ : ∃ g, eg.app b = some g := by
      obtain ⟨r1, hr1⟩ := uint_set.image_defined eg [b] hbk
      simp only [uint_set.image_cons, Option.bind_eq_some] at hr1
      obtain ⟨g, hg, _⟩ := hr1
      exact ⟨g, hg⟩
    have himg : uint_set.image eg [b] = some [g] := by
      simp [uint_set.image_cons, hg, uint_set.image_nil, uint_set.ins]
    by_cases hg0 : g = 0
    · subst hg0
      refine ⟨eps_expr, _, _, ?_, himg, himg, rfl, rfl⟩
      rw [(c2 b rfl 0 hg).1]
      rfl
    · refine ⟨look_expr g, _, _, (c2 b rfl g hg).2 (by omega), himg, himg, rfl, rfl⟩
  have hl2 : ∀ b, x ≠ look_expr b := fun b hc => hl ⟨b, hc⟩
  by_cases hf : x = fail_expr ∨ x = inf_expr
  · have hmk1 := c3 hf
    rcases hf with hf | hf <;> subst hf <;> cases hb <;> cases hm <;>
      exact ⟨_, _, _, hmk1, hr, hq, by
        simp only [uint_set.image_nil, empty_set, Option.some.injEq] at hr
        subst hr
        rfl, by
        simp [uint_set.image_cons, hz, zero_set, uint_set.image_nil, uint_set.ins] at hq
        subst hq
        rfl⟩
  have hf1 : x ≠ fail_expr := fun hc => hf (Or.inl hc)
  have hf2 : x ≠ inf_expr := fun hc => hf (Or.inr hc)
  obtain ⟨d1, d2⟩ := c4 he hl2 hf1 hf2
  by_cases hid : gm + 1 = eg.count
  · have happ : ∀ k, k < eg.count → eg.app k = some k :=
      uint_set.app_identity eg gm m hs hmax hle hid
    have hq1 := uint_set.image_identity eg xb hxbs (fun k hk => happ k (hbk k hk))
    have hr1 := uint_set.image_identity eg xm hxms (fun k hk => happ k (hmk k hk))
    exact ⟨x, xm, xb, d1 hid, hr1, hq1, hm, hb⟩
  · refine ⟨map_expr x gm eg, r, q, d2 hid, hr, hq, ?_, ?_⟩
    · simp only [match_, hm, Option.bind_eq_bind, Option.some_bind, get_or_fail_eq, hr]
    · simp only [back, hb, Option.bind_eq_bind, Option.some_bind, get_or_fail_eq, hq]


/-- Witness of C34: x = NOT(CHAR a), gm = 2 and eg = {0, 2}; the constructor
returns MAP(x, 2, {0, 2}), whose match set is empty and whose backtrack set is
{2}, the image of {1}. -/
theorem C34_map_make_is_transparent_witness :
    ∃ e r q, map_expr_make no_rules (not_expr (char_expr 97)) 2 [0, 2] = some e ∧
      uint_set.image [0, 2] [] = some r ∧ uint_set.image [0, 2] [1] = some q ∧
      match_ no_rules e = some r ∧ back no_rules e = some q :=
  C34_map_make_is_transparent no_rules (fun r ms bs h => (by cases h))
    (fun r s h => (by cases h)) (fun r s h => (by cases h))
    (not_expr (char_expr 97)) 2 [0, 2] [1] [] 1 2 rfl rfl rfl (by decide) (by decide)
    (by decide) rfl (by decide)

end derivs

/-! ### The claims on the arcs and the loader of engine B -/

namespace dlf

/-- C35: `alt_node::merge<NT>(ex, add)` for two arcs whose successors are two
nodes of type `NT`.  After the call the blocking set of `ex` is the
intersection of the blocking sets that `ex` and `add` had; the out-arc of the
successor of `ex` has its blocking set united with the one `ex` had, and the
out-arc of the successor of `add` has its blocking set united with the one
`add` had; the cut set of `ex` is the union of the cut sets that `ex` and `add`
had, and the cut set of `add` is empty.  The out-arc of the successor of `ex`
points to the node that `alt_node::make` returns for the two out-arcs, and
the other members are as before. -/
theorem C35_merge_blocking_and_cuts (alt_make : List (arc Nat) → Nat) (out : Nat → arc Nat)
    (ex add : arc Nat) (hne : ex.succ ≠ add.succ) :
    (alt_node_merge alt_make out ex add).ex.blocking = ex.blocking ∩ add.blocking ∧
    ((alt_node_merge alt_make out ex add).out ex.succ).blocking =
      (out ex.succ).blocking ∪ ex.blocking ∧
    ((alt_node_merge alt_make out ex add).out add.succ).blocking =
      (out add.succ).blocking ∪ add.blocking ∧
    (alt_node_merge alt_make out ex add).ex.cuts = ex.cuts ∪ add.cuts ∧
    (alt_node_merge alt_make out ex add).add.cuts = ∅ ∧
    (alt_node_merge alt_make out ex add).add.blocking = add.blocking ∧
    (alt_node_merge alt_make out ex add).ex.succ = ex.succ ∧
    (alt_node_merge alt_make out ex add).add.succ = add.succ ∧
    ((alt_node_merge alt_make out ex add).out ex.succ).succ =
      alt_make (alt_node_merge alt_make out ex add).alt_arcs ∧
    ((alt_node_merge alt_make out ex add).out add.succ).succ = (out add.succ).succ ∧
    (∀ n, n ≠ ex.succ → n ≠ add.succ → (alt_node_merge alt_make out ex add).out n = out n) := by
  have hne2 : add.succ ≠ ex.succ := fun h => hne h.symm
  refine ⟨rfl, ?_, ?_, rfl, rfl, rfl, rfl, rfl, ?_, ?_, ?_⟩
  · simp [alt_node_merge, restriction_ck.join, Function.update, hne]
  · simp [alt_node_merge, restriction_ck.join, Function.update, hne, hne2]
  · simp [alt_node_merge, restriction_ck.join, Function.update, hne]
  · simp [alt_node_merge, restriction_ck.join, Function.update, hne, hne2]
  · intro n h1 h2
    simp [alt_node_merge, Function.update, h1, h2]

/-- Witness of C35: `ex` blocked by {1, 2} with the cut 5, `add` blocked by
{2, 3} with the cut 6, successors at the addresses 1 and 2 whose out-arcs are
blocked by {7}. -/
theorem C35_merge_blocking_and_cuts_witness :
    (alt_node_merge (fun _ => 9) (fun _ => { succ := 0, blocking := {7}, cuts := ∅ })
      { succ := 1, blocking := {1, 2}, cuts := {5} }
      { succ := 2, blocking := {2, 3}, cuts := {6} }).ex.blocking = {1, 2} ∩ {2, 3} ∧
    ({1, 2} ∩ {2, 3} : flags_vector) = {2} ∧
    ((alt_node_merge (fun _ => 9) (fun _ => { succ := 0, blocking := {7}, cuts := ∅ })
      { succ := 1, blocking := {1, 2}, cuts := {5} }
      { succ := 2, blocking := {2, 3}, cuts := {6} }).out 1).blocking = {7} ∪ {1, 2} :=
  ⟨(C35_merge_blocking_and_cuts (fun _ => 9) (fun _ => { succ := 0, blocking := {7}, cuts := ∅ })
      { succ := 1, blocking := {1, 2}, cuts := {5} }
      { succ := 2, blocking := {2, 3}, cuts := {6} } (by decide)).1,
   by decide,
   (C35_merge_blocking_and_cuts (fun _ => 9) (fun _ => { succ := 0, blocking := {7}, cuts := ∅ })
      { succ := 1, blocking := {1, 2}, cuts := {5} }
      { succ := 2, blocking := {2, 3}, cuts := {6} } (by decide)).2.1⟩

/-- C35 (counterexample): both arcs point to one and the same node, at the
address 1, whose out-arc is blocked by {7}; `ex` is blocked by {1} and `add` by
{2}.  The references `ex_out` and `add_out` are the same arc, which receives
both blocking sets: after the call the out-arc of the successor of `ex` is
blocked by {1, 2, 7}, and not by {7} united with the set {1} that `ex` had. -/
theorem C35_counterexample_shared_successor :
    ((alt_node_merge (fun _ => 9) (fun _ => { succ := 0, blocking := {7}, cuts := ∅ })
        { succ := 1, blocking := {1}, cuts := ∅ }
        { succ := 1, blocking := {2}, cuts := ∅ }).out 1).blocking = {1, 2, 7} ∧
    (({ succ := 0, blocking := {7}, cuts := ∅ } : arc Nat).blocking ∪
      ({ succ := 1, blocking := {1}, cuts := ∅ } : arc Nat).blocking : flags_vector) = {1, 7} ∧
    ({1, 2, 7} : flags_vector) ≠ {1, 7} := by
  refine ⟨by decide, by decide, by decide⟩

/-- The same call when both arcs point to one node: its out-arc is `ex_out`
and `add_out` at once and receives the blocking sets of both arcs. -/
theorem alt_node_merge_same_successor (alt_make : List (arc Nat) → Nat) (out : Nat → arc Nat)
    (ex add : arc Nat) (heq : ex.succ = add.succ) :
    ((alt_node_merge alt_make out ex add).out ex.succ).blocking =
      (out ex.succ).blocking ∪ ex.blocking ∪ add.blocking := by
  simp [alt_node_merge, restriction_ck.join, Function.update, heq]

/-- C37 (failing input): the grammar with the rule `S = ("a" / "b")*`.
`make_many` takes the index i from the counter of the enclosing rule, which is
0, and lowers the repeated matcher with the counter reset to 0: the
alternation takes the indices 0 and 1.  In the body of the anonymous rule the
index 0 blocks the skip arc, as index of the repetition, and blocks the arc
into the second alternative, as index of the first alternative; the cut 0 on
the arcs into the recursive rule reference stands for both.  In general the
index is `ri` as it is on entry and the repeated matcher is lowered from the
counter 0, whatever `ri` was. -/
theorem C37_many_index_is_reused :
    (loader.load lnode.alt_node
      [("S", .many_matcher (.alt_matcher
        (.cons (.char_matcher 97) (.cons (.char_matcher 98) .nil))))]).many =
      [(0, lnode.alt_node
        [{ succ := lnode.alt_node
            [{ succ := lnode.char_node
                { succ := lnode.rule_node { succ := lnode.end_node, blocking := ∅, cuts := ∅ }
                    (rule_ref.many 0),
                  blocking := ∅, cuts := {0} } 97,
               blocking := ∅, cuts := ∅ },
             { succ := lnode.char_node
                { succ := lnode.rule_node { succ := lnode.end_node, blocking := ∅, cuts := ∅ }
                    (rule_ref.many 0),
                  blocking := ∅, cuts := {0, 1} } 98,
               blocking := {0}, cuts := ∅ }],
           blocking := ∅, cuts := ∅ },
         { succ := lnode.end_node, blocking := {0}, cuts := ∅ }])] ∧
    (loader.visit lnode.alt_node
      (.alt_matcher (.cons (.char_matcher 97) (.cons (.char_matcher 98) .nil)))
      { nts := [], many := [],
        next := lnode.rule_node { succ := lnode.end_node, blocking := ∅, cuts := ∅ }
          (rule_ref.many 0),
        next_cuts := {0}, ri := 0, mi := 1 }).ri = 2 ∧
    (∀ (alt_make : List (arc lnode) → lnode) (accept : loader → loader) (l : loader),
      (loader.make_many alt_make accept l).many =
        (accept
          { nts := l.nts, many := l.many,
            next := lnode.rule_node { succ := lnode.end_node, blocking := ∅, cuts := ∅ }
              (rule_ref.many l.mi),
            next_cuts := {l.ri}, ri := 0, mi := l.mi + 1 }).many ++
          [(l.mi, alt_make
            [(accept
              { nts := l.nts, many := l.many,
                next := lnode.rule_node { succ := lnode.end_node, blocking := ∅, cuts := ∅ }
                  (rule_ref.many l.mi),
                next_cuts := {l.ri}, ri := 0, mi := l.mi + 1 }).out ∅,
             { succ := lnode.end_node, blocking := {l.ri}, cuts := ∅ }])] ∧
      (loader.make_many alt_make accept l).ri = l.ri + 1) :=
  ⟨rfl, rfl, fun _ _ _ => ⟨rfl, rfl⟩⟩

/-- C38 (failing input): the grammar with the rule `S = "a" / "b"`.  The arc
into the first alternative is not blocked and the arc into the second is
blocked by {0}; the first alternative fires the cut 0 on its arc to the
continuation, and the last alternative fires the cut 1, an index of its own.
In general each turn of the loop, the last one included, takes the index
`ri`, adds it to the cuts for the continuation before the alternative is
lowered, and blocks the arcs of the later alternatives with it. -/
theorem C38_last_alternative_fires_a_cut :
    (loader.load lnode.alt_node
      [("S", .alt_matcher (.cons (.char_matcher 97) (.cons (.char_matcher 98) .nil)))]).nts =
      [("S", lnode.alt_node
        [{ succ := lnode.char_node { succ := lnode.end_node, blocking := ∅, cuts := {0} } 97,
           blocking := ∅, cuts := ∅ },
         { succ := lnode.char_node { succ := lnode.end_node, blocking := ∅, cuts := {1} } 98,
           blocking := {0}, cuts := ∅ }])] ∧
    (∀ (alt_make : List (arc lnode) → lnode) (alt_next : lnode) (alt_cuts : flags_vector)
      (m : matcher) (tl : matcher_list) (blocking : flags_vector) (rs : List (arc lnode))
      (l : loader),
      loader.visit_alt alt_make alt_next alt_cuts (.cons m tl) blocking rs l =
        loader.visit_alt alt_make alt_next alt_cuts tl (blocking ∪ {l.ri})
          (rs ++ [(loader.visit alt_make m
            { l with ri := l.ri + 1, next_cuts := l.next_cuts ∪ {l.ri} }).out blocking])
          ((loader.visit alt_make m
            { l with ri := l.ri + 1, next_cuts := l.next_cuts ∪ {l.ri} }).set_next_cuts
              alt_next alt_cuts)) ∧
    (∀ (alt_make : List (arc lnode) → lnode) (alt_next : lnode) (alt_cuts : flags_vector)
      (blocking : flags_vector) (rs : List (arc lnode)) (l : loader),
      loader.visit_alt alt_make alt_next alt_cuts .nil blocking rs l = (rs, l)) := by
  refine ⟨rfl, ?_, ?_⟩
  · intro alt_make alt_next alt_cuts m tl blocking rs l
    simp only [loader.visit_alt]
  · intro alt_make alt_next alt_cuts blocking rs l
    simp only [loader.visit_alt]

end dlf

/-! ### The claims on the backtrack sets of `derivs-mut.cpp` -/

namespace derivs_mut

open derivs (Chr uint_set)
open node

theorem alt_node_back_eq (ops : node_ops) (cache : node_cache) (a b : node) (ag bg : gen_map)
    (i : Nat) (h : cache.flags_back = false) :
    alt_node_back ops cache a b ag bg i =
      ((a.back ops i).bind ag.image).bind (fun x =>
        ((b.match_ ops i).bind bg.image).map (fun y =>
          (uint_set.union x y, cache.set_back (uint_set.union x y)))) := by
  simp only [alt_node_back, h, Bool.not_false, if_true, Option.bind_eq_bind]
  cases a.back ops i with
  | none => rfl
  | some ab =>
      simp only [Option.some_bind]
      cases ag.image ab with
      | none => rfl
      | some x =>
          simp only [Option.some_bind]
          cases b.match_ ops i with
          | none => rfl
          | some bm =>
              simp only [Option.some_bind]
              cases bg.image bm <;> rfl

/-- C39 (failing input): the node ALT(CHAR a, NOT(CHAR b), {0}, {0, 1}) that
`alt_node::make` builds for `"a" / !"b"`.  The backtrack set of NOT(CHAR b) is
{1} and its match set is empty.  `alt_node::back` of `derivs-mut.cpp` unites
`ag(a.back(i))` with `bg(b.match(i))` and returns {0}; `alt_expr::back_set` of
`derivs.hpp` unites `ag(a->back())` with `bg(b->back())` and returns {0, 1}.
In general, when no backtrack set is stored, `alt_node::back` returns
`ag(a.back(i)) | bg(b.match(i))`. -/
theorem C39_alt_node_back_reads_match :
    alt_node_back no_ops node_cache.fresh (char_node 97) (not_node (char_node 98))
        (gen_map.of_values [0]) (gen_map.of_values [0, 1]) 0 =
      some ([0], { flags_match := false, flags_back := true, match_ := [], back := [0] }) ∧
    (not_node (char_node 98)).back no_ops 0 = some [1] ∧
    (not_node (char_node 98)).match_ no_ops 0 = some [] ∧
    ((char_node 97).back no_ops 0).bind (gen_map.of_values [0]).image = some [0] ∧
    (((not_node (char_node 98)).back no_ops 0).bind (gen_map.of_values [0, 1]).image) =
      some [1] ∧
    derivs.back derivs.no_rules
      (derivs.expr.alt_expr (derivs.expr.char_expr 97)
        (derivs.expr.not_expr (derivs.expr.char_expr 98)) [0] [0, 1]) = some [0, 1] ∧
    derivs.alt_expr_make derivs.no_rules (derivs.expr.char_expr 97)
        (derivs.expr.not_expr (derivs.expr.char_expr 98)) =
      some (derivs.expr.alt_expr (derivs.expr.char_expr 97)
        (derivs.expr.not_expr (derivs.expr.char_expr 98)) [0] [0, 1]) ∧
    (∀ (ops : node_ops) (cache : node_cache) (a b : node) (ag bg : gen_map) (i : Nat),
      cache.flags_back = false →
      alt_node_back ops cache a b ag bg i =
        ((a.back ops i).bind ag.image).bind (fun x =>
          ((b.match_ ops i).bind bg.image).map (fun y =>
            (uint_set.union x y, cache.set_back (uint_set.union x y))))) :=
  ⟨rfl, rfl, rfl, rfl, rfl, rfl, rfl, alt_node_back_eq⟩

theorem seq_node_back_first (ops : node_ops) (cache : node_cache) (a : node) (bs : look_list)
    (c : node) (cg : gen_map) (i : Nat) (p : gen_set × node_cache)
    (hf : cache.flags_back = false)
    (h : seq_node_back ops cache a bs c cg i = some p) :
    ∃ ab abmin cb y x, a.back ops i = some ab ∧ ab.min = some abmin ∧
      c.back ops i = some cb ∧ cg.image cb = some y ∧
      seq_node_back_bs ops i bs (uint_set.union (if abmin = 0 then [0] else []) y) = some x ∧
      p = (cache.match_, cache.set_back x) := by
  simp only [seq_node_back, hf, Bool.false_eq_true, if_false, Option.bind_eq_bind,
    Option.bind_eq_some, Option.pure_def, Option.some.injEq] at h
  obtain ⟨ab, hab, abmin, hmin, cb, hcb, y, hy, x, hx, hp⟩ := h
  exact ⟨ab, abmin, cb, y, x, hab, hmin, hcb, hy, hx, hp.symm⟩

theorem seq_node_back_stored (ops : node_ops) (cache : node_cache) (a : node) (bs : look_list)
    (c : node) (cg : gen_map) (i : Nat) (hf : cache.flags_back = true) :
    seq_node_back ops cache a bs c cg i = some (cache.back, cache) := by
  simp only [seq_node_back, hf, if_true, Option.pure_def]

/-- C40 (failing input): the node SEQ(CHAR a, CHAR b, [], FAIL, {0}, 0) that
`seq_node::make` builds for `"a" "b"`, with nothing stored in its cache.  The
first call of `back` computes the set {0}, stores it, and returns the member
`cache.match`, the empty set; the second call returns the stored set {0}.  In
general the first call returns what `cache.match` holds, whatever the set it
computes and stores, and the second call returns the stored set. -/
theorem C40_seq_node_back_returns_match_cache :
    seq_node_back no_ops node_cache.fresh (char_node 97) look_list.nil fail_node
        (gen_map.of_values [0]) 0 =
      some ([], { flags_match := false, flags_back := true, match_ := [], back := [0] }) ∧
    seq_node_back no_ops
        { flags_match := false, flags_back := true, match_ := [], back := [0] }
        (char_node 97) look_list.nil fail_node (gen_map.of_values [0]) 0 =
      some ([0], { flags_match := false, flags_back := true, match_ := [], back := [0] }) ∧
    (∀ (ops : node_ops) (cache : node_cache) (a : node) (bs : look_list) (c : node)
      (cg : gen_map) (i : Nat) (p : gen_set × node_cache), cache.flags_back = false →
      seq_node_back ops cache a bs c cg i = some p →
      p.1 = cache.match_ ∧ p.2.flags_back = true ∧ p.2.match_ = cache.match_ ∧
      seq_node_back ops p.2 a bs c cg i = some (p.2.back, p.2) ∧
      ∃ ab abmin cb y, a.back ops i = some ab ∧ ab.min = some abmin ∧
        c.back ops i = some cb ∧ cg.image cb = some y ∧
        seq_node_back_bs ops i bs (uint_set.union (if abmin = 0 then [0] else []) y) =
          some p.2.back) := by
  refine ⟨rfl, rfl, ?_⟩
  intro ops cache a bs c cg i p hf h
  obtain ⟨ab, abmin, cb, y, x, hab, hmin, hcb, hy, hx, hp⟩ :=
    seq_node_back_first ops cache a bs c cg i p hf h
  subst hp
  exact ⟨rfl, rfl, rfl, seq_node_back_stored ops _ a bs c cg i rfl,
    ab, abmin, cb, y, hab, hmin, hcb, hy, hx⟩

end derivs_mut

